import Mathlib

/-!
# Drain log-template miner (`pkg/drain3`): shallow embedding

The definitions below transcribe `drain.go` and `log_cluster.go`.

Modelling conventions.

* Go `int`/`int64` values are `Int`; token counts and lengths are `Nat`.
  The counters `ClustersCounter` and `Size` are only ever incremented by one,
  so the embedding is exact below `2^63` increments.
* `float64` similarities are exact rationals (`ℚ`) inside the engine: a
  similarity is the quotient of two small integers and is only ever compared
  with other such quotients of the same denominator or with the threshold.
  The value `getSeqDistance` returns, the `float64` quotient, is
  `Drain.getSeqDistanceFloat64`, with `roundFloat64` for the rounding of
  IEEE 754 binary64 (round to nearest, ties to even).
* A Go `map[string]*Node` is an association list in insertion order; a lookup
  takes the first entry with the key, an assignment replaces it or appends.
  Go iterates a map in an unspecified order; wherever the source ranges over a
  map the model ranges in list order.
* Pointers: every `*Node` is owned by exactly one parent map and every
  `*LogCluster` by exactly one cache entry, stored under its own `ClusterId`
  (all `Add` calls in the source are `Add(cluster.ClusterId, cluster)`), so a
  write through a pointer is a functional update of that entry.
* A Go run-time panic (nil dereference, index out of range) is the result
  `Result.panic`; a returned `error` is `Result.error` and carries the engine
  state at the return.
* The JSON codec of the standard library (`json.Marshal`, `json.Unmarshal`) is
  modelled on JSON documents (`Json`): the encoder makes a document of the
  `SerializableDrain` value and the decoder reads a document member by member.
  The text of a document (bytes, escapes, number spellings) is not modelled.
-/

namespace Drain3

/-! ## Data model -/

/-- The `ClusterUpdateType` enumeration. -/
inductive ClusterUpdateType where
  | None
  | Created
  | TemplateChanged
deriving DecidableEq, Repr

/-- The `SearchStrategy` enumeration. -/
inductive SearchStrategy where
  | Never
  | Fallback
  | Always
deriving DecidableEq, Repr

/-- The errors the package returns, named by their origin. -/
inductive Error where
  /-- `NewDrain`: "depth argument must be at least 3". -/
  | depth
  /-- `NewDrain`: "failed to create lru-cache" (the cache refused its size). -/
  | lruCache
  /-- `getSeqDistance`: the two sequences differ in length. -/
  | seqDistanceLength (len1 len2 : Nat)
  /-- `createTemplate`: the two sequences differ in length. -/
  | createTemplateLength (len1 len2 : Nat)
deriving DecidableEq, Repr

/-- Outcome of a method of the engine: a normal return with the engine state
after the call, an error return (also with the state), or a run-time panic. -/
inductive Result (σ α : Type) where
  | ok (state : σ) (value : α)
  | error (state : σ) (e : Error)
  | panic
deriving DecidableEq, Repr

/-- The `LogCluster` record of `log_cluster.go`. -/
structure LogCluster where
  ClusterId : Int
  LogTemplateTokens : List String
  Size : Int
deriving DecidableEq, Repr

/-- `NewLogCluster`. -/
def NewLogCluster (clusterId : Int) (logTemplateTokens : List String) : LogCluster :=
  { ClusterId := clusterId, LogTemplateTokens := logTemplateTokens, Size := 1 }

/-- The `Node` of the prefix tree: its child map and its cluster-id list. -/
inductive Node where
  | mk (KeyToChildNode : List (String × Node)) (ClusterIds : List Int) : Node

namespace Node

/-- Field `KeyToChildNode`. -/
def KeyToChildNode : Node → List (String × Node)
  | mk children _ => children

/-- Field `ClusterIds`. -/
def ClusterIds : Node → List Int
  | mk _ ids => ids

end Node

/-- `NewNode`: no children, no cluster ids. -/
def NewNode : Node := Node.mk [] []

/-- Map assignment `m[key] = child` on an association list. -/
def assignChild : List (String × Node) → String → Node → List (String × Node)
  | [], key, child => [(key, child)]
  | (k, n) :: rest, key, child =>
    if k = key then (key, child) :: rest else (k, n) :: assignChild rest key child

/-! ## The cluster registry (LRU cache) -/

/-- Modelled from the spec: the registry is the third-party cache
`lru.Cache[int64, *LogCluster]` (hashicorp/golang-lru), which is not under
`src/`. It is the spec's "bounded associative store of capacity `max_clusters`
from `cluster_id` to cluster record with LRU eviction": `size` is the capacity,
`items` the live records, most recently used first. -/
structure Cache where
  size : Int
  items : List LogCluster
deriving DecidableEq, Repr

namespace Cache

/-- Modelled from the spec: `lru.New(size)`; a capacity `≤ 0` is refused
(the spec's `ConfigError` for `max_clusters ≤ 0`). -/
def New (size : Int) : Option Cache :=
  if size ≤ 0 then none else some { size := size, items := [] }

/-- Modelled from the spec: `Peek(key)`: the record stored under `key`, without
any effect on recency. -/
def Peek (c : Cache) (key : Int) : Option LogCluster :=
  c.items.find? (fun v => v.ClusterId == key)

/-- Modelled from the spec: `Get(key)`: the record stored under `key`, which
becomes the most recently used one ("use is any read or write that targets a
particular identifier"). -/
def Get (c : Cache) (key : Int) : Cache × Option LogCluster :=
  match c.Peek key with
  | some v => ({ c with items := v :: c.items.eraseP (fun w => w.ClusterId == key) }, some v)
  | none => (c, none)

/-- Modelled from the spec: `Add(value.ClusterId, value)`: an existing key gets
the new value and becomes most recently used; a new key is inserted as most
recently used and, if the capacity is then exceeded, the least recently used
record is evicted. -/
def Add (c : Cache) (value : LogCluster) : Cache :=
  match c.Peek value.ClusterId with
  | some _ =>
    { c with items := value :: c.items.eraseP (fun w => w.ClusterId == value.ClusterId) }
  | none =>
    if ((value :: c.items).length : Int) > c.size then
      { c with items := (value :: c.items).dropLast }
    else
      { c with items := value :: c.items }

/-- Modelled from the spec: `Values()`: the live records, oldest first. -/
def Values (c : Cache) : List LogCluster :=
  c.items.reverse

/-- A write through the pointer `*LogCluster` held by the cache: the record
stored under `value.ClusterId` becomes `value`; recency is untouched. -/
def store (c : Cache) (value : LogCluster) : Cache :=
  { c with items := c.items.map (fun w => if w.ClusterId == value.ClusterId then value else w) }

end Cache

/-! ## The engine -/

/-- The `Drain` struct. -/
structure Drain where
  LogClusterDepth : Int
  MaxNodeDepth : Int
  SimTh : ℚ
  MaxChildren : Int
  RootNode : Node
  MaxClusters : Int
  ExtraDelimiters : List String
  ParamStr : String
  ParametrizeNumericTokens : Bool
  IdToCluster : Cache
  ClustersCounter : Int

/-- The option functions `WithDepth`, `WithSimTh`, `WithMaxChildren`,
`WithMaxCluster`, `WithExtraDelimiter`. -/
inductive optionFn where
  | WithDepth (depth : Int)
  | WithSimTh (simTh : ℚ)
  | WithMaxChildren (maxChildren : Int)
  | WithMaxCluster (maxClusters : Int)
  | WithExtraDelimiter (extraDelimiter : List String)

/-- Running an option function on the engine under construction. -/
def optionFn.apply : optionFn → Drain → Drain
  | WithDepth depth, drain => { drain with LogClusterDepth := depth }
  | WithSimTh simTh, drain => { drain with SimTh := simTh }
  | WithMaxChildren maxChildren, drain => { drain with MaxChildren := maxChildren }
  | WithMaxCluster maxClusters, drain => { drain with MaxClusters := maxClusters }
  | WithExtraDelimiter extraDelimiter, drain => { drain with ExtraDelimiters := extraDelimiter }

/-- The struct literal at the head of `NewDrain`; `MaxNodeDepth` has its zero
value and `IdToCluster` is not yet created (an empty cache of capacity 0 stands
for the nil pointer, it is replaced before `NewDrain` returns). -/
def defaultDrain : Drain :=
  { LogClusterDepth := 4
    MaxNodeDepth := 0
    SimTh := 2 / 5
    MaxChildren := 100
    RootNode := NewNode
    MaxClusters := 1000
    ExtraDelimiters := []
    ParamStr := "<*>"
    ParametrizeNumericTokens := true
    IdToCluster := { size := 0, items := [] }
    ClustersCounter := 0 }

/-- `NewDrain`. -/
def NewDrain (options : List optionFn) : Except Error Drain :=
  let drain := options.foldl (fun drain option => option.apply drain) defaultDrain
  if drain.LogClusterDepth < 3 then
    .error Error.depth
  else
    let drain := { drain with MaxNodeDepth := drain.LogClusterDepth - 2 }
    match Cache.New drain.MaxClusters with
    | none => .error Error.lruCache
    | some l => .ok { drain with IdToCluster := l }

/-! ## Tokenisation -/

/-- Modelled from the spec: `unicode.IsSpace` of the Go standard library (not
under `src/`), the white space that `strings.TrimSpace` strips: the characters
with the Unicode White_Space property. -/
def isSpace (c : Char) : Bool :=
  let n := c.toNat
  (9 ≤ n && n ≤ 13) || n == 32 || n == 0x85 || n == 0xA0 || n == 0x1680 ||
    (0x2000 ≤ n && n ≤ 0x200A) || n == 0x2028 || n == 0x2029 || n == 0x202F ||
    n == 0x205F || n == 0x3000

/-- `strings.TrimSpace`: leading and trailing white space removed. -/
def TrimSpace (s : List Char) : List Char :=
  ((s.dropWhile isSpace).reverse.dropWhile isSpace).reverse

/-- Scan of `strings.ReplaceAll` for a non-empty `old`: `skip` characters of a
match are still to be dropped; at a position where `old` starts, `new` is
emitted and the match is skipped (matches do not overlap). -/
def replaceScan (old new : List Char) : Nat → List Char → List Char
  | _, [] => []
  | skip + 1, _ :: cs => replaceScan old new skip cs
  | 0, c :: cs =>
    if old.isPrefixOf (c :: cs) then new ++ replaceScan old new (old.length - 1) cs
    else c :: replaceScan old new 0 cs

/-- `strings.ReplaceAll(s, old, new)`; an empty `old` matches before every
character and at the end. -/
def ReplaceAll (s old new : List Char) : List Char :=
  match old with
  | [] => new ++ s.flatMap (fun c => c :: new)
  | _ :: _ => replaceScan old new 0 s

/-- `strings.Split(s, " ")`: the pieces between single spaces; never empty. -/
def Split : List Char → List (List Char)
  | [] => [[]]
  | c :: cs =>
    if c = ' ' then [] :: Split cs
    else
      match Split cs with
      | [] => [[c]]
      | piece :: pieces => (c :: piece) :: pieces

/-- `Drain.getContentAsTokens`. -/
def Drain.getContentAsTokens (d : Drain) (content : String) : List String :=
  let content := TrimSpace content.data
  let content := d.ExtraDelimiters.foldl
    (fun content delimiter => ReplaceAll content delimiter.data [' ']) content
  (Split content).map String.mk

/-- The range table `unicode.Nd` (decimal digits above Latin-1) of the Go standard library,
Unicode 15.0.0: pairs of first and last code point, each range holding one digit set or
more. -/
def digitRanges : List (Nat × Nat) :=
  [(0x0660, 0x0669), (0x06f0, 0x06f9), (0x07c0, 0x07c9), (0x0966, 0x096f), (0x09e6, 0x09ef),
   (0x0a66, 0x0a6f), (0x0ae6, 0x0aef), (0x0b66, 0x0b6f), (0x0be6, 0x0bef), (0x0c66, 0x0c6f),
   (0x0ce6, 0x0cef), (0x0d66, 0x0d6f), (0x0de6, 0x0def), (0x0e50, 0x0e59), (0x0ed0, 0x0ed9),
   (0x0f20, 0x0f29), (0x1040, 0x1049), (0x1090, 0x1099), (0x17e0, 0x17e9), (0x1810, 0x1819),
   (0x1946, 0x194f), (0x19d0, 0x19d9), (0x1a80, 0x1a89), (0x1a90, 0x1a99), (0x1b50, 0x1b59),
   (0x1bb0, 0x1bb9), (0x1c40, 0x1c49), (0x1c50, 0x1c59), (0xa620, 0xa629), (0xa8d0, 0xa8d9),
   (0xa900, 0xa909), (0xa9d0, 0xa9d9), (0xa9f0, 0xa9f9), (0xaa50, 0xaa59), (0xabf0, 0xabf9),
   (0xff10, 0xff19), (0x104a0, 0x104a9), (0x10d30, 0x10d39), (0x11066, 0x1106f),
   (0x110f0, 0x110f9), (0x11136, 0x1113f), (0x111d0, 0x111d9), (0x112f0, 0x112f9),
   (0x11450, 0x11459), (0x114d0, 0x114d9), (0x11650, 0x11659), (0x116c0, 0x116c9),
   (0x11730, 0x11739), (0x118e0, 0x118e9), (0x11950, 0x11959), (0x11c50, 0x11c59),
   (0x11d50, 0x11d59), (0x11da0, 0x11da9), (0x11f50, 0x11f59), (0x16a60, 0x16a69),
   (0x16ac0, 0x16ac9), (0x16b50, 0x16b59), (0x1d7ce, 0x1d7ff), (0x1e140, 0x1e149),
   (0x1e2f0, 0x1e2f9), (0x1e4f0, 0x1e4f9), (0x1e950, 0x1e959), (0x1fbf0, 0x1fbf9)]

/-- The function `unicode.IsDigit` of the Go standard library (not under `src/`): below
`MaxLatin1` the ASCII digits `0`..`9`, above it a look-up in the table of decimal digits. -/
def IsDigit (c : Char) : Bool :=
  if c.toNat ≤ 255 then
    48 ≤ c.toNat && c.toNat ≤ 57
  else
    digitRanges.any (fun r => r.1 ≤ c.toNat && c.toNat ≤ r.2)

/-- `hasNumbers`. -/
def hasNumbers (s : String) : Bool :=
  s.data.any IsDigit

/-! ## Similarity and template merging -/

/-- The loop of `getSeqDistance` over the positions of the two sequences:
counts the wildcard positions of `seq1` into `paramCount` and the other
positions where the two tokens agree into `simTokens`. -/
def seqDistanceLoop (d : Drain) : List String → List String → Int → Int → Int × Int
  | token1 :: seq1, token2 :: seq2, simTokens, paramCount =>
    if token1 = d.ParamStr then
      seqDistanceLoop d seq1 seq2 simTokens (paramCount + 1)
    else if token1 = token2 then
      seqDistanceLoop d seq1 seq2 (simTokens + 1) paramCount
    else
      seqDistanceLoop d seq1 seq2 simTokens paramCount
  | _, _, simTokens, paramCount => (simTokens, paramCount)

/-- `Drain.getSeqDistance`: `seq1` is a template, `seq2` the log to match. The similarity is
the exact quotient, which the engine compares; the `float64` quotient that the source returns
is its rounding, in `Drain.getSeqDistanceFloat64`. -/
def Drain.getSeqDistance (d : Drain) (seq1 seq2 : List String) (includeParams : Bool) :
    Except Error (ℚ × Int) :=
  if seq1.length ≠ seq2.length then
    .error (Error.seqDistanceLength seq1.length seq2.length)
  else if seq1.length = 0 then
    .ok (1, 0)
  else
    let (simTokens, paramCount) := seqDistanceLoop d seq1 seq2 0 0
    let simTokens := if includeParams then simTokens + paramCount else simTokens
    .ok ((simTokens : ℚ) / (seq1.length : ℚ), paramCount)

/-- Rounding of a rational to the nearest integer, a tie going to the even one. -/
def roundHalfEven (q : ℚ) : Int :=
  let f := ⌊q⌋
  if q - f < 1 / 2 then f
  else if 1 / 2 < q - f then f + 1
  else if f % 2 = 0 then f
  else f + 1

/-- The binary exponent of a non-zero rational `q`: the `e` with `2^e ≤ |q| < 2^(e+1)`. -/
def binaryExponent (q : ℚ) : Int :=
  let e := (q.num.natAbs.log2 : Int) - (q.den.log2 : Int)
  if (2 : ℚ) ^ e ≤ |q| then e else e - 1

/-- The `float64` nearest to the rational `q` (IEEE 754 binary64, round to nearest, ties to
even), as a rational: the value `m * 2^(e - 52)` with a 53-bit significand `m`. This is the
rounding in the normal range `2^-1022 ≤ |q| < 2^1024`; the quotients of `getSeqDistance` lie
between `2^-63` and 1. -/
def roundFloat64 (q : ℚ) : ℚ :=
  if q = 0 then 0
  else
    let e := binaryExponent q
    let m := roundHalfEven (|q| * (2 : ℚ) ^ (52 - e))
    (if q < 0 then -1 else 1) * (m : ℚ) * (2 : ℚ) ^ (e - 52)

/-- `Drain.getSeqDistance` with the `float64` arithmetic of its last statement spelled out:
`float64(simTokens) / float64(len(seq1))` converts both integers to the nearest `float64` and
rounds their quotient to the nearest `float64`. -/
def Drain.getSeqDistanceFloat64 (d : Drain) (seq1 seq2 : List String) (includeParams : Bool) :
    Except Error (ℚ × Int) :=
  if seq1.length ≠ seq2.length then
    .error (Error.seqDistanceLength seq1.length seq2.length)
  else if seq1.length = 0 then
    .ok (1, 0)
  else
    let (simTokens, paramCount) := seqDistanceLoop d seq1 seq2 0 0
    let simTokens := if includeParams then simTokens + paramCount else simTokens
    .ok (roundFloat64 (roundFloat64 (simTokens : ℚ) / roundFloat64 (seq1.length : ℚ)),
      paramCount)

/-- The loop of `createTemplate` on the copy of `seq2`: a position where the
two sequences differ gets the wildcard marker. -/
def createTemplateLoop (d : Drain) : List String → List String → List String
  | token1 :: seq1, token2 :: seq2 =>
    (if token1 ≠ token2 then d.ParamStr else token2) :: createTemplateLoop d seq1 seq2
  | _, seq2 => seq2

/-- `Drain.createTemplate`. -/
def Drain.createTemplate (d : Drain) (seq1 seq2 : List String) : Except Error (List String) :=
  if seq1.length ≠ seq2.length then
    .error (Error.createTemplateLength seq1.length seq2.length)
  else
    .ok (createTemplateLoop d seq1 seq2)

/-- Modelled from the spec: `util.IsSliceEqual` (package `util` of this
repository, not under `src/`): whether the merged template is "identical to the
prior template". -/
def IsSliceEqual (a b : List String) : Bool :=
  a == b

/-! ## Candidate scoring and tree search -/

/-- The loop of `fastMatch` over the candidate ids. Every candidate is fetched
with `IdToCluster.Get`; ids that do not resolve are skipped; a length mismatch
ends the loop with the error. Yields `maxSim` and `maxCluster`. -/
def fastMatchLoop (d : Drain) (tokens : List String) (includeParams : Bool) :
    List Int → Cache → ℚ → Int → Option LogCluster → Result Cache (ℚ × Option LogCluster)
  | [], cache, maxSim, _, maxCluster => .ok cache (maxSim, maxCluster)
  | clusterId :: clusterIds, cache, maxSim, maxParamCount, maxCluster =>
    match cache.Get clusterId with
    | (cache, none) => fastMatchLoop d tokens includeParams clusterIds cache maxSim maxParamCount maxCluster
    | (cache, some cluster) =>
      match d.getSeqDistance cluster.LogTemplateTokens tokens includeParams with
      | .error e => .error cache e
      | .ok (currentSim, paramCount) =>
        if currentSim > maxSim ∨ (currentSim = maxSim ∧ paramCount > maxParamCount) then
          fastMatchLoop d tokens includeParams clusterIds cache currentSim paramCount (some cluster)
        else
          fastMatchLoop d tokens includeParams clusterIds cache maxSim maxParamCount maxCluster

/-- `Drain.fastMatch`. -/
def Drain.fastMatch (d : Drain) (clusterIds : List Int) (tokens : List String) (simTh : ℚ)
    (includeParams : Bool) : Result Drain (Option LogCluster) :=
  match fastMatchLoop d tokens includeParams clusterIds d.IdToCluster (-1) (-1) none with
  | .panic => .panic
  | .error cache e => .error { d with IdToCluster := cache } e
  | .ok cache (maxSim, maxCluster) =>
    .ok { d with IdToCluster := cache } (if maxSim ≥ simTh then maxCluster else none)

/-- The descent loop of `treeSearch` from the bucket node. `none` is the nil
dereference of line 193: when the lookup of line 191 misses, it has already
overwritten `currentNode` with nil, and line 193 reads
`currentNode.KeyToChildNode`. Otherwise the node the loop ends in. -/
def treeSearchLoop (d : Drain) (tokenCount : Nat) : List String → Int → Node → Option Node
  | [], _, currentNode => some currentNode
  | token :: tokens, currentNodeDepth, currentNode =>
    if currentNodeDepth ≥ d.MaxNodeDepth then
      some currentNode
    else if currentNodeDepth = (tokenCount : Int) then
      some currentNode
    else
      match currentNode.KeyToChildNode.lookup token with
      | some child => treeSearchLoop d tokenCount tokens (currentNodeDepth + 1) child
      | none => none

/-- `Drain.treeSearch`. -/
def Drain.treeSearch (d : Drain) (rootNode : Node) (tokens : List String) (simTh : ℚ)
    (includeParams : Bool) : Result Drain (Option LogCluster) :=
  let tokenCount := tokens.length
  match rootNode.KeyToChildNode.lookup (toString tokenCount) with
  | none => .ok d none
  | some currentNode =>
    if tokenCount = 0 then
      match currentNode.ClusterIds with
      | [] => .panic
      | clusterId :: _ =>
        let (cache, logCluster) := d.IdToCluster.Get clusterId
        .ok { d with IdToCluster := cache } logCluster
    else
      match treeSearchLoop d tokenCount tokens 1 currentNode with
      | none => .panic
      | some currentNode => d.fastMatch currentNode.ClusterIds tokens simTh includeParams

/-! ## Grafting a cluster into the prefix tree -/

/-- The clean-up loop of the leaf step of `addSeqToPrefixTree`: the ids that
still resolve in the cache (each one fetched with `Get`). -/
def cleanStale : List Int → Cache → Cache × List Int
  | [], cache => (cache, [])
  | clusterId :: clusterIds, cache =>
    match cache.Get clusterId with
    | (cache, some _) =>
      let (cache, newClusterIds) := cleanStale clusterIds cache
      (cache, clusterId :: newClusterIds)
    | (cache, none) => cleanStale clusterIds cache

/-- The choice of the next edge in `addSeqToPrefixTree` (lines 315-350) at a
node that is not a leaf: the key of the child the loop moves to, and that child
(an existing one, or a new node that is stored under the key). The child is
`none` for the nil pointer that the lookup of a missing wildcard child yields
(line 343). -/
def nextEdge (d : Drain) (currentNode : Node) (token : String) : String × Option Node :=
  match currentNode.KeyToChildNode.lookup token with
  | some child => (token, some child)
  | none =>
    if d.ParametrizeNumericTokens && hasNumbers token then
      match currentNode.KeyToChildNode.lookup d.ParamStr with
      | none => (d.ParamStr, some NewNode)
      | some node => (d.ParamStr, some node)
    else
      match currentNode.KeyToChildNode.lookup d.ParamStr with
      | some node =>
        if (currentNode.KeyToChildNode.length : Int) < d.MaxChildren then
          (token, some NewNode)
        else
          (d.ParamStr, some node)
      | none =>
        if ((currentNode.KeyToChildNode.length + 1 : Nat) : Int) < d.MaxChildren then
          (token, some NewNode)
        else if ((currentNode.KeyToChildNode.length + 1 : Nat) : Int) = d.MaxChildren then
          (d.ParamStr, some NewNode)
        else
          (d.ParamStr, none)

/-- The loop of `addSeqToPrefixTree` over the template tokens, as a function of
the current node (`none`: the nil pointer) that returns the cache after the
clean-up and the current node after the in-place updates below it. The outer
`none` is the panic of dereferencing a nil current node. -/
def addSeqLoop (d : Drain) (cluster : LogCluster) (tokenCount : Nat) :
    List String → Int → Cache → Option Node → Option (Cache × Option Node)
  | [], _, cache, currentNode => some (cache, currentNode)
  | _ :: _, _, _, none => none
  | token :: tokens, currentDepth, cache, some currentNode =>
    if currentDepth ≥ d.MaxNodeDepth ∨ currentDepth ≥ (tokenCount : Int) then
      let (cache, newClusterIds) := cleanStale currentNode.ClusterIds cache
      some (cache, some (Node.mk currentNode.KeyToChildNode (newClusterIds ++ [cluster.ClusterId])))
    else
      match nextEdge d currentNode token with
      | (key, child) =>
        match addSeqLoop d cluster tokenCount tokens (currentDepth + 1) cache child with
        | none => none
        | some (cache, none) => some (cache, some currentNode)
        | some (cache, some child) =>
          some (cache, some (Node.mk (assignChild currentNode.KeyToChildNode key child)
            currentNode.ClusterIds))

/-- `Drain.addSeqToPrefixTree`, called on the engine's own root node: the
engine with the updated tree (and the cache as the clean-up left it), or `none`
for a panic. The bucket node is stored in the root's map before the loop runs
(lines 285-288), whatever the loop then does. -/
def Drain.addSeqToPrefixTree (d : Drain) (rootNode : Node) (cluster : LogCluster) :
    Option Drain :=
  let tokenCount := cluster.LogTemplateTokens.length
  let tokenCountStr := toString tokenCount
  let firstLayerNode :=
    match rootNode.KeyToChildNode.lookup tokenCountStr with
    | some node => node
    | none => NewNode
  if tokenCount = 0 then
    let firstLayerNode := Node.mk firstLayerNode.KeyToChildNode [cluster.ClusterId]
    some { d with
      RootNode := Node.mk (assignChild rootNode.KeyToChildNode tokenCountStr firstLayerNode)
        rootNode.ClusterIds }
  else
    match addSeqLoop d cluster tokenCount cluster.LogTemplateTokens 1 d.IdToCluster
        (some firstLayerNode) with
    | none => none
    | some (cache, none) =>
      some { d with
        IdToCluster := cache
        RootNode := Node.mk (assignChild rootNode.KeyToChildNode tokenCountStr firstLayerNode)
          rootNode.ClusterIds }
    | some (cache, some firstLayerNode) =>
      some { d with
        IdToCluster := cache
        RootNode := Node.mk (assignChild rootNode.KeyToChildNode tokenCountStr firstLayerNode)
          rootNode.ClusterIds }

/-! ## The public operations -/

/-- `Drain.AddLogMessage`. -/
def Drain.AddLogMessage (d : Drain) (content : String) :
    Result Drain (LogCluster × ClusterUpdateType) :=
  let contentTokens := d.getContentAsTokens content
  match d.treeSearch d.RootNode contentTokens d.SimTh false with
  | .panic => .panic
  | .error d e => .error d e
  | .ok d none =>
    let d := { d with ClustersCounter := d.ClustersCounter + 1 }
    let clusterId := d.ClustersCounter
    let matchCluster := NewLogCluster clusterId contentTokens
    let d := { d with IdToCluster := d.IdToCluster.Add matchCluster }
    match d.addSeqToPrefixTree d.RootNode matchCluster with
    | none => .panic
    | some d => .ok d (matchCluster, ClusterUpdateType.Created)
  | .ok d (some matchCluster) =>
    match d.createTemplate contentTokens matchCluster.LogTemplateTokens with
    | .error e => .error d e
    | .ok newTemplateTokens =>
      let updateType :=
        if IsSliceEqual newTemplateTokens matchCluster.LogTemplateTokens then
          ClusterUpdateType.None
        else ClusterUpdateType.TemplateChanged
      let matchCluster :=
        if IsSliceEqual newTemplateTokens matchCluster.LogTemplateTokens then matchCluster
        else { matchCluster with LogTemplateTokens := newTemplateTokens }
      let matchCluster := { matchCluster with Size := matchCluster.Size + 1 }
      let d := { d with IdToCluster := d.IdToCluster.store matchCluster }
      let d := { d with IdToCluster := (d.IdToCluster.Get matchCluster.ClusterId).1 }
      .ok d (matchCluster, updateType)

mutual
/-- The closure `appendClusterRecursive` of `getClustersIdsForSeqLen`: the ids
of the node, then those of every child subtree. -/
def appendClusterRecursive : Node → List Int
  | Node.mk children ids => ids ++ appendClusterChildren children
/-- The range over the child map inside `appendClusterRecursive`. -/
def appendClusterChildren : List (String × Node) → List Int
  | [] => []
  | (_, childNode) :: children => appendClusterRecursive childNode ++ appendClusterChildren children
end

/-- `Drain.getClustersIdsForSeqLen`. -/
def Drain.getClustersIdsForSeqLen (d : Drain) (seqLen : Nat) : List Int :=
  match d.RootNode.KeyToChildNode.lookup (toString seqLen) with
  | none => []
  | some currentNode => appendClusterRecursive currentNode

/-- The closure `fullSearch` of `Match`. -/
def Drain.fullSearch (d : Drain) (contentTokens : List String) (requiredSimTh : ℚ) :
    Result Drain (Option LogCluster) :=
  let allIds := d.getClustersIdsForSeqLen contentTokens.length
  d.fastMatch allIds contentTokens requiredSimTh true

/-- `Drain.Match`. -/
def Drain.Match (d : Drain) (content : String) (strategy : SearchStrategy) :
    Result Drain (Option LogCluster) :=
  let requiredSimTh : ℚ := 1
  let contentTokens := d.getContentAsTokens content
  if strategy = SearchStrategy.Always then
    d.fullSearch contentTokens requiredSimTh
  else
    match d.treeSearch d.RootNode contentTokens requiredSimTh true with
    | .panic => .panic
    | .error d e => .error d e
    | .ok d (some matchCluster) => .ok d (some matchCluster)
    | .ok d none =>
      if strategy = SearchStrategy.Never then .ok d none
      else d.fullSearch contentTokens requiredSimTh

/-- `Drain.GetClusters`. -/
def Drain.GetClusters (d : Drain) : List LogCluster :=
  d.IdToCluster.Values

/-! ## Decidable equality of trees and engine states, projections of results -/

mutual
/-- Decision procedure for equality of nodes. -/
def Node.decEq : (a b : Node) → Decidable (a = b)
  | .mk c1 i1, .mk c2 i2 =>
    match decEqChildren c1 c2 with
    | isTrue h1 =>
      if h2 : i1 = i2 then isTrue (by rw [h1, h2]) else isFalse (by intro h; cases h; exact h2 rfl)
    | isFalse h1 => isFalse (by intro h; cases h; exact h1 rfl)
/-- Decision procedure for equality of child maps. -/
def decEqChildren : (a b : List (String × Node)) → Decidable (a = b)
  | [], [] => isTrue rfl
  | [], _ :: _ => isFalse (by intro h; cases h)
  | _ :: _, [] => isFalse (by intro h; cases h)
  | (k1, n1) :: r1, (k2, n2) :: r2 =>
    if hk : k1 = k2 then
      match Node.decEq n1 n2 with
      | isTrue hn =>
        match decEqChildren r1 r2 with
        | isTrue hr => isTrue (by rw [hk, hn, hr])
        | isFalse hr => isFalse (by intro h; cases h; exact hr rfl)
      | isFalse hn => isFalse (by intro h; cases h; exact hn rfl)
    else isFalse (by intro h; cases h; exact hk rfl)
end

instance : DecidableEq Node := Node.decEq

deriving instance DecidableEq for Drain

/-- The engine state a call left behind, when it returned (normally or with an
error). -/
def Result.state? {σ α : Type} : Result σ α → Option σ
  | .ok s _ => some s
  | .error s _ => some s
  | .panic => none

/-- The value of a normal return. -/
def Result.value? {σ α : Type} : Result σ α → Option α
  | .ok _ v => some v
  | _ => none

/-- The state after a call that returned normally, `d` otherwise. -/
def Result.stateD {σ α : Type} (r : Result σ α) (d : σ) : σ :=
  match r with
  | .ok s _ => s
  | _ => d

/-! ## Specification vocabulary -/

/-- The registry `c'` holds the same records under the same ids as `c`, with
the same capacity; only the recency order may differ. -/
def Cache.SameRecords (c c' : Cache) : Prop :=
  c'.size = c.size ∧ c'.items.Perm c.items ∧ ∀ key, c'.Peek key = c.Peek key

/-- The engine `d'` is `d` up to the recency order of its registry. -/
def Drain.Touched (d d' : Drain) : Prop :=
  ∃ cache, d' = { d with IdToCluster := cache } ∧ d.IdToCluster.SameRecords cache

/-- The template `template` matches `tokens` perfectly: same token count, and
every position is the wildcard marker or equals the token of the message. -/
def PerfectMatch (paramStr : String) (template tokens : List String) : Prop :=
  List.Forall₂ (fun t s => t = paramStr ∨ t = s) template tokens

/-- The position-wise merge of a template with a message: a position keeps the
template's token if it equals the message token, and holds the wildcard marker
otherwise. -/
def mergeTemplate (paramStr : String) (template tokens : List String) : List String :=
  List.zipWith (fun t s => if t = s then t else paramStr) template tokens

/-- Number of positions where the template holds a concrete token equal to the message token. -/
def hitCount (paramStr : String) : List String → List String → Nat
  | t :: ts, s :: ss => (if t ≠ paramStr ∧ t = s then 1 else 0) + hitCount paramStr ts ss
  | _, _ => 0

/-- Number of positions (paired with a message position) where the template holds the
wildcard marker. -/
def wildcardCount (paramStr : String) : List String → List String → Nat
  | t :: ts, _ :: ss => (if t = paramStr then 1 else 0) + wildcardCount paramStr ts ss
  | _, _ => 0

/-- The engine `NewDrain()` returns with no options. -/
def freshDrain : Drain :=
  match NewDrain [] with
  | .ok d => d
  | .error _ => defaultDrain

/-- The state after adding "hello world 1" to the fresh default engine. -/
def helloDrain1 : Drain := (freshDrain.AddLogMessage "hello world 1").stateD freshDrain

/-- The state after then adding "hello world 2". -/
def helloDrain2 : Drain := (helloDrain1.AddLogMessage "hello world 2").stateD freshDrain

/-- The state after then adding "hello world foo". -/
def helloDrain3 : Drain := (helloDrain2.AddLogMessage "hello world foo").stateD freshDrain

/-- The configuration after the option functions have run, in order, on the
struct literal of `NewDrain` (the `for _, option := range options` loop). -/
def configured (options : List optionFn) : Drain :=
  options.foldl (fun drain option => option.apply drain) defaultDrain

/-- Whether the option function is a `WithDepth`. -/
def optionFn.isWithDepth : optionFn → Bool
  | WithDepth _ => true
  | _ => false

/-- Whether the option function is a `WithSimTh`. -/
def optionFn.isWithSimTh : optionFn → Bool
  | WithSimTh _ => true
  | _ => false

/-- Whether the option function is a `WithMaxChildren`. -/
def optionFn.isWithMaxChildren : optionFn → Bool
  | WithMaxChildren _ => true
  | _ => false

/-- Whether the option function is a `WithMaxCluster`. -/
def optionFn.isWithMaxCluster : optionFn → Bool
  | WithMaxCluster _ => true
  | _ => false

/-- Whether the option function is a `WithExtraDelimiter`. -/
def optionFn.isWithExtraDelimiter : optionFn → Bool
  | WithExtraDelimiter _ => true
  | _ => false

/-- The state after adding "hello world 1" and then "x y" to the fresh default engine: two
clusters, the one of "x y" most recently used. -/
def twoDrain : Drain := (helloDrain1.AddLogMessage "x y").stateD freshDrain

/-- The state `Match "hello world 1" Never` leaves behind on `twoDrain`. -/
def twoDrainMatched : Drain :=
  (twoDrain.Match "hello world 1" SearchStrategy.Never).stateD freshDrain

/-- The state after adding "a b c d 1" and "a b c d 2" to the fresh default engine: one
cluster with template `a b c d <*>`. -/
def abcDrain : Drain :=
  ((freshDrain.AddLogMessage "a b c d 1").stateD freshDrain |>.AddLogMessage "a b c d 2").stateD
    freshDrain

/-- The state after then adding "a b c x 3". -/
def abcDrainNext : Drain := (abcDrain.AddLogMessage "a b c x 3").stateD freshDrain

/-- The state after adding "100 req ok" to the fresh default engine: the bucket of three
tokens has the wildcard child only. -/
def reqDrain : Drain := (freshDrain.AddLogMessage "100 req ok").stateD freshDrain

/-- Value of a decimal digit string read left to right, starting from `acc`. -/
def digitsValue (acc : Nat) (cs : List Char) : Nat :=
  cs.foldl (fun a c => 10 * a + (c.toNat - 48)) acc

/-- The engine states reachable from a freshly constructed engine through calls of
`AddLogMessage` that returned (normally or with an error). -/
inductive Reachable : Drain → Prop
  | fresh (options : List optionFn) (d : Drain) : NewDrain options = .ok d → Reachable d
  | add (d : Drain) (m : String) (d' : Drain) (r : LogCluster × ClusterUpdateType) :
      Reachable d → d.AddLogMessage m = .ok d' r → Reachable d'
  | addError (d : Drain) (m : String) (d' : Drain) (e : Error) :
      Reachable d → d.AddLogMessage m = .error d' e → Reachable d'

/-- A sequence of `AddLogMessage` calls that all return normally: the final state and what
each call returned; `none` as soon as a call fails. -/
def runAdd (d : Drain) : List String → Option (Drain × List (LogCluster × ClusterUpdateType))
  | [] => some (d, [])
  | m :: ms =>
    match d.AddLogMessage m with
    | .ok d' r =>
      match runAdd d' ms with
      | some (final, out) => some (final, r :: out)
      | none => none
    | _ => none

/-- The ids of the clusters reported as `Created`, in call order. -/
def createdIds (out : List (LogCluster × ClusterUpdateType)) : List Int :=
  (out.filter (fun r => r.2 = ClusterUpdateType.Created)).map (fun r => r.1.ClusterId)

/-- Consistency of the registry with the counter and the prefix tree. -/
structure Consistent (d : Drain) : Prop where
  size_pos : 1 ≤ d.IdToCluster.size
  size_eq : d.IdToCluster.size = d.MaxClusters
  length_le : (d.IdToCluster.items.length : Int) ≤ d.IdToCluster.size
  registry_le : ∀ c, c ∈ d.IdToCluster.items → c.ClusterId ≤ d.ClustersCounter
  tree_le : ∀ kn, kn ∈ d.RootNode.KeyToChildNode → ∀ id, id ∈ appendClusterRecursive kn.2 →
    id ≤ d.ClustersCounter
  bucket_length : ∀ kn, kn ∈ d.RootNode.KeyToChildNode →
    ∀ id, id ∈ appendClusterRecursive kn.2 → ∀ c, d.IdToCluster.Peek id = some c →
      toString c.LogTemplateTokens.length = kn.1
  grafted : ∀ key c, d.IdToCluster.Peek key = some c →
    ∃ bucket, d.RootNode.KeyToChildNode.lookup (toString c.LogTemplateTokens.length) =
      some bucket ∧ key ∈ appendClusterRecursive bucket

/-- Every node of the subtree that has no wildcard child has room for one: its child count
plus one is at most `maxChildren`. -/
inductive WildcardReady (maxChildren : Int) (paramStr : String) : Node → Prop
  | mk (children : List (String × Node)) (ids : List Int) :
      (children.lookup paramStr = none → (children.length : Int) + 1 ≤ maxChildren) →
      (∀ kn, kn ∈ children → WildcardReady maxChildren paramStr kn.2) →
      WildcardReady maxChildren paramStr (Node.mk children ids)

/-- Every bucket of the engine's tree is `WildcardReady`. -/
def TreeReady (d : Drain) : Prop :=
  ∀ kn, kn ∈ d.RootNode.KeyToChildNode → WildcardReady d.MaxChildren d.ParamStr kn.2

/-- The 24 log lines of `TestDrain`. -/
def kafkaLogs : List String :=
  ["[ProducerStateManager partition=__consumer_offsets-48] Writing producer snapshot at offset 4339939698 (kafka.log.ProducerStateManager)",
   "[Log partition=__consumer_offsets-48, dir=/home1/irteam/apps/data/kafka/kafka-logs] Rolled new log segment at offset 4339939698 in 3 ms. (kafka.log.Log)",
   "[Log partition=__consumer_offsets-48, dir=/home1/irteam/apps/data/kafka/kafka-logs] Deleting segment files LogSegment(baseOffset=0, size=0, lastModifiedTime=1645674584000, largestRecordTimestamp=None) (kafka.log.Log)",
   "Deleted log /home1/irteam/apps/data/kafka/kafka-logs/__consumer_offsets-48/00000000000000000000.log.deleted. (kafka.log.LogSegment)",
   "Deleted offset index /home1/irteam/apps/data/kafka/kafka-logs/__consumer_offsets-48/00000000000000000000.index.deleted. (kafka.log.LogSegment)",
   "Deleted time index /home1/irteam/apps/data/kafka/kafka-logs/__consumer_offsets-48/00000000000000000000.timeindex.deleted. (kafka.log.LogSegment)",
   "[Log partition=__consumer_offsets-48, dir=/home1/irteam/apps/data/kafka/kafka-logs] Deleting segment files LogSegment(baseOffset=2147429227, size=0, lastModifiedTime=1710735195000, largestRecordTimestamp=None) (kafka.log.Log)",
   "Deleted log /home1/irteam/apps/data/kafka/kafka-logs/__consumer_offsets-48/00000000002147429227.log.deleted. (kafka.log.LogSegment)",
   "Deleted offset index /home1/irteam/apps/data/kafka/kafka-logs/__consumer_offsets-48/00000000002147429227.index.deleted. (kafka.log.LogSegment)",
   "Deleted time index /home1/irteam/apps/data/kafka/kafka-logs/__consumer_offsets-48/00000000002147429227.timeindex.deleted. (kafka.log.LogSegment)",
   "[ProducerStateManager partition=__consumer_offsets-49] Writing producer snapshot at offset 4339698 (kafka.log.ProducerStateManager)",
   "[Log partition=__consumer_offsets-48, dir=/home1/irteam/apps/data/kafka/kafka-logs] Deleting segment files LogSegment(baseOffset=4294790577, size=2703, lastModifiedTime=1711832815000, largestRecordTimestamp=Some(1710827112244)) (kafka.log.Log)",
   "[Log partition=__consumer_offsets-48, dir=/home1/irteam/apps/data/kafka/kafka-logs] Deleting segment files LogSegment(baseOffset=4338631022, size=641, lastModifiedTime=1711849197000, largestRecordTimestamp=Some(1711849197921)) (kafka.log.Log)",
   "Deleted log /home1/irteam/apps/data/kafka/kafka-logs/__consumer_offsets-48/00000000004294790577.log.deleted. (kafka.log.LogSegment)",
   "Deleted log /home1/irteam/apps/data/kafka/kafka-logs/__consumer_offsets-48/00000000004338631022.log.deleted. (kafka.log.LogSegment)",
   "Deleted offset index /home1/irteam/apps/data/kafka/kafka-logs/__consumer_offsets-48/00000000004294790577.index.deleted. (kafka.log.LogSegment)",
   "Deleted offset index /home1/irteam/apps/data/kafka/kafka-logs/__consumer_offsets-48/00000000004338631022.index.deleted. (kafka.log.LogSegment)",
   "Deleted time index /home1/irteam/apps/data/kafka/kafka-logs/__consumer_offsets-48/00000000004294790577.timeindex.deleted. (kafka.log.LogSegment)",
   "Deleted time index /home1/irteam/apps/data/kafka/kafka-logs/__consumer_offsets-48/00000000004338631022.timeindex.deleted. (kafka.log.LogSegment)",
   "[Log partition=__consumer_offsets-48, dir=/home1/irteam/apps/data/kafka/kafka-logs] Deleting segment files LogSegment(baseOffset=4339285360, size=104857589, lastModifiedTime=1711865580000, largestRecordTimestamp=Some(1711865580112)) (kafka.log.Log)",
   "Deleted log /home1/irteam/apps/data/kafka/kafka-logs/__consumer_offsets-48/00000000004339285360.log.deleted. (kafka.log.LogSegment)",
   "Deleted offset index /home1/irteam/apps/data/kafka/kafka-logs/__consumer_offsets-48/00000000004339285360.index.deleted. (kafka.log.LogSegment)",
   "Deleted time index /home1/irteam/apps/data/kafka/kafka-logs/__consumer_offsets-48/00000000004339285360.timeindex.deleted. (kafka.log.LogSegment)",
   "[Log partition=__consumer_offsets-49, dir=/home1/irteam/apps/data/kafka/kafka-logs] Rolled new log segment at offset 432939698 in 2 ms. (kafka.log.Log)"]

/-- The engine of `TestDrain`: `NewDrain(WithExtraDelimiter([]string{"_"}))`. -/
def kafkaDrain : Drain :=
  match NewDrain [optionFn.WithExtraDelimiter ["_"]] with
  | .ok d => d
  | .error _ => defaultDrain

/-- The state and the returns of the 24 calls of `TestDrain`, made on the engine directly. -/
def kafkaRun : Drain × List (LogCluster × ClusterUpdateType) :=
  (runAdd kafkaDrain kafkaLogs).getD (kafkaDrain, [])

/-- An engine with room for two clusters: `NewDrain(WithMaxCluster(2))`. -/
def smallDrain : Drain :=
  match NewDrain [optionFn.WithMaxCluster 2] with
  | .ok d => d
  | .error _ => defaultDrain

/-- The state and the returns of adding "a", "b b", "c c c" to `smallDrain`. -/
def smallRun : Drain × List (LogCluster × ClusterUpdateType) :=
  (runAdd smallDrain ["a", "b b", "c c c"]).getD (smallDrain, [])

/-- An engine with `max_children = 0`: `NewDrain(WithMaxChildren(0))`. -/
def zeroChildrenDrain : Drain :=
  match NewDrain [optionFn.WithMaxChildren 0] with
  | .ok d => d
  | .error _ => defaultDrain

/-- An engine state in which the leaf of bucket "2" lists cluster 1, whose template has three
tokens (a state a snapshot can restore). -/
def mismatchDrain : Drain :=
  { defaultDrain with
    MaxNodeDepth := 2
    RootNode := Node.mk [("2", Node.mk [("a", Node.mk [] [1])] [])] []
    IdToCluster := { size := 1000, items := [⟨2, ["x"], 1⟩, ⟨1, ["a", "b", "c"], 1⟩] }
    ClustersCounter := 2 }

/-- The state `AddLogMessage "a b"` leaves behind on `mismatchDrain`. -/
def mismatchDrainAfter : Drain :=
  match mismatchDrain.AddLogMessage "a b" with
  | .error d _ => d
  | _ => mismatchDrain

/-- Decidable equality of the results of `getSeqDistance`, `createTemplate`, `NewDrain`. -/
instance instDecidableEqExcept {ε α : Type} [DecidableEq ε] [DecidableEq α] :
    DecidableEq (Except ε α)
  | .ok a, .ok b =>
    if h : a = b then isTrue (by rw [h]) else isFalse (by intro e; cases e; exact h rfl)
  | .error a, .error b =>
    if h : a = b then isTrue (by rw [h]) else isFalse (by intro e; cases e; exact h rfl)
  | .ok _, .error _ => isFalse (by intro e; cases e)
  | .error _, .ok _ => isFalse (by intro e; cases e)

/-- The state after adding "a b c d e", "a b f g h", "a x y z w", "a p q z w" to the fresh
default engine: cluster 1 is `a b <*> <*> <*>`, cluster 2 is `a <*> <*> z w`. -/
def tieRun : Drain × List (LogCluster × ClusterUpdateType) :=
  (runAdd freshDrain ["a b c d e", "a b f g h", "a x y z w", "a p q z w"]).getD (freshDrain, [])

/-- The state after adding "a b c" and "x y" to `smallDrain` (capacity 2): cluster 1 is the
least recently used one. -/
def lruRun : Drain × List (LogCluster × ClusterUpdateType) :=
  (runAdd smallDrain ["a b c", "x y"]).getD (smallDrain, [])

/-- The state `Match "a q r" Never` leaves behind on `lruRun.1`. -/
def lruScored : Drain :=
  (lruRun.1.Match "a q r" SearchStrategy.Never).stateD smallDrain

/-- The registry of `d` is one the cache library can hold: its capacity is the configured
`MaxClusters ≥ 1`, it holds at most that many records, and no two under the same id. -/
structure RegistryValid (d : Drain) : Prop where
  size_eq : d.IdToCluster.size = d.MaxClusters
  size_pos : 1 ≤ d.MaxClusters
  length_le : (d.IdToCluster.items.length : Int) ≤ d.IdToCluster.size
  nodup : (d.IdToCluster.items.map (fun c => c.ClusterId)).Nodup

/-- The cap on the child count in the subtree of a node: every node has at most `maxChildren`
children, and a node with exactly `maxChildren` children has a child keyed by the wildcard
marker. -/
inductive Capped (maxChildren : Int) (paramStr : String) : Node → Prop
  | mk (children : List (String × Node)) (ids : List Int) :
      (children.length : Int) ≤ maxChildren →
      ((children.length : Int) = maxChildren → children.lookup paramStr ≠ none) →
      (∀ kn, kn ∈ children → Capped maxChildren paramStr kn.2) →
      Capped maxChildren paramStr (Node.mk children ids)

/-- An engine with `max_children = 1`: `NewDrain(WithMaxChildren(1))`. -/
def oneChildDrain : Drain :=
  match NewDrain [optionFn.WithMaxChildren 1] with
  | .ok d => d
  | .error _ => defaultDrain

/-- The state after adding "a x" to `oneChildDrain`: the bucket of two tokens has reached its
cap with the wildcard child alone. -/
def oneChildDrain1 : Drain := (oneChildDrain.AddLogMessage "a x").stateD oneChildDrain

/-- The node reached from `node` along the edges keyed by `keys`, if every edge exists. -/
def Node.follow : Node → List String → Option Node
  | node, [] => some node
  | node, key :: keys =>
    match node.KeyToChildNode.lookup key with
    | some child => child.follow keys
    | none => none

/-- The `ClusterIds` of the node reached from `node` along `keys`; empty if the path leaves
the tree. -/
def Node.idsAt (node : Node) (keys : List String) : List Int :=
  match node.follow keys with
  | some leaf => leaf.ClusterIds
  | none => []

/-- The path `keys` from `node` reaches a node whose `ClusterIds` contains `id`. -/
def Listed (node : Node) (keys : List String) (id : Int) : Prop :=
  id ∈ node.idsAt keys

/-- Whether `Listed` holds is computed by following the path. -/
instance instDecidableListed (node : Node) (keys : List String) (id : Int) :
    Decidable (Listed node keys id) :=
  inferInstanceAs (Decidable (id ∈ node.idsAt keys))

/-- The prefix tree indexes the registry: no id is listed at two places of a bucket, and every
live cluster is listed at the end of a path of `max 0 (min MaxNodeDepth len - 1)` edges, each
keyed by the wildcard marker or by the template token of its position; templates are not
empty and `MaxNodeDepth ≥ 1`. -/
structure Indexed (d : Drain) : Prop where
  depth_pos : 1 ≤ d.MaxNodeDepth
  nonempty : ∀ key c, d.IdToCluster.Peek key = some c → c.LogTemplateTokens ≠ []
  unique : ∀ key bucket, d.RootNode.KeyToChildNode.lookup key = some bucket →
    ∀ id ks1 ks2, Listed bucket ks1 id → Listed bucket ks2 id → ks1 = ks2
  path : ∀ key c, d.IdToCluster.Peek key = some c →
    ∃ bucket ks,
      d.RootNode.KeyToChildNode.lookup (toString c.LogTemplateTokens.length) = some bucket ∧
      Listed bucket ks key ∧
      (ks.length : Int) =
        max 0 (min d.MaxNodeDepth (c.LogTemplateTokens.length : Int) - 1) ∧
      ∀ (i : Nat) (t : String), ks[i]? = some t →
        t = d.ParamStr ∨ c.LogTemplateTokens[i]? = some t

/-- An engine whose only extra delimiter is the empty string:
`NewDrain(WithExtraDelimiter([]string{""}))`. -/
def emptyDelimiterDrain : Drain :=
  match NewDrain [optionFn.WithExtraDelimiter [""]] with
  | .ok d => d
  | .error _ => defaultDrain

/-- An engine with the extra delimiters "=" and ", ":
`NewDrain(WithExtraDelimiter([]string{"=", ", "}))`. -/
def delimiterDrain : Drain :=
  match NewDrain [optionFn.WithExtraDelimiter ["=", ", "]] with
  | .ok d => d
  | .error _ => defaultDrain

/-- Modelled from the spec: a document of the snapshot format, the spec's "self-describing
structured encoding (hierarchical object notation)": a JSON value. The snapshot is written
and read by `encoding/json` of the standard library, which is not under `src/`. The model
stops at the document: its text (the byte sequence, with its escapes and number spellings,
and the limit of the library's scanner on the nesting, 10000 levels) is not modelled, strings
are the strings of this model and numbers are exact. The members of an object are a list, as
the entries of a map are. -/
inductive Json where
  | null
  | bool (b : Bool)
  | number (q : ℚ)
  | string (s : String)
  | array (items : List Json)
  | object (members : List (String × Json))

/-- The `SerializableDrain` struct: the fields of `Drain` with the registry replaced by the
slice `Clusters`. `RootNode` is a pointer, `none` is nil. -/
structure SerializableDrain where
  LogClusterDepth : Int
  MaxNodeDepth : Int
  SimTh : ℚ
  MaxChildren : Int
  RootNode : Option Node
  MaxClusters : Int
  ExtraDelimiters : List String
  ParamStr : String
  ParametrizeNumericTokens : Bool
  Clusters : List LogCluster
  ClustersCounter : Int

/-- Modelled from the spec: `json.Marshal` of an `int64` or an `int`. -/
def encodeInt (i : Int) : Json := .number i

/-- Modelled from the spec: `json.Marshal` of a `[]int64` (a nil slice, which is written
`null`, is the empty list of the model). -/
def encodeIntSlice (l : List Int) : Json := .array (l.map encodeInt)

/-- Modelled from the spec: `json.Marshal` of a `[]string`. -/
def encodeStringSlice (l : List String) : Json := .array (l.map Json.string)

mutual
/-- Modelled from the spec: `json.Marshal` of a `*Node`: an object with a member for each
field of the struct, under the field's name, in the order of the declaration; "each node as
its children map and cluster_ids array". -/
def encodeNode : Node → Json
  | Node.mk children ids =>
    .object [("KeyToChildNode", .object (encodeChildren children)),
      ("ClusterIds", encodeIntSlice ids)]
/-- Modelled from the spec: `json.Marshal` of a `map[string]*Node`: an object with a member
for each entry. A Go map has no order of its own; the list order of the model, which stands
for the order a `range` takes, is the order of the members (the library's text has the keys
sorted). -/
def encodeChildren : List (String × Node) → List (String × Json)
  | [] => []
  | (key, child) :: rest => (key, encodeNode child) :: encodeChildren rest
end

/-- Modelled from the spec: `json.Marshal` of a `*LogCluster`. -/
def encodeLogCluster (c : LogCluster) : Json :=
  .object [("ClusterId", encodeInt c.ClusterId),
    ("LogTemplateTokens", encodeStringSlice c.LogTemplateTokens),
    ("Size", encodeInt c.Size)]

/-- Modelled from the spec: `json.Marshal` of a `*SerializableDrain`. The error of
`json.Marshal` (a `SimTh` that is NaN or infinite) does not arise on the exact numbers of the
model. -/
def jsonMarshal (x : SerializableDrain) : Json :=
  .object [("LogClusterDepth", encodeInt x.LogClusterDepth),
    ("MaxNodeDepth", encodeInt x.MaxNodeDepth),
    ("SimTh", .number x.SimTh),
    ("MaxChildren", encodeInt x.MaxChildren),
    ("RootNode", match x.RootNode with
      | some node => encodeNode node
      | none => .null),
    ("MaxClusters", encodeInt x.MaxClusters),
    ("ExtraDelimiters", encodeStringSlice x.ExtraDelimiters),
    ("ParamStr", .string x.ParamStr),
    ("ParametrizeNumericTokens", .bool x.ParametrizeNumericTokens),
    ("Clusters", .array (x.Clusters.map encodeLogCluster)),
    ("ClustersCounter", encodeInt x.ClustersCounter)]

/-- Outcome of reading a document into a Go value: the value; or no error, but a value with a
nil `*Node` or `*LogCluster` inside a map or a slice, which this model does not hold; or the
`*json.UnmarshalTypeError` for a member of the wrong type, which `json.Unmarshal` returns
whatever else it read. -/
inductive Decoded (α : Type) where
  | ok (value : α)
  | nilPointer
  | error

/-- The outcome once a nil pointer was stored: an error that shows up later still wins. -/
def Decoded.poison {α : Type} : Decoded α → Decoded α
  | .error => .error
  | _ => .nilPointer

/-- Modelled from the spec: `json.Unmarshal` into an `int64` or `int` that holds `cur`:
`null` leaves it, a number with an integer value is stored, `none` is the type error. -/
def decodeInt (cur : Int) : Json → Option Int
  | .null => some cur
  | .number q => if q.den = 1 then some q.num else none
  | _ => none

/-- Modelled from the spec: `json.Unmarshal` into a `float64`. -/
def decodeFloat64 (cur : ℚ) : Json → Option ℚ
  | .null => some cur
  | .number q => some q
  | _ => none

/-- Modelled from the spec: `json.Unmarshal` into a `string`. -/
def decodeString (cur : String) : Json → Option String
  | .null => some cur
  | .string s => some s
  | _ => none

/-- Modelled from the spec: `json.Unmarshal` into a `bool`. -/
def decodeBool (cur : Bool) : Json → Option Bool
  | .null => some cur
  | .bool b => some b
  | _ => none

/-- The elements of an array read into a `[]int64`. -/
def decodeInts : List Json → Option (List Int)
  | [] => some []
  | j :: rest =>
    match decodeInt 0 j, decodeInts rest with
    | some i, some l => some (i :: l)
    | _, _ => none

/-- Modelled from the spec: `json.Unmarshal` into a `[]int64`: `null` gives the nil slice,
an array its elements. -/
def decodeIntSlice : Json → Option (List Int)
  | .null => some []
  | .array items => decodeInts items
  | _ => none

/-- The elements of an array read into a `[]string`. -/
def decodeStrings : List Json → Option (List String)
  | [] => some []
  | j :: rest =>
    match decodeString "" j, decodeStrings rest with
    | some s, some l => some (s :: l)
    | _, _ => none

/-- Modelled from the spec: `json.Unmarshal` into a `[]string`. -/
def decodeStringSlice : Json → Option (List String)
  | .null => some []
  | .array items => decodeStrings items
  | _ => none

/-- The members of an object read into a `LogCluster` struct, one after the other: a member
named as a field is read into the field, any other member is skipped. -/
def decodeLogClusterFields : List (String × Json) → LogCluster → Option LogCluster
  | [], c => some c
  | (key, v) :: rest, c =>
    if key = "ClusterId" then
      match decodeInt c.ClusterId v with
      | some i => decodeLogClusterFields rest { c with ClusterId := i }
      | none => none
    else if key = "LogTemplateTokens" then
      match decodeStringSlice v with
      | some l => decodeLogClusterFields rest { c with LogTemplateTokens := l }
      | none => none
    else if key = "Size" then
      match decodeInt c.Size v with
      | some i => decodeLogClusterFields rest { c with Size := i }
      | none => none
    else decodeLogClusterFields rest c

/-- Modelled from the spec: `json.Unmarshal` into a nil `*LogCluster`: `null` leaves it nil,
an object is read into a new struct. -/
def decodeLogCluster : Json → Decoded LogCluster
  | .null => .nilPointer
  | .object members =>
    match decodeLogClusterFields members { ClusterId := 0, LogTemplateTokens := [], Size := 0 } with
    | some c => .ok c
    | none => .error
  | _ => .error

/-- The elements of an array read into a `[]*LogCluster`. -/
def decodeClusters : List Json → Decoded (List LogCluster)
  | [] => .ok []
  | j :: rest =>
    match decodeLogCluster j, decodeClusters rest with
    | .error, _ => .error
    | _, .error => .error
    | .ok c, .ok l => .ok (c :: l)
    | _, _ => .nilPointer

/-- Modelled from the spec: `json.Unmarshal` into a `[]*LogCluster`. -/
def decodeClusterSlice : Json → Decoded (List LogCluster)
  | .null => .ok []
  | .array items => decodeClusters items
  | _ => .error

mutual
/-- Modelled from the spec: `json.Unmarshal` into a nil `*Node`, the value of a map entry. -/
def decodeNode : Json → Decoded Node
  | .null => .nilPointer
  | .object members => decodeNodeFields members (Node.mk [] [])
  | _ => .error
/-- The members of an object read into a `Node` struct, one after the other. -/
def decodeNodeFields : List (String × Json) → Node → Decoded Node
  | [], node => .ok node
  | (key, v) :: rest, node =>
    if key = "KeyToChildNode" then
      match v with
      | .null => decodeNodeFields rest (Node.mk [] node.ClusterIds)
      | .object members =>
        match decodeChildren members node.KeyToChildNode with
        | .ok children => decodeNodeFields rest (Node.mk children node.ClusterIds)
        | .nilPointer => (decodeNodeFields rest node).poison
        | .error => .error
      | _ => .error
    else if key = "ClusterIds" then
      match decodeIntSlice v with
      | some ids => decodeNodeFields rest (Node.mk node.KeyToChildNode ids)
      | none => .error
    else decodeNodeFields rest node
/-- The members of an object read into a `map[string]*Node`: each member is read into a new
node, which is assigned to the map under the member's name. -/
def decodeChildren : List (String × Json) → List (String × Node) → Decoded (List (String × Node))
  | [], children => .ok children
  | (key, v) :: rest, children =>
    match decodeNode v with
    | .ok child => decodeChildren rest (assignChild children key child)
    | .nilPointer => (decodeChildren rest children).poison
    | .error => .error
end

/-- The zero value of `SerializableDrain`, which `UnmarshalJSON` declares as `forJson`. -/
def SerializableDrain.zero : SerializableDrain :=
  { LogClusterDepth := 0
    MaxNodeDepth := 0
    SimTh := 0
    MaxChildren := 0
    RootNode := none
    MaxClusters := 0
    ExtraDelimiters := []
    ParamStr := ""
    ParametrizeNumericTokens := false
    Clusters := []
    ClustersCounter := 0 }

/-- The members of an object read into a `SerializableDrain` struct, one after the other: a
member named as a field is read into the field (members are matched by the exact name; the
library also takes a name in another capitalisation), any other member is skipped. -/
def decodeDrainFields : List (String × Json) → SerializableDrain → Decoded SerializableDrain
  | [], x => .ok x
  | (key, v) :: rest, x =>
    if key = "LogClusterDepth" then
      match decodeInt x.LogClusterDepth v with
      | some i => decodeDrainFields rest { x with LogClusterDepth := i }
      | none => .error
    else if key = "MaxNodeDepth" then
      match decodeInt x.MaxNodeDepth v with
      | some i => decodeDrainFields rest { x with MaxNodeDepth := i }
      | none => .error
    else if key = "SimTh" then
      match decodeFloat64 x.SimTh v with
      | some q => decodeDrainFields rest { x with SimTh := q }
      | none => .error
    else if key = "MaxChildren" then
      match decodeInt x.MaxChildren v with
      | some i => decodeDrainFields rest { x with MaxChildren := i }
      | none => .error
    else if key = "RootNode" then
      match v with
      | .null => decodeDrainFields rest { x with RootNode := none }
      | .object members =>
        match decodeNodeFields members (x.RootNode.getD (Node.mk [] [])) with
        | .ok node => decodeDrainFields rest { x with RootNode := some node }
        | .nilPointer => (decodeDrainFields rest x).poison
        | .error => .error
      | _ => .error
    else if key = "MaxClusters" then
      match decodeInt x.MaxClusters v with
      | some i => decodeDrainFields rest { x with MaxClusters := i }
      | none => .error
    else if key = "ExtraDelimiters" then
      match decodeStringSlice v with
      | some l => decodeDrainFields rest { x with ExtraDelimiters := l }
      | none => .error
    else if key = "ParamStr" then
      match decodeString x.ParamStr v with
      | some s => decodeDrainFields rest { x with ParamStr := s }
      | none => .error
    else if key = "ParametrizeNumericTokens" then
      match decodeBool x.ParametrizeNumericTokens v with
      | some b => decodeDrainFields rest { x with ParametrizeNumericTokens := b }
      | none => .error
    else if key = "Clusters" then
      match decodeClusterSlice v with
      | .ok l => decodeDrainFields rest { x with Clusters := l }
      | .nilPointer => (decodeDrainFields rest x).poison
      | .error => .error
    else if key = "ClustersCounter" then
      match decodeInt x.ClustersCounter v with
      | some i => decodeDrainFields rest { x with ClustersCounter := i }
      | none => .error
    else decodeDrainFields rest x

/-- Modelled from the spec: `json.Unmarshal(data, &forJson)` on the zero `forJson`: `null`
leaves it, an object is read member by member, any other value is a type error. (A text that
is no JSON document, the library's syntax error, has no counterpart here.) -/
def jsonUnmarshal : Json → Decoded SerializableDrain
  | .null => .ok SerializableDrain.zero
  | .object members => decodeDrainFields members SerializableDrain.zero
  | _ => .error

/-- Outcome of `UnmarshalJSON` on a receiver: a nil error with the receiver as overwritten;
the error of `json.Unmarshal` with the receiver untouched; a run-time panic in the loop over
the clusters; or a nil pointer that this model does not hold (a nil registry, a nil root,
a nil child node or a nil cluster): the call dereferences it and panics, or it returns nil
and leaves the pointer in the receiver, whose methods then panic on it. -/
inductive Restored where
  | ok (state : Drain)
  | error (state : Drain)
  | panic
  | nilPointer
deriving DecidableEq

/-- `Drain.MarshalJSON`. The encoder `json.Marshal`, applied to the `*SerializableDrain`, is
`jsonMarshal`; its error is always nil in the model. -/
def Drain.MarshalJSON (d : Drain) : Json :=
  let clusters : List LogCluster := []
  let clusters := clusters ++ d.IdToCluster.Values
  jsonMarshal
    { LogClusterDepth := d.LogClusterDepth
      MaxNodeDepth := d.MaxNodeDepth
      SimTh := d.SimTh
      MaxChildren := d.MaxChildren
      RootNode := some d.RootNode
      MaxClusters := d.MaxClusters
      ExtraDelimiters := d.ExtraDelimiters
      ParamStr := d.ParamStr
      ParametrizeNumericTokens := d.ParametrizeNumericTokens
      Clusters := clusters
      ClustersCounter := d.ClustersCounter }

/-- `Drain.UnmarshalJSON`. The decoder `json.Unmarshal`, into the `SerializableDrain`
variable `forJson`, is `jsonUnmarshal`. The error of `lru.New` is discarded by the source:
when the cache is refused, `l` is nil, the first `Add` dereferences it, and without any
cluster the receiver gets the nil registry. -/
def Drain.UnmarshalJSON (d : Drain) (data : Json) : Restored :=
  match jsonUnmarshal data with
  | .error => .error d
  | .nilPointer => .nilPointer
  | .ok forJson =>
    match Cache.New forJson.MaxClusters with
    | none =>
      match forJson.Clusters with
      | [] => .nilPointer
      | _ :: _ => .panic
    | some l =>
      let l := forJson.Clusters.foldl (fun l cluster => l.Add cluster) l
      match forJson.RootNode with
      | none => .nilPointer
      | some rootNode =>
        .ok
          { LogClusterDepth := forJson.LogClusterDepth
            MaxNodeDepth := forJson.MaxNodeDepth
            SimTh := forJson.SimTh
            MaxChildren := forJson.MaxChildren
            RootNode := rootNode
            MaxClusters := forJson.MaxClusters
            ExtraDelimiters := forJson.ExtraDelimiters
            ParamStr := forJson.ParamStr
            ParametrizeNumericTokens := forJson.ParametrizeNumericTokens
            IdToCluster := l
            ClustersCounter := forJson.ClustersCounter }

/-- No key occurs twice in the list (as in every Go map). -/
def distinctKeys : List (String × Node) → Bool
  | [] => true
  | (key, _) :: rest => (rest.lookup key).isNone && distinctKeys rest

mutual
/-- Every child map in the subtree of the node holds each key once. -/
def Node.keysDistinct : Node → Bool
  | Node.mk children _ => distinctKeys children && childrenKeysDistinct children
/-- Every child map in the subtrees of the entries holds each key once. -/
def childrenKeysDistinct : List (String × Node) → Bool
  | [] => true
  | (_, child) :: rest => child.keysDistinct && childrenKeysDistinct rest
end

/-- The engine `tieRun.1` (two clusters in a registry of capacity 1000) after the assignment
`d.MaxClusters = 1` to its exported field. -/
def shrunkDrain : Drain := { tieRun.1 with MaxClusters := 1 }

/-- The engine `tieRun.1` after the assignment `d.MaxClusters = 0`. -/
def zeroClustersDrain : Drain := { tieRun.1 with MaxClusters := 0 }

/-- The engine `lruRun.1` (clusters 1 and 2 in a registry of capacity 2) after the assignment
`d.MaxClusters = 3`. -/
def widenedDrain : Drain := { lruRun.1 with MaxClusters := 3 }

/-- The snapshot of `widenedDrain` restored: the same clusters in a registry of capacity 3. -/
def widenedRestored : Drain :=
  { widenedDrain with IdToCluster := { size := 3, items := widenedDrain.IdToCluster.items } }

/-! # Theorems -/

theorem Split_ne_nil (s : List Char) : Split s ≠ [] := by
  induction s with
  | nil => simp [Split]
  | cons c cs ih =>
    unfold Split
    split
    · simp
    · split <;> simp

theorem getContentAsTokens_ne_nil (d : Drain) (content : String) :
    d.getContentAsTokens content ≠ [] := by
  unfold Drain.getContentAsTokens
  simp only [ne_eq, List.map_eq_nil_iff]
  exact Split_ne_nil _

theorem getContentAsTokens_length_pos (d : Drain) (content : String) :
    0 < (d.getContentAsTokens content).length :=
  List.length_pos.mpr (getContentAsTokens_ne_nil d content)

/-! ### Registry lemmas -/

theorem find?_eraseP_of_disjoint {α : Type} (p q : α → Bool) (l : List α)
    (h : ∀ x, p x = true → q x = false) :
    (l.eraseP p).find? q = l.find? q := by
  induction l with
  | nil => rfl
  | cons a l ih =>
    by_cases hp : p a = true
    · rw [List.eraseP_cons_of_pos hp, List.find?_cons_of_neg _ (by simp [h a hp])]
    · rw [List.eraseP_cons_of_neg hp]
      by_cases hq : q a = true
      · rw [List.find?_cons_of_pos _ hq, List.find?_cons_of_pos _ hq]
      · rw [List.find?_cons_of_neg _ hq, List.find?_cons_of_neg _ hq, ih]

theorem perm_cons_eraseP_of_find? {α : Type} (p : α → Bool) (l : List α) (v : α)
    (h : l.find? p = some v) : (v :: l.eraseP p).Perm l := by
  induction l with
  | nil => simp at h
  | cons a l ih =>
    by_cases hp : p a = true
    · rw [List.find?_cons_of_pos _ hp] at h
      cases h
      rw [List.eraseP_cons_of_pos hp]
    · rw [List.find?_cons_of_neg _ hp] at h
      rw [List.eraseP_cons_of_neg hp]
      exact (List.Perm.swap a v _).trans ((ih h).cons a)

theorem Cache.Peek_id (c : Cache) (key : Int) (v : LogCluster) (h : c.Peek key = some v) :
    v.ClusterId = key := by
  have := List.find?_some h
  simpa using this

theorem Cache.Peek_mem (c : Cache) (key : Int) (v : LogCluster) (h : c.Peek key = some v) :
    v ∈ c.items :=
  List.mem_of_find?_eq_some h

theorem Cache.sameRecords_refl (c : Cache) : c.SameRecords c :=
  ⟨rfl, List.Perm.refl _, fun _ => rfl⟩

theorem Cache.sameRecords_trans {a b c : Cache} (h1 : a.SameRecords b) (h2 : b.SameRecords c) :
    a.SameRecords c :=
  ⟨h2.1.trans h1.1, h2.2.1.trans h1.2.1, fun k => (h2.2.2 k).trans (h1.2.2 k)⟩

theorem Cache.Get_snd (c : Cache) (key : Int) : (c.Get key).2 = c.Peek key := by
  unfold Cache.Get
  cases h : c.Peek key <;> simp

theorem Cache.Get_sameRecords (c : Cache) (key : Int) : c.SameRecords (c.Get key).1 := by
  unfold Cache.Get
  cases h : c.Peek key with
  | none => exact Cache.sameRecords_refl c
  | some v =>
    refine ⟨rfl, perm_cons_eraseP_of_find? _ _ _ h, fun k => ?_⟩
    have hv : v.ClusterId = key := Cache.Peek_id c key v h
    show List.find? _ (v :: _) = c.Peek k
    by_cases hk : key = k
    · subst hk
      rw [List.find?_cons_of_pos _ (by simp [hv]), h]
    · rw [List.find?_cons_of_neg _ (by simp [hv, hk])]
      exact find?_eraseP_of_disjoint _ _ _ (by
        intro x hx
        simp only [beq_iff_eq] at hx
        simp [hx, hk])

theorem seqDistanceLoop_eq (d : Drain) (seq1 seq2 : List String) (a b : Int) :
    seqDistanceLoop d seq1 seq2 a b =
      (a + hitCount d.ParamStr seq1 seq2, b + wildcardCount d.ParamStr seq1 seq2) := by
  induction seq1 generalizing seq2 a b with
  | nil => simp [seqDistanceLoop, hitCount, wildcardCount]
  | cons t ts ih =>
    cases seq2 with
    | nil => simp [seqDistanceLoop, hitCount, wildcardCount]
    | cons s ss =>
      unfold seqDistanceLoop hitCount wildcardCount
      by_cases h1 : t = d.ParamStr
      · simp only [h1, if_true, ih, ne_eq, not_true_eq_false, false_and, if_false]
        simp; omega
      · by_cases h2 : t = s
        · simp only [h1, if_false, h2, if_true, ih, ne_eq]
          subst h2
          simp [h1]; omega
        · simp [h1, h2, ih]

theorem hit_add_wildcard_le (p : String) (t s : List String) :
    hitCount p t s + wildcardCount p t s ≤ t.length := by
  induction t generalizing s with
  | nil => simp [hitCount, wildcardCount]
  | cons a t ih =>
    cases s with
    | nil => simp [hitCount, wildcardCount]
    | cons b s =>
      have := ih s
      unfold hitCount wildcardCount
      by_cases h1 : a = p
      · simp only [h1, ne_eq, not_true_eq_false, false_and, if_false, if_true, List.length_cons]
        omega
      · simp only [h1, ne_eq, not_false_eq_true, true_and, if_false, List.length_cons]
        split_ifs <;> omega

theorem perfectMatch_of_count (p : String) (t s : List String) (hlen : t.length = s.length)
    (h : t.length ≤ hitCount p t s + wildcardCount p t s) : PerfectMatch p t s := by
  induction t generalizing s with
  | nil =>
    cases s with
    | nil => exact List.Forall₂.nil
    | cons b s => simp at hlen
  | cons a t ih =>
    cases s with
    | nil => simp at hlen
    | cons b s =>
      have hle := hit_add_wildcard_le p t s
      unfold hitCount wildcardCount at h
      simp only [List.length_cons] at h hlen
      by_cases h1 : a = p
      · refine List.Forall₂.cons (Or.inl h1) (ih s (by omega) ?_)
        simp only [h1, ne_eq, not_true_eq_false, false_and, if_false, if_true] at h
        omega
      · by_cases h2 : a = b
        · refine List.Forall₂.cons (Or.inr h2) (ih s (by omega) ?_)
          subst h2
          simp only [h1, ne_eq, not_false_eq_true, true_and, if_false, if_true] at h
          omega
        · simp only [h1, ne_eq, not_false_eq_true, true_and, if_false, h2] at h
          omega

theorem count_of_perfectMatch (p : String) (t s : List String) (h : PerfectMatch p t s) :
    hitCount p t s + wildcardCount p t s = t.length := by
  induction h with
  | nil => simp [hitCount, wildcardCount]
  | @cons a b t s hab _ ih =>
    unfold hitCount wildcardCount
    by_cases h1 : a = p
    · simp only [h1, ne_eq, not_true_eq_false, false_and, if_false, if_true, List.length_cons]
      omega
    · have h2 : a = b := hab.resolve_left h1
      subst h2
      simp only [h1, ne_eq, not_false_eq_true, true_and, if_false, if_true, List.length_cons]
      omega

theorem getSeqDistance_ok_length (d : Drain) (seq1 seq2 : List String) (ip : Bool) (r : ℚ × Int)
    (h : d.getSeqDistance seq1 seq2 ip = .ok r) : seq1.length = seq2.length := by
  unfold Drain.getSeqDistance at h
  by_contra hne
  simp [hne] at h

theorem getSeqDistance_of_length (d : Drain) (seq1 seq2 : List String) (ip : Bool)
    (h : seq1.length = seq2.length) : ∃ r, d.getSeqDistance seq1 seq2 ip = .ok r := by
  unfold Drain.getSeqDistance
  rw [if_neg (not_not.mpr h)]
  by_cases h0 : seq1.length = 0
  · rw [if_pos h0]
    exact ⟨_, rfl⟩
  · rw [if_neg h0]
    exact ⟨_, rfl⟩

theorem getSeqDistance_params_eq (d : Drain) (seq1 seq2 : List String) (h : seq1.length = seq2.length)
    (h0 : seq1.length ≠ 0) :
    d.getSeqDistance seq1 seq2 true =
      .ok ((((hitCount d.ParamStr seq1 seq2 + wildcardCount d.ParamStr seq1 seq2 : Nat) : ℚ)
        / (seq1.length : ℚ)), (wildcardCount d.ParamStr seq1 seq2 : Int)) := by
  unfold Drain.getSeqDistance
  simp only [h, ne_eq, not_true_eq_false, if_false]
  rw [h] at h0
  simp only [h0, if_false, seqDistanceLoop_eq, if_true]
  simp

theorem getSeqDistance_perfect (d : Drain) (seq1 seq2 : List String) (sim : ℚ) (pc : Int)
    (h : d.getSeqDistance seq1 seq2 true = .ok (sim, pc)) (h1 : 1 ≤ sim) :
    PerfectMatch d.ParamStr seq1 seq2 := by
  have hlen := getSeqDistance_ok_length d seq1 seq2 true _ h
  by_cases h0 : seq1.length = 0
  · have e1 : seq1 = [] := List.length_eq_zero.mp h0
    have e2 : seq2 = [] := List.length_eq_zero.mp (hlen ▸ h0)
    subst e1 e2
    exact List.Forall₂.nil
  · rw [getSeqDistance_params_eq d seq1 seq2 hlen h0] at h
    injection h with h
    injection h with hs _
    subst hs
    apply perfectMatch_of_count _ _ _ hlen
    have hpos : (0 : ℚ) < (seq1.length : ℚ) := by
      exact_mod_cast Nat.pos_of_ne_zero h0
    rw [le_div_iff₀ hpos] at h1
    have : (seq1.length : ℚ) ≤ ((hitCount d.ParamStr seq1 seq2 + wildcardCount d.ParamStr seq1 seq2 : Nat) : ℚ) := by
      simpa using h1
    exact_mod_cast this

theorem getSeqDistance_of_perfect (d : Drain) (seq1 seq2 : List String)
    (h : PerfectMatch d.ParamStr seq1 seq2) :
    ∃ sim pc, d.getSeqDistance seq1 seq2 true = .ok (sim, pc) ∧ 1 ≤ sim := by
  have hlen : seq1.length = seq2.length := List.Forall₂.length_eq h
  by_cases h0 : seq1.length = 0
  · refine ⟨1, 0, ?_, le_refl _⟩
    unfold Drain.getSeqDistance
    simp [hlen, h0, hlen ▸ h0]
  · refine ⟨_, _, getSeqDistance_params_eq d seq1 seq2 hlen h0, ?_⟩
    rw [count_of_perfectMatch _ _ _ h]
    have hpos : (0 : ℚ) < (seq1.length : ℚ) := by
      exact_mod_cast Nat.pos_of_ne_zero h0
    rw [le_div_iff₀ hpos]
    simp

/-! ### Candidate scoring -/

theorem fastMatchLoop_ne_panic (d : Drain) (tokens : List String) (ip : Bool) (ids : List Int)
    (cache : Cache) (ms : ℚ) (mpc : Int) (mc : Option LogCluster) :
    fastMatchLoop d tokens ip ids cache ms mpc mc ≠ .panic := by
  induction ids generalizing cache ms mpc mc with
  | nil => simp [fastMatchLoop]
  | cons id ids ih =>
    unfold fastMatchLoop
    split
    · exact ih _ _ _ _
    · split
      · simp
      · split
        · exact ih _ _ _ _
        · exact ih _ _ _ _

theorem fastMatchLoop_error (d : Drain) (tokens : List String) (ip : Bool) (ids : List Int)
    (cache : Cache) (ms : ℚ) (mpc : Int) (mc : Option LogCluster) (cache' : Cache) (e : Error)
    (h : fastMatchLoop d tokens ip ids cache ms mpc mc = .error cache' e) :
    cache.SameRecords cache' ∧
      ∃ c, c.ClusterId ∈ ids ∧ cache.Peek c.ClusterId = some c ∧
        e = Error.seqDistanceLength c.LogTemplateTokens.length tokens.length ∧
        c.LogTemplateTokens.length ≠ tokens.length := by
  induction ids generalizing cache ms mpc mc with
  | nil => simp [fastMatchLoop] at h
  | cons id ids ih =>
    unfold fastMatchLoop at h
    have hget := Cache.Get_sameRecords cache id
    have hsnd := Cache.Get_snd cache id
    have lift : ∀ (c1 : Cache), cache.SameRecords c1 →
        (c1.SameRecords cache' ∧ ∃ c, c.ClusterId ∈ ids ∧ c1.Peek c.ClusterId = some c ∧
          e = Error.seqDistanceLength c.LogTemplateTokens.length tokens.length ∧
          c.LogTemplateTokens.length ≠ tokens.length) →
        cache.SameRecords cache' ∧ ∃ c, c.ClusterId ∈ id :: ids ∧ cache.Peek c.ClusterId = some c ∧
          e = Error.seqDistanceLength c.LogTemplateTokens.length tokens.length ∧
          c.LogTemplateTokens.length ≠ tokens.length := by
      intro c1 hs ⟨h1, c, hc1, hc2, hc3⟩
      exact ⟨Cache.sameRecords_trans hs h1, c, List.mem_cons_of_mem _ hc1, (hs.2.2 _) ▸ hc2, hc3⟩
    split at h
    · rename_i c1 heq
      rw [heq] at hget
      exact lift c1 hget (ih _ _ _ _ h)
    · rename_i c1 cluster heq
      rw [heq] at hget hsnd
      simp only at hsnd
      have hid := Cache.Peek_id cache id cluster hsnd.symm
      split at h
      · rename_i e' hdist
        injection h with h1 h2
        subst h1 h2
        refine ⟨hget, cluster, by simp [hid], by rw [hid]; exact hsnd.symm, ?_, ?_⟩
        · unfold Drain.getSeqDistance at hdist
          split_ifs at hdist with hne
          injection hdist with hdist; exact hdist.symm
        · intro hlen
          obtain ⟨r, hr⟩ := getSeqDistance_of_length d _ _ ip hlen
          rw [hr] at hdist
          cases hdist
      · split at h
        · exact lift c1 hget (ih _ _ _ _ h)
        · exact lift c1 hget (ih _ _ _ _ h)

theorem fastMatchLoop_ok (d : Drain) (tokens : List String) (ip : Bool) (ids : List Int)
    (cache : Cache) (ms : ℚ) (mpc : Int) (mc : Option LogCluster) (cache' : Cache) (s : ℚ)
    (r : Option LogCluster)
    (h : fastMatchLoop d tokens ip ids cache ms mpc mc = .ok cache' (s, r)) :
    cache.SameRecords cache' ∧
      ((r = mc ∧ s = ms) ∨
        ∃ c pc, r = some c ∧ c.ClusterId ∈ ids ∧ cache.Peek c.ClusterId = some c ∧
          d.getSeqDistance c.LogTemplateTokens tokens ip = .ok (s, pc)) := by
  induction ids generalizing cache ms mpc mc with
  | nil =>
    simp only [fastMatchLoop, Result.ok.injEq, Prod.mk.injEq] at h
    obtain ⟨h1, h2, h3⟩ := h
    subst h1 h2 h3
    exact ⟨Cache.sameRecords_refl _, Or.inl ⟨rfl, rfl⟩⟩
  | cons id ids ih =>
    unfold fastMatchLoop at h
    have hget := Cache.Get_sameRecords cache id
    have hsnd := Cache.Get_snd cache id
    have lift : ∀ (c1 : Cache), cache.SameRecords c1 →
        (∃ c pc, r = some c ∧ c.ClusterId ∈ ids ∧ c1.Peek c.ClusterId = some c ∧
          d.getSeqDistance c.LogTemplateTokens tokens ip = .ok (s, pc)) →
        ∃ c pc, r = some c ∧ c.ClusterId ∈ id :: ids ∧ cache.Peek c.ClusterId = some c ∧
          d.getSeqDistance c.LogTemplateTokens tokens ip = .ok (s, pc) := by
      intro c1 hs ⟨c, pc, hc0, hc1, hc2, hc3⟩
      exact ⟨c, pc, hc0, List.mem_cons_of_mem _ hc1, (hs.2.2 _) ▸ hc2, hc3⟩
    split at h
    · rename_i c1 heq
      rw [heq] at hget
      obtain ⟨h1, h2⟩ := ih _ _ _ _ h
      refine ⟨Cache.sameRecords_trans hget h1, ?_⟩
      rcases h2 with h2 | h2
      · exact Or.inl h2
      · exact Or.inr (lift c1 hget h2)
    · rename_i c1 cluster heq
      rw [heq] at hget hsnd
      simp only at hsnd
      have hid := Cache.Peek_id cache id cluster hsnd.symm
      split at h
      · cases h
      · rename_i currentSim paramCount hdist
        split at h
        · obtain ⟨h1, h2⟩ := ih _ _ _ _ h
          refine ⟨Cache.sameRecords_trans hget h1, Or.inr ?_⟩
          rcases h2 with ⟨h2, h3⟩ | h2
          · subst h3
            exact ⟨cluster, paramCount, h2, by simp [hid], by rw [hid]; exact hsnd.symm, hdist⟩
          · exact lift c1 hget h2
        · obtain ⟨h1, h2⟩ := ih _ _ _ _ h
          refine ⟨Cache.sameRecords_trans hget h1, ?_⟩
          rcases h2 with h2 | h2
          · exact Or.inl h2
          · exact Or.inr (lift c1 hget h2)

theorem fastMatch_ne_panic (d : Drain) (ids : List Int) (tokens : List String) (simTh : ℚ)
    (ip : Bool) : d.fastMatch ids tokens simTh ip ≠ .panic := by
  unfold Drain.fastMatch
  split
  · rename_i h; exact absurd h (fastMatchLoop_ne_panic _ _ _ _ _ _ _ _)
  · simp
  · simp

theorem fastMatch_state (d : Drain) (ids : List Int) (tokens : List String) (simTh : ℚ)
    (ip : Bool) (d' : Drain) (h : (d.fastMatch ids tokens simTh ip).state? = some d') :
    d.Touched d' := by
  unfold Drain.fastMatch at h
  split at h
  · simp [Result.state?] at h
  · rename_i cache e heq
    simp only [Result.state?, Option.some.injEq] at h
    exact ⟨cache, h.symm, (fastMatchLoop_error _ _ _ _ _ _ _ _ _ _ heq).1⟩
  · rename_i cache ms mc heq
    simp only [Result.state?, Option.some.injEq] at h
    exact ⟨cache, h.symm, (fastMatchLoop_ok _ _ _ _ _ _ _ _ _ _ _ heq).1⟩

theorem fastMatch_some (d : Drain) (ids : List Int) (tokens : List String) (simTh : ℚ)
    (ip : Bool) (d' : Drain) (c : LogCluster)
    (h : d.fastMatch ids tokens simTh ip = .ok d' (some c)) :
    c.ClusterId ∈ ids ∧ d.IdToCluster.Peek c.ClusterId = some c ∧
      ∃ sim pc, d.getSeqDistance c.LogTemplateTokens tokens ip = .ok (sim, pc) ∧ simTh ≤ sim := by
  unfold Drain.fastMatch at h
  split at h
  · cases h
  · cases h
  · rename_i cache ms mc heq
    injection h with h1 h2
    split_ifs at h2 with hth
    · subst h2
      obtain ⟨_, h3⟩ := fastMatchLoop_ok _ _ _ _ _ _ _ _ _ _ _ heq
      rcases h3 with ⟨h3, _⟩ | ⟨c', pc, h3, h4, h5, h6⟩
      · cases h3
      · cases h3
        exact ⟨h4, h5, ms, pc, h6, hth⟩

/-! ### Tree search -/

theorem Drain.touched_refl (d : Drain) : d.Touched d :=
  ⟨d.IdToCluster, rfl, Cache.sameRecords_refl _⟩

theorem Drain.touched_trans {a b c : Drain} (h1 : a.Touched b) (h2 : b.Touched c) :
    a.Touched c := by
  obtain ⟨c1, e1, s1⟩ := h1
  obtain ⟨c2, e2, s2⟩ := h2
  subst e1 e2
  exact ⟨c2, rfl, Cache.sameRecords_trans s1 s2⟩

theorem mem_appendClusterChildren (children : List (String × Node)) (key : String) (child : Node)
    (h : (key, child) ∈ children) (id : Int) (hid : id ∈ appendClusterRecursive child) :
    id ∈ appendClusterChildren children := by
  induction children with
  | nil => cases h
  | cons kc rest ih =>
    obtain ⟨k, n⟩ := kc
    simp only [appendClusterChildren, List.mem_append]
    rcases List.mem_cons.mp h with h | h
    · cases h; exact Or.inl hid
    · exact Or.inr (ih h)

theorem mem_of_lookup {β : Type} (l : List (String × β)) (key : String) (v : β)
    (h : l.lookup key = some v) : (key, v) ∈ l := by
  induction l with
  | nil => cases h
  | cons kv rest ih =>
    obtain ⟨k, n⟩ := kv
    rw [List.lookup_cons] at h
    by_cases hk : key = k
    · subst hk
      simp at h
      subst h
      exact List.mem_cons_self _ _
    · have : (key == k) = false := by simpa using hk
      rw [this] at h
      exact List.mem_cons_of_mem _ (ih h)

theorem mem_appendCluster_of_child (node : Node) (key : String) (child : Node)
    (h : node.KeyToChildNode.lookup key = some child) (id : Int)
    (hid : id ∈ appendClusterRecursive child) : id ∈ appendClusterRecursive node := by
  cases node with
  | mk children ids =>
    simp only [appendClusterRecursive, List.mem_append]
    exact Or.inr (mem_appendClusterChildren children key child (mem_of_lookup _ _ _ h) id hid)

theorem mem_appendCluster_self (node : Node) (id : Int) (hid : id ∈ node.ClusterIds) :
    id ∈ appendClusterRecursive node := by
  cases node with
  | mk children ids =>
    simp only [appendClusterRecursive, List.mem_append]
    exact Or.inl hid

theorem treeSearchLoop_ids (d : Drain) (tokenCount : Nat) (tokens : List String) (depth : Int)
    (node leaf : Node) (h : treeSearchLoop d tokenCount tokens depth node = some leaf) (id : Int)
    (hid : id ∈ leaf.ClusterIds) : id ∈ appendClusterRecursive node := by
  induction tokens generalizing depth node with
  | nil =>
    simp only [treeSearchLoop, Option.some.injEq] at h
    subst h
    exact mem_appendCluster_self _ _ hid
  | cons token tokens ih =>
    unfold treeSearchLoop at h
    split_ifs at h with h1 h2
    · cases h; exact mem_appendCluster_self _ _ hid
    · cases h; exact mem_appendCluster_self _ _ hid
    · split at h
      · rename_i child hchild
        exact mem_appendCluster_of_child _ _ _ hchild _ (ih _ _ h)
      · cases h

theorem treeSearch_state (d : Drain) (root : Node) (tokens : List String) (simTh : ℚ) (ip : Bool)
    (d' : Drain) (h : (d.treeSearch root tokens simTh ip).state? = some d') : d.Touched d' := by
  unfold Drain.treeSearch at h
  simp only at h
  split at h
  · simp only [Result.state?, Option.some.injEq] at h
    subst h
    exact Drain.touched_refl _
  · split_ifs at h with h0
    · split at h
      · simp [Result.state?] at h
      · rename_i clusterId _ _
        simp only [Result.state?, Option.some.injEq] at h
        exact ⟨_, h.symm, Cache.Get_sameRecords _ _⟩
    · split at h
      · simp [Result.state?] at h
      · exact fastMatch_state _ _ _ _ _ _ h

theorem treeSearch_some (d : Drain) (root : Node) (tokens : List String) (simTh : ℚ) (ip : Bool)
    (d' : Drain) (c : LogCluster) (hne : tokens ≠ [])
    (h : d.treeSearch root tokens simTh ip = .ok d' (some c)) :
    d.IdToCluster.Peek c.ClusterId = some c ∧
      (∃ sim pc, d.getSeqDistance c.LogTemplateTokens tokens ip = .ok (sim, pc) ∧ simTh ≤ sim) ∧
      ∃ bucket, root.KeyToChildNode.lookup (toString tokens.length) = some bucket ∧
        c.ClusterId ∈ appendClusterRecursive bucket := by
  unfold Drain.treeSearch at h
  simp only at h
  split at h
  · cases h
  · rename_i bucket hb
    have h0 : tokens.length ≠ 0 := fun h0 => hne (List.length_eq_zero.mp h0)
    rw [if_neg h0] at h
    split at h
    · cases h
    · rename_i leaf hleaf
      obtain ⟨h1, h2, h3⟩ := fastMatch_some _ _ _ _ _ _ _ h
      exact ⟨h2, h3, bucket, hb, treeSearchLoop_ids _ _ _ _ _ _ hleaf _ h1⟩

theorem treeSearch_error (d : Drain) (root : Node) (tokens : List String) (simTh : ℚ) (ip : Bool)
    (d' : Drain) (e : Error) (h : d.treeSearch root tokens simTh ip = .error d' e) :
    ∃ c bucket, root.KeyToChildNode.lookup (toString tokens.length) = some bucket ∧
      c.ClusterId ∈ appendClusterRecursive bucket ∧ d.IdToCluster.Peek c.ClusterId = some c ∧
      e = Error.seqDistanceLength c.LogTemplateTokens.length tokens.length ∧
      c.LogTemplateTokens.length ≠ tokens.length := by
  unfold Drain.treeSearch at h
  simp only at h
  split at h
  · cases h
  · rename_i bucket hb
    split_ifs at h with h0
    · split at h
      · cases h
      · cases h
    · split at h
      · cases h
      · rename_i leaf hleaf
        unfold Drain.fastMatch at h
        split at h
        · cases h
        · rename_i cache e' heq
          injection h with _ he
          subst he
          obtain ⟨_, c, hc1, hc2, hc3⟩ := fastMatchLoop_error _ _ _ _ _ _ _ _ _ _ heq
          exact ⟨c, bucket, hb, treeSearchLoop_ids _ _ _ _ _ _ hleaf _ hc1, hc2, hc3⟩
        · cases h

/-! ### Template merging and the hit path of `AddLogMessage` -/

theorem createTemplateLoop_eq (d : Drain) (seq1 seq2 : List String)
    (h : seq1.length = seq2.length) :
    createTemplateLoop d seq1 seq2 = mergeTemplate d.ParamStr seq2 seq1 := by
  induction seq1 generalizing seq2 with
  | nil =>
    cases seq2 with
    | nil => rfl
    | cons b s => simp at h
  | cons a t ih =>
    cases seq2 with
    | nil => simp at h
    | cons b s =>
      simp only [List.length_cons, add_left_inj] at h
      simp only [createTemplateLoop, mergeTemplate, List.zipWith_cons_cons, ih s h]
      by_cases hab : a = b
      · subst hab; simp
      · have hba : ¬ b = a := fun e => hab e.symm
        simp [hab, hba]

theorem createTemplate_eq (d : Drain) (seq1 seq2 : List String) (h : seq1.length = seq2.length) :
    d.createTemplate seq1 seq2 = .ok (mergeTemplate d.ParamStr seq2 seq1) := by
  unfold Drain.createTemplate
  rw [if_neg (not_not.mpr h), createTemplateLoop_eq d _ _ h]

theorem mergeTemplate_length (p : String) (t s : List String) (h : t.length = s.length) :
    (mergeTemplate p t s).length = t.length := by
  simp [mergeTemplate, h]

theorem find?_map_store (v : LogCluster) (key : Int) (l : List LogCluster) :
    (l.map (fun w => if w.ClusterId == v.ClusterId then v else w)).find?
        (fun w => w.ClusterId == key) =
      if key = v.ClusterId then (l.find? (fun w => w.ClusterId == key)).map (fun _ => v)
      else l.find? (fun w => w.ClusterId == key) := by
  induction l with
  | nil => simp
  | cons a l ih =>
    rw [List.map_cons]
    by_cases ha : a.ClusterId = v.ClusterId
    · have hfa : (if a.ClusterId == v.ClusterId then v else a) = v := by simp [ha]
      rw [hfa]
      by_cases hk : key = v.ClusterId
      · rw [if_pos hk, List.find?_cons_of_pos _ (by simp [hk]),
          List.find?_cons_of_pos _ (by simp [hk, ha])]
        rfl
      · have hvk : ¬ v.ClusterId = key := fun e => hk e.symm
        rw [if_neg hk, List.find?_cons_of_neg _ (by simpa using hvk),
          List.find?_cons_of_neg _ (by simpa [ha] using hvk), ih, if_neg hk]
    · have hfa : (if a.ClusterId == v.ClusterId then v else a) = a := by simp [ha]
      rw [hfa]
      by_cases hak : a.ClusterId = key
      · have hk : ¬ key = v.ClusterId := fun e => ha (hak.trans e)
        rw [if_neg hk, List.find?_cons_of_pos _ (by simpa using hak),
          List.find?_cons_of_pos _ (by simpa using hak)]
      · rw [List.find?_cons_of_neg _ (by simpa using hak),
          List.find?_cons_of_neg _ (by simpa using hak), ih]

theorem Cache.Peek_store (c : Cache) (v : LogCluster) (key : Int) :
    (c.store v).Peek key =
      if key = v.ClusterId then (c.Peek key).map (fun _ => v) else c.Peek key :=
  find?_map_store v key c.items

theorem Cache.store_size (c : Cache) (v : LogCluster) : (c.store v).size = c.size := rfl

theorem Cache.store_length (c : Cache) (v : LogCluster) :
    (c.store v).items.length = c.items.length := by
  simp [Cache.store]

theorem AddLogMessage_hit_eq (d : Drain) (m : String) (d1 : Drain) (c : LogCluster)
    (h : d.treeSearch d.RootNode (d.getContentAsTokens m) d.SimTh false = .ok d1 (some c)) :
    c.LogTemplateTokens.length = (d.getContentAsTokens m).length ∧
    d.Touched d1 ∧ d.IdToCluster.Peek c.ClusterId = some c ∧
    d.AddLogMessage m = .ok
      { d1 with IdToCluster :=
          ((d1.IdToCluster.store
            { c with
              LogTemplateTokens := mergeTemplate d.ParamStr c.LogTemplateTokens (d.getContentAsTokens m)
              Size := c.Size + 1 }).Get c.ClusterId).1 }
      ({ c with
          LogTemplateTokens := mergeTemplate d.ParamStr c.LogTemplateTokens (d.getContentAsTokens m)
          Size := c.Size + 1 },
        if mergeTemplate d.ParamStr c.LogTemplateTokens (d.getContentAsTokens m) = c.LogTemplateTokens
        then ClusterUpdateType.None else ClusterUpdateType.TemplateChanged) := by
  have hne := getContentAsTokens_ne_nil d m
  obtain ⟨hpeek, ⟨sim, pc, hdist, _⟩, _⟩ := treeSearch_some _ _ _ _ _ _ _ hne h
  have hlen := getSeqDistance_ok_length _ _ _ _ _ hdist
  have ht : d.Touched d1 := treeSearch_state _ _ _ _ _ _ (by rw [h]; rfl)
  have hp : d1.ParamStr = d.ParamStr := by
    obtain ⟨cache, e, _⟩ := ht
    subst e; rfl
  refine ⟨hlen, ht, hpeek, ?_⟩
  unfold Drain.AddLogMessage
  simp only [h]
  rw [createTemplate_eq d1 _ _ hlen.symm, hp]
  simp only [IsSliceEqual, beq_iff_eq]
  by_cases heq : mergeTemplate d.ParamStr c.LogTemplateTokens (d.getContentAsTokens m) = c.LogTemplateTokens
  · simp only [heq, if_true]
  · simp only [heq, if_false]

/-- C1. For every engine state and every message `m` whose tree search (with the engine's
`SimTh` and `includeParams = false`) hits a cluster `c`: `AddLogMessage m` returns normally the
record of `c` (same `ClusterId`, live under that id before and after) whose template is the
position-wise merge of the old template with the tokens of `m` (which has the old template's
length) and whose `Size` is the old one plus 1; it reports `TemplateChanged` if the merged
template differs from the old one and `None` if it is identical. -/
theorem AddLogMessage_hit (d : Drain) (m : String) (d1 : Drain) (c : LogCluster)
    (h : d.treeSearch d.RootNode (d.getContentAsTokens m) d.SimTh false = .ok d1 (some c)) :
    ∃ d' c' u, d.AddLogMessage m = .ok d' (c', u) ∧
      d.IdToCluster.Peek c.ClusterId = some c ∧
      d'.IdToCluster.Peek c.ClusterId = some c' ∧
      c'.ClusterId = c.ClusterId ∧
      c.LogTemplateTokens.length = (d.getContentAsTokens m).length ∧
      c'.LogTemplateTokens =
        mergeTemplate d.ParamStr c.LogTemplateTokens (d.getContentAsTokens m) ∧
      c'.Size = c.Size + 1 ∧
      (c'.LogTemplateTokens ≠ c.LogTemplateTokens → u = ClusterUpdateType.TemplateChanged) ∧
      (c'.LogTemplateTokens = c.LogTemplateTokens → u = ClusterUpdateType.None) := by
  obtain ⟨hlen, ht, hpeek, heq⟩ := AddLogMessage_hit_eq d m d1 c h
  refine ⟨_, _, _, heq, hpeek, ?_, rfl, hlen, rfl, rfl, ?_, ?_⟩
  · obtain ⟨cache, e, hs⟩ := ht
    subst e
    show ((cache.store _).Get c.ClusterId).1.Peek c.ClusterId = some _
    rw [(Cache.Get_sameRecords _ _).2.2, Cache.Peek_store, if_pos rfl, hs.2.2, hpeek]
    rfl
  · intro hne
    exact if_neg hne
  · intro he
    exact if_pos he

/-- Witness for C1: on a fresh default engine, adding "hello world 1", "hello world 2",
"hello world foo" reports `Created`, `TemplateChanged`, `None` and leaves one cluster with
template `hello world <*>` and size 3; the second call is an instance of the theorem. -/
theorem AddLogMessage_hit_witness :
    (NewDrain [] = .ok freshDrain ∧
      freshDrain.AddLogMessage "hello world 1" =
        .ok helloDrain1 (⟨1, ["hello", "world", "1"], 1⟩, ClusterUpdateType.Created) ∧
      helloDrain1.AddLogMessage "hello world 2" =
        .ok helloDrain2 (⟨1, ["hello", "world", "<*>"], 2⟩, ClusterUpdateType.TemplateChanged) ∧
      helloDrain2.AddLogMessage "hello world foo" =
        .ok helloDrain3 (⟨1, ["hello", "world", "<*>"], 3⟩, ClusterUpdateType.None) ∧
      helloDrain3.GetClusters = [⟨1, ["hello", "world", "<*>"], 3⟩]) ∧
    helloDrain1.treeSearch helloDrain1.RootNode (helloDrain1.getContentAsTokens "hello world 2")
        helloDrain1.SimTh false = .ok helloDrain1 (some ⟨1, ["hello", "world", "1"], 1⟩) ∧
    ∃ d' c' u, helloDrain1.AddLogMessage "hello world 2" = .ok d' (c', u) ∧
      helloDrain1.IdToCluster.Peek 1 = some ⟨1, ["hello", "world", "1"], 1⟩ ∧
      d'.IdToCluster.Peek 1 = some c' ∧
      c'.ClusterId = 1 ∧
      3 = (helloDrain1.getContentAsTokens "hello world 2").length ∧
      c'.LogTemplateTokens =
        mergeTemplate helloDrain1.ParamStr ["hello", "world", "1"]
          (helloDrain1.getContentAsTokens "hello world 2") ∧
      c'.Size = 1 + 1 ∧
      (c'.LogTemplateTokens ≠ ["hello", "world", "1"] → u = ClusterUpdateType.TemplateChanged) ∧
      (c'.LogTemplateTokens = ["hello", "world", "1"] → u = ClusterUpdateType.None) :=
  ⟨⟨rfl, by decide!, by decide!, by decide!, by decide!⟩, by decide!,
    AddLogMessage_hit helloDrain1 "hello world 2" helloDrain1 ⟨1, ["hello", "world", "1"], 1⟩
      (by decide!)⟩

theorem foldl_apply_fixed (options : List optionFn) (acc : Drain) :
    let r := options.foldl (fun drain option => option.apply drain) acc
    r.ParamStr = acc.ParamStr ∧ r.ParametrizeNumericTokens = acc.ParametrizeNumericTokens ∧
      r.RootNode = acc.RootNode ∧ r.ClustersCounter = acc.ClustersCounter ∧
      r.IdToCluster = acc.IdToCluster ∧ r.MaxNodeDepth = acc.MaxNodeDepth := by
  induction options generalizing acc with
  | nil => simp
  | cons o os ih =>
    simp only [List.foldl_cons]
    have := ih (o.apply acc)
    simp only at this
    cases o <;> simpa [optionFn.apply] using this

theorem foldl_apply_unset (options : List optionFn) (acc : Drain) :
    let r := options.foldl (fun drain option => option.apply drain) acc
    ((options.any optionFn.isWithDepth = false) → r.LogClusterDepth = acc.LogClusterDepth) ∧
      ((options.any optionFn.isWithSimTh = false) → r.SimTh = acc.SimTh) ∧
      ((options.any optionFn.isWithMaxChildren = false) → r.MaxChildren = acc.MaxChildren) ∧
      ((options.any optionFn.isWithMaxCluster = false) → r.MaxClusters = acc.MaxClusters) ∧
      ((options.any optionFn.isWithExtraDelimiter = false) →
        r.ExtraDelimiters = acc.ExtraDelimiters) := by
  induction options generalizing acc with
  | nil => simp
  | cons o os ih =>
    simp only [List.foldl_cons, List.any_cons, Bool.or_eq_false_iff]
    have := ih (o.apply acc)
    simp only at this
    obtain ⟨h1, h2, h3, h4, h5⟩ := this
    refine ⟨fun h => ?_, fun h => ?_, fun h => ?_, fun h => ?_, fun h => ?_⟩
    · rw [h1 h.2]; cases o <;> first | rfl | exact Bool.noConfusion h.1
    · rw [h2 h.2]; cases o <;> first | rfl | exact Bool.noConfusion h.1
    · rw [h3 h.2]; cases o <;> first | rfl | exact Bool.noConfusion h.1
    · rw [h4 h.2]; cases o <;> first | rfl | exact Bool.noConfusion h.1
    · rw [h5 h.2]; cases o <;> first | rfl | exact Bool.noConfusion h.1

theorem NewDrain_eq (options : List optionFn) :
    NewDrain options =
      if (configured options).LogClusterDepth < 3 then .error Error.depth
      else if (configured options).MaxClusters ≤ 0 then .error Error.lruCache
      else .ok { configured options with
        MaxNodeDepth := (configured options).LogClusterDepth - 2
        IdToCluster := { size := (configured options).MaxClusters, items := [] } } := by
  unfold NewDrain configured
  simp only
  split_ifs with h1 h2
  · rfl
  · simp [Cache.New, h2]
  · simp [Cache.New, h2]

theorem NewDrain_ok (options : List optionFn) (d : Drain) (h : NewDrain options = .ok d) :
    3 ≤ (configured options).LogClusterDepth ∧ 0 < (configured options).MaxClusters ∧
      d = { configured options with
        MaxNodeDepth := (configured options).LogClusterDepth - 2
        IdToCluster := { size := (configured options).MaxClusters, items := [] } } := by
  rw [NewDrain_eq] at h
  split_ifs at h with h1 h2
  injection h with h
  exact ⟨by omega, by omega, h.symm⟩

/-- C9. `NewDrain` returns an error (and no engine) if and only if the configured
`LogClusterDepth` is `< 3` or the configured `MaxClusters` is `≤ 0`; otherwise it returns an
engine with `MaxNodeDepth = LogClusterDepth - 2 ≥ 1`, `ClustersCounter = 0`, an empty root
node and an empty registry of capacity `MaxClusters`, whose options are the configured ones;
an option that is not set has its default (depth 4, sim_th 0.4, max_children 100,
max_clusters 1000, no extra delimiters), and `ParamStr = "<*>"`,
`ParametrizeNumericTokens = true`. -/
theorem NewDrain_spec (options : List optionFn) :
    ((∃ e, NewDrain options = .error e) ↔
      ((configured options).LogClusterDepth < 3 ∨ (configured options).MaxClusters ≤ 0)) ∧
    ((∃ d, NewDrain options = .ok d) ↔
      ¬ ((configured options).LogClusterDepth < 3 ∨ (configured options).MaxClusters ≤ 0)) ∧
    (∀ d, NewDrain options = .ok d →
      d.MaxNodeDepth = d.LogClusterDepth - 2 ∧ 1 ≤ d.MaxNodeDepth ∧ d.ClustersCounter = 0 ∧
      d.RootNode = NewNode ∧ d.GetClusters = [] ∧ d.IdToCluster.size = d.MaxClusters ∧
      d.LogClusterDepth = (configured options).LogClusterDepth ∧
      d.SimTh = (configured options).SimTh ∧
      d.MaxChildren = (configured options).MaxChildren ∧
      d.MaxClusters = (configured options).MaxClusters ∧
      d.ExtraDelimiters = (configured options).ExtraDelimiters ∧
      d.ParamStr = "<*>" ∧ d.ParametrizeNumericTokens = true) ∧
    ((options.any optionFn.isWithDepth = false → (configured options).LogClusterDepth = 4) ∧
      (options.any optionFn.isWithSimTh = false → (configured options).SimTh = 2 / 5) ∧
      (options.any optionFn.isWithMaxChildren = false → (configured options).MaxChildren = 100) ∧
      (options.any optionFn.isWithMaxCluster = false → (configured options).MaxClusters = 1000) ∧
      (options.any optionFn.isWithExtraDelimiter = false →
        (configured options).ExtraDelimiters = [])) := by
  have hfix := foldl_apply_fixed options defaultDrain
  have hunset := foldl_apply_unset options defaultDrain
  simp only at hfix hunset
  refine ⟨?_, ?_, ?_, hunset⟩
  · rw [NewDrain_eq]
    split_ifs with h1 h2
    · simp [h1]
    · simp [h2]
    · simp [h1, h2]
  · rw [NewDrain_eq]
    split_ifs with h1 h2
    · simp [h1]
    · simp [h2]
    · simp [h1, h2]
  · intro d hd
    obtain ⟨h3, h0, e⟩ := NewDrain_ok options d hd
    subst e
    obtain ⟨f1, f2, f3, f4, f5, f6⟩ := hfix
    refine ⟨rfl, ?_, f4, f3, rfl, rfl, rfl, rfl, rfl, rfl, rfl, f1, f2⟩
    show 1 ≤ (configured options).LogClusterDepth - 2
    omega

/-- Witness for C9: the default engine, an engine with options, and the two refusals. -/
theorem NewDrain_spec_witness :
    (NewDrain [] = .ok freshDrain ∧ freshDrain.MaxNodeDepth = 2 ∧ freshDrain.LogClusterDepth = 4 ∧
      freshDrain.MaxChildren = 100 ∧ freshDrain.MaxClusters = 1000 ∧ freshDrain.SimTh = 2 / 5) ∧
    NewDrain [optionFn.WithDepth 2] = .error Error.depth ∧
    NewDrain [optionFn.WithMaxCluster 0] = .error Error.lruCache ∧
    ((configured [optionFn.WithDepth 3, optionFn.WithMaxCluster 5]).LogClusterDepth = 3 ∧
      (configured [optionFn.WithDepth 3, optionFn.WithMaxCluster 5]).MaxClusters = 5) ∧
    ((∃ d, NewDrain [optionFn.WithDepth 3, optionFn.WithMaxCluster 5] = .ok d) ↔
      ¬ ((configured [optionFn.WithDepth 3, optionFn.WithMaxCluster 5]).LogClusterDepth < 3 ∨
        (configured [optionFn.WithDepth 3, optionFn.WithMaxCluster 5]).MaxClusters ≤ 0)) :=
  ⟨⟨rfl, rfl, rfl, rfl, rfl, rfl⟩, rfl, rfl, ⟨rfl, rfl⟩,
    (NewDrain_spec [optionFn.WithDepth 3, optionFn.WithMaxCluster 5]).2.1⟩

/-! ### `Match` -/

theorem Drain.Touched.fields {d d' : Drain} (h : d.Touched d') :
    d'.RootNode = d.RootNode ∧ d'.ClustersCounter = d.ClustersCounter ∧
      d'.ParamStr = d.ParamStr ∧ d'.MaxNodeDepth = d.MaxNodeDepth ∧ d'.SimTh = d.SimTh ∧
      d'.MaxChildren = d.MaxChildren ∧ d'.MaxClusters = d.MaxClusters ∧
      d'.ExtraDelimiters = d.ExtraDelimiters ∧
      d'.ParametrizeNumericTokens = d.ParametrizeNumericTokens ∧
      d'.LogClusterDepth = d.LogClusterDepth ∧
      d.IdToCluster.SameRecords d'.IdToCluster := by
  obtain ⟨cache, e, hs⟩ := h
  subst e
  exact ⟨rfl, rfl, rfl, rfl, rfl, rfl, rfl, rfl, rfl, rfl, hs⟩

theorem getSeqDistance_congr (d d' : Drain) (hp : d'.ParamStr = d.ParamStr)
    (seq1 seq2 : List String) (ip : Bool) :
    d'.getSeqDistance seq1 seq2 ip = d.getSeqDistance seq1 seq2 ip := by
  unfold Drain.getSeqDistance
  simp only [seqDistanceLoop_eq, hp]

theorem getClustersIdsForSeqLen_congr (d d' : Drain) (hr : d'.RootNode = d.RootNode) (n : Nat) :
    d'.getClustersIdsForSeqLen n = d.getClustersIdsForSeqLen n := by
  unfold Drain.getClustersIdsForSeqLen
  rw [hr]

theorem fullSearch_state (d : Drain) (tokens : List String) (simTh : ℚ) (d' : Drain)
    (h : (d.fullSearch tokens simTh).state? = some d') : d.Touched d' :=
  fastMatch_state _ _ _ _ _ _ h

theorem fullSearch_some (d : Drain) (tokens : List String) (d' : Drain) (c : LogCluster)
    (h : d.fullSearch tokens 1 = .ok d' (some c)) :
    d.IdToCluster.Peek c.ClusterId = some c ∧
      PerfectMatch d.ParamStr c.LogTemplateTokens tokens := by
  obtain ⟨_, h2, sim, pc, h3, h4⟩ := fastMatch_some _ _ _ _ _ _ _ h
  exact ⟨h2, getSeqDistance_perfect _ _ _ _ _ h3 h4⟩

theorem Match_state (d : Drain) (m : String) (s : SearchStrategy) (d' : Drain)
    (h : (d.Match m s).state? = some d') : d.Touched d' := by
  unfold Drain.Match at h
  simp only at h
  by_cases hs : s = SearchStrategy.Always
  · rw [if_pos hs] at h
    exact fullSearch_state _ _ _ _ h
  · rw [if_neg hs] at h
    cases heq : d.treeSearch d.RootNode (d.getContentAsTokens m) 1 true with
    | panic => rw [heq] at h; simp [Result.state?] at h
    | error d1 e =>
      rw [heq] at h
      simp only [Result.state?, Option.some.injEq] at h
      subst h
      exact treeSearch_state _ _ _ _ _ _ (by rw [heq]; rfl)
    | ok d1 r =>
      have ht : d.Touched d1 := treeSearch_state _ _ _ _ _ _ (by rw [heq]; rfl)
      rw [heq] at h
      cases r with
      | some c =>
        simp only [Result.state?, Option.some.injEq] at h
        subst h
        exact ht
      | none =>
        simp only at h
        by_cases hn : s = SearchStrategy.Never
        · rw [if_pos hn] at h
          simp only [Result.state?, Option.some.injEq] at h
          subst h
          exact ht
        · rw [if_neg hn] at h
          exact Drain.touched_trans ht (fullSearch_state _ _ _ _ h)

theorem getContentAsTokens_congr (d d' : Drain) (h : d'.ExtraDelimiters = d.ExtraDelimiters)
    (m : String) : d'.getContentAsTokens m = d.getContentAsTokens m := by
  unfold Drain.getContentAsTokens
  rw [h]

theorem Match_some (d : Drain) (m : String) (s : SearchStrategy) (d' : Drain) (c : LogCluster)
    (h : d.Match m s = .ok d' (some c)) :
    d.IdToCluster.Peek c.ClusterId = some c ∧
      PerfectMatch d.ParamStr c.LogTemplateTokens (d.getContentAsTokens m) := by
  have hne := getContentAsTokens_ne_nil d m
  unfold Drain.Match at h
  simp only at h
  by_cases hs : s = SearchStrategy.Always
  · rw [if_pos hs] at h
    exact fullSearch_some _ _ _ _ h
  · rw [if_neg hs] at h
    cases heq : d.treeSearch d.RootNode (d.getContentAsTokens m) 1 true with
    | panic => rw [heq] at h; cases h
    | error d1 e => rw [heq] at h; cases h
    | ok d1 r =>
      have ht : d.Touched d1 := treeSearch_state _ _ _ _ _ _ (by rw [heq]; rfl)
      rw [heq] at h
      cases r with
      | some c1 =>
        simp only [Result.ok.injEq, Option.some.injEq] at h
        obtain ⟨_, h2⟩ := h
        subst h2
        obtain ⟨h3, ⟨sim, pc, h4, h5⟩, _⟩ := treeSearch_some _ _ _ _ _ _ _ hne heq
        exact ⟨h3, getSeqDistance_perfect _ _ _ _ _ h4 h5⟩
      | none =>
        simp only at h
        obtain ⟨_, _, hp, _, _, _, _, _, _, _, hsame⟩ := ht.fields
        by_cases hn : s = SearchStrategy.Never
        · rw [if_pos hn] at h
          cases h
        · rw [if_neg hn] at h
          obtain ⟨h1, h2⟩ := fullSearch_some _ _ _ _ h
          rw [hsame.2.2] at h1
          rw [hp] at h2
          exact ⟨h1, h2⟩

theorem perfectMatch_iff (p : String) (template tokens : List String) :
    PerfectMatch p template tokens ↔
      template.length = tokens.length ∧
        ∀ (i : Nat) (t s : String), template[i]? = some t → tokens[i]? = some s →
          t = p ∨ t = s := by
  constructor
  · intro h
    induction h with
    | nil => simp
    | @cons a b t s hab _ ih =>
      refine ⟨by simp [ih.1], ?_⟩
      intro i x y hx hy
      cases i with
      | zero =>
        simp only [List.getElem?_cons_zero, Option.some.injEq] at hx hy
        subst hx hy
        exact hab
      | succ i =>
        simp only [List.getElem?_cons_succ] at hx hy
        exact ih.2 i x y hx hy
  · intro ⟨hlen, h⟩
    induction template generalizing tokens with
    | nil =>
      cases tokens with
      | nil => exact List.Forall₂.nil
      | cons b s => simp at hlen
    | cons a t ih =>
      cases tokens with
      | nil => simp at hlen
      | cons b s =>
        refine List.Forall₂.cons (h 0 a b (List.getElem?_cons_zero ..) (List.getElem?_cons_zero ..)) (ih s (by simpa using hlen) ?_)
        intro i x y hx hy
        exact h (i + 1) x y (by simpa using hx) (by simpa using hy)

theorem getSeqDistance_perfect_one (d : Drain) (seq1 seq2 : List String)
    (h : PerfectMatch d.ParamStr seq1 seq2) :
    ∃ pc, d.getSeqDistance seq1 seq2 true = .ok (1, pc) := by
  have hlen : seq1.length = seq2.length := List.Forall₂.length_eq h
  by_cases h0 : seq1.length = 0
  · refine ⟨0, ?_⟩
    unfold Drain.getSeqDistance
    simp [hlen, h0, hlen ▸ h0]
  · refine ⟨(wildcardCount d.ParamStr seq1 seq2 : Int), ?_⟩
    rw [getSeqDistance_params_eq d seq1 seq2 hlen h0, count_of_perfectMatch _ _ _ h]
    have hpos : (seq1.length : ℚ) ≠ 0 := by exact_mod_cast h0
    rw [div_self hpos]

/-- C4. For every engine state, message `m` and strategy: if `Match m strategy` returns a
cluster `c`, then `c` is live in the registry (before and after the call, under its own id),
its template has as many tokens as `m`, every position of the template is the wildcard marker
or equals the token of `m` at that position, and the similarity of the template with `m`
(`includeParams = true`) is exactly 1. -/
theorem Match_returns_perfect_match (d : Drain) (m : String) (s : SearchStrategy) (d' : Drain)
    (c : LogCluster) (h : d.Match m s = .ok d' (some c)) :
    d.IdToCluster.Peek c.ClusterId = some c ∧
    d'.IdToCluster.Peek c.ClusterId = some c ∧
    c ∈ d'.GetClusters ∧
    c.LogTemplateTokens.length = (d.getContentAsTokens m).length ∧
    (∀ (i : Nat) (t tok : String), c.LogTemplateTokens[i]? = some t →
      (d.getContentAsTokens m)[i]? = some tok → t = d.ParamStr ∨ t = tok) ∧
    ∃ paramCount, d.getSeqDistance c.LogTemplateTokens (d.getContentAsTokens m) true =
      .ok (1, paramCount) := by
  obtain ⟨h1, h2⟩ := Match_some d m s d' c h
  have ht : d.Touched d' := Match_state d m s d' (by rw [h]; rfl)
  have hsame := ht.fields.2.2.2.2.2.2.2.2.2.2
  have h1' : d'.IdToCluster.Peek c.ClusterId = some c := by rw [hsame.2.2]; exact h1
  refine ⟨h1, h1', ?_, ((perfectMatch_iff _ _ _).mp h2).1, ((perfectMatch_iff _ _ _).mp h2).2,
    getSeqDistance_perfect_one _ _ _ h2⟩
  unfold Drain.GetClusters Cache.Values
  exact List.mem_reverse.mpr (Cache.Peek_mem _ _ _ h1')

/-- Witness for C4: after "hello world 1" and "hello world 2" the engine matches
"hello world 9" (strategy `Never`) to the cluster with template `hello world <*>`. -/
theorem Match_returns_perfect_match_witness :
    helloDrain2.Match "hello world 9" SearchStrategy.Never =
        .ok helloDrain2 (some ⟨1, ["hello", "world", "<*>"], 2⟩) ∧
    (helloDrain2.IdToCluster.Peek 1 = some ⟨1, ["hello", "world", "<*>"], 2⟩ ∧
    helloDrain2.IdToCluster.Peek 1 = some ⟨1, ["hello", "world", "<*>"], 2⟩ ∧
    (⟨1, ["hello", "world", "<*>"], 2⟩ : LogCluster) ∈ helloDrain2.GetClusters ∧
    3 = (helloDrain2.getContentAsTokens "hello world 9").length ∧
    (∀ (i : Nat) (t tok : String), ["hello", "world", "<*>"][i]? = some t →
      (helloDrain2.getContentAsTokens "hello world 9")[i]? = some tok →
        t = helloDrain2.ParamStr ∨ t = tok) ∧
    ∃ paramCount, helloDrain2.getSeqDistance ["hello", "world", "<*>"]
      (helloDrain2.getContentAsTokens "hello world 9") true = .ok (1, paramCount)) :=
  ⟨by decide!,
    Match_returns_perfect_match helloDrain2 "hello world 9" SearchStrategy.Never helloDrain2
      ⟨1, ["hello", "world", "<*>"], 2⟩ (by decide!)⟩

/-- C5. For every engine state, message and strategy, the state `Match` leaves behind when it
returns (with a cluster, with nil or with an error) has the same prefix tree, the same
`ClustersCounter`, the same configuration, and a registry with the same capacity that holds
exactly the same records under the same ids (same templates and sizes): only the recency
order of the registry may differ. No cluster is created. -/
theorem Match_frame (d : Drain) (m : String) (s : SearchStrategy) (d' : Drain)
    (h : (d.Match m s).state? = some d') :
    d'.RootNode = d.RootNode ∧
    d'.ClustersCounter = d.ClustersCounter ∧
    (∀ key, d'.IdToCluster.Peek key = d.IdToCluster.Peek key) ∧
    d'.IdToCluster.items.Perm d.IdToCluster.items ∧
    d'.GetClusters.length = d.GetClusters.length ∧
    d'.IdToCluster.size = d.IdToCluster.size ∧
    (∀ n, d'.getClustersIdsForSeqLen n = d.getClustersIdsForSeqLen n) ∧
    (d'.LogClusterDepth = d.LogClusterDepth ∧ d'.MaxNodeDepth = d.MaxNodeDepth ∧
      d'.SimTh = d.SimTh ∧ d'.MaxChildren = d.MaxChildren ∧ d'.MaxClusters = d.MaxClusters ∧
      d'.ExtraDelimiters = d.ExtraDelimiters ∧ d'.ParamStr = d.ParamStr ∧
      d'.ParametrizeNumericTokens = d.ParametrizeNumericTokens) := by
  have ht := Match_state d m s d' h
  obtain ⟨f1, f2, f3, f4, f5, f6, f7, f8, f9, f10, hs⟩ := ht.fields
  refine ⟨f1, f2, hs.2.2, hs.2.1, ?_, hs.1, fun n => getClustersIdsForSeqLen_congr d d' f1 n,
    f10, f4, f5, f6, f7, f8, f3, f9⟩
  unfold Drain.GetClusters Cache.Values
  simp only [List.length_reverse]
  exact hs.2.1.length_eq

/-- Witness for C5: a match on an engine with two clusters; the matched cluster becomes the
most recently used one, nothing else changes. -/
theorem Match_frame_witness :
    ((twoDrain.Match "hello world 1" SearchStrategy.Never).state? = some twoDrainMatched ∧
      twoDrain.GetClusters = [⟨1, ["hello", "world", "1"], 1⟩, ⟨2, ["x", "y"], 1⟩] ∧
      twoDrainMatched.GetClusters = [⟨2, ["x", "y"], 1⟩, ⟨1, ["hello", "world", "1"], 1⟩]) ∧
    (twoDrainMatched.RootNode = twoDrain.RootNode ∧
    twoDrainMatched.ClustersCounter = twoDrain.ClustersCounter ∧
    (∀ key, twoDrainMatched.IdToCluster.Peek key = twoDrain.IdToCluster.Peek key) ∧
    twoDrainMatched.IdToCluster.items.Perm twoDrain.IdToCluster.items ∧
    twoDrainMatched.GetClusters.length = twoDrain.GetClusters.length ∧
    twoDrainMatched.IdToCluster.size = twoDrain.IdToCluster.size ∧
    (∀ n, twoDrainMatched.getClustersIdsForSeqLen n = twoDrain.getClustersIdsForSeqLen n) ∧
    (twoDrainMatched.LogClusterDepth = twoDrain.LogClusterDepth ∧
      twoDrainMatched.MaxNodeDepth = twoDrain.MaxNodeDepth ∧
      twoDrainMatched.SimTh = twoDrain.SimTh ∧
      twoDrainMatched.MaxChildren = twoDrain.MaxChildren ∧
      twoDrainMatched.MaxClusters = twoDrain.MaxClusters ∧
      twoDrainMatched.ExtraDelimiters = twoDrain.ExtraDelimiters ∧
      twoDrainMatched.ParamStr = twoDrain.ParamStr ∧
      twoDrainMatched.ParametrizeNumericTokens = twoDrain.ParametrizeNumericTokens)) :=
  ⟨by decide!,
    Match_frame twoDrain "hello world 1" SearchStrategy.Never twoDrainMatched (by decide!)⟩

/-! ### Child maps -/

theorem lookup_assignChild_self (children : List (String × Node)) (key : String) (child : Node) :
    (assignChild children key child).lookup key = some child := by
  induction children with
  | nil => simp [assignChild, List.lookup]
  | cons kn rest ih =>
    obtain ⟨k, n⟩ := kn
    unfold assignChild
    by_cases hk : k = key
    · rw [if_pos hk]; simp [List.lookup]
    · rw [if_neg hk, List.lookup_cons]
      have : (key == k) = false := by simpa using fun e => hk e.symm
      rw [this]
      exact ih

theorem lookup_assignChild_ne (children : List (String × Node)) (key : String) (child : Node)
    (key' : String) (h : key' ≠ key) :
    (assignChild children key child).lookup key' = children.lookup key' := by
  induction children with
  | nil =>
    have : (key' == key) = false := by simpa using h
    simp [assignChild, List.lookup, this]
  | cons kn rest ih =>
    obtain ⟨k, n⟩ := kn
    unfold assignChild
    by_cases hk : k = key
    · rw [if_pos hk]
      subst hk
      have : (key' == k) = false := by simpa using h
      simp [List.lookup, this]
    · rw [if_neg hk, List.lookup_cons, List.lookup_cons, ih]

theorem mem_assignChild (children : List (String × Node)) (key : String) (child : Node)
    (kn : String × Node) (h : kn ∈ assignChild children key child) :
    kn ∈ children ∨ kn = (key, child) := by
  induction children with
  | nil =>
    simp only [assignChild, List.mem_singleton] at h
    exact Or.inr h
  | cons a rest ih =>
    obtain ⟨k, n⟩ := a
    unfold assignChild at h
    by_cases hk : k = key
    · rw [if_pos hk] at h
      rcases List.mem_cons.mp h with h | h
      · exact Or.inr h
      · exact Or.inl (List.mem_cons_of_mem _ h)
    · rw [if_neg hk] at h
      rcases List.mem_cons.mp h with h | h
      · exact Or.inl (h ▸ List.mem_cons_self _ _)
      · rcases ih h with h | h
        · exact Or.inl (List.mem_cons_of_mem _ h)
        · exact Or.inr h

theorem length_assignChild (children : List (String × Node)) (key : String) (child : Node) :
    (assignChild children key child).length =
      if children.lookup key = none then children.length + 1 else children.length := by
  induction children with
  | nil => simp [assignChild, List.lookup]
  | cons a rest ih =>
    obtain ⟨k, n⟩ := a
    unfold assignChild
    by_cases hk : k = key
    · rw [if_pos hk]
      subst hk
      simp [List.lookup]
    · rw [if_neg hk, List.lookup_cons]
      have : (key == k) = false := by simpa using fun e => hk e.symm
      rw [this]
      simp only [List.length_cons, ih]
      split_ifs <;> rfl

theorem mem_appendClusterChildren_iff (children : List (String × Node)) (id : Int) :
    id ∈ appendClusterChildren children ↔
      ∃ kn, kn ∈ children ∧ id ∈ appendClusterRecursive kn.2 := by
  induction children with
  | nil => simp [appendClusterChildren]
  | cons a rest ih =>
    obtain ⟨k, n⟩ := a
    simp only [appendClusterChildren, List.mem_append, ih, List.mem_cons]
    constructor
    · rintro (h | ⟨kn, h1, h2⟩)
      · exact ⟨(k, n), Or.inl rfl, h⟩
      · exact ⟨kn, Or.inr h1, h2⟩
    · rintro ⟨kn, h1 | h1, h2⟩
      · subst h1; exact Or.inl h2
      · exact Or.inr ⟨kn, h1, h2⟩

theorem mem_appendCluster_mk (children : List (String × Node)) (ids : List Int) (id : Int) :
    id ∈ appendClusterRecursive (Node.mk children ids) ↔
      id ∈ ids ∨ ∃ kn, kn ∈ children ∧ id ∈ appendClusterRecursive kn.2 := by
  simp only [appendClusterRecursive, List.mem_append, mem_appendClusterChildren_iff]

theorem Node.mk_eta (node : Node) : Node.mk node.KeyToChildNode node.ClusterIds = node := by
  cases node; rfl

theorem mem_appendCluster_iff (node : Node) (id : Int) :
    id ∈ appendClusterRecursive node ↔
      id ∈ node.ClusterIds ∨ ∃ kn, kn ∈ node.KeyToChildNode ∧ id ∈ appendClusterRecursive kn.2 := by
  cases node with
  | mk children ids => exact mem_appendCluster_mk children ids id

/-- Every entry of the map after `m[key] = child` is `child` under `key`, or an entry of the
old map that is not the one `key` resolved to. -/
theorem mem_assignChild_old (children : List (String × Node)) (key : String) (child : Node)
    (kn : String × Node) (h : kn ∈ children) :
    kn ∈ assignChild children key child ∨ children.lookup key = some kn.2 := by
  induction children with
  | nil => cases h
  | cons a rest ih =>
    obtain ⟨k, n⟩ := a
    unfold assignChild
    by_cases hk : k = key
    · rw [if_pos hk]
      subst hk
      rcases List.mem_cons.mp h with h | h
      · subst h
        exact Or.inr (by simp [List.lookup])
      · exact Or.inl (List.mem_cons_of_mem _ h)
    · rw [if_neg hk, List.lookup_cons]
      have : (key == k) = false := by simpa using fun e => hk e.symm
      rw [this]
      rcases List.mem_cons.mp h with h | h
      · subst h
        exact Or.inl (List.mem_cons_self _ _)
      · rcases ih h with h | h
        · exact Or.inl (List.mem_cons_of_mem _ h)
        · exact Or.inr h

theorem mem_assignChild_self (children : List (String × Node)) (key : String) (child : Node) :
    (key, child) ∈ assignChild children key child :=
  mem_of_lookup _ _ _ (lookup_assignChild_self children key child)

/-! ### Grafting -/

theorem cleanStale_spec (ids : List Int) (cache : Cache) :
    cache.SameRecords (cleanStale ids cache).1 ∧
      ∀ id, id ∈ (cleanStale ids cache).2 ↔ id ∈ ids ∧ cache.Peek id ≠ none := by
  induction ids generalizing cache with
  | nil => simp [cleanStale, Cache.sameRecords_refl]
  | cons a ids ih =>
    have hget := Cache.Get_sameRecords cache a
    have hsnd := Cache.Get_snd cache a
    unfold cleanStale
    cases hg : cache.Get a with
    | mk c1 o =>
      rw [hg] at hget hsnd
      simp only at hsnd
      obtain ⟨h1, h2⟩ := ih c1
      cases o with
      | some v =>
        simp only
        refine ⟨Cache.sameRecords_trans hget h1, fun id => ?_⟩
        simp only [List.mem_cons, h2, hget.2.2]
        constructor
        · rintro (h | ⟨h, h'⟩)
          · subst h
            exact ⟨Or.inl rfl, by rw [← hsnd]; simp⟩
          · exact ⟨Or.inr h, h'⟩
        · rintro ⟨h | h, h'⟩
          · exact Or.inl h
          · exact Or.inr ⟨h, h'⟩
      | none =>
        simp only
        refine ⟨Cache.sameRecords_trans hget h1, fun id => ?_⟩
        simp only [List.mem_cons, h2, hget.2.2]
        constructor
        · rintro ⟨h, h'⟩
          exact ⟨Or.inr h, h'⟩
        · rintro ⟨h | h, h'⟩
          · subst h
            exact absurd hsnd.symm h'
          · exact ⟨h, h'⟩

theorem nextEdge_some (d : Drain) (node : Node) (token key : String) (child : Node)
    (h : nextEdge d node token = (key, some child)) :
    node.KeyToChildNode.lookup key = some child ∨
      (node.KeyToChildNode.lookup key = none ∧ child = NewNode) := by
  unfold nextEdge at h
  cases hc : node.KeyToChildNode.lookup token with
  | some c =>
    rw [hc] at h
    simp only [Prod.mk.injEq, Option.some.injEq] at h
    obtain ⟨h1, h2⟩ := h
    subst h1 h2
    exact Or.inl hc
  | none =>
    rw [hc] at h
    simp only at h
    cases hp : node.KeyToChildNode.lookup d.ParamStr with
    | none =>
      rw [hp] at h
      simp only at h
      by_cases hnum : (d.ParametrizeNumericTokens && hasNumbers token) = true
      · rw [if_pos hnum] at h
        simp only [Prod.mk.injEq, Option.some.injEq] at h
        obtain ⟨h1, h2⟩ := h
        subst h1 h2
        exact Or.inr ⟨hp, rfl⟩
      · rw [if_neg hnum] at h
        by_cases h1 : ((node.KeyToChildNode.length + 1 : Nat) : Int) < d.MaxChildren
        · rw [if_pos h1] at h
          simp only [Prod.mk.injEq, Option.some.injEq] at h
          obtain ⟨h2, h3⟩ := h
          subst h2 h3
          exact Or.inr ⟨hc, rfl⟩
        · rw [if_neg h1] at h
          by_cases h2 : ((node.KeyToChildNode.length + 1 : Nat) : Int) = d.MaxChildren
          · rw [if_pos h2] at h
            simp only [Prod.mk.injEq, Option.some.injEq] at h
            obtain ⟨h3, h4⟩ := h
            subst h3 h4
            exact Or.inr ⟨hp, rfl⟩
          · rw [if_neg h2] at h
            simp at h
    | some n =>
      rw [hp] at h
      simp only at h
      by_cases hnum : (d.ParametrizeNumericTokens && hasNumbers token) = true
      · rw [if_pos hnum] at h
        simp only [Prod.mk.injEq, Option.some.injEq] at h
        obtain ⟨h1, h2⟩ := h
        subst h1 h2
        exact Or.inl hp
      · rw [if_neg hnum] at h
        by_cases h1 : (node.KeyToChildNode.length : Int) < d.MaxChildren
        · rw [if_pos h1] at h
          simp only [Prod.mk.injEq, Option.some.injEq] at h
          obtain ⟨h2, h3⟩ := h
          subst h2 h3
          exact Or.inr ⟨hc, rfl⟩
        · rw [if_neg h1] at h
          simp only [Prod.mk.injEq, Option.some.injEq] at h
          obtain ⟨h2, h3⟩ := h
          subst h2 h3
          exact Or.inl hp

theorem appendCluster_NewNode (id : Int) : id ∉ appendClusterRecursive NewNode := by
  simp [NewNode, appendClusterRecursive, appendClusterChildren]

theorem addSeqLoop_none (d : Drain) (cluster : LogCluster) (n : Nat) (tokens : List String)
    (depth : Int) (cache : Cache) :
    addSeqLoop d cluster n tokens depth cache none =
      if tokens = [] then some (cache, none) else none := by
  cases tokens <;> simp [addSeqLoop]

theorem addSeqLoop_some (d : Drain) (cluster : LogCluster) (n : Nat) (tokens : List String)
    (depth : Int) (cache : Cache) (node : Node) (cache' : Cache) (res : Option Node)
    (h : addSeqLoop d cluster n tokens depth cache (some node) = some (cache', res)) :
    cache.SameRecords cache' ∧ ∃ node', res = some node' ∧
      (∀ id, id ∈ appendClusterRecursive node' →
        id ∈ appendClusterRecursive node ∨ id = cluster.ClusterId) ∧
      (∀ id, id ∈ appendClusterRecursive node → cache.Peek id ≠ none →
        id ∈ appendClusterRecursive node') ∧
      (tokens ≠ [] → depth + (tokens.length : Int) = (n : Int) + 1 →
        cluster.ClusterId ∈ appendClusterRecursive node') := by
  induction tokens generalizing depth cache node cache' res with
  | nil =>
    simp only [addSeqLoop, Option.some.injEq, Prod.mk.injEq] at h
    obtain ⟨h1, h2⟩ := h
    subst h1 h2
    exact ⟨Cache.sameRecords_refl _, node, rfl, fun id hid => Or.inl hid, fun id hid _ => hid,
      fun hne => absurd rfl hne⟩
  | cons token rest ih =>
    unfold addSeqLoop at h
    split_ifs at h with hleaf
    · obtain ⟨hs, hmem⟩ := cleanStale_spec node.ClusterIds cache
      simp only [Option.some.injEq, Prod.mk.injEq] at h
      obtain ⟨h1, h2⟩ := h
      subst h1 h2
      refine ⟨hs, _, rfl, ?_, ?_, ?_⟩
      · intro id hid
        rw [mem_appendCluster_mk] at hid
        rcases hid with hid | hid
        · rcases List.mem_append.mp hid with hid | hid
          · exact Or.inl (mem_appendCluster_self _ _ ((hmem id).mp hid).1)
          · exact Or.inr (by simpa using hid)
        · exact Or.inl ((mem_appendCluster_iff node id).mpr (Or.inr hid))
      · intro id hid hlive
        rw [mem_appendCluster_mk]
        rcases (mem_appendCluster_iff node id).mp hid with hid | hid
        · exact Or.inl (List.mem_append.mpr (Or.inl ((hmem id).mpr ⟨hid, hlive⟩)))
        · exact Or.inr hid
      · intro _ _
        rw [mem_appendCluster_mk]
        exact Or.inl (List.mem_append.mpr (Or.inr (List.mem_singleton.mpr rfl)))
    · cases hedge : nextEdge d node token with
      | mk key child =>
        rw [hedge] at h
        simp only at h
        cases child with
        | none =>
          rw [addSeqLoop_none] at h
          split_ifs at h with hrest
          simp only [Option.some.injEq, Prod.mk.injEq] at h
          obtain ⟨h1, h2⟩ := h
          subst h1 h2
          refine ⟨Cache.sameRecords_refl _, node, rfl, fun id hid => Or.inl hid,
            fun id hid _ => hid, ?_⟩
          intro _ hinv
          subst hrest
          simp only [List.length_singleton, Nat.cast_one, add_left_inj] at hinv
          exact absurd (Or.inr (le_of_eq hinv.symm)) hleaf
        | some child =>
          cases hrec : addSeqLoop d cluster n rest (depth + 1) cache (some child) with
          | none => rw [hrec] at h; cases h
          | some r =>
            obtain ⟨c2, res2⟩ := r
            obtain ⟨hs, child', hres, hsub, hkeep, hin⟩ := ih _ _ _ _ _ hrec
            subst hres
            rw [hrec] at h
            simp only [Option.some.injEq, Prod.mk.injEq] at h
            obtain ⟨h1, h2⟩ := h
            subst h1 h2
            have hchild := nextEdge_some d node token key child hedge
            refine ⟨hs, _, rfl, ?_, ?_, ?_⟩
            · intro id hid
              rw [mem_appendCluster_mk] at hid
              rcases hid with hid | ⟨kn, hkn, hid⟩
              · exact Or.inl (mem_appendCluster_self _ _ hid)
              · rcases mem_assignChild _ _ _ _ hkn with hkn | hkn
                · exact Or.inl ((mem_appendCluster_iff node id).mpr (Or.inr ⟨kn, hkn, hid⟩))
                · subst hkn
                  rcases hsub id hid with hid | hid
                  · rcases hchild with hc | ⟨_, hc⟩
                    · exact Or.inl (mem_appendCluster_of_child node key child hc id hid)
                    · subst hc
                      exact absurd hid (appendCluster_NewNode id)
                  · exact Or.inr hid
            · intro id hid hlive
              rw [mem_appendCluster_mk]
              rcases (mem_appendCluster_iff node id).mp hid with hid | ⟨kn, hkn, hid⟩
              · exact Or.inl hid
              · rcases mem_assignChild_old _ key child' _ hkn with hkn | hkn
                · exact Or.inr ⟨kn, hkn, hid⟩
                · rcases hchild with hc | ⟨hc, _⟩
                  · rw [hc] at hkn
                    injection hkn with hkn
                    subst hkn
                    exact Or.inr ⟨(key, child'), mem_assignChild_self _ _ _, hkeep id hid hlive⟩
                  · rw [hc] at hkn
                    cases hkn
            · intro _ hinv
              rw [mem_appendCluster_mk]
              refine Or.inr ⟨(key, child'), mem_assignChild_self _ _ _, hin ?_ ?_⟩
              · intro hrest
                subst hrest
                simp only [List.length_singleton, Nat.cast_one, add_left_inj] at hinv
                exact hleaf (Or.inr (le_of_eq hinv.symm))
              · simp only [List.length_cons, Nat.cast_add, Nat.cast_one] at hinv
                omega

theorem addSeqToPrefixTree_spec (d : Drain) (root : Node) (cluster : LogCluster) (d' : Drain)
    (hn : cluster.LogTemplateTokens ≠ [])
    (h : d.addSeqToPrefixTree root cluster = some d') :
    ∃ cache' newBucket,
      d' = { d with
        IdToCluster := cache'
        RootNode := Node.mk (assignChild root.KeyToChildNode
          (toString cluster.LogTemplateTokens.length) newBucket) root.ClusterIds } ∧
      d.IdToCluster.SameRecords cache' ∧
      (∀ id, id ∈ appendClusterRecursive newBucket → id = cluster.ClusterId ∨
        ∃ old, root.KeyToChildNode.lookup (toString cluster.LogTemplateTokens.length) = some old ∧
          id ∈ appendClusterRecursive old) ∧
      (∀ old, root.KeyToChildNode.lookup (toString cluster.LogTemplateTokens.length) = some old →
        ∀ id, id ∈ appendClusterRecursive old → d.IdToCluster.Peek id ≠ none →
          id ∈ appendClusterRecursive newBucket) ∧
      cluster.ClusterId ∈ appendClusterRecursive newBucket := by
  unfold Drain.addSeqToPrefixTree at h
  simp only at h
  have h0 : cluster.LogTemplateTokens.length ≠ 0 := fun e => hn (List.length_eq_zero.mp e)
  rw [if_neg h0] at h
  have main : ∀ first : Node,
      (root.KeyToChildNode.lookup (toString cluster.LogTemplateTokens.length) = some first ∨
        (root.KeyToChildNode.lookup (toString cluster.LogTemplateTokens.length) = none ∧
          first = NewNode)) →
      ∀ r, addSeqLoop d cluster cluster.LogTemplateTokens.length cluster.LogTemplateTokens 1
        d.IdToCluster (some first) = some r →
      ∃ newBucket, r.2 = some newBucket ∧ d.IdToCluster.SameRecords r.1 ∧
      (∀ id, id ∈ appendClusterRecursive newBucket → id = cluster.ClusterId ∨
        ∃ old, root.KeyToChildNode.lookup (toString cluster.LogTemplateTokens.length) = some old ∧
          id ∈ appendClusterRecursive old) ∧
      (∀ old, root.KeyToChildNode.lookup (toString cluster.LogTemplateTokens.length) = some old →
        ∀ id, id ∈ appendClusterRecursive old → d.IdToCluster.Peek id ≠ none →
          id ∈ appendClusterRecursive newBucket) ∧
      cluster.ClusterId ∈ appendClusterRecursive newBucket := by
    intro first hfirst r hloop
    obtain ⟨cache', res⟩ := r
    obtain ⟨hs, newBucket, hres, hsub, hkeep, hin⟩ := addSeqLoop_some _ _ _ _ _ _ _ _ _ hloop
    refine ⟨newBucket, hres, hs, ?_, ?_, hin hn (by omega)⟩
    · intro id hid
      rcases hsub id hid with hid | hid
      · rcases hfirst with hf | ⟨_, hf⟩
        · exact Or.inr ⟨_, hf, hid⟩
        · subst hf
          exact absurd hid (appendCluster_NewNode id)
      · exact Or.inl hid
    · intro old hold id hid hlive
      rcases hfirst with hf | ⟨hf, _⟩
      · rw [hf] at hold
        injection hold with hold
        subst hold
        exact hkeep id hid hlive
      · rw [hf] at hold
        cases hold
  cases hl : root.KeyToChildNode.lookup (toString cluster.LogTemplateTokens.length) with
  | none =>
    rw [hl] at h main
    simp only at h
    cases hloop : addSeqLoop d cluster cluster.LogTemplateTokens.length cluster.LogTemplateTokens 1
        d.IdToCluster (some NewNode) with
    | none => rw [hloop] at h; cases h
    | some r =>
      obtain ⟨newBucket, hres, hrest⟩ := main NewNode (Or.inr ⟨rfl, rfl⟩) r hloop
      obtain ⟨cache', res⟩ := r
      simp only at hres
      subst hres
      rw [hloop] at h
      simp only [Option.some.injEq] at h
      exact ⟨cache', newBucket, h.symm, hrest⟩
  | some old =>
    rw [hl] at h main
    simp only at h
    cases hloop : addSeqLoop d cluster cluster.LogTemplateTokens.length cluster.LogTemplateTokens 1
        d.IdToCluster (some old) with
    | none => rw [hloop] at h; cases h
    | some r =>
      obtain ⟨newBucket, hres, hrest⟩ := main old (Or.inl rfl) r hloop
      obtain ⟨cache', res⟩ := r
      simp only at hres
      subst hres
      rw [hloop] at h
      simp only [Option.some.injEq] at h
      exact ⟨cache', newBucket, h.symm, hrest⟩

/-- The two ways `AddLogMessage` returns normally: the hit path and the miss path. -/
theorem AddLogMessage_ok_cases (d : Drain) (m : String) (d' : Drain) (r : LogCluster)
    (u : ClusterUpdateType) (h : d.AddLogMessage m = .ok d' (r, u)) :
    (∃ d1 c, d.treeSearch d.RootNode (d.getContentAsTokens m) d.SimTh false = .ok d1 (some c) ∧
      d.Touched d1 ∧ d.IdToCluster.Peek c.ClusterId = some c ∧
      c.LogTemplateTokens.length = (d.getContentAsTokens m).length ∧
      r = { c with
        LogTemplateTokens :=
          mergeTemplate d.ParamStr c.LogTemplateTokens (d.getContentAsTokens m)
        Size := c.Size + 1 } ∧
      u = (if mergeTemplate d.ParamStr c.LogTemplateTokens (d.getContentAsTokens m) =
          c.LogTemplateTokens then ClusterUpdateType.None
        else ClusterUpdateType.TemplateChanged) ∧
      d' = { d1 with IdToCluster := ((d1.IdToCluster.store r).Get c.ClusterId).1 }) ∨
    (∃ d1, d.treeSearch d.RootNode (d.getContentAsTokens m) d.SimTh false = .ok d1 none ∧
      d.Touched d1 ∧ u = ClusterUpdateType.Created ∧
      r = NewLogCluster (d.ClustersCounter + 1) (d.getContentAsTokens m) ∧
      ({ d1 with
          ClustersCounter := d.ClustersCounter + 1
          IdToCluster := d1.IdToCluster.Add r } : Drain).addSeqToPrefixTree d1.RootNode r =
        some d') := by
  cases hts : d.treeSearch d.RootNode (d.getContentAsTokens m) d.SimTh false with
  | panic =>
    unfold Drain.AddLogMessage at h
    simp only [hts] at h
    cases h
  | error d1 e =>
    unfold Drain.AddLogMessage at h
    simp only [hts] at h
    cases h
  | ok d1 o =>
    have ht : d.Touched d1 := treeSearch_state _ _ _ _ _ _ (by rw [hts]; rfl)
    cases o with
    | some c =>
      obtain ⟨hlen, _, hpeek, heq⟩ := AddLogMessage_hit_eq d m d1 c hts
      rw [heq] at h
      simp only [Result.ok.injEq, Prod.mk.injEq] at h
      obtain ⟨h1, h2, h3⟩ := h
      exact Or.inl ⟨d1, c, rfl, ht, hpeek, hlen, h2.symm, h3.symm, by rw [← h1, ← h2]⟩
    | none =>
      have hc : d1.ClustersCounter = d.ClustersCounter := ht.fields.2.1
      unfold Drain.AddLogMessage at h
      simp only [hts] at h
      rw [hc] at h
      split at h
      · cases h
      · rename_i d2 hadd
        simp only [Result.ok.injEq, Prod.mk.injEq] at h
        obtain ⟨h1, h2, h3⟩ := h
        subst h1 h2 h3
        exact Or.inr ⟨d1, rfl, ht, rfl, rfl, hadd⟩

/-! ### Registry insertion -/

theorem find?_dropLast {α : Type} (p : α → Bool) (l : List α) (x : α)
    (h : l.dropLast.find? p = some x) : l.find? p = some x := by
  induction l with
  | nil => simp at h
  | cons a l ih =>
    cases l with
    | nil => simp at h
    | cons b l =>
      rw [List.dropLast_cons₂] at h
      by_cases hp : p a = true
      · rw [List.find?_cons_of_pos _ hp] at h ⊢
        exact h
      · rw [List.find?_cons_of_neg _ hp] at h ⊢
        exact ih h

theorem find?_cons_false {α : Type} (p : α → Bool) (a : α) (l : List α) (h : p a = false) :
    (a :: l).find? p = l.find? p := by
  simp [List.find?, h]

theorem Cache.Peek_Add_of_ne (c : Cache) (v : LogCluster) (key : Int) (x : LogCluster)
    (hne : key ≠ v.ClusterId) (h : (c.Add v).Peek key = some x) : c.Peek key = some x := by
  have hv : (fun (w : LogCluster) => w.ClusterId == key) v = false := by
    simpa using fun e => hne e.symm
  unfold Cache.Add at h
  cases hp : c.Peek v.ClusterId with
  | some w =>
    rw [hp] at h
    simp only [Cache.Peek] at h ⊢
    rw [find?_cons_false _ v _ hv] at h
    rw [find?_eraseP_of_disjoint] at h
    · exact h
    · intro y hy
      simp only [beq_iff_eq] at hy
      simp only [hy, beq_eq_false_iff_ne, ne_eq]
      exact fun e => hne e.symm
  | none =>
    rw [hp] at h
    simp only at h
    split_ifs at h
    · have := find?_dropLast _ _ _ h
      rw [find?_cons_false _ v _ hv] at this
      exact this
    · simp only [Cache.Peek] at h ⊢
      rw [find?_cons_false _ v _ hv] at h
      exact h

theorem Cache.Peek_Add_self (c : Cache) (v : LogCluster) (hsize : 1 ≤ c.size) :
    (c.Add v).Peek v.ClusterId = some v := by
  unfold Cache.Add
  cases hp : c.Peek v.ClusterId with
  | some w => simp [Cache.Peek]
  | none =>
    simp only
    split_ifs with hover
    · cases hi : c.items with
      | nil =>
        rw [hi] at hover
        simp at hover
        omega
      | cons b l => simp [Cache.Peek, List.dropLast_cons₂]
    · simp [Cache.Peek]

theorem Cache.Add_size (c : Cache) (v : LogCluster) : (c.Add v).size = c.size := by
  unfold Cache.Add
  cases hp : c.Peek v.ClusterId with
  | some w => rfl
  | none => simp only; split_ifs <;> rfl

theorem Cache.mem_Add (c : Cache) (v x : LogCluster) (h : x ∈ (c.Add v).items) :
    x = v ∨ x ∈ c.items := by
  unfold Cache.Add at h
  cases hp : c.Peek v.ClusterId with
  | some w =>
    rw [hp] at h
    rcases List.mem_cons.mp h with h | h
    · exact Or.inl h
    · exact Or.inr (List.mem_of_mem_eraseP h)
  | none =>
    rw [hp] at h
    simp only at h
    split_ifs at h
    · exact List.mem_cons.mp (List.mem_of_mem_dropLast h)
    · exact List.mem_cons.mp h

/-! ### Templates only generalise -/

theorem mergeTemplate_getElem? (p : String) (t s : List String) (hlen : t.length = s.length)
    (i : Nat) (x : String) (hx : t[i]? = some x) :
    (mergeTemplate p t s)[i]? = some x ∨ (mergeTemplate p t s)[i]? = some p := by
  induction t generalizing s i with
  | nil => simp at hx
  | cons a t ih =>
    cases s with
    | nil => simp at hlen
    | cons b s =>
      cases i with
      | zero =>
        simp only [List.getElem?_cons_zero, Option.some.injEq] at hx
        subst hx
        simp only [mergeTemplate, List.zipWith_cons_cons, List.getElem?_cons_zero,
          Option.some.injEq]
        by_cases hab : a = b
        · exact Or.inl (if_pos hab)
        · exact Or.inr (if_neg hab)
      | succ i =>
        simp only [List.getElem?_cons_succ] at hx
        simp only [mergeTemplate, List.zipWith_cons_cons, List.getElem?_cons_succ]
        exact ih s (by simpa using hlen) i hx

theorem AddLogMessage_records (d : Drain) (m : String) (d' : Drain) (r : LogCluster)
    (u : ClusterUpdateType) (h : d.AddLogMessage m = .ok d' (r, u))
    (key : Int) (c c' : LogCluster)
    (hc : d.IdToCluster.Peek key = some c) (hc' : d'.IdToCluster.Peek key = some c')
    (hsame : ¬ (u = ClusterUpdateType.Created ∧ key = r.ClusterId)) :
    c' = c ∨ (u ≠ ClusterUpdateType.Created ∧ c' = r ∧ key = r.ClusterId ∧
      c.LogTemplateTokens.length = (d.getContentAsTokens m).length ∧
      r = { c with
        LogTemplateTokens :=
          mergeTemplate d.ParamStr c.LogTemplateTokens (d.getContentAsTokens m)
        Size := c.Size + 1 }) := by
  rcases AddLogMessage_ok_cases d m d' r u h with
    ⟨d1, c0, _, ht, hpeek, hlen, hr, hu, hd'⟩ | ⟨d1, _, ht, hu, hr, hadd⟩
  · have hs := ht.fields.2.2.2.2.2.2.2.2.2.2
    subst hd'
    simp only at hc'
    rw [(Cache.Get_sameRecords _ _).2.2, Cache.Peek_store, hs.2.2] at hc'
    have hrid : r.ClusterId = c0.ClusterId := by rw [hr]
    by_cases hk : key = r.ClusterId
    · rw [if_pos hk, hc] at hc'
      simp only [Option.map_some', Option.some.injEq] at hc'
      have hcc : c = c0 := by
        rw [hk, hrid, hpeek] at hc
        injection hc with hc
        exact hc.symm
      subst hcc
      refine Or.inr ⟨?_, hc'.symm, hk, hlen, hr⟩
      rw [hu]
      split_ifs <;> simp
    · rw [if_neg hk, hc] at hc'
      injection hc' with hc'
      exact Or.inl hc'.symm
  · left
    have hs := ht.fields.2.2.2.2.2.2.2.2.2.2
    have hrne : r.LogTemplateTokens ≠ [] := by
      rw [hr]
      exact getContentAsTokens_ne_nil d m
    obtain ⟨cache', newBucket, hd', hs', _⟩ := addSeqToPrefixTree_spec _ _ _ _ hrne hadd
    subst hd'
    simp only at hc' hs'
    rw [hs'.2.2] at hc'
    have hk : key ≠ r.ClusterId := fun e => hsame ⟨hu, e⟩
    have := Cache.Peek_Add_of_ne _ _ _ _ hk hc'
    rw [hs.2.2, hc] at this
    injection this with this
    exact this.symm

/-- C7. For every engine state, every message `m` and every cluster that is live (under `key`)
both before and after `AddLogMessage m` returns, and is not the cluster this call created:
its `ClusterId` and the length of its template are unchanged, and every position of its
template holds after the call either the token it held before or the wildcard marker; in
particular a position that held the wildcard marker still holds it. -/
theorem AddLogMessage_template_generalises (d : Drain) (m : String) (d' : Drain)
    (r : LogCluster) (u : ClusterUpdateType) (h : d.AddLogMessage m = .ok d' (r, u))
    (key : Int) (c c' : LogCluster)
    (hc : d.IdToCluster.Peek key = some c) (hc' : d'.IdToCluster.Peek key = some c')
    (hsame : ¬ (u = ClusterUpdateType.Created ∧ key = r.ClusterId)) :
    c'.ClusterId = c.ClusterId ∧
    c'.LogTemplateTokens.length = c.LogTemplateTokens.length ∧
    (∀ (i : Nat) (t : String), c.LogTemplateTokens[i]? = some t →
      c'.LogTemplateTokens[i]? = some t ∨ c'.LogTemplateTokens[i]? = some d.ParamStr) ∧
    (∀ (i : Nat), c.LogTemplateTokens[i]? = some d.ParamStr →
      c'.LogTemplateTokens[i]? = some d.ParamStr) := by
  have key_fact : c'.ClusterId = c.ClusterId ∧
      c'.LogTemplateTokens.length = c.LogTemplateTokens.length ∧
      (∀ (i : Nat) (t : String), c.LogTemplateTokens[i]? = some t →
        c'.LogTemplateTokens[i]? = some t ∨ c'.LogTemplateTokens[i]? = some d.ParamStr) := by
    rcases AddLogMessage_records d m d' r u h key c c' hc hc' hsame with
      e | ⟨_, e, _, hlen, hr⟩
    · subst e
      exact ⟨rfl, rfl, fun i t ht => Or.inl ht⟩
    · subst e
      rw [hr]
      exact ⟨rfl, mergeTemplate_length _ _ _ hlen,
        fun i t ht => mergeTemplate_getElem? _ _ _ hlen i t ht⟩
  refine ⟨key_fact.1, key_fact.2.1, key_fact.2.2, fun i hi => ?_⟩
  rcases key_fact.2.2 i _ hi with h1 | h1 <;> exact h1

/-- Witness for C7: the cluster `a b c d <*>` absorbs "a b c x 3" and becomes
`a b c <*> <*>`; the wildcard position stays, one more position is generalised. -/
theorem AddLogMessage_template_generalises_witness :
    (abcDrain.AddLogMessage "a b c x 3" =
        .ok abcDrainNext (⟨1, ["a", "b", "c", "<*>", "<*>"], 3⟩,
          ClusterUpdateType.TemplateChanged) ∧
      abcDrain.IdToCluster.Peek 1 = some ⟨1, ["a", "b", "c", "d", "<*>"], 2⟩ ∧
      abcDrainNext.IdToCluster.Peek 1 = some ⟨1, ["a", "b", "c", "<*>", "<*>"], 3⟩ ∧
      ¬ (ClusterUpdateType.TemplateChanged = ClusterUpdateType.Created ∧ (1 : Int) = 1)) ∧
    ((1 : Int) = 1 ∧
    ["a", "b", "c", "<*>", "<*>"].length = ["a", "b", "c", "d", "<*>"].length ∧
    (∀ (i : Nat) (t : String), ["a", "b", "c", "d", "<*>"][i]? = some t →
      ["a", "b", "c", "<*>", "<*>"][i]? = some t ∨
        ["a", "b", "c", "<*>", "<*>"][i]? = some abcDrain.ParamStr) ∧
    (∀ (i : Nat), ["a", "b", "c", "d", "<*>"][i]? = some abcDrain.ParamStr →
      ["a", "b", "c", "<*>", "<*>"][i]? = some abcDrain.ParamStr)) :=
  ⟨by decide!,
    AddLogMessage_template_generalises abcDrain "a b c x 3" abcDrainNext
      ⟨1, ["a", "b", "c", "<*>", "<*>"], 3⟩ ClusterUpdateType.TemplateChanged (by decide!)
      1 ⟨1, ["a", "b", "c", "d", "<*>"], 2⟩ ⟨1, ["a", "b", "c", "<*>", "<*>"], 3⟩
      (by decide!) (by decide!) (by decide)⟩

/-- C3 (the code at the failing inputs). In a bucket that exists, a first token that is not a
child key makes `treeSearch` panic (nil dereference on line 193), whether the bucket has a
wildcard child or not: it neither descends into the wildcard child nor returns "no match",
and `AddLogMessage` creates no cluster. -/
theorem treeSearch_panics_on_missing_child :
    (freshDrain.AddLogMessage "hello world 1" =
        .ok helloDrain1 (⟨1, ["hello", "world", "1"], 1⟩, ClusterUpdateType.Created) ∧
      (helloDrain1.RootNode.KeyToChildNode.lookup "3").isSome = true ∧
      helloDrain1.treeSearch helloDrain1.RootNode ["foo", "bar", "baz"] helloDrain1.SimTh false =
        .panic ∧
      helloDrain1.AddLogMessage "foo bar baz" = .panic) ∧
    (freshDrain.AddLogMessage "100 req ok" =
        .ok reqDrain (⟨1, ["100", "req", "ok"], 1⟩, ClusterUpdateType.Created) ∧
      reqDrain.RootNode = Node.mk [("3", Node.mk [("<*>", Node.mk [] [1])] [])] [] ∧
      reqDrain.treeSearch reqDrain.RootNode ["200", "req", "ok"] reqDrain.SimTh false = .panic ∧
      reqDrain.AddLogMessage "200 req ok" = .panic ∧
      reqDrain.Match "200 req ok" SearchStrategy.Never = .panic) := by
  decide!

/-! ### Bucket keys: `fmt.Sprint` of a token count is injective -/

theorem digitChar_toNat (k : Nat) (h : k < 10) : (Nat.digitChar k).toNat - 48 = k := by
  interval_cases k <;> rfl

theorem digitsValue_toDigitsCore (fuel n : Nat) (ds : List Char) (h : n < fuel) :
    digitsValue 0 (Nat.toDigitsCore 10 fuel n ds) = digitsValue n ds := by
  induction fuel generalizing n ds with
  | zero => omega
  | succ fuel ih =>
    unfold Nat.toDigitsCore
    simp only
    split_ifs with h0
    · have hn : n < 10 := by omega
      simp only [digitsValue, List.foldl_cons, Nat.mul_zero, Nat.zero_add]
      rw [digitChar_toNat _ (Nat.mod_lt _ (by decide)), Nat.mod_eq_of_lt hn]
    · have hlt : n / 10 < fuel := by omega
      rw [ih (n / 10) _ hlt]
      simp only [digitsValue, List.foldl_cons]
      rw [digitChar_toNat _ (Nat.mod_lt _ (by decide))]
      congr 1
      omega

theorem toString_nat_injective (a b : Nat) (h : toString a = toString b) : a = b := by
  have h1 : (Nat.toDigits 10 a) = (Nat.toDigits 10 b) := by
    have : (toString a).data = (toString b).data := by rw [h]
    simpa [toString, Nat.repr, List.asString] using this
  have ha := digitsValue_toDigitsCore (a + 1) a [] (by omega)
  have hb := digitsValue_toDigitsCore (b + 1) b [] (by omega)
  unfold Nat.toDigits at h1
  rw [h1] at ha
  rw [ha] at hb
  simpa [digitsValue] using hb

theorem consistent_fresh (options : List optionFn) (d : Drain) (h : NewDrain options = .ok d) :
    Consistent d := by
  obtain ⟨_, h0, e⟩ := NewDrain_ok options d h
  have hfix := foldl_apply_fixed options defaultDrain
  simp only at hfix
  have hroot : (configured options).RootNode = NewNode := hfix.2.2.1
  subst e
  refine ⟨?_, rfl, ?_, ?_, ?_, ?_, ?_⟩
  · show 1 ≤ (configured options).MaxClusters
    omega
  · show ((0 : Nat) : Int) ≤ (configured options).MaxClusters
    simp only [Nat.cast_zero]
    omega
  · intro c hc
    cases hc
  · intro kn hkn
    simp only [hroot, NewNode, Node.KeyToChildNode] at hkn
    cases hkn
  · intro kn hkn
    simp only [hroot, NewNode, Node.KeyToChildNode] at hkn
    cases hkn
  · intro key c hc
    simp [Cache.Peek] at hc

theorem consistent_touched (d d' : Drain) (ht : d.Touched d') (h : Consistent d) :
    Consistent d' := by
  obtain ⟨f1, f2, _, _, _, _, f7, _, _, _, hs⟩ := ht.fields
  refine ⟨?_, ?_, ?_, ?_, ?_, ?_, ?_⟩
  · rw [hs.1]; exact h.size_pos
  · rw [hs.1, f7]; exact h.size_eq
  · rw [hs.1, hs.2.1.length_eq]; exact h.length_le
  · intro c hc
    rw [f2]
    exact h.registry_le c (hs.2.1.mem_iff.mp hc)
  · intro kn hkn id hid
    rw [f1] at hkn
    rw [f2]
    exact h.tree_le kn hkn id hid
  · intro kn hkn id hid c hc
    rw [f1] at hkn
    rw [hs.2.2] at hc
    exact h.bucket_length kn hkn id hid c hc
  · intro key c hc
    rw [hs.2.2] at hc
    rw [f1]
    exact h.grafted key c hc

theorem AddLogMessage_error_touched (d : Drain) (m : String) (d' : Drain) (e : Error)
    (h : d.AddLogMessage m = .error d' e) : d.Touched d' := by
  cases hts : d.treeSearch d.RootNode (d.getContentAsTokens m) d.SimTh false with
  | panic =>
    unfold Drain.AddLogMessage at h
    simp only [hts] at h
    cases h
  | error d1 e1 =>
    have ht : d.Touched d1 := treeSearch_state _ _ _ _ _ _ (by rw [hts]; rfl)
    unfold Drain.AddLogMessage at h
    simp only [hts] at h
    injection h with h1 _
    subst h1
    exact ht
  | ok d1 o =>
    cases o with
    | some c =>
      obtain ⟨_, _, _, heq⟩ := AddLogMessage_hit_eq d m d1 c hts
      rw [heq] at h
      cases h
    | none =>
      unfold Drain.AddLogMessage at h
      simp only [hts] at h
      split at h <;> cases h

theorem length_eraseP_of_find? {α : Type} (p : α → Bool) (l : List α) (v : α)
    (h : l.find? p = some v) : (l.eraseP p).length + 1 = l.length := by
  have := (perm_cons_eraseP_of_find? p l v h).length_eq
  simpa using this

theorem Cache.Add_length (c : Cache) (v : LogCluster) (hle : (c.items.length : Int) ≤ c.size) :
    ((c.Add v).items.length : Int) =
      if c.Peek v.ClusterId = none then min ((c.items.length : Int) + 1) c.size
      else (c.items.length : Int) := by
  unfold Cache.Add
  cases hp : c.Peek v.ClusterId with
  | some w =>
    have := length_eraseP_of_find? _ _ _ hp
    simp only [List.length_cons, reduceCtorEq, if_false]
    omega
  | none =>
    simp only [if_true]
    split_ifs with hover
    · simp only [List.length_dropLast, List.length_cons, add_tsub_cancel_right]
      simp only [List.length_cons, Nat.cast_add, Nat.cast_one] at hover
      omega
    · simp only [List.length_cons, Nat.cast_add, Nat.cast_one] at hover ⊢
      omega

theorem Cache.mem_store (c : Cache) (v x : LogCluster) (h : x ∈ (c.store v).items) :
    x = v ∨ x ∈ c.items := by
  unfold Cache.store at h
  simp only [List.mem_map] at h
  obtain ⟨w, hw, e⟩ := h
  split_ifs at e
  · exact Or.inl e.symm
  · exact Or.inr (e ▸ hw)

theorem consistent_hit (d1 : Drain) (c r : LogCluster) (h : Consistent d1)
    (hpeek : d1.IdToCluster.Peek c.ClusterId = some c) (hid : r.ClusterId = c.ClusterId)
    (hlen : r.LogTemplateTokens.length = c.LogTemplateTokens.length) :
    Consistent { d1 with IdToCluster := ((d1.IdToCluster.store r).Get c.ClusterId).1 } := by
  have hs := Cache.Get_sameRecords (d1.IdToCluster.store r) c.ClusterId
  have hpk : ∀ key c', ((d1.IdToCluster.store r).Get c.ClusterId).1.Peek key = some c' →
      ∃ c0, d1.IdToCluster.Peek key = some c0 ∧
        c'.LogTemplateTokens.length = c0.LogTemplateTokens.length := by
    intro key c' hc'
    rw [hs.2.2, Cache.Peek_store] at hc'
    by_cases hk : key = r.ClusterId
    · rw [if_pos hk] at hc'
      rw [hk, hid, hpeek] at hc'
      simp only [Option.map_some', Option.some.injEq] at hc'
      subst hc'
      exact ⟨c, by rw [hk, hid]; exact hpeek, hlen⟩
    · rw [if_neg hk] at hc'
      exact ⟨c', hc', rfl⟩
  refine ⟨?_, ?_, ?_, ?_, ?_, ?_, ?_⟩
  · show 1 ≤ ((d1.IdToCluster.store r).Get c.ClusterId).1.size
    rw [hs.1]; exact h.size_pos
  · show ((d1.IdToCluster.store r).Get c.ClusterId).1.size = d1.MaxClusters
    rw [hs.1]; exact h.size_eq
  · show ((((d1.IdToCluster.store r).Get c.ClusterId).1.items.length : Nat) : Int) ≤
      ((d1.IdToCluster.store r).Get c.ClusterId).1.size
    rw [hs.1, hs.2.1.length_eq, Cache.store_length]
    exact h.length_le
  · intro x hx
    have hx' : x ∈ (d1.IdToCluster.store r).items := hs.2.1.mem_iff.mp hx
    rcases Cache.mem_store _ _ _ hx' with e | hx''
    · subst e
      show x.ClusterId ≤ d1.ClustersCounter
      rw [hid]
      exact h.registry_le c (Cache.Peek_mem _ _ _ hpeek)
    · exact h.registry_le x hx''
  · exact h.tree_le
  · intro kn hkn id hid' c' hc'
    obtain ⟨c0, h0, hl⟩ := hpk id c' hc'
    rw [hl]
    exact h.bucket_length kn hkn id hid' c0 h0
  · intro key c' hc'
    obtain ⟨c0, h0, hl⟩ := hpk key c' hc'
    rw [hl]
    exact h.grafted key c0 h0

theorem consistent_miss (d1 : Drain) (r : LogCluster) (d' : Drain) (h : Consistent d1)
    (hid : r.ClusterId = d1.ClustersCounter + 1) (hne : r.LogTemplateTokens ≠ [])
    (hadd : ({ d1 with
        ClustersCounter := d1.ClustersCounter + 1
        IdToCluster := d1.IdToCluster.Add r } : Drain).addSeqToPrefixTree d1.RootNode r =
      some d') :
    Consistent d' := by
  obtain ⟨cache', nb, hd', hs, hsub, hkeep, hin⟩ := addSeqToPrefixTree_spec _ _ _ _ hne hadd
  simp only at hs hkeep
  subst hd'
  have hpk : ∀ key c, cache'.Peek key = some c →
      (key = r.ClusterId ∧ c = r) ∨ (key ≠ r.ClusterId ∧ d1.IdToCluster.Peek key = some c) := by
    intro key c hc
    rw [hs.2.2] at hc
    by_cases hk : key = r.ClusterId
    · rw [hk, Cache.Peek_Add_self _ _ h.size_pos] at hc
      injection hc with hc
      exact Or.inl ⟨hk, hc.symm⟩
    · exact Or.inr ⟨hk, Cache.Peek_Add_of_ne _ _ _ _ hk hc⟩
  refine ⟨?_, ?_, ?_, ?_, ?_, ?_, ?_⟩
  · show 1 ≤ cache'.size
    rw [hs.1, Cache.Add_size]; exact h.size_pos
  · show cache'.size = d1.MaxClusters
    rw [hs.1, Cache.Add_size]; exact h.size_eq
  · show ((cache'.items.length : Nat) : Int) ≤ cache'.size
    rw [hs.1, hs.2.1.length_eq, Cache.Add_size, Cache.Add_length _ _ h.length_le]
    have := h.length_le
    split_ifs <;> omega
  · intro x hx
    show x.ClusterId ≤ d1.ClustersCounter + 1
    rcases Cache.mem_Add _ _ _ (hs.2.1.mem_iff.mp hx) with e | hx'
    · subst e; omega
    · have := h.registry_le x hx'
      omega
  · intro kn hkn id hid'
    show id ≤ d1.ClustersCounter + 1
    rcases mem_assignChild _ _ _ _ hkn with hkn | e
    · have := h.tree_le kn hkn id hid'
      omega
    · subst e
      rcases hsub id hid' with e | ⟨old, hold, hid''⟩
      · omega
      · have := h.tree_le _ (mem_of_lookup _ _ _ hold) id hid''
        omega
  · intro kn hkn id hid' c hc
    rcases hpk id c hc with ⟨hk, e⟩ | ⟨hk, hc1⟩
    · subst e
      rcases mem_assignChild _ _ _ _ hkn with hkn | e
      · have := h.tree_le kn hkn id hid'
        omega
      · subst e; rfl
    · rcases mem_assignChild _ _ _ _ hkn with hkn | e
      · exact h.bucket_length kn hkn id hid' c hc1
      · subst e
        rcases hsub id hid' with e | ⟨old, hold, hid''⟩
        · exact absurd e hk
        · exact h.bucket_length _ (mem_of_lookup _ _ _ hold) id hid'' c hc1
  · intro key c hc
    show ∃ bucket, (assignChild d1.RootNode.KeyToChildNode
      (toString r.LogTemplateTokens.length) nb).lookup (toString c.LogTemplateTokens.length) =
        some bucket ∧ key ∈ appendClusterRecursive bucket
    rcases hpk key c hc with ⟨hk, e⟩ | ⟨hk, hc1⟩
    · subst e hk
      exact ⟨nb, lookup_assignChild_self _ _ _, hin⟩
    · obtain ⟨b, hb, hkb⟩ := h.grafted key c hc1
      by_cases hkey : toString c.LogTemplateTokens.length = toString r.LogTemplateTokens.length
      · rw [hkey] at hb ⊢
        refine ⟨nb, lookup_assignChild_self _ _ _, hkeep b hb key hkb ?_⟩
        rw [← hs.2.2, hc]
        simp
      · rw [lookup_assignChild_ne _ _ _ _ hkey]
        exact ⟨b, hb, hkb⟩

theorem consistent_add (d : Drain) (m : String) (d' : Drain) (r : LogCluster × ClusterUpdateType)
    (h : Consistent d) (hadd : d.AddLogMessage m = .ok d' r) : Consistent d' := by
  obtain ⟨r, u⟩ := r
  rcases AddLogMessage_ok_cases d m d' r u hadd with
    ⟨d1, c0, _, ht, hpeek, hlen, hr, _, hd'⟩ | ⟨d1, _, ht, _, hr, hgraft⟩
  · have h1 := consistent_touched d d1 ht h
    have hs := ht.fields.2.2.2.2.2.2.2.2.2.2
    rw [hd']
    refine consistent_hit d1 c0 r h1 (by rw [hs.2.2]; exact hpeek) (by rw [hr]) ?_
    rw [hr]
    exact mergeTemplate_length _ _ _ hlen
  · have h1 := consistent_touched d d1 ht h
    have hc : d1.ClustersCounter = d.ClustersCounter := ht.fields.2.1
    rw [← hc] at hgraft
    refine consistent_miss d1 r d' h1 (by rw [hr, hc]; rfl) ?_ hgraft
    rw [hr]
    exact getContentAsTokens_ne_nil d m

theorem consistent_of_reachable (d : Drain) (h : Reachable d) : Consistent d := by
  induction h with
  | fresh options d h0 => exact consistent_fresh options d h0
  | add d m d' r _ hadd ih => exact consistent_add d m d' r ih hadd
  | addError d m d' e _ herr ih =>
    exact consistent_touched d d' (AddLogMessage_error_touched d m d' e herr) ih

theorem AddLogMessage_error_cases (d : Drain) (m : String) (d' : Drain) (e : Error)
    (h : d.AddLogMessage m = .error d' e) :
    d.treeSearch d.RootNode (d.getContentAsTokens m) d.SimTh false = .error d' e := by
  cases hts : d.treeSearch d.RootNode (d.getContentAsTokens m) d.SimTh false with
  | panic =>
    unfold Drain.AddLogMessage at h
    simp only [hts] at h
    cases h
  | error d1 e1 =>
    unfold Drain.AddLogMessage at h
    simp only [hts] at h
    injection h with h1 h2
    subst h1 h2
    rfl
  | ok d1 o =>
    cases o with
    | some c =>
      obtain ⟨_, _, _, heq⟩ := AddLogMessage_hit_eq d m d1 c hts
      rw [heq] at h
      cases h
    | none =>
      unfold Drain.AddLogMessage at h
      simp only [hts] at h
      split at h <;> cases h

theorem AddLogMessage_ne_error (d : Drain) (hc : Consistent d) (m : String) (d' : Drain)
    (e : Error) : d.AddLogMessage m ≠ .error d' e := by
  intro h
  obtain ⟨c, bucket, hb, hmem, hpeek, _, hne⟩ :=
    treeSearch_error _ _ _ _ _ _ _ (AddLogMessage_error_cases d m d' e h)
  have := hc.bucket_length _ (mem_of_lookup _ _ _ hb) _ hmem c hpeek
  exact hne (toString_nat_injective _ _ this)

theorem AddLogMessage_ok_length (d : Drain) (m : String) (d' : Drain) (r : LogCluster)
    (u : ClusterUpdateType) (h : d.AddLogMessage m = .ok d' (r, u)) :
    r.LogTemplateTokens.length = (d.getContentAsTokens m).length := by
  rcases AddLogMessage_ok_cases d m d' r u h with
    ⟨d1, c0, _, _, _, hlen, hr, _, _⟩ | ⟨d1, _, _, _, hr, _⟩
  · rw [hr]
    simp only
    rw [mergeTemplate_length _ _ _ hlen, hlen]
  · rw [hr]
    rfl

/-! ### Completeness of candidate scoring -/

theorem fastMatchLoop_complete (d : Drain) (tokens : List String) (ip : Bool) (ids : List Int)
    (cache : Cache) (ms : ℚ) (mpc : Int) (mc : Option LogCluster)
    (hlen : ∀ id, id ∈ ids → ∀ c, cache.Peek id = some c →
      c.LogTemplateTokens.length = tokens.length) :
    ∃ cache' s r, fastMatchLoop d tokens ip ids cache ms mpc mc = .ok cache' (s, r) ∧
      ms ≤ s ∧ (mc ≠ none → r ≠ none) ∧
      ∀ id, id ∈ ids → ∀ c, cache.Peek id = some c → ∀ sim pc,
        d.getSeqDistance c.LogTemplateTokens tokens ip = .ok (sim, pc) →
          sim ≤ s ∧ ((mc ≠ none ∨ ms < sim) → r ≠ none) := by
  induction ids generalizing cache ms mpc mc with
  | nil =>
    exact ⟨cache, ms, mc, rfl, le_refl _, fun h => h, fun id hid => by cases hid⟩
  | cons a ids ih =>
    have hget := Cache.Get_sameRecords cache a
    have hsnd := Cache.Get_snd cache a
    unfold fastMatchLoop
    cases hg : cache.Get a with
    | mk c1 o =>
      rw [hg] at hget hsnd
      simp only at hsnd
      have hlen1 : ∀ id, id ∈ ids → ∀ c, c1.Peek id = some c →
          c.LogTemplateTokens.length = tokens.length := by
        intro id hid c hc
        rw [hget.2.2] at hc
        exact hlen id (List.mem_cons_of_mem _ hid) c hc
      cases o with
      | none =>
        simp only
        obtain ⟨cache', s, r, heq, h1, h2, h3⟩ := ih c1 ms mpc mc hlen1
        refine ⟨cache', s, r, heq, h1, h2, ?_⟩
        intro id hid c hc sim pc hd
        rcases List.mem_cons.mp hid with e | hid
        · subst e
          rw [← hsnd] at hc
          cases hc
        · exact h3 id hid c (by rw [hget.2.2]; exact hc) sim pc hd
      | some cluster =>
        simp only
        have hcl : cache.Peek a = some cluster := hsnd.symm
        obtain ⟨⟨cs, cp⟩, hdist⟩ := getSeqDistance_of_length d _ _ ip
          (hlen a (List.mem_cons_self _ _) cluster hcl)
        rw [hdist]
        simp only
        by_cases hcond : cs > ms ∨ (cs = ms ∧ cp > mpc)
        · rw [if_pos hcond]
          obtain ⟨cache', s, r, heq, h1, h2, h3⟩ := ih c1 cs cp (some cluster) hlen1
          have hms : ms ≤ cs := by
            rcases hcond with h | ⟨h, _⟩
            · exact le_of_lt h
            · exact le_of_eq h.symm
          have hr : r ≠ none := h2 (by simp)
          refine ⟨cache', s, r, heq, le_trans hms h1, fun _ => hr, ?_⟩
          intro id hid c hc sim pc hd
          rcases List.mem_cons.mp hid with e | hid
          · subst e
            rw [hcl] at hc
            injection hc with hc
            subst hc
            rw [hdist] at hd
            injection hd with hd
            injection hd with hd1 hd2
            subst hd1
            exact ⟨h1, fun _ => hr⟩
          · exact ⟨(h3 id hid c (by rw [hget.2.2]; exact hc) sim pc hd).1, fun _ => hr⟩
        · rw [if_neg hcond]
          obtain ⟨cache', s, r, heq, h1, h2, h3⟩ := ih c1 ms mpc mc hlen1
          refine ⟨cache', s, r, heq, h1, h2, ?_⟩
          intro id hid c hc sim pc hd
          rcases List.mem_cons.mp hid with e | hid
          · subst e
            rw [hcl] at hc
            injection hc with hc
            subst hc
            rw [hdist] at hd
            injection hd with hd
            injection hd with hd1 hd2
            subst hd1
            have hle : cs ≤ ms := by
              by_contra hgt
              exact hcond (Or.inl (lt_of_not_le hgt))
            refine ⟨le_trans hle h1, ?_⟩
            rintro (hmc | hlt)
            · exact h2 hmc
            · exact absurd hlt (not_lt.mpr hle)
          · exact h3 id hid c (by rw [hget.2.2]; exact hc) sim pc hd

theorem fullSearch_complete (d : Drain) (hc : Consistent d) (tokens : List String) (key : Int)
    (c : LogCluster) (hlive : d.IdToCluster.Peek key = some c)
    (hperf : PerfectMatch d.ParamStr c.LogTemplateTokens tokens) :
    key ∈ d.getClustersIdsForSeqLen tokens.length ∧
      ∃ d' c', d.fullSearch tokens 1 = .ok d' (some c') := by
  have hlen : c.LogTemplateTokens.length = tokens.length := List.Forall₂.length_eq hperf
  obtain ⟨bucket, hb, hkb⟩ := hc.grafted key c hlive
  rw [hlen] at hb
  have hids : d.getClustersIdsForSeqLen tokens.length = appendClusterRecursive bucket := by
    unfold Drain.getClustersIdsForSeqLen
    rw [hb]
  refine ⟨by rw [hids]; exact hkb, ?_⟩
  unfold Drain.fullSearch Drain.fastMatch
  simp only
  rw [hids]
  obtain ⟨cache', s, r, heq, _, _, h3⟩ := fastMatchLoop_complete d tokens true
    (appendClusterRecursive bucket) d.IdToCluster (-1) (-1) none (by
      intro id hid c' hc'
      exact toString_nat_injective _ _
        (hc.bucket_length _ (mem_of_lookup _ _ _ hb) id hid c' hc'))
  obtain ⟨pc, hd⟩ := getSeqDistance_perfect_one d _ _ hperf
  obtain ⟨h4, h5⟩ := h3 key hkb c hlive 1 pc hd
  have hr : r ≠ none := h5 (Or.inr (by norm_num))
  rw [heq]
  simp only [ge_iff_le, h4, if_true]
  cases r with
  | none => exact absurd rfl hr
  | some c' => exact ⟨_, c', rfl⟩

theorem reachable_helloDrain1 : Reachable helloDrain1 :=
  Reachable.add freshDrain "hello world 1" helloDrain1
    (⟨1, ["hello", "world", "1"], 1⟩, ClusterUpdateType.Created)
    (Reachable.fresh [] freshDrain rfl) (by decide!)

theorem reachable_helloDrain2 : Reachable helloDrain2 :=
  Reachable.add helloDrain1 "hello world 2" helloDrain2
    (⟨1, ["hello", "world", "<*>"], 2⟩, ClusterUpdateType.TemplateChanged)
    reachable_helloDrain1 (by decide!)

/-- C10. With strategy `Always`, `Match` scores every live cluster of the message's token
count: in every state reachable from a fresh engine by `AddLogMessage` calls, for every
message `m`, if some live cluster `c` has a template with as many tokens as `m` whose every
position is the wildcard marker or equals the token of `m` there, then the id of `c` is among
the ids the full scan collects and `Match m Always` returns normally with a cluster. -/
theorem Match_always_complete (d : Drain) (hr : Reachable d) (m : String) (key : Int)
    (c : LogCluster) (hlive : d.IdToCluster.Peek key = some c)
    (hlen : c.LogTemplateTokens.length = (d.getContentAsTokens m).length)
    (hpos : ∀ (i : Nat) (t tok : String), c.LogTemplateTokens[i]? = some t →
      (d.getContentAsTokens m)[i]? = some tok → t = d.ParamStr ∨ t = tok) :
    key ∈ d.getClustersIdsForSeqLen (d.getContentAsTokens m).length ∧
      ∃ d' c', d.Match m SearchStrategy.Always = .ok d' (some c') := by
  have hc := consistent_of_reachable d hr
  have hperf : PerfectMatch d.ParamStr c.LogTemplateTokens (d.getContentAsTokens m) :=
    (perfectMatch_iff _ _ _).mpr ⟨hlen, hpos⟩
  obtain ⟨h1, d', c', h2⟩ := fullSearch_complete d hc _ key c hlive hperf
  refine ⟨h1, d', c', ?_⟩
  unfold Drain.Match
  simp only [if_true]
  exact h2

/-- Witness for C10: the engine that holds `hello world <*>` and the message
"hello world 9". -/
theorem Match_always_complete_witness :
    (Reachable helloDrain2 ∧
      helloDrain2.IdToCluster.Peek 1 = some ⟨1, ["hello", "world", "<*>"], 2⟩ ∧
      ["hello", "world", "<*>"].length = (helloDrain2.getContentAsTokens "hello world 9").length ∧
      helloDrain2.Match "hello world 9" SearchStrategy.Always =
        .ok helloDrain2 (some ⟨1, ["hello", "world", "<*>"], 2⟩)) ∧
    ((1 : Int) ∈ helloDrain2.getClustersIdsForSeqLen
        (helloDrain2.getContentAsTokens "hello world 9").length ∧
      ∃ d' c', helloDrain2.Match "hello world 9" SearchStrategy.Always = .ok d' (some c')) :=
  ⟨⟨reachable_helloDrain2, by decide!, by decide!, by decide!⟩,
    Match_always_complete helloDrain2 reachable_helloDrain2 "hello world 9" 1
      ⟨1, ["hello", "world", "<*>"], 2⟩ (by decide!) (by decide!)
      (by
        intro i t tok h1 h2
        have hp : helloDrain2.ParamStr = "<*>" := by decide!
        have ht : helloDrain2.getContentAsTokens "hello world 9" = ["hello", "world", "9"] := by
          decide!
        rw [ht] at h2
        rw [hp]
        have hperf : PerfectMatch "<*>" ["hello", "world", "<*>"] ["hello", "world", "9"] :=
          List.Forall₂.cons (Or.inr rfl) (List.Forall₂.cons (Or.inr rfl)
            (List.Forall₂.cons (Or.inl rfl) List.Forall₂.nil))
        exact ((perfectMatch_iff _ _ _).mp hperf).2 i t tok h1 h2)⟩

theorem wildcardReady_NewNode (maxChildren : Int) (paramStr : String) (h : 1 ≤ maxChildren) :
    WildcardReady maxChildren paramStr NewNode :=
  WildcardReady.mk [] [] (fun _ => by simpa using h) (fun kn hkn => by cases hkn)

theorem wildcardReady_inv (maxChildren : Int) (paramStr : String) (node : Node)
    (h : WildcardReady maxChildren paramStr node) :
    (node.KeyToChildNode.lookup paramStr = none →
      (node.KeyToChildNode.length : Int) + 1 ≤ maxChildren) ∧
    (∀ kn, kn ∈ node.KeyToChildNode → WildcardReady maxChildren paramStr kn.2) := by
  cases h with
  | mk children ids h1 h2 => exact ⟨h1, h2⟩

theorem nextEdge_ready (d : Drain) (node : Node) (token : String)
    (hown : node.KeyToChildNode.lookup d.ParamStr = none →
      (node.KeyToChildNode.length : Int) + 1 ≤ d.MaxChildren) :
    ∃ child, (nextEdge d node token).2 = some child ∧
      ∀ x, (assignChild node.KeyToChildNode (nextEdge d node token).1 x).lookup d.ParamStr = none →
        ((assignChild node.KeyToChildNode (nextEdge d node token).1 x).length : Int) + 1 ≤
          d.MaxChildren := by
  have hrepl : ∀ key (old x : Node), node.KeyToChildNode.lookup key = some old →
      (assignChild node.KeyToChildNode key x).lookup d.ParamStr = none →
        ((assignChild node.KeyToChildNode key x).length : Int) + 1 ≤ d.MaxChildren := by
    intro key old x hold hnone
    rw [length_assignChild, hold]
    simp only [reduceCtorEq, if_false]
    by_cases hk : d.ParamStr = key
    · subst hk
      rw [lookup_assignChild_self] at hnone
      cases hnone
    · rw [lookup_assignChild_ne _ _ _ _ hk] at hnone
      exact hown hnone
  have hwild : ∀ (x : Node),
      (assignChild node.KeyToChildNode d.ParamStr x).lookup d.ParamStr = none →
        ((assignChild node.KeyToChildNode d.ParamStr x).length : Int) + 1 ≤ d.MaxChildren := by
    intro x hnone
    rw [lookup_assignChild_self] at hnone
    cases hnone
  unfold nextEdge
  cases hc : node.KeyToChildNode.lookup token with
  | some c => exact ⟨c, rfl, fun x => hrepl token c x hc⟩
  | none =>
    simp only
    cases hp : node.KeyToChildNode.lookup d.ParamStr with
    | none =>
      simp only
      by_cases hnum : (d.ParametrizeNumericTokens && hasNumbers token) = true
      · rw [if_pos hnum]
        exact ⟨NewNode, rfl, hwild⟩
      · rw [if_neg hnum]
        by_cases h1 : ((node.KeyToChildNode.length + 1 : Nat) : Int) < d.MaxChildren
        · rw [if_pos h1]
          refine ⟨NewNode, rfl, fun x _ => ?_⟩
          rw [length_assignChild, hc]
          simp only [if_true]
          push_cast at h1 ⊢
          omega
        · rw [if_neg h1]
          by_cases h2 : ((node.KeyToChildNode.length + 1 : Nat) : Int) = d.MaxChildren
          · rw [if_pos h2]
            exact ⟨NewNode, rfl, hwild⟩
          · rw [if_neg h2]
            have := hown hp
            push_cast at h1 h2
            omega
    | some n =>
      simp only
      by_cases hnum : (d.ParametrizeNumericTokens && hasNumbers token) = true
      · rw [if_pos hnum]
        exact ⟨n, rfl, hwild⟩
      · rw [if_neg hnum]
        by_cases h1 : (node.KeyToChildNode.length : Int) < d.MaxChildren
        · rw [if_pos h1]
          refine ⟨NewNode, rfl, fun x hnone => ?_⟩
          have hk : d.ParamStr ≠ token := by
            intro e
            rw [e, hc] at hp
            cases hp
          rw [lookup_assignChild_ne _ _ _ _ hk, hp] at hnone
          cases hnone
        · rw [if_neg h1]
          exact ⟨n, rfl, hwild⟩

theorem addSeqLoop_ready (d : Drain) (hmax : 1 ≤ d.MaxChildren) (cluster : LogCluster) (n : Nat)
    (tokens : List String) (depth : Int) (cache : Cache) (node : Node)
    (hw : WildcardReady d.MaxChildren d.ParamStr node) :
    ∃ cache' node', addSeqLoop d cluster n tokens depth cache (some node) =
        some (cache', some node') ∧ WildcardReady d.MaxChildren d.ParamStr node' := by
  induction tokens generalizing depth cache node with
  | nil => exact ⟨cache, node, rfl, hw⟩
  | cons token rest ih =>
    obtain ⟨hown, hch⟩ := wildcardReady_inv _ _ _ hw
    unfold addSeqLoop
    by_cases hleaf : depth ≥ d.MaxNodeDepth ∨ depth ≥ (n : Int)
    · rw [if_pos hleaf]
      exact ⟨_, _, rfl, WildcardReady.mk _ _ hown hch⟩
    · rw [if_neg hleaf]
      obtain ⟨child, hchild, hnew⟩ := nextEdge_ready d node token hown
      cases hedge : nextEdge d node token with
      | mk key c =>
        rw [hedge] at hchild hnew
        simp only at hchild hnew
        subst hchild
        have hcw : WildcardReady d.MaxChildren d.ParamStr child := by
          rcases nextEdge_some d node token key child hedge with hc | ⟨_, hc⟩
          · exact hch _ (mem_of_lookup _ _ _ hc)
          · rw [hc]
            exact wildcardReady_NewNode _ _ hmax
        obtain ⟨cache', child', hrec, hw'⟩ := ih (depth + 1) cache child hcw
        simp only [hrec]
        refine ⟨cache', _, rfl, WildcardReady.mk _ _ (hnew child') ?_⟩
        intro kn hkn
        rcases mem_assignChild _ _ _ _ hkn with hkn | e
        · exact hch kn hkn
        · subst e
          exact hw'

theorem addSeqToPrefixTree_ready (d : Drain) (hmax : 1 ≤ d.MaxChildren) (root : Node)
    (cluster : LogCluster) (hn : cluster.LogTemplateTokens ≠ [])
    (hroot : ∀ kn, kn ∈ root.KeyToChildNode → WildcardReady d.MaxChildren d.ParamStr kn.2) :
    ∃ d', d.addSeqToPrefixTree root cluster = some d' ∧ TreeReady d' ∧
      d'.MaxChildren = d.MaxChildren ∧ d'.ParamStr = d.ParamStr ∧
      d'.ClustersCounter = d.ClustersCounter := by
  have h0 : cluster.LogTemplateTokens.length ≠ 0 := fun e => hn (List.length_eq_zero.mp e)
  have main : ∀ first : Node, WildcardReady d.MaxChildren d.ParamStr first →
      ∃ cache' nb, addSeqLoop d cluster cluster.LogTemplateTokens.length
          cluster.LogTemplateTokens 1 d.IdToCluster (some first) = some (cache', some nb) ∧
        TreeReady { d with
          IdToCluster := cache'
          RootNode := Node.mk (assignChild root.KeyToChildNode
            (toString cluster.LogTemplateTokens.length) nb) root.ClusterIds } := by
    intro first hf
    obtain ⟨cache', nb, hloop, hw⟩ := addSeqLoop_ready d hmax cluster _ _ 1 d.IdToCluster first hf
    refine ⟨cache', nb, hloop, ?_⟩
    intro kn hkn
    rcases mem_assignChild _ _ _ _ hkn with hkn | e
    · exact hroot kn hkn
    · subst e
      exact hw
  unfold Drain.addSeqToPrefixTree
  simp only
  rw [if_neg h0]
  cases hl : root.KeyToChildNode.lookup (toString cluster.LogTemplateTokens.length) with
  | none =>
    simp only
    obtain ⟨cache', nb, hloop, hready⟩ := main NewNode (wildcardReady_NewNode _ _ hmax)
    rw [hloop]
    exact ⟨_, rfl, hready, rfl, rfl, rfl⟩
  | some old =>
    simp only
    obtain ⟨cache', nb, hloop, hready⟩ := main old (hroot _ (mem_of_lookup _ _ _ hl))
    rw [hloop]
    exact ⟨_, rfl, hready, rfl, rfl, rfl⟩

theorem AddLogMessage_ok_config (d : Drain) (m : String) (d' : Drain) (r : LogCluster)
    (u : ClusterUpdateType) (h : d.AddLogMessage m = .ok d' (r, u)) :
    d'.MaxChildren = d.MaxChildren ∧ d'.ParamStr = d.ParamStr ∧
      d'.MaxClusters = d.MaxClusters ∧
      d'.ClustersCounter =
        (if u = ClusterUpdateType.Created then d.ClustersCounter + 1 else d.ClustersCounter) ∧
      (u = ClusterUpdateType.Created → r.ClusterId = d.ClustersCounter + 1) := by
  rcases AddLogMessage_ok_cases d m d' r u h with
    ⟨d1, c0, _, ht, _, _, _, hu, hd'⟩ | ⟨d1, _, ht, hu, hr, hgraft⟩
  · obtain ⟨_, f2, f3, _, _, f6, f7, _⟩ := ht.fields
    have hnc : u ≠ ClusterUpdateType.Created := by
      rw [hu]; split_ifs <;> simp
    subst hd'
    exact ⟨f6, f3, f7, by rw [if_neg hnc]; exact f2, fun e => absurd e hnc⟩
  · obtain ⟨_, f2, f3, _, _, f6, f7, _⟩ := ht.fields
    have hrne : r.LogTemplateTokens ≠ [] := by
      rw [hr]; exact getContentAsTokens_ne_nil d m
    obtain ⟨cache', nb, hd', _⟩ := addSeqToPrefixTree_spec _ _ _ _ hrne hgraft
    subst hd'
    exact ⟨f6, f3, f7, by rw [if_pos hu], fun _ => by rw [hr]; rfl⟩

theorem treeReady_add (d : Drain) (m : String) (d' : Drain) (r : LogCluster × ClusterUpdateType)
    (hmax : 1 ≤ d.MaxChildren) (h : TreeReady d) (hadd : d.AddLogMessage m = .ok d' r) :
    TreeReady d' := by
  obtain ⟨r, u⟩ := r
  rcases AddLogMessage_ok_cases d m d' r u hadd with
    ⟨d1, c0, _, ht, _, _, _, _, hd'⟩ | ⟨d1, _, ht, _, hr, hgraft⟩
  · obtain ⟨f1, _, f3, _, _, f6, _⟩ := ht.fields
    subst hd'
    intro kn hkn
    show WildcardReady d1.MaxChildren d1.ParamStr kn.2
    rw [f6, f3]
    exact h kn (f1 ▸ hkn)
  · obtain ⟨f1, _, f3, _, _, f6, _⟩ := ht.fields
    have hrne : r.LogTemplateTokens ≠ [] := by
      rw [hr]; exact getContentAsTokens_ne_nil d m
    obtain ⟨d'', h1, h2, _⟩ := addSeqToPrefixTree_ready
      ({ d1 with
        ClustersCounter := d.ClustersCounter + 1
        IdToCluster := d1.IdToCluster.Add r } : Drain) (by show 1 ≤ d1.MaxChildren; rw [f6]; exact hmax)
      d1.RootNode r hrne (by
        intro kn hkn
        show WildcardReady d1.MaxChildren d1.ParamStr kn.2
        rw [f6, f3]
        exact h kn (f1 ▸ hkn))
    rw [hgraft] at h1
    injection h1 with h1
    rw [h1]
    exact h2

theorem treeReady_touched (d d' : Drain) (ht : d.Touched d') (h : TreeReady d) : TreeReady d' := by
  obtain ⟨f1, _, f3, _, _, f6, _⟩ := ht.fields
  intro kn hkn
  rw [f6, f3]
  exact h kn (f1 ▸ hkn)

theorem treeReady_of_reachable (d : Drain) (h : Reachable d) :
    1 ≤ d.MaxChildren → TreeReady d := by
  induction h with
  | fresh options d h0 =>
    intro _
    obtain ⟨_, _, e⟩ := NewDrain_ok options d h0
    have hfix := foldl_apply_fixed options defaultDrain
    simp only at hfix
    have hroot : (configured options).RootNode = NewNode := hfix.2.2.1
    subst e
    intro kn hkn
    simp only [hroot, NewNode, Node.KeyToChildNode] at hkn
    cases hkn
  | add d m d' r _ hadd ih =>
    intro hmax
    have hcfg := AddLogMessage_ok_config d m d' r.1 r.2 hadd
    rw [hcfg.1] at hmax
    exact treeReady_add d m d' r hmax (ih hmax) hadd
  | addError d m d' e _ herr ih =>
    intro hmax
    have ht := AddLogMessage_error_touched d m d' e herr
    rw [ht.fields.2.2.2.2.2.1] at hmax
    exact treeReady_touched d d' ht (ih hmax)

theorem AddLogMessage_miss (d : Drain) (hready : TreeReady d) (hmax : 1 ≤ d.MaxChildren)
    (m : String) (d1 : Drain)
    (hmiss : d.treeSearch d.RootNode (d.getContentAsTokens m) d.SimTh false = .ok d1 none) :
    ∃ d', d.AddLogMessage m =
        .ok d' (NewLogCluster (d.ClustersCounter + 1) (d.getContentAsTokens m),
          ClusterUpdateType.Created) ∧
      d'.ClustersCounter = d.ClustersCounter + 1 := by
  have ht : d.Touched d1 := treeSearch_state _ _ _ _ _ _ (by rw [hmiss]; rfl)
  obtain ⟨f1, f2, f3, _, _, f6, _⟩ := ht.fields
  obtain ⟨d'', h1, _, _, _, h5⟩ := addSeqToPrefixTree_ready
    ({ d1 with
      ClustersCounter := d1.ClustersCounter + 1
      IdToCluster := d1.IdToCluster.Add
        (NewLogCluster (d1.ClustersCounter + 1) (d.getContentAsTokens m)) } : Drain)
    (by show 1 ≤ d1.MaxChildren; rw [f6]; exact hmax)
    d1.RootNode (NewLogCluster (d1.ClustersCounter + 1) (d.getContentAsTokens m))
    (getContentAsTokens_ne_nil d m) (by
      intro kn hkn
      show WildcardReady d1.MaxChildren d1.ParamStr kn.2
      rw [f6, f3]
      exact hready kn (f1 ▸ hkn))
  refine ⟨d'', ?_, ?_⟩
  · unfold Drain.AddLogMessage
    simp only [hmiss]
    rw [h1, f2]
  · rw [h5]
    show d1.ClustersCounter + 1 = d.ClustersCounter + 1
    rw [f2]

/-! ### Sequences of calls -/

theorem runAdd_cons (d : Drain) (m : String) (ms : List String) (final : Drain)
    (out : List (LogCluster × ClusterUpdateType)) (h : runAdd d (m :: ms) = some (final, out)) :
    ∃ d' r out', d.AddLogMessage m = .ok d' r ∧ runAdd d' ms = some (final, out') ∧
      out = r :: out' := by
  unfold runAdd at h
  cases hadd : d.AddLogMessage m with
  | panic => rw [hadd] at h; cases h
  | error d1 e => rw [hadd] at h; cases h
  | ok d' r =>
    rw [hadd] at h
    simp only at h
    cases hrest : runAdd d' ms with
    | none => rw [hrest] at h; cases h
    | some fo =>
      obtain ⟨f, o⟩ := fo
      rw [hrest] at h
      simp only [Option.some.injEq, Prod.mk.injEq] at h
      obtain ⟨h1, h2⟩ := h
      subst h1 h2
      exact ⟨d', r, o, rfl, hrest, rfl⟩

theorem reachable_runAdd (msgs : List String) (d final : Drain)
    (out : List (LogCluster × ClusterUpdateType)) (hr : Reachable d)
    (h : runAdd d msgs = some (final, out)) : Reachable final := by
  induction msgs generalizing d out with
  | nil =>
    simp only [runAdd, Option.some.injEq, Prod.mk.injEq] at h
    exact h.1 ▸ hr
  | cons m ms ih =>
    obtain ⟨d', r, out', hadd, hrest, _⟩ := runAdd_cons d m ms final out h
    exact ih d' out' (Reachable.add d m d' r hr hadd) hrest

theorem createdIds_cons (r : LogCluster × ClusterUpdateType)
    (out : List (LogCluster × ClusterUpdateType)) :
    createdIds (r :: out) =
      if r.2 = ClusterUpdateType.Created then r.1.ClusterId :: createdIds out
      else createdIds out := by
  unfold createdIds
  by_cases h : r.2 = ClusterUpdateType.Created
  · simp [List.filter_cons, h]
  · simp [List.filter_cons, h]

theorem runAdd_created (msgs : List String) (d final : Drain)
    (out : List (LogCluster × ClusterUpdateType)) (h : runAdd d msgs = some (final, out)) :
    d.ClustersCounter ≤ final.ClustersCounter ∧
      (∀ id, id ∈ createdIds out → d.ClustersCounter < id ∧ id ≤ final.ClustersCounter) ∧
      (createdIds out).Pairwise (fun a b => a < b) ∧
      final.ClustersCounter = d.ClustersCounter + (createdIds out).length := by
  induction msgs generalizing d out with
  | nil =>
    simp only [runAdd, Option.some.injEq, Prod.mk.injEq] at h
    obtain ⟨h1, h2⟩ := h
    subst h1 h2
    simp [createdIds]
  | cons m ms ih =>
    obtain ⟨d', ⟨r, u⟩, out', hadd, hrest, hout⟩ := runAdd_cons d m ms final out h
    obtain ⟨h1, h2, h3, h4⟩ := ih d' out' hrest
    obtain ⟨_, _, _, hcnt, hid⟩ := AddLogMessage_ok_config d m d' r u hadd
    subst hout
    rw [createdIds_cons]
    simp only
    by_cases hu : u = ClusterUpdateType.Created
    · rw [if_pos hu] at hcnt ⊢
      have hrid := hid hu
      refine ⟨by omega, ?_, ?_, ?_⟩
      · intro id hmem
        rcases List.mem_cons.mp hmem with e | hmem
        · subst e; omega
        · have := h2 id hmem
          omega
      · refine List.Pairwise.cons ?_ h3
        intro id hmem
        have := h2 id hmem
        omega
      · simp only [List.length_cons, Nat.cast_add, Nat.cast_one]
        omega
    · rw [if_neg hu] at hcnt ⊢
      refine ⟨by omega, ?_, h3, by omega⟩
      intro id hmem
      have := h2 id hmem
      omega

theorem AddLogMessage_length (d : Drain) (hc : Consistent d) (m : String) (d' : Drain)
    (r : LogCluster) (u : ClusterUpdateType) (h : d.AddLogMessage m = .ok d' (r, u)) :
    (d'.IdToCluster.items.length : Int) =
      if u = ClusterUpdateType.Created then
        min ((d.IdToCluster.items.length : Int) + 1) d.MaxClusters
      else (d.IdToCluster.items.length : Int) := by
  rcases AddLogMessage_ok_cases d m d' r u h with
    ⟨d1, c0, _, ht, _, _, _, hu, hd'⟩ | ⟨d1, _, ht, hu, hr, hgraft⟩
  · have hs := ht.fields.2.2.2.2.2.2.2.2.2.2
    have hnc : u ≠ ClusterUpdateType.Created := by
      rw [hu]; split_ifs <;> simp
    rw [if_neg hnc]
    subst hd'
    simp only
    rw [(Cache.Get_sameRecords _ _).2.1.length_eq, Cache.store_length, hs.2.1.length_eq]
  · have h1 := consistent_touched d d1 ht hc
    obtain ⟨_, f2, _, _, _, _, f7, _, _, _, hs⟩ := ht.fields
    have hrne : r.LogTemplateTokens ≠ [] := by
      rw [hr]; exact getContentAsTokens_ne_nil d m
    obtain ⟨cache', nb, hd', hs', _⟩ := addSeqToPrefixTree_spec _ _ _ _ hrne hgraft
    simp only at hs'
    subst hd'
    rw [if_pos hu]
    simp only
    have hnone : d1.IdToCluster.Peek r.ClusterId = none := by
      cases hp : d1.IdToCluster.Peek r.ClusterId with
      | none => rfl
      | some c =>
        have hmem := Cache.Peek_mem _ _ _ hp
        have hid := Cache.Peek_id _ _ _ hp
        have := h1.registry_le c hmem
        rw [hid, hr, f2] at this
        simp only [NewLogCluster] at this
        omega
    rw [hs'.2.1.length_eq, Cache.Add_length _ _ h1.length_le, if_pos hnone, h1.size_eq, f7,
      hs.2.1.length_eq]

theorem runAdd_length (msgs : List String) (d final : Drain)
    (out : List (LogCluster × ClusterUpdateType)) (k : Int) (hc : Consistent d)
    (hk : (d.IdToCluster.items.length : Int) = min k d.MaxClusters)
    (h : runAdd d msgs = some (final, out)) :
    (final.IdToCluster.items.length : Int) =
        min (k + (createdIds out).length) final.MaxClusters ∧
      final.MaxClusters = d.MaxClusters := by
  induction msgs generalizing d out k with
  | nil =>
    simp only [runAdd, Option.some.injEq, Prod.mk.injEq] at h
    obtain ⟨h1, h2⟩ := h
    subst h1 h2
    simp [createdIds, hk]
  | cons m ms ih =>
    obtain ⟨d', ⟨r, u⟩, out', hadd, hrest, hout⟩ := runAdd_cons d m ms final out h
    have hc' := consistent_add d m d' (r, u) hc hadd
    have hlen := AddLogMessage_length d hc m d' r u hadd
    obtain ⟨_, _, hM, _, _⟩ := AddLogMessage_ok_config d m d' r u hadd
    subst hout
    rw [createdIds_cons]
    simp only
    by_cases hu : u = ClusterUpdateType.Created
    · rw [if_pos hu] at hlen ⊢
      obtain ⟨h1, h2⟩ := ih d' out' (k + 1) hc' (by rw [hlen, hk, hM]; omega) hrest
      refine ⟨?_, by rw [h2, hM]⟩
      rw [h1]
      simp only [List.length_cons, Nat.cast_add, Nat.cast_one]
      congr 1
      omega
    · rw [if_neg hu] at hlen ⊢
      obtain ⟨h1, h2⟩ := ih d' out' k hc' (by rw [hlen, hk, hM]) hrest
      exact ⟨h1, by rw [h2, hM]⟩

/-- C6. After any sequence of `AddLogMessage` calls that all return, made on a freshly
constructed engine, the number of clusters `GetClusters` returns is
`min(k, MaxClusters)`, where `k` is the number of calls that reported `Created`: it never
exceeds `MaxClusters`, and it is `k` while `k ≤ MaxClusters`. -/
theorem GetClusters_length (options : List optionFn) (d0 : Drain) (msgs : List String)
    (final : Drain) (out : List (LogCluster × ClusterUpdateType))
    (h0 : NewDrain options = .ok d0) (hrun : runAdd d0 msgs = some (final, out)) :
    (final.GetClusters.length : Int) =
        min ((createdIds out).length : Int) final.MaxClusters ∧
      (final.GetClusters.length : Int) ≤ final.MaxClusters ∧
      (((createdIds out).length : Int) ≤ final.MaxClusters →
        final.GetClusters.length = (createdIds out).length) := by
  have hc := consistent_fresh options d0 h0
  have hk : (d0.IdToCluster.items.length : Int) = min 0 d0.MaxClusters := by
    obtain ⟨_, hpos, e⟩ := NewDrain_ok options d0 h0
    rw [e]
    show ((0 : Nat) : Int) = min 0 (configured options).MaxClusters
    simp only [Nat.cast_zero]
    omega
  obtain ⟨h1, _⟩ := runAdd_length msgs d0 final out 0 hc hk hrun
  have hlen : final.GetClusters.length = final.IdToCluster.items.length := by
    simp [Drain.GetClusters, Cache.Values]
  have hI : (final.GetClusters.length : Int) =
      min ((createdIds out).length : Int) final.MaxClusters := by
    rw [hlen, h1, zero_add]
  refine ⟨hI, by rw [hI]; exact min_le_right _ _, fun hle => ?_⟩
  rw [min_eq_left hle] at hI
  exact_mod_cast hI

/-- Witness for C6: the 24 lines of `TestDrain` leave exactly 5 clusters (5 calls report
`Created`, capacity 1000); three creations on an engine of capacity 2 leave 2. -/
theorem GetClusters_length_witness :
    (NewDrain [optionFn.WithExtraDelimiter ["_"]] = .ok kafkaDrain ∧
      runAdd kafkaDrain kafkaLogs = some kafkaRun ∧
      kafkaLogs.length = 24 ∧ createdIds kafkaRun.2 = [1, 2, 3, 4, 5] ∧
      kafkaRun.1.GetClusters.length = 5 ∧ kafkaRun.1.MaxClusters = 1000) ∧
    ((kafkaRun.1.GetClusters.length : Int) =
        min ((createdIds kafkaRun.2).length : Int) kafkaRun.1.MaxClusters ∧
      (kafkaRun.1.GetClusters.length : Int) ≤ kafkaRun.1.MaxClusters ∧
      (((createdIds kafkaRun.2).length : Int) ≤ kafkaRun.1.MaxClusters →
        kafkaRun.1.GetClusters.length = (createdIds kafkaRun.2).length)) ∧
    (NewDrain [optionFn.WithMaxCluster 2] = .ok smallDrain ∧
      runAdd smallDrain ["a", "b b", "c c c"] = some smallRun ∧
      (createdIds smallRun.2).length = 3 ∧ smallRun.1.GetClusters.length = 2 ∧
      smallRun.1.MaxClusters = 2) :=
  ⟨⟨rfl, by decide!, by decide!, by decide!, by decide!, by decide!⟩,
    GetClusters_length [optionFn.WithExtraDelimiter ["_"]] kafkaDrain kafkaLogs kafkaRun.1
      kafkaRun.2 rfl (by decide!),
    ⟨rfl, by decide!, by decide!, by decide!, by decide!⟩⟩

/-- C8. In every state reachable from a freshly constructed engine by `AddLogMessage` calls,
for every message `m`: `AddLogMessage m` returns no error (the only errors it can return are
the length mismatches of `getSeqDistance` and `createTemplate`), and the cluster it returns
has a template of exactly as many tokens as `m`. The call returns such a cluster or panics,
and it does return one whenever `max_children ≥ 1` and the tree search does not panic. -/
theorem AddLogMessage_no_length_mismatch (d : Drain) (hr : Reachable d) (m : String) :
    (∀ d' e, d.AddLogMessage m ≠ .error d' e) ∧
    (∀ d' r u, d.AddLogMessage m = .ok d' (r, u) →
      r.LogTemplateTokens.length = (d.getContentAsTokens m).length) ∧
    (d.AddLogMessage m = .panic ∨
      ∃ d' r u, d.AddLogMessage m = .ok d' (r, u) ∧
        r.LogTemplateTokens.length = (d.getContentAsTokens m).length) ∧
    (1 ≤ d.MaxChildren →
      d.treeSearch d.RootNode (d.getContentAsTokens m) d.SimTh false ≠ .panic →
      ∃ d' r u, d.AddLogMessage m = .ok d' (r, u) ∧
        r.LogTemplateTokens.length = (d.getContentAsTokens m).length) := by
  have hc := consistent_of_reachable d hr
  refine ⟨fun d' e => AddLogMessage_ne_error d hc m d' e,
    fun d' r u h => AddLogMessage_ok_length d m d' r u h, ?_, ?_⟩
  · cases h : d.AddLogMessage m with
    | panic => exact Or.inl rfl
    | error d' e => exact absurd h (AddLogMessage_ne_error d hc m d' e)
    | ok d' ru =>
      obtain ⟨r, u⟩ := ru
      exact Or.inr ⟨d', r, u, rfl, AddLogMessage_ok_length d m d' r u h⟩
  · intro hmax hnp
    cases hts : d.treeSearch d.RootNode (d.getContentAsTokens m) d.SimTh false with
    | panic => exact absurd hts hnp
    | error d1 e =>
      obtain ⟨c, bucket, hb, hmem, hpeek, _, hne⟩ := treeSearch_error _ _ _ _ _ _ _ hts
      have := hc.bucket_length _ (mem_of_lookup _ _ _ hb) _ hmem c hpeek
      exact absurd (toString_nat_injective _ _ this) hne
    | ok d1 o =>
      cases o with
      | some c =>
        obtain ⟨_, _, _, heq⟩ := AddLogMessage_hit_eq d m d1 c hts
        exact ⟨_, _, _, heq, AddLogMessage_ok_length d m _ _ _ heq⟩
      | none =>
        obtain ⟨d', heq, _⟩ :=
          AddLogMessage_miss d (treeReady_of_reachable d hr hmax) hmax m d1 hts
        exact ⟨_, _, _, heq, AddLogMessage_ok_length d m _ _ _ heq⟩

/-- Witness for C8: the engine after "hello world 1", and the message "hello world 2". -/
theorem AddLogMessage_no_length_mismatch_witness :
    (Reachable helloDrain1 ∧
      helloDrain1.AddLogMessage "hello world 2" =
        .ok helloDrain2 (⟨1, ["hello", "world", "<*>"], 2⟩, ClusterUpdateType.TemplateChanged)) ∧
    ((∀ d' e, helloDrain1.AddLogMessage "hello world 2" ≠ .error d' e) ∧
    (∀ d' r u, helloDrain1.AddLogMessage "hello world 2" = .ok d' (r, u) →
      r.LogTemplateTokens.length = (helloDrain1.getContentAsTokens "hello world 2").length) ∧
    (helloDrain1.AddLogMessage "hello world 2" = .panic ∨
      ∃ d' r u, helloDrain1.AddLogMessage "hello world 2" = .ok d' (r, u) ∧
        r.LogTemplateTokens.length =
          (helloDrain1.getContentAsTokens "hello world 2").length) ∧
    (1 ≤ helloDrain1.MaxChildren →
      helloDrain1.treeSearch helloDrain1.RootNode
        (helloDrain1.getContentAsTokens "hello world 2") helloDrain1.SimTh false ≠ .panic →
      ∃ d' r u, helloDrain1.AddLogMessage "hello world 2" = .ok d' (r, u) ∧
        r.LogTemplateTokens.length =
          (helloDrain1.getContentAsTokens "hello world 2").length)) :=
  ⟨⟨reachable_helloDrain1, by decide!⟩,
    AddLogMessage_no_length_mismatch helloDrain1 reachable_helloDrain1 "hello world 2"⟩

/-- C14. For every engine state (whatever its leaves list) and every message `m`: if
`AddLogMessage m` returns an error, the state it leaves has the same prefix tree, the same
`ClustersCounter`, the same configuration and a registry that holds exactly the same records
under the same ids (same templates and sizes, same capacity); only the recency order of the
registry may differ. -/
theorem AddLogMessage_error_atomic (d : Drain) (m : String) (d' : Drain) (e : Error)
    (h : d.AddLogMessage m = .error d' e) :
    d'.RootNode = d.RootNode ∧
    d'.ClustersCounter = d.ClustersCounter ∧
    (∀ key, d'.IdToCluster.Peek key = d.IdToCluster.Peek key) ∧
    d'.IdToCluster.items.Perm d.IdToCluster.items ∧
    d'.GetClusters.length = d.GetClusters.length ∧
    d'.IdToCluster.size = d.IdToCluster.size ∧
    (d'.LogClusterDepth = d.LogClusterDepth ∧ d'.MaxNodeDepth = d.MaxNodeDepth ∧
      d'.SimTh = d.SimTh ∧ d'.MaxChildren = d.MaxChildren ∧ d'.MaxClusters = d.MaxClusters ∧
      d'.ExtraDelimiters = d.ExtraDelimiters ∧ d'.ParamStr = d.ParamStr ∧
      d'.ParametrizeNumericTokens = d.ParametrizeNumericTokens) := by
  have ht := AddLogMessage_error_touched d m d' e h
  obtain ⟨f1, f2, f3, f4, f5, f6, f7, f8, f9, f10, hs⟩ := ht.fields
  refine ⟨f1, f2, hs.2.2, hs.2.1, ?_, hs.1, f10, f4, f5, f6, f7, f8, f3, f9⟩
  unfold Drain.GetClusters Cache.Values
  simp only [List.length_reverse]
  exact hs.2.1.length_eq

/-- Witness for C14: on `mismatchDrain` the message "a b" reaches the leaf that lists the
three-token cluster, and `AddLogMessage` returns the length-mismatch error; the scored
cluster has become the most recently used one, nothing else has changed. -/
theorem AddLogMessage_error_atomic_witness :
    (mismatchDrain.AddLogMessage "a b" =
        .error mismatchDrainAfter (Error.seqDistanceLength 3 2) ∧
      mismatchDrain.GetClusters = [⟨1, ["a", "b", "c"], 1⟩, ⟨2, ["x"], 1⟩] ∧
      mismatchDrainAfter.GetClusters = [⟨2, ["x"], 1⟩, ⟨1, ["a", "b", "c"], 1⟩]) ∧
    (mismatchDrainAfter.RootNode = mismatchDrain.RootNode ∧
    mismatchDrainAfter.ClustersCounter = mismatchDrain.ClustersCounter ∧
    (∀ key, mismatchDrainAfter.IdToCluster.Peek key = mismatchDrain.IdToCluster.Peek key) ∧
    mismatchDrainAfter.IdToCluster.items.Perm mismatchDrain.IdToCluster.items ∧
    mismatchDrainAfter.GetClusters.length = mismatchDrain.GetClusters.length ∧
    mismatchDrainAfter.IdToCluster.size = mismatchDrain.IdToCluster.size ∧
    (mismatchDrainAfter.LogClusterDepth = mismatchDrain.LogClusterDepth ∧
      mismatchDrainAfter.MaxNodeDepth = mismatchDrain.MaxNodeDepth ∧
      mismatchDrainAfter.SimTh = mismatchDrain.SimTh ∧
      mismatchDrainAfter.MaxChildren = mismatchDrain.MaxChildren ∧
      mismatchDrainAfter.MaxClusters = mismatchDrain.MaxClusters ∧
      mismatchDrainAfter.ExtraDelimiters = mismatchDrain.ExtraDelimiters ∧
      mismatchDrainAfter.ParamStr = mismatchDrain.ParamStr ∧
      mismatchDrainAfter.ParametrizeNumericTokens = mismatchDrain.ParametrizeNumericTokens)) :=
  ⟨by decide!,
    AddLogMessage_error_atomic mismatchDrain "a b" mismatchDrainAfter
      (Error.seqDistanceLength 3 2) (by decide!)⟩

/-- C11 (the code at the failing input). After `AddLogMessage "100 req ok"` the live cluster 1
has the template `100 req ok`, which matches the message "100 req ok" perfectly, and
`Match "100 req ok" Fallback` does not return it: the tree search panics on the missing child
"100" (the defect of C3), so the full scan is never run. -/
theorem Match_fallback_panics :
    Reachable reqDrain ∧
    reqDrain.IdToCluster.Peek 1 = some ⟨1, ["100", "req", "ok"], 1⟩ ∧
    reqDrain.getContentAsTokens "100 req ok" = ["100", "req", "ok"] ∧
    reqDrain.Match "100 req ok" SearchStrategy.Fallback = .panic ∧
    reqDrain.Match "100 req ok" SearchStrategy.Always =
      .ok reqDrain (some ⟨1, ["100", "req", "ok"], 1⟩) :=
  ⟨Reachable.add freshDrain "100 req ok" reqDrain
      (⟨1, ["100", "req", "ok"], 1⟩, ClusterUpdateType.Created)
      (Reachable.fresh [] freshDrain rfl) (by decide!),
    by decide!, by decide!, by decide!, by decide!⟩

/-- C12 (the code at the failing input). After "a b c d e", "a b f g h", "a x y z w",
"a p q z w" the live clusters `a b <*> <*> <*>` (three wildcards) and `a <*> <*> z w` (two
wildcards) both match "a b k z w" perfectly, and `Match "a b k z w" Always` returns the one
with three wildcards: on equal similarity `fastMatch` keeps the higher parameter count. -/
theorem Match_always_prefers_more_wildcards :
    runAdd freshDrain ["a b c d e", "a b f g h", "a x y z w", "a p q z w"] = some tieRun ∧
    tieRun.1.GetClusters =
      [⟨1, ["a", "b", "<*>", "<*>", "<*>"], 2⟩, ⟨2, ["a", "<*>", "<*>", "z", "w"], 2⟩] ∧
    tieRun.1.getContentAsTokens "a b k z w" = ["a", "b", "k", "z", "w"] ∧
    tieRun.1.getSeqDistance ["a", "b", "<*>", "<*>", "<*>"] ["a", "b", "k", "z", "w"] true =
      .ok (1, 3) ∧
    tieRun.1.getSeqDistance ["a", "<*>", "<*>", "z", "w"] ["a", "b", "k", "z", "w"] true =
      .ok (1, 2) ∧
    (tieRun.1.Match "a b k z w" SearchStrategy.Always).value? =
      some (some ⟨1, ["a", "b", "<*>", "<*>", "<*>"], 2⟩) := by
  decide!

/-- C16 (the code at the failing input). On an engine of capacity 2 that holds cluster 1
(`a b c`, least recently used) and cluster 2 (`x y`), `Match "a q r" Never` scores cluster 1,
returns no cluster, and leaves cluster 1 as the most recently used one; the next insertion
then evicts cluster 2, where without the scoring it evicts cluster 1. -/
theorem fastMatch_touches_candidates :
    runAdd smallDrain ["a b c", "x y"] = some lruRun ∧
    lruRun.1.GetClusters = [⟨1, ["a", "b", "c"], 1⟩, ⟨2, ["x", "y"], 1⟩] ∧
    lruRun.1.Match "a q r" SearchStrategy.Never = .ok lruScored none ∧
    lruScored.GetClusters = [⟨2, ["x", "y"], 1⟩, ⟨1, ["a", "b", "c"], 1⟩] ∧
    (lruRun.1.fastMatch [1] ["a", "q", "r"] 1 true).state? = some lruScored ∧
    ((lruRun.1.AddLogMessage "p").stateD smallDrain).GetClusters =
      [⟨2, ["x", "y"], 1⟩, ⟨3, ["p"], 1⟩] ∧
    ((lruScored.AddLogMessage "p").stateD smallDrain).GetClusters =
      [⟨1, ["a", "b", "c"], 1⟩, ⟨3, ["p"], 1⟩] := by
  decide!

/-! ### The sequence distance in closed form -/

theorem wildcardCount_eq_count (p : String) (t s : List String) (h : t.length = s.length) :
    wildcardCount p t s = t.count p := by
  induction t generalizing s with
  | nil => simp [wildcardCount]
  | cons a t ih =>
    cases s with
    | nil => simp at h
    | cons b s =>
      simp only [List.length_cons, add_left_inj] at h
      unfold wildcardCount
      rw [ih s h, List.count_cons]
      by_cases hap : a = p
      · simp [hap]; omega
      · simp [hap]

theorem hitCount_eq_countP (p : String) (t s : List String) :
    hitCount p t s = (t.zip s).countP (fun x => decide (x.1 ≠ p ∧ x.1 = x.2)) := by
  induction t generalizing s with
  | nil => simp [hitCount]
  | cons a t ih =>
    cases s with
    | nil => simp [hitCount]
    | cons b s =>
      unfold hitCount
      rw [ih s, List.zip_cons_cons, List.countP_cons]
      by_cases hc : a ≠ p ∧ a = b
      · rw [if_pos hc, if_pos (by simpa using hc)]
        omega
      · rw [if_neg hc, if_neg (by simpa using hc)]
        omega

theorem getSeqDistance_eq (d : Drain) (t s : List String) (ip : Bool)
    (hlen : t.length = s.length) (hpos : t.length ≠ 0) :
    d.getSeqDistance t s ip =
      .ok ((((hitCount d.ParamStr t s + (if ip then wildcardCount d.ParamStr t s else 0) : Nat) : ℚ)
        / (t.length : ℚ)), (wildcardCount d.ParamStr t s : Int)) := by
  unfold Drain.getSeqDistance
  rw [if_neg (not_not.mpr hlen), if_neg hpos]
  simp only [seqDistanceLoop_eq]
  cases ip <;> simp

/-- The exact quotient, which `Drain.getSeqDistance` holds in place of its `float64` rounding:
for unequal lengths the result is an error; for two empty sequences it is `(1, 0)`; for equal
length `L > 0` it is the parameter count `p` and the quotient `(h + p') / L`, which lies
between 0 and 1 and, with `includeParams`, is 1 if and only if every position of `t` is the
wildcard marker or equals `s` at that position. -/
theorem getSeqDistance_exact (d : Drain) (t s : List String) (ip : Bool) :
    (t.length ≠ s.length →
      d.getSeqDistance t s ip = .error (Error.seqDistanceLength t.length s.length)) ∧
    (t = [] → s = [] → d.getSeqDistance t s ip = .ok (1, 0)) ∧
    (t.length = s.length → 0 < t.length →
      ∃ sim, d.getSeqDistance t s ip = .ok (sim, (t.count d.ParamStr : Int)) ∧
        sim = (((t.zip s).countP (fun x => decide (x.1 ≠ d.ParamStr ∧ x.1 = x.2)) +
          (if ip then t.count d.ParamStr else 0) : Nat) : ℚ) / (t.length : ℚ) ∧
        0 ≤ sim ∧ sim ≤ 1 ∧
        (ip = true → (sim = 1 ↔
          ∀ (i : Nat) (x y : String), t[i]? = some x → s[i]? = some y →
            x = d.ParamStr ∨ x = y))) := by
  refine ⟨?_, ?_, ?_⟩
  · intro hne
    unfold Drain.getSeqDistance
    rw [if_pos hne]
  · intro ht hs
    subst ht hs
    rfl
  · intro hlen hpos
    have h0 : t.length ≠ 0 := Nat.pos_iff_ne_zero.mp hpos
    have hL : (0 : ℚ) < (t.length : ℚ) := by exact_mod_cast hpos
    have hle := hit_add_wildcard_le d.ParamStr t s
    have hw := wildcardCount_eq_count d.ParamStr t s hlen
    have hh := hitCount_eq_countP d.ParamStr t s
    refine ⟨(((hitCount d.ParamStr t s + (if ip then wildcardCount d.ParamStr t s else 0) : Nat)
      : ℚ) / (t.length : ℚ)), ?_, ?_, ?_, ?_, ?_⟩
    · rw [getSeqDistance_eq d t s ip hlen h0, hw]
    · rw [hh, hw]
    · exact div_nonneg (Nat.cast_nonneg _) (le_of_lt hL)
    · rw [div_le_one hL]
      have : hitCount d.ParamStr t s + (if ip then wildcardCount d.ParamStr t s else 0) ≤
          t.length := by
        split_ifs <;> omega
      exact_mod_cast this
    · intro hip
      subst hip
      simp only [if_true]
      rw [div_eq_one_iff_eq (ne_of_gt hL)]
      constructor
      · intro heq
        have hcount : t.length ≤ hitCount d.ParamStr t s + wildcardCount d.ParamStr t s := by
          have : ((hitCount d.ParamStr t s + wildcardCount d.ParamStr t s : Nat) : ℚ) =
              ((t.length : Nat) : ℚ) := heq
          have := Nat.cast_injective this
          omega
        exact ((perfectMatch_iff _ _ _).mp (perfectMatch_of_count _ _ _ hlen hcount)).2
      · intro hall
        have := count_of_perfectMatch _ _ _ ((perfectMatch_iff d.ParamStr t s).mpr ⟨hlen, hall⟩)
        rw [this]

theorem getSeqDistance_nonneg (d : Drain) (seq1 seq2 : List String) (ip : Bool) (sim : ℚ)
    (pc : Int) (h : d.getSeqDistance seq1 seq2 ip = .ok (sim, pc)) : 0 ≤ sim := by
  have hlen := getSeqDistance_ok_length d seq1 seq2 ip _ h
  by_cases h0 : seq1.length = 0
  · unfold Drain.getSeqDistance at h
    rw [if_neg (by simpa using hlen), if_pos h0] at h
    injection h with h
    injection h with h1 h2
    rw [← h1]
    exact zero_le_one
  · rw [getSeqDistance_eq d seq1 seq2 ip hlen h0] at h
    injection h with h
    injection h with h1 h2
    rw [← h1]
    exact div_nonneg (Nat.cast_nonneg _) (Nat.cast_nonneg _)

/-- The loop of `fastMatch` keeps the first candidate that is greatest in the lexicographic
order of (similarity, parameter count) and beats the initial `(maxSim, maxParamCount)`. -/
theorem fastMatchLoop_best (d : Drain) (tokens : List String) (ip : Bool) (ids : List Int)
    (cache : Cache) (ms : ℚ) (mpc : Int) (mc : Option LogCluster)
    (hlen : ∀ id, id ∈ ids → ∀ c, cache.Peek id = some c →
      c.LogTemplateTokens.length = tokens.length) :
    ∃ cache' s r, fastMatchLoop d tokens ip ids cache ms mpc mc = .ok cache' (s, r) ∧
      ((r = mc ∧ s = ms ∧ ∀ id, id ∈ ids → ∀ c, cache.Peek id = some c → ∀ sim pc,
          d.getSeqDistance c.LogTemplateTokens tokens ip = .ok (sim, pc) →
            toLex (sim, pc) ≤ toLex (ms, mpc)) ∨
        ∃ pre c post sim pc, ids = pre ++ c.ClusterId :: post ∧
          cache.Peek c.ClusterId = some c ∧
          d.getSeqDistance c.LogTemplateTokens tokens ip = .ok (sim, pc) ∧
          r = some c ∧ s = sim ∧ toLex (ms, mpc) < toLex (sim, pc) ∧
          (∀ id, id ∈ pre → ∀ c1, cache.Peek id = some c1 → ∀ sim1 pc1,
            d.getSeqDistance c1.LogTemplateTokens tokens ip = .ok (sim1, pc1) →
              toLex (sim1, pc1) < toLex (sim, pc)) ∧
          (∀ id, id ∈ post → ∀ c1, cache.Peek id = some c1 → ∀ sim1 pc1,
            d.getSeqDistance c1.LogTemplateTokens tokens ip = .ok (sim1, pc1) →
              toLex (sim1, pc1) ≤ toLex (sim, pc))) := by
  induction ids generalizing cache ms mpc mc with
  | nil =>
    exact ⟨cache, ms, mc, rfl, Or.inl ⟨rfl, rfl, fun id hid => by cases hid⟩⟩
  | cons a ids ih =>
    have hget := Cache.Get_sameRecords cache a
    have hsnd := Cache.Get_snd cache a
    unfold fastMatchLoop
    cases hg : cache.Get a with
    | mk c1 o =>
      rw [hg] at hget hsnd
      simp only at hsnd
      have hpk : ∀ key, c1.Peek key = cache.Peek key := hget.2.2
      have hlen1 : ∀ id, id ∈ ids → ∀ c, c1.Peek id = some c →
          c.LogTemplateTokens.length = tokens.length := by
        intro id hid c hc
        rw [hpk] at hc
        exact hlen id (List.mem_cons_of_mem _ hid) c hc
      -- the head candidate, once its score `x` is known to be below the winner's
      have extend : ∀ (acc : ℚ × Int) (mc1 : Option LogCluster) (cache' : Cache) (s : ℚ)
          (r : Option LogCluster),
          toLex (ms, mpc) ≤ toLex acc →
          (∀ c, cache.Peek a = some c → ∀ sim pc,
            d.getSeqDistance c.LogTemplateTokens tokens ip = .ok (sim, pc) →
              toLex (sim, pc) ≤ toLex acc) →
          (∃ pre c post sim pc, ids = pre ++ c.ClusterId :: post ∧
            c1.Peek c.ClusterId = some c ∧
            d.getSeqDistance c.LogTemplateTokens tokens ip = .ok (sim, pc) ∧
            r = some c ∧ s = sim ∧ toLex acc < toLex (sim, pc) ∧
            (∀ id, id ∈ pre → ∀ c2, c1.Peek id = some c2 → ∀ sim1 pc1,
              d.getSeqDistance c2.LogTemplateTokens tokens ip = .ok (sim1, pc1) →
                toLex (sim1, pc1) < toLex (sim, pc)) ∧
            (∀ id, id ∈ post → ∀ c2, c1.Peek id = some c2 → ∀ sim1 pc1,
              d.getSeqDistance c2.LogTemplateTokens tokens ip = .ok (sim1, pc1) →
                toLex (sim1, pc1) ≤ toLex (sim, pc))) →
          ∃ pre c post sim pc, a :: ids = pre ++ c.ClusterId :: post ∧
            cache.Peek c.ClusterId = some c ∧
            d.getSeqDistance c.LogTemplateTokens tokens ip = .ok (sim, pc) ∧
            r = some c ∧ s = sim ∧ toLex (ms, mpc) < toLex (sim, pc) ∧
            (∀ id, id ∈ pre → ∀ c2, cache.Peek id = some c2 → ∀ sim1 pc1,
              d.getSeqDistance c2.LogTemplateTokens tokens ip = .ok (sim1, pc1) →
                toLex (sim1, pc1) < toLex (sim, pc)) ∧
            (∀ id, id ∈ post → ∀ c2, cache.Peek id = some c2 → ∀ sim1 pc1,
              d.getSeqDistance c2.LogTemplateTokens tokens ip = .ok (sim1, pc1) →
                toLex (sim1, pc1) ≤ toLex (sim, pc)) := by
        intro acc mc1 cache' s r hacc ha ⟨pre, c, post, sim, pc, e1, e2, e3, e4, e5, e6, e7, e8⟩
        refine ⟨a :: pre, c, post, sim, pc, by rw [e1]; rfl, by rw [← hpk]; exact e2, e3, e4, e5,
          lt_of_le_of_lt hacc e6, ?_, ?_⟩
        · intro id hid c2 hc2 sim1 pc1 hd
          rcases List.mem_cons.mp hid with e | hid
          · subst e
            exact lt_of_le_of_lt (ha c2 hc2 sim1 pc1 hd) e6
          · exact e7 id hid c2 (by rw [hpk]; exact hc2) sim1 pc1 hd
        · intro id hid c2 hc2 sim1 pc1 hd
          exact e8 id hid c2 (by rw [hpk]; exact hc2) sim1 pc1 hd
      cases o with
      | none =>
        simp only
        obtain ⟨cache', s, r, heq, h⟩ := ih c1 ms mpc mc hlen1
        refine ⟨cache', s, r, heq, ?_⟩
        rcases h with ⟨h1, h2, h3⟩ | h
        · refine Or.inl ⟨h1, h2, ?_⟩
          intro id hid c hc sim pc hd
          rcases List.mem_cons.mp hid with e | hid
          · subst e
            rw [← hsnd] at hc
            cases hc
          · exact h3 id hid c (by rw [hpk]; exact hc) sim pc hd
        · refine Or.inr (extend (ms, mpc) mc cache' s r (le_refl _) ?_ h)
          intro c hc
          rw [← hsnd] at hc
          cases hc
      | some cluster =>
        simp only
        have hcl : cache.Peek a = some cluster := hsnd.symm
        have hid : cluster.ClusterId = a := Cache.Peek_id cache a cluster hcl
        obtain ⟨⟨cs, cp⟩, hdist⟩ := getSeqDistance_of_length d _ _ ip
          (hlen a (List.mem_cons_self _ _) cluster hcl)
        rw [hdist]
        simp only
        have hhead : ∀ c, cache.Peek a = some c → ∀ sim pc,
            d.getSeqDistance c.LogTemplateTokens tokens ip = .ok (sim, pc) →
              (sim, pc) = (cs, cp) := by
          intro c hc sim pc hd
          rw [hcl] at hc
          injection hc with hc
          subst hc
          rw [hdist] at hd
          injection hd with hd
          exact hd.symm
        by_cases hcond : cs > ms ∨ (cs = ms ∧ cp > mpc)
        · rw [if_pos hcond]
          have hlt : toLex (ms, mpc) < toLex (cs, cp) := by
            rw [Prod.Lex.lt_iff]
            rcases hcond with h | ⟨h, h'⟩
            · exact Or.inl h
            · exact Or.inr ⟨h.symm, h'⟩
          obtain ⟨cache', s, r, heq, h⟩ := ih c1 cs cp (some cluster) hlen1
          refine ⟨cache', s, r, heq, Or.inr ?_⟩
          rcases h with ⟨h1, h2, h3⟩ | h
          · refine ⟨[], cluster, ids, cs, cp, by rw [hid]; rfl, by rw [hid]; exact hcl, hdist,
              h1, h2, hlt, ?_, ?_⟩
            · intro id hid
              cases hid
            intro id hid c2 hc2 sim1 pc1 hd
            exact h3 id hid c2 (by rw [hpk]; exact hc2) sim1 pc1 hd
          · refine extend (cs, cp) (some cluster) cache' s r (le_of_lt hlt) ?_ h
            intro c hc sim pc hd
            rw [hhead c hc sim pc hd]
        · rw [if_neg hcond]
          have hle : toLex (cs, cp) ≤ toLex (ms, mpc) := by
            rw [← not_lt, Prod.Lex.lt_iff]
            rintro (h | ⟨h, h'⟩)
            · exact hcond (Or.inl h)
            · exact hcond (Or.inr ⟨h.symm, h'⟩)
          obtain ⟨cache', s, r, heq, h⟩ := ih c1 ms mpc mc hlen1
          refine ⟨cache', s, r, heq, ?_⟩
          rcases h with ⟨h1, h2, h3⟩ | h
          · refine Or.inl ⟨h1, h2, ?_⟩
            intro id hid c hc sim pc hd
            rcases List.mem_cons.mp hid with e | hid
            · subst e
              rw [hhead c hc sim pc hd]
              exact hle
            · exact h3 id hid c (by rw [hpk]; exact hc) sim pc hd
          · refine Or.inr (extend (ms, mpc) mc cache' s r (le_refl _) ?_ h)
            intro c hc sim pc hd
            rw [hhead c hc sim pc hd]
            exact hle

theorem getSeqDistance_paramCount (d : Drain) (seq1 seq2 : List String) (ip : Bool) (sim : ℚ)
    (pc : Int) (h : d.getSeqDistance seq1 seq2 ip = .ok (sim, pc)) :
    pc = (seq1.count d.ParamStr : Int) := by
  have hlen := getSeqDistance_ok_length d seq1 seq2 ip _ h
  by_cases h0 : seq1.length = 0
  · unfold Drain.getSeqDistance at h
    rw [if_neg (by simpa using hlen), if_pos h0] at h
    injection h with h
    injection h with h1 h2
    rw [← h2, List.length_eq_zero.mp h0]
    rfl
  · rw [getSeqDistance_eq d seq1 seq2 ip hlen h0, wildcardCount_eq_count _ _ _ hlen] at h
    injection h with h
    injection h with h1 h2
    exact h2.symm

/-- C15. For every registry, candidate id list, token list, threshold and `includeParams`
flag such that every candidate that resolves in the registry has a template of the token
list's length, `fastMatch` returns normally. It returns nil if and only if no resolving
candidate has a similarity of at least `simTh`. Otherwise it returns a resolving candidate `c`
of similarity at least `simTh` that sits at a position of the candidate list such that every
resolving candidate before it has a smaller similarity, or the same similarity and fewer
wildcards, and every resolving candidate after it has a smaller similarity, or the same
similarity and at most as many wildcards. Ids that do not resolve are skipped. -/
theorem fastMatch_selects_best (d : Drain) (ids : List Int) (tokens : List String) (simTh : ℚ)
    (ip : Bool)
    (hlen : ∀ id, id ∈ ids → ∀ c, d.IdToCluster.Peek id = some c →
      c.LogTemplateTokens.length = tokens.length) :
    ∃ d' r, d.fastMatch ids tokens simTh ip = .ok d' r ∧
      (r = none ↔ ∀ id, id ∈ ids → ∀ c, d.IdToCluster.Peek id = some c → ∀ sim pc,
        d.getSeqDistance c.LogTemplateTokens tokens ip = .ok (sim, pc) → sim < simTh) ∧
      (∀ c, r = some c → ∃ pre post sim,
        ids = pre ++ c.ClusterId :: post ∧ d.IdToCluster.Peek c.ClusterId = some c ∧
        d.getSeqDistance c.LogTemplateTokens tokens ip =
          .ok (sim, (c.LogTemplateTokens.count d.ParamStr : Int)) ∧
        simTh ≤ sim ∧
        (∀ id, id ∈ pre → ∀ c1, d.IdToCluster.Peek id = some c1 → ∀ sim1 pc1,
          d.getSeqDistance c1.LogTemplateTokens tokens ip = .ok (sim1, pc1) →
            sim1 < sim ∨ (sim1 = sim ∧
              c1.LogTemplateTokens.count d.ParamStr < c.LogTemplateTokens.count d.ParamStr)) ∧
        (∀ id, id ∈ post → ∀ c1, d.IdToCluster.Peek id = some c1 → ∀ sim1 pc1,
          d.getSeqDistance c1.LogTemplateTokens tokens ip = .ok (sim1, pc1) →
            sim1 < sim ∨ (sim1 = sim ∧
              c1.LogTemplateTokens.count d.ParamStr ≤ c.LogTemplateTokens.count d.ParamStr))) := by
  obtain ⟨cache', s, r, heq, h⟩ := fastMatchLoop_best d tokens ip ids d.IdToCluster (-1) (-1)
    none hlen
  unfold Drain.fastMatch
  rw [heq]
  refine ⟨_, _, rfl, ?_, ?_⟩
  · rcases h with ⟨h1, h2, h3⟩ | ⟨pre, c, post, sim, pc, e1, e2, e3, e4, e5, e6, e7, e8⟩
    · subst h1
      simp only [ite_self, true_iff]
      intro id hid c hc sim pc hd
      have hle := h3 id hid c hc sim pc hd
      have h0 := getSeqDistance_nonneg d _ _ _ _ _ hd
      rw [Prod.Lex.le_iff] at hle
      simp only at hle
      rcases hle with hlt | ⟨he, _⟩ <;> linarith
    · subst e4 e5
      constructor
      · intro hnone id hid c1 hc1 sim1 pc1 hd
        have hlt : s < simTh := by
          by_contra hge
          rw [if_pos (not_lt.mp hge)] at hnone
          cases hnone
        have hle : toLex (sim1, pc1) ≤ toLex (s, pc) := by
          rw [e1] at hid
          rcases List.mem_append.mp hid with hp | hp
          · exact le_of_lt (e7 id hp c1 hc1 sim1 pc1 hd)
          · rcases List.mem_cons.mp hp with e | hp
            · subst e
              rw [e2] at hc1
              injection hc1 with hc1
              subst hc1
              rw [e3] at hd
              injection hd with hd
              rw [hd]
            · exact e8 id hp c1 hc1 sim1 pc1 hd
        rw [Prod.Lex.le_iff] at hle
        simp only at hle
        rcases hle with h' | ⟨h', _⟩
        · exact lt_trans h' hlt
        · rw [h']
          exact hlt
      · intro hall
        have := hall c.ClusterId (by rw [e1]; simp) c e2 s pc e3
        rw [if_neg (not_le.mpr this)]
  · intro c hc
    rcases h with ⟨h1, h2, h3⟩ | ⟨pre, c0, post, sim, pc, e1, e2, e3, e4, e5, e6, e7, e8⟩
    · subst h1
      simp at hc
    · subst e4 e5
      have hge : s ≥ simTh := by
        by_contra hlt
        rw [if_neg hlt] at hc
        cases hc
      rw [if_pos hge] at hc
      injection hc with hc
      subst hc
      have hpc := getSeqDistance_paramCount d _ _ _ _ _ e3
      subst hpc
      refine ⟨pre, post, s, e1, e2, e3, hge, ?_, ?_⟩
      · intro id hid c1 hc1 sim1 pc1 hd
        have hlt := e7 id hid c1 hc1 sim1 pc1 hd
        have hpc1 := getSeqDistance_paramCount d _ _ _ _ _ hd
        subst hpc1
        rw [Prod.Lex.lt_iff] at hlt
        simp only at hlt
        rcases hlt with h' | ⟨h', h''⟩
        · exact Or.inl h'
        · exact Or.inr ⟨h', by exact_mod_cast h''⟩
      · intro id hid c1 hc1 sim1 pc1 hd
        have hle := e8 id hid c1 hc1 sim1 pc1 hd
        have hpc1 := getSeqDistance_paramCount d _ _ _ _ _ hd
        subst hpc1
        rw [Prod.Lex.le_iff] at hle
        simp only at hle
        rcases hle with h' | ⟨h', h''⟩
        · exact Or.inl h'
        · exact Or.inr ⟨h', by exact_mod_cast h''⟩

/-- Witness for C15: on `tieRun` the candidates 7 (not live), 2 (`a <*> <*> z w`) and 1
(`a b <*> <*> <*>`) are scored against "a b k z w" with threshold 1: both live candidates
have similarity 1, and the one with three wildcards is returned. -/
theorem fastMatch_selects_best_witness :
    (tieRun.1.fastMatch [7, 2, 1] ["a", "b", "k", "z", "w"] 1 true).value? =
      some (some ⟨1, ["a", "b", "<*>", "<*>", "<*>"], 2⟩) ∧
    ∃ d' r, tieRun.1.fastMatch [7, 2, 1] ["a", "b", "k", "z", "w"] 1 true = .ok d' r ∧
      (r = none ↔ ∀ id, id ∈ [7, 2, 1] → ∀ c, tieRun.1.IdToCluster.Peek id = some c → ∀ sim pc,
        tieRun.1.getSeqDistance c.LogTemplateTokens ["a", "b", "k", "z", "w"] true =
          .ok (sim, pc) → sim < 1) ∧
      (∀ c, r = some c → ∃ pre post sim,
        [7, 2, 1] = pre ++ c.ClusterId :: post ∧ tieRun.1.IdToCluster.Peek c.ClusterId = some c ∧
        tieRun.1.getSeqDistance c.LogTemplateTokens ["a", "b", "k", "z", "w"] true =
          .ok (sim, (c.LogTemplateTokens.count tieRun.1.ParamStr : Int)) ∧
        1 ≤ sim ∧
        (∀ id, id ∈ pre → ∀ c1, tieRun.1.IdToCluster.Peek id = some c1 → ∀ sim1 pc1,
          tieRun.1.getSeqDistance c1.LogTemplateTokens ["a", "b", "k", "z", "w"] true =
              .ok (sim1, pc1) →
            sim1 < sim ∨ (sim1 = sim ∧
              c1.LogTemplateTokens.count tieRun.1.ParamStr <
                c.LogTemplateTokens.count tieRun.1.ParamStr)) ∧
        (∀ id, id ∈ post → ∀ c1, tieRun.1.IdToCluster.Peek id = some c1 → ∀ sim1 pc1,
          tieRun.1.getSeqDistance c1.LogTemplateTokens ["a", "b", "k", "z", "w"] true =
              .ok (sim1, pc1) →
            sim1 < sim ∨ (sim1 = sim ∧
              c1.LogTemplateTokens.count tieRun.1.ParamStr ≤
                c.LogTemplateTokens.count tieRun.1.ParamStr))) :=
  ⟨by decide!,
    fastMatch_selects_best tieRun.1 [7, 2, 1] ["a", "b", "k", "z", "w"] 1 true (by
      intro id hid c hc
      have h7 : tieRun.1.IdToCluster.Peek 7 = none := by decide!
      have h2 : tieRun.1.IdToCluster.Peek 2 = some ⟨2, ["a", "<*>", "<*>", "z", "w"], 2⟩ := by
        decide!
      have h1 : tieRun.1.IdToCluster.Peek 1 = some ⟨1, ["a", "b", "<*>", "<*>", "<*>"], 2⟩ := by
        decide!
      simp only [List.mem_cons, List.mem_singleton, List.not_mem_nil, or_false] at hid
      rcases hid with e | e | e
      · subst e
        rw [h7] at hc
        cases hc
      · subst e
        rw [h2] at hc
        cases hc
        rfl
      · subst e
        rw [h1] at hc
        cases hc
        rfl)⟩

theorem Cache.Peek_eq_none (c : Cache) (key : Int)
    (h : key ∉ c.items.map (fun v => v.ClusterId)) : c.Peek key = none := by
  unfold Cache.Peek
  rw [List.find?_eq_none]
  intro v hv hk
  exact h (List.mem_map.mpr ⟨v, hv, by simpa using hk⟩)

/-- Re-adding the records of a registry, oldest first, to an empty cache of the same capacity
rebuilds the registry with its recency order. -/
theorem Cache.foldl_Add_reverse (n : Int) (l : List LogCluster)
    (hn : (l.map (fun c => c.ClusterId)).Nodup) (hl : (l.length : Int) ≤ n) :
    l.reverse.foldl (fun l cluster => l.Add cluster) ({ size := n, items := [] } : Cache) =
      { size := n, items := l } := by
  induction l with
  | nil => rfl
  | cons x xs ih =>
    rw [List.map_cons, List.nodup_cons] at hn
    have hl' : (xs.length : Int) ≤ n := by
      rw [List.length_cons] at hl
      push_cast at hl
      omega
    rw [List.reverse_cons, List.foldl_append, ih hn.2 hl']
    show Cache.Add { size := n, items := xs } x = _
    unfold Cache.Add
    rw [Cache.Peek_eq_none _ _ hn.1]
    simp only
    rw [if_neg (not_lt.mpr hl)]

theorem Cache.nodup_of_sameRecords (c c' : Cache) (hs : c.SameRecords c')
    (h : (c.items.map (fun v => v.ClusterId)).Nodup) :
    (c'.items.map (fun v => v.ClusterId)).Nodup :=
  ((hs.2.1.map _).nodup_iff).mpr h

theorem Cache.store_ids (c : Cache) (v : LogCluster) :
    (c.store v).items.map (fun w => w.ClusterId) = c.items.map (fun w => w.ClusterId) := by
  unfold Cache.store
  rw [List.map_map]
  apply List.map_congr_left
  intro w _
  simp only [Function.comp]
  split_ifs with hw
  · simpa using (beq_iff_eq.mp hw).symm
  · rfl

theorem Cache.nodup_Add (c : Cache) (v : LogCluster)
    (hv : v.ClusterId ∉ c.items.map (fun w => w.ClusterId))
    (h : (c.items.map (fun w => w.ClusterId)).Nodup) :
    ((c.Add v).items.map (fun w => w.ClusterId)).Nodup := by
  have hcons : ((v :: c.items).map (fun w => w.ClusterId)).Nodup := by
    rw [List.map_cons, List.nodup_cons]
    exact ⟨hv, h⟩
  unfold Cache.Add
  rw [Cache.Peek_eq_none _ _ hv]
  simp only
  split_ifs
  · exact List.Nodup.sublist ((List.dropLast_sublist _).map _) hcons
  · exact hcons

theorem nodup_add (d : Drain) (m : String) (d' : Drain) (r : LogCluster × ClusterUpdateType)
    (hc : Consistent d) (h : (d.IdToCluster.items.map (fun v => v.ClusterId)).Nodup)
    (hadd : d.AddLogMessage m = .ok d' r) :
    (d'.IdToCluster.items.map (fun v => v.ClusterId)).Nodup := by
  obtain ⟨r, u⟩ := r
  rcases AddLogMessage_ok_cases d m d' r u hadd with
    ⟨d1, c0, _, ht, hpeek, hlen, hr, _, hd'⟩ | ⟨d1, _, ht, _, hr, hgraft⟩
  · have hs := ht.fields.2.2.2.2.2.2.2.2.2.2
    have h1 := Cache.nodup_of_sameRecords _ _ hs h
    rw [hd']
    refine Cache.nodup_of_sameRecords _ _ (Cache.Get_sameRecords (d1.IdToCluster.store r) _) ?_
    rw [Cache.store_ids]
    exact h1
  · have hs := ht.fields.2.2.2.2.2.2.2.2.2.2
    have h1 := Cache.nodup_of_sameRecords _ _ hs h
    have hne : r.LogTemplateTokens ≠ [] := by
      rw [hr]
      exact getContentAsTokens_ne_nil d m
    obtain ⟨cache', nb, hd', hs', _⟩ := addSeqToPrefixTree_spec _ _ _ _ hne hgraft
    simp only at hs'
    rw [hd']
    refine Cache.nodup_of_sameRecords _ _ hs' (Cache.nodup_Add _ _ ?_ h1)
    intro hmem
    obtain ⟨w, hw, hwid⟩ := List.mem_map.mp hmem
    have := hc.registry_le w (hs.2.1.mem_iff.mp hw)
    have hwid' : w.ClusterId = r.ClusterId := hwid
    rw [hwid', hr] at this
    simp only [NewLogCluster] at this
    have hcc : d1.ClustersCounter = d.ClustersCounter := ht.fields.2.1
    omega

/-- Every reachable engine state has a registry the cache library can hold. -/
theorem registryValid_of_reachable (d : Drain) (h : Reachable d) : RegistryValid d := by
  have hc := consistent_of_reachable d h
  refine ⟨hc.size_eq, by rw [← hc.size_eq]; exact hc.size_pos, hc.length_le, ?_⟩
  induction h with
  | fresh options d h0 =>
    obtain ⟨_, _, e⟩ := NewDrain_ok options d h0
    subst e
    exact List.nodup_nil
  | add d m d' r hd hadd ih =>
    exact nodup_add d m d' r (consistent_of_reachable d hd) (ih (consistent_of_reachable d hd))
      hadd
  | addError d m d' e hd herr ih =>
    have ht := AddLogMessage_error_touched d m d' e herr
    exact Cache.nodup_of_sameRecords _ _ ht.fields.2.2.2.2.2.2.2.2.2.2
      (ih (consistent_of_reachable d hd))

theorem capped_NewNode (maxChildren : Int) (paramStr : String) (h : 1 ≤ maxChildren) :
    Capped maxChildren paramStr NewNode :=
  Capped.mk [] [] (by simp only [List.length_nil, Nat.cast_zero]; omega)
    (fun e => by simp only [List.length_nil, Nat.cast_zero] at e; omega)
    (fun kn hkn => by cases hkn)

theorem capped_inv (maxChildren : Int) (paramStr : String) (node : Node)
    (h : Capped maxChildren paramStr node) :
    (node.KeyToChildNode.length : Int) ≤ maxChildren ∧
    ((node.KeyToChildNode.length : Int) = maxChildren →
      node.KeyToChildNode.lookup paramStr ≠ none) ∧
    (∀ kn, kn ∈ node.KeyToChildNode → Capped maxChildren paramStr kn.2) := by
  cases h with
  | mk children ids h1 h2 h3 => exact ⟨h1, h2, h3⟩

theorem map_fst_assignChild (children : List (String × Node)) (key : String) (old child : Node)
    (h : children.lookup key = some old) :
    (assignChild children key child).map Prod.fst = children.map Prod.fst := by
  induction children with
  | nil => cases h
  | cons a rest ih =>
    obtain ⟨k, n⟩ := a
    unfold assignChild
    by_cases hk : k = key
    · rw [if_pos hk, hk]
      rfl
    · rw [if_neg hk]
      rw [List.lookup_cons] at h
      have : (key == k) = false := by simpa using fun e => hk e.symm
      rw [this] at h
      simp only [List.map_cons, ih h]

/-- The step of `addSeqToPrefixTree` at a node within the cap keeps the node within the cap. -/
theorem nextEdge_capped (d : Drain) (node : Node) (token : String)
    (hlen : (node.KeyToChildNode.length : Int) ≤ d.MaxChildren)
    (hsat : (node.KeyToChildNode.length : Int) = d.MaxChildren →
      node.KeyToChildNode.lookup d.ParamStr ≠ none) :
    ∀ x, ((assignChild node.KeyToChildNode (nextEdge d node token).1 x).length : Int) ≤
        d.MaxChildren ∧
      (((assignChild node.KeyToChildNode (nextEdge d node token).1 x).length : Int) =
          d.MaxChildren →
        (assignChild node.KeyToChildNode (nextEdge d node token).1 x).lookup d.ParamStr ≠
          none) := by
  have hown : node.KeyToChildNode.lookup d.ParamStr = none →
      (node.KeyToChildNode.length : Int) + 1 ≤ d.MaxChildren := by
    intro hnone
    have hne : (node.KeyToChildNode.length : Int) ≠ d.MaxChildren := fun e => hsat e hnone
    omega
  obtain ⟨_, _, hnew⟩ := nextEdge_ready d node token hown
  intro x
  refine ⟨?_, fun e hnone => by have := hnew x hnone; omega⟩
  by_cases hnone : (assignChild node.KeyToChildNode (nextEdge d node token).1 x).lookup
      d.ParamStr = none
  · have := hnew x hnone
    omega
  · rw [length_assignChild]
    by_cases hk : node.KeyToChildNode.lookup (nextEdge d node token).1 = none
    · rw [if_pos hk]
      -- a new key: either the token below the cap, or the wildcard marker
      by_cases hp : node.KeyToChildNode.lookup d.ParamStr = none
      · have := hown hp
        push_cast
        omega
      · unfold nextEdge at hk
        cases hc : node.KeyToChildNode.lookup token with
        | some c =>
          rw [hc] at hk
          simp only at hk
          rw [hc] at hk
          cases hk
        | none =>
          rw [hc] at hk
          simp only at hk
          cases hw : node.KeyToChildNode.lookup d.ParamStr with
          | none => exact absurd hw hp
          | some w =>
            rw [hw] at hk
            simp only at hk
            by_cases hnum : (d.ParametrizeNumericTokens && hasNumbers token) = true
            · rw [if_pos hnum] at hk
              simp only at hk
              rw [hw] at hk
              cases hk
            · rw [if_neg hnum] at hk
              by_cases h1 : (node.KeyToChildNode.length : Int) < d.MaxChildren
              · push_cast
                omega
              · rw [if_neg h1] at hk
                simp only at hk
                rw [hw] at hk
                cases hk
    · rw [if_neg hk]
      exact hlen

theorem addSeqLoop_capped (d : Drain) (hmax : 1 ≤ d.MaxChildren) (cluster : LogCluster) (n : Nat)
    (tokens : List String) (depth : Int) (cache : Cache) (node : Node)
    (hw : Capped d.MaxChildren d.ParamStr node) :
    ∃ cache' node', addSeqLoop d cluster n tokens depth cache (some node) =
        some (cache', some node') ∧ Capped d.MaxChildren d.ParamStr node' := by
  induction tokens generalizing depth cache node with
  | nil => exact ⟨cache, node, rfl, hw⟩
  | cons token rest ih =>
    obtain ⟨hlen, hsat, hch⟩ := capped_inv _ _ _ hw
    have hown : node.KeyToChildNode.lookup d.ParamStr = none →
        (node.KeyToChildNode.length : Int) + 1 ≤ d.MaxChildren := by
      intro hnone
      have hne : (node.KeyToChildNode.length : Int) ≠ d.MaxChildren := fun e => hsat e hnone
      omega
    unfold addSeqLoop
    by_cases hleaf : depth ≥ d.MaxNodeDepth ∨ depth ≥ (n : Int)
    · rw [if_pos hleaf]
      exact ⟨_, _, rfl, Capped.mk _ _ hlen hsat hch⟩
    · rw [if_neg hleaf]
      obtain ⟨child, hchild, _⟩ := nextEdge_ready d node token hown
      have hnew := nextEdge_capped d node token hlen hsat
      cases hedge : nextEdge d node token with
      | mk key c =>
        rw [hedge] at hchild hnew
        simp only at hchild hnew
        subst hchild
        have hcw : Capped d.MaxChildren d.ParamStr child := by
          rcases nextEdge_some d node token key child hedge with hc | ⟨_, hc⟩
          · exact hch _ (mem_of_lookup _ _ _ hc)
          · rw [hc]
            exact capped_NewNode _ _ hmax
        obtain ⟨cache', child', hrec, hw'⟩ := ih (depth + 1) cache child hcw
        simp only [hrec]
        refine ⟨cache', _, rfl, Capped.mk _ _ (hnew child').1 (hnew child').2 ?_⟩
        intro kn hkn
        rcases mem_assignChild _ _ _ _ hkn with hkn | e
        · exact hch kn hkn
        · subst e
          exact hw'

/-- At a node that has `maxChildren` children, a token that is not a child key is routed to
the existing wildcard child. -/
theorem nextEdge_saturated (d : Drain) (node : Node) (token : String)
    (hfull : (node.KeyToChildNode.length : Int) = d.MaxChildren)
    (hwild : node.KeyToChildNode.lookup d.ParamStr ≠ none)
    (htoken : node.KeyToChildNode.lookup token = none) :
    ∃ w, node.KeyToChildNode.lookup d.ParamStr = some w ∧
      nextEdge d node token = (d.ParamStr, some w) := by
  cases hw : node.KeyToChildNode.lookup d.ParamStr with
  | none => exact absurd hw hwild
  | some w =>
    refine ⟨w, rfl, ?_⟩
    unfold nextEdge
    rw [htoken]
    simp only [hw]
    split_ifs with h1 h2
    · rfl
    · omega
    · rfl

/-- C18. With `MaxChildren ≥ 1`, `addSeqToPrefixTree` on a tree whose buckets are within the
cap (every node below the root has at most `MaxChildren` children, and a node with exactly
`MaxChildren` children has a wildcard child) returns normally and leaves every bucket within
the cap. At a step of the loop that is not the leaf step, on a node within the cap that has
`MaxChildren` children and no child keyed by the token, the loop descends into the existing
wildcard child `w` (the lookup yields a node), and the node keeps its keys: the only change is
that the wildcard child is replaced by what the rest of the loop makes of `w`. -/
theorem addSeqToPrefixTree_cap (d : Drain) (hmax : 1 ≤ d.MaxChildren) (root : Node)
    (cluster : LogCluster)
    (hroot : ∀ kn, kn ∈ root.KeyToChildNode → Capped d.MaxChildren d.ParamStr kn.2) :
    (∃ d', d.addSeqToPrefixTree root cluster = some d' ∧
      d'.MaxChildren = d.MaxChildren ∧ d'.ParamStr = d.ParamStr ∧
      ∀ kn, kn ∈ d'.RootNode.KeyToChildNode → Capped d'.MaxChildren d'.ParamStr kn.2) ∧
    (∀ (node : Node) (token : String) (rest : List String) (depth : Int) (cache : Cache)
        (n : Nat),
      Capped d.MaxChildren d.ParamStr node →
      (node.KeyToChildNode.length : Int) = d.MaxChildren →
      node.KeyToChildNode.lookup token = none →
      ¬ (depth ≥ d.MaxNodeDepth ∨ depth ≥ (n : Int)) →
      ∃ w cache' w', node.KeyToChildNode.lookup d.ParamStr = some w ∧
        addSeqLoop d cluster n rest (depth + 1) cache (some w) = some (cache', some w') ∧
        addSeqLoop d cluster n (token :: rest) depth cache (some node) =
          some (cache', some (Node.mk (assignChild node.KeyToChildNode d.ParamStr w')
            node.ClusterIds)) ∧
        (assignChild node.KeyToChildNode d.ParamStr w').map Prod.fst =
          node.KeyToChildNode.map Prod.fst ∧
        (assignChild node.KeyToChildNode d.ParamStr w').length =
          node.KeyToChildNode.length) := by
  constructor
  · have main : ∀ first : Node, Capped d.MaxChildren d.ParamStr first →
        ∃ d', (if cluster.LogTemplateTokens.length = 0 then
            some { d with
              RootNode := Node.mk (assignChild root.KeyToChildNode
                (toString cluster.LogTemplateTokens.length)
                (Node.mk first.KeyToChildNode [cluster.ClusterId])) root.ClusterIds }
          else
            match addSeqLoop d cluster cluster.LogTemplateTokens.length
                cluster.LogTemplateTokens 1 d.IdToCluster (some first) with
            | none => none
            | some (cache, none) =>
              some { d with
                IdToCluster := cache
                RootNode := Node.mk (assignChild root.KeyToChildNode
                  (toString cluster.LogTemplateTokens.length) first) root.ClusterIds }
            | some (cache, some firstLayerNode) =>
              some { d with
                IdToCluster := cache
                RootNode := Node.mk (assignChild root.KeyToChildNode
                  (toString cluster.LogTemplateTokens.length) firstLayerNode)
                  root.ClusterIds }) = some d' ∧
          d'.MaxChildren = d.MaxChildren ∧ d'.ParamStr = d.ParamStr ∧
          ∀ kn, kn ∈ d'.RootNode.KeyToChildNode → Capped d'.MaxChildren d'.ParamStr kn.2 := by
      intro first hf
      obtain ⟨h1, h2, h3⟩ := capped_inv _ _ _ hf
      by_cases h0 : cluster.LogTemplateTokens.length = 0
      · rw [if_pos h0]
        refine ⟨_, rfl, rfl, rfl, ?_⟩
        intro kn hkn
        rcases mem_assignChild _ _ _ _ hkn with hkn | e
        · exact hroot kn hkn
        · subst e
          exact Capped.mk _ _ h1 h2 h3
      · rw [if_neg h0]
        obtain ⟨cache', nb, hloop, hw⟩ := addSeqLoop_capped d hmax cluster _
          cluster.LogTemplateTokens 1 d.IdToCluster first hf
        rw [hloop]
        refine ⟨_, rfl, rfl, rfl, ?_⟩
        intro kn hkn
        rcases mem_assignChild _ _ _ _ hkn with hkn | e
        · exact hroot kn hkn
        · subst e
          exact hw
    unfold Drain.addSeqToPrefixTree
    simp only
    cases hl : root.KeyToChildNode.lookup (toString cluster.LogTemplateTokens.length) with
    | none => exact main NewNode (capped_NewNode _ _ hmax)
    | some old => exact main old (hroot _ (mem_of_lookup _ _ _ hl))
  · intro node token rest depth cache n hcap hfull htoken hleaf
    obtain ⟨_, hsat, hch⟩ := capped_inv _ _ _ hcap
    obtain ⟨w, hw, hedge⟩ := nextEdge_saturated d node token hfull (hsat hfull) htoken
    obtain ⟨cache', w', hrec, _⟩ := addSeqLoop_capped d hmax cluster n rest (depth + 1) cache w
      (hch _ (mem_of_lookup _ _ _ hw))
    refine ⟨w, cache', w', hw, hrec, ?_, map_fst_assignChild _ _ w w' hw, ?_⟩
    · rw [addSeqLoop, if_neg hleaf, hedge]
      simp only [hrec]
    · rw [length_assignChild, hw]
      simp

/-- Witness for C18: `oneChildDrain1` (cap 1) has one bucket, whose only child is the wildcard
child; grafting the template `b x` adds no child to the bucket and lists the new cluster in
the leaf below the wildcard child. -/
theorem addSeqToPrefixTree_cap_witness :
    oneChildDrain1.RootNode =
      Node.mk [("2", Node.mk [("<*>", Node.mk [] [1])] [])] [] ∧
    (oneChildDrain1.addSeqToPrefixTree oneChildDrain1.RootNode
        (NewLogCluster 2 ["b", "x"])).map (fun d' => d'.RootNode) =
      some (Node.mk [("2", Node.mk [("<*>", Node.mk [] [1, 2])] [])] []) ∧
    ∃ d', oneChildDrain1.addSeqToPrefixTree oneChildDrain1.RootNode
        (NewLogCluster 2 ["b", "x"]) = some d' ∧
      d'.MaxChildren = oneChildDrain1.MaxChildren ∧ d'.ParamStr = oneChildDrain1.ParamStr ∧
      ∀ kn, kn ∈ d'.RootNode.KeyToChildNode → Capped d'.MaxChildren d'.ParamStr kn.2 :=
  ⟨by decide!, by decide!,
    (addSeqToPrefixTree_cap oneChildDrain1 (by decide!) oneChildDrain1.RootNode
      (NewLogCluster 2 ["b", "x"]) (by
        intro kn hkn
        have hr : oneChildDrain1.RootNode.KeyToChildNode =
            [("2", Node.mk [("<*>", Node.mk [] [1])] [])] := by decide!
        have hm : oneChildDrain1.MaxChildren = 1 := by decide!
        have hp : oneChildDrain1.ParamStr = "<*>" := by decide!
        rw [hr] at hkn
        rw [hm, hp]
        rw [List.mem_singleton] at hkn
        subst hkn
        refine Capped.mk _ _ (by decide) (fun _ => by decide) ?_
        intro kn hkn
        rw [List.mem_singleton] at hkn
        subst hkn
        exact Capped.mk _ _ (by decide) (fun e => by simp at e) (fun kn hkn => by cases hkn))).1⟩

/-- C19. Numeric-token rule of `addSeqToPrefixTree`. With `ParametrizeNumericTokens` on, at a
step of the loop that is not the leaf step and whose token contains a digit (`hasNumbers`):
if the current node has a child keyed by the token, the loop descends into that child; if
not, it descends along the key `ParamStr`, into the existing wildcard child, or into a new
node that is stored under `ParamStr` when there is none, whatever the child count of the
node and `MaxChildren`; the child map of the node after the step is the old one with the
entry of that key assigned, so that no child keyed by the token is created. On a subtree
prepared for a wildcard child (`WildcardReady`, with `MaxChildren ≥ 1`) the step returns. -/
theorem addSeqLoop_numeric_token (d : Drain) (hp : d.ParametrizeNumericTokens = true)
    (cluster : LogCluster) (n : Nat) (node : Node) (token : String) (rest : List String)
    (depth : Int) (cache : Cache) (hnum : hasNumbers token = true)
    (hleaf : ¬ (depth ≥ d.MaxNodeDepth ∨ depth ≥ (n : Int))) :
    ∃ key target, nextEdge d node token = (key, some target) ∧
      addSeqLoop d cluster n (token :: rest) depth cache (some node) =
        (match addSeqLoop d cluster n rest (depth + 1) cache (some target) with
        | none => none
        | some (cache', none) => some (cache', some node)
        | some (cache', some child') =>
          some (cache', some (Node.mk (assignChild node.KeyToChildNode key child')
            node.ClusterIds))) ∧
      (∀ c, node.KeyToChildNode.lookup token = some c → key = token ∧ target = c) ∧
      (node.KeyToChildNode.lookup token = none →
        key = d.ParamStr ∧
        (∀ w, node.KeyToChildNode.lookup d.ParamStr = some w → target = w) ∧
        (node.KeyToChildNode.lookup d.ParamStr = none → target = NewNode) ∧
        (∀ x, token ≠ d.ParamStr →
          (assignChild node.KeyToChildNode d.ParamStr x).lookup token = none) ∧
        (∀ x, (assignChild node.KeyToChildNode d.ParamStr x).lookup d.ParamStr = some x)) ∧
      (1 ≤ d.MaxChildren → WildcardReady d.MaxChildren d.ParamStr node →
        ∃ cache' child', addSeqLoop d cluster n (token :: rest) depth cache (some node) =
          some (cache', some (Node.mk (assignChild node.KeyToChildNode key child')
            node.ClusterIds))) := by
  have hcond : (d.ParametrizeNumericTokens && hasNumbers token) = true := by
    rw [hp, hnum]
    rfl
  have hedge : ∃ key target, nextEdge d node token = (key, some target) ∧
      (∀ c, node.KeyToChildNode.lookup token = some c → key = token ∧ target = c) ∧
      (node.KeyToChildNode.lookup token = none →
        key = d.ParamStr ∧
        (∀ w, node.KeyToChildNode.lookup d.ParamStr = some w → target = w) ∧
        (node.KeyToChildNode.lookup d.ParamStr = none → target = NewNode)) := by
    cases hc : node.KeyToChildNode.lookup token with
    | some c =>
      have he : nextEdge d node token = (token, some c) := by
        unfold nextEdge
        rw [hc]
      refine ⟨token, c, he, ?_, ?_⟩
      · intro c' hc'
        injection hc' with hc'
        exact ⟨rfl, hc'⟩
      · intro h
        cases h
    | none =>
      cases hw : node.KeyToChildNode.lookup d.ParamStr with
      | none =>
        have he : nextEdge d node token = (d.ParamStr, some NewNode) := by
          unfold nextEdge
          rw [hc]
          simp only
          rw [if_pos hcond, hw]
        refine ⟨d.ParamStr, NewNode, he, ?_, ?_⟩
        · intro c h
          cases h
        · intro _
          refine ⟨rfl, ?_, fun _ => rfl⟩
          intro w h
          cases h
      | some w =>
        have he : nextEdge d node token = (d.ParamStr, some w) := by
          unfold nextEdge
          rw [hc]
          simp only
          rw [if_pos hcond, hw]
        refine ⟨d.ParamStr, w, he, ?_, ?_⟩
        · intro c h
          cases h
        · intro _
          refine ⟨rfl, ?_, ?_⟩
          · intro w' hw'
            injection hw' with hw'
          · intro h
            cases h
  obtain ⟨key, target, h1, h2, h3⟩ := hedge
  have hstep : addSeqLoop d cluster n (token :: rest) depth cache (some node) =
      (match addSeqLoop d cluster n rest (depth + 1) cache (some target) with
      | none => none
      | some (cache', none) => some (cache', some node)
      | some (cache', some child') =>
        some (cache', some (Node.mk (assignChild node.KeyToChildNode key child')
          node.ClusterIds))) := by
    rw [addSeqLoop, if_neg hleaf, h1]
  refine ⟨key, target, h1, hstep, h2, ?_, ?_⟩
  · intro hnone
    obtain ⟨e1, e2, e3⟩ := h3 hnone
    refine ⟨e1, e2, e3, ?_, fun x => lookup_assignChild_self _ _ _⟩
    intro x hne
    rw [lookup_assignChild_ne _ _ _ _ hne]
    exact hnone
  · intro hmax hready
    obtain ⟨_, hch⟩ := wildcardReady_inv _ _ _ hready
    have hcw : WildcardReady d.MaxChildren d.ParamStr target := by
      rcases nextEdge_some d node token key target h1 with hc | ⟨_, hc⟩
      · exact hch _ (mem_of_lookup _ _ _ hc)
      · rw [hc]
        exact wildcardReady_NewNode _ _ hmax
    obtain ⟨cache', child', hrec, _⟩ := addSeqLoop_ready d hmax cluster n rest (depth + 1) cache
      target hcw
    exact ⟨cache', child', by rw [hstep, hrec]⟩

/-- Witness for C19: the first step of grafting the template `100 req ok` into an empty
bucket of the fresh default engine: the token "100" gets no child, the wildcard child is
created, and at the next step the child "req" is created below it. -/
theorem addSeqLoop_numeric_token_witness :
    addSeqLoop freshDrain (NewLogCluster 1 ["100", "req", "ok"]) 3 ["100", "req", "ok"] 1
        freshDrain.IdToCluster (some NewNode) =
      some (freshDrain.IdToCluster, some (Node.mk [("<*>", Node.mk [] [1])] [])) ∧
    ∃ key target, nextEdge freshDrain NewNode "100" = (key, some target) ∧
      addSeqLoop freshDrain (NewLogCluster 1 ["100", "req", "ok"]) 3 ("100" :: ["req", "ok"]) 1
          freshDrain.IdToCluster (some NewNode) =
        (match addSeqLoop freshDrain (NewLogCluster 1 ["100", "req", "ok"]) 3 ["req", "ok"]
            (1 + 1) freshDrain.IdToCluster (some target) with
        | none => none
        | some (cache', none) => some (cache', some NewNode)
        | some (cache', some child') =>
          some (cache', some (Node.mk (assignChild NewNode.KeyToChildNode key child')
            NewNode.ClusterIds))) ∧
      (∀ c, NewNode.KeyToChildNode.lookup "100" = some c → key = "100" ∧ target = c) ∧
      (NewNode.KeyToChildNode.lookup "100" = none →
        key = freshDrain.ParamStr ∧
        (∀ w, NewNode.KeyToChildNode.lookup freshDrain.ParamStr = some w → target = w) ∧
        (NewNode.KeyToChildNode.lookup freshDrain.ParamStr = none → target = NewNode) ∧
        (∀ x, "100" ≠ freshDrain.ParamStr →
          (assignChild NewNode.KeyToChildNode freshDrain.ParamStr x).lookup "100" = none) ∧
        (∀ x, (assignChild NewNode.KeyToChildNode freshDrain.ParamStr x).lookup
          freshDrain.ParamStr = some x)) ∧
      (1 ≤ freshDrain.MaxChildren → WildcardReady freshDrain.MaxChildren freshDrain.ParamStr
          NewNode →
        ∃ cache' child', addSeqLoop freshDrain (NewLogCluster 1 ["100", "req", "ok"]) 3
            ("100" :: ["req", "ok"]) 1 freshDrain.IdToCluster (some NewNode) =
          some (cache', some (Node.mk (assignChild NewNode.KeyToChildNode key child')
            NewNode.ClusterIds))) :=
  ⟨by decide!,
    addSeqLoop_numeric_token freshDrain (by decide!) (NewLogCluster 1 ["100", "req", "ok"]) 3
      NewNode "100" ["req", "ok"] 1 freshDrain.IdToCluster (by decide!) (by decide!)⟩

theorem listed_iff (node : Node) (keys : List String) (id : Int) :
    Listed node keys id ↔ ∃ leaf, node.follow keys = some leaf ∧ id ∈ leaf.ClusterIds := by
  unfold Listed Node.idsAt
  cases node.follow keys with
  | none => simp
  | some leaf => simp

theorem listed_nil (node : Node) (id : Int) : Listed node [] id ↔ id ∈ node.ClusterIds := by
  simp [Listed, Node.idsAt, Node.follow]

theorem listed_cons (node : Node) (key : String) (keys : List String) (id : Int) :
    Listed node (key :: keys) id ↔
      ∃ child, node.KeyToChildNode.lookup key = some child ∧ Listed child keys id := by
  unfold Listed Node.idsAt
  rw [Node.follow]
  cases node.KeyToChildNode.lookup key with
  | none => simp
  | some child => simp

theorem listed_mem (node : Node) (keys : List String) (id : Int) (h : Listed node keys id) :
    id ∈ appendClusterRecursive node := by
  induction keys generalizing node with
  | nil => exact mem_appendCluster_self _ _ ((listed_nil _ _).mp h)
  | cons key keys ih =>
    obtain ⟨child, hc, hl⟩ := (listed_cons _ _ _ _).mp h
    exact mem_appendCluster_of_child _ _ _ hc _ (ih child hl)

theorem not_listed_NewNode (keys : List String) (id : Int) : ¬ Listed NewNode keys id := by
  intro h
  have := listed_mem _ _ _ h
  simp [NewNode, appendClusterRecursive, appendClusterChildren] at this

theorem nextEdge_key (d : Drain) (node : Node) (token : String) :
    (nextEdge d node token).1 = token ∨ (nextEdge d node token).1 = d.ParamStr := by
  unfold nextEdge
  cases node.KeyToChildNode.lookup token with
  | some c => exact Or.inl rfl
  | none =>
    simp only
    cases node.KeyToChildNode.lookup d.ParamStr with
    | none =>
      simp only
      split_ifs
      · exact Or.inr rfl
      · exact Or.inl rfl
      · exact Or.inr rfl
      · exact Or.inr rfl
    | some w =>
      simp only
      split_ifs
      · exact Or.inr rfl
      · exact Or.inl rfl
      · exact Or.inr rfl

theorem listed_mk_cons (children : List (String × Node)) (ids : List Int) (key : String)
    (keys : List String) (id : Int) :
    Listed (Node.mk children ids) (key :: keys) id ↔
      ∃ child, children.lookup key = some child ∧ Listed child keys id :=
  listed_cons (Node.mk children ids) key keys id

theorem listed_mk_nil (children : List (String × Node)) (ids : List Int) (id : Int) :
    Listed (Node.mk children ids) [] id ↔ id ∈ ids :=
  listed_nil (Node.mk children ids) id

/-- The path along which `addSeqToPrefixTree` grafts a cluster below a node: its keys are the
template tokens or the wildcard marker, it ends in a node that lists the cluster, and every
other listing of the subtree is one of the old subtree, live ones being kept. -/
theorem addSeqLoop_path (d : Drain) (cluster : LogCluster) (n : Nat) (tokens : List String)
    (depth : Int) (cache : Cache) (node : Node) (cache' : Cache) (node' : Node)
    (h : addSeqLoop d cluster n tokens depth cache (some node) = some (cache', some node')) :
    ∃ path : List String,
      (∀ (i : Nat) (t : String), path[i]? = some t → t = d.ParamStr ∨ tokens[i]? = some t) ∧
      (tokens ≠ [] → depth + (tokens.length : Int) = (n : Int) + 1 →
        Listed node' path cluster.ClusterId ∧
        (path.length : Int) = max 0 (min d.MaxNodeDepth (n : Int) - depth)) ∧
      (∀ ks id, Listed node' ks id → Listed node ks id ∨ (id = cluster.ClusterId ∧ ks = path)) ∧
      (∀ ks id, Listed node ks id → cache.Peek id ≠ none → Listed node' ks id) := by
  induction tokens generalizing depth cache node cache' node' with
  | nil =>
    simp only [addSeqLoop, Option.some.injEq, Prod.mk.injEq] at h
    obtain ⟨_, h2⟩ := h
    subst h2
    exact ⟨[], fun i t hi => by simp at hi, fun hne => absurd rfl hne,
      fun ks id hl => Or.inl hl, fun ks id hl _ => hl⟩
  | cons token rest ih =>
    unfold addSeqLoop at h
    by_cases hleaf : depth ≥ d.MaxNodeDepth ∨ depth ≥ (n : Int)
    · rw [if_pos hleaf] at h
      have hclean := (cleanStale_spec node.ClusterIds cache).2
      cases hcs : cleanStale node.ClusterIds cache with
      | mk c1 newIds =>
        rw [hcs] at h hclean
        simp only [Option.some.injEq, Prod.mk.injEq] at h hclean
        obtain ⟨_, h2⟩ := h
        subst h2
        refine ⟨[], fun i t hi => by simp at hi, fun _ _ => ⟨?_, ?_⟩, ?_, ?_⟩
        · rw [listed_mk_nil]
          simp
        · have : min d.MaxNodeDepth (n : Int) - depth ≤ 0 := by
            rcases hleaf with hl | hl
            · have := min_le_left d.MaxNodeDepth (n : Int)
              omega
            · have := min_le_right d.MaxNodeDepth (n : Int)
              omega
          rw [max_eq_left this]
          rfl
        · intro ks id hl
          cases ks with
          | nil =>
            rw [listed_mk_nil] at hl
            rcases List.mem_append.mp hl with hm | hm
            · exact Or.inl ((listed_nil _ _).mpr ((hclean id).mp hm).1)
            · exact Or.inr ⟨by simpa using hm, rfl⟩
          | cons k ks =>
            rw [listed_mk_cons] at hl
            exact Or.inl ((listed_cons _ _ _ _).mpr hl)
        · intro ks id hl hlive
          cases ks with
          | nil =>
            rw [listed_mk_nil]
            exact List.mem_append.mpr (Or.inl ((hclean id).mpr ⟨(listed_nil _ _).mp hl, hlive⟩))
          | cons k ks =>
            rw [listed_mk_cons]
            exact (listed_cons _ _ _ _).mp hl
    · rw [if_neg hleaf] at h
      have hkey := nextEdge_key d node token
      cases hedge : nextEdge d node token with
      | mk key c =>
        rw [hedge] at h hkey
        simp only at h hkey
        cases c with
        | none =>
          rw [addSeqLoop_none] at h
          by_cases hr : rest = []
          · rw [if_pos hr] at h
            simp only [Option.some.injEq, Prod.mk.injEq] at h
            obtain ⟨_, h2⟩ := h
            subst h2
            refine ⟨[], fun i t hi => by simp at hi, fun _ hd => ?_, fun ks id hl => Or.inl hl,
              fun ks id hl _ => hl⟩
            subst hr
            simp only [List.length_cons, List.length_nil] at hd
            push_cast at hd
            exact absurd (Or.inr (by omega)) hleaf
          · rw [if_neg hr] at h
            cases h
        | some child =>
          cases hrec : addSeqLoop d cluster n rest (depth + 1) cache (some child) with
          | none =>
            rw [hrec] at h
            cases h
          | some res =>
            obtain ⟨c2, r⟩ := res
            obtain ⟨_, child', hr, _⟩ := addSeqLoop_some d cluster n rest (depth + 1) cache child
              c2 r hrec
            subst hr
            rw [hrec] at h
            simp only [Option.some.injEq, Prod.mk.injEq] at h
            obtain ⟨_, h2⟩ := h
            subst h2
            obtain ⟨path, p1, p2, p3, p4⟩ := ih (depth + 1) cache child c2 child' hrec
            have hchild := nextEdge_some d node token key child hedge
            refine ⟨key :: path, ?_, ?_, ?_, ?_⟩
            · intro i t hi
              cases i with
              | zero =>
                simp only [List.getElem?_cons_zero, Option.some.injEq] at hi ⊢
                subst hi
                rcases hkey with e | e
                · exact Or.inr e.symm
                · exact Or.inl e
              | succ i =>
                simp only [List.getElem?_cons_succ] at hi ⊢
                exact p1 i t hi
            · intro _ hd
              have hrest : rest ≠ [] := by
                intro e
                subst e
                simp only [List.length_cons, List.length_nil] at hd
                push_cast at hd
                exact hleaf (Or.inr (by omega))
              have hd' : depth + 1 + (rest.length : Int) = (n : Int) + 1 := by
                simp only [List.length_cons] at hd
                push_cast at hd
                omega
              obtain ⟨q1, q2⟩ := p2 hrest hd'
              refine ⟨?_, ?_⟩
              · rw [listed_mk_cons]
                exact ⟨child', lookup_assignChild_self _ _ _, q1⟩
              · simp only [List.length_cons]
                push_cast
                rw [q2]
                have hlt : depth < min d.MaxNodeDepth (n : Int) := by
                  rw [lt_min_iff]
                  constructor <;> by_contra hc
                  · exact hleaf (Or.inl (not_lt.mp hc))
                  · exact hleaf (Or.inr (not_lt.mp hc))
                rw [max_eq_right (by omega), max_eq_right (by omega)]
                omega
            · intro ks id hl
              cases ks with
              | nil =>
                rw [listed_mk_nil] at hl
                exact Or.inl ((listed_nil _ _).mpr hl)
              | cons k ks =>
                rw [listed_mk_cons] at hl
                obtain ⟨x, hx, hlx⟩ := hl
                by_cases hk : k = key
                · subst hk
                  rw [lookup_assignChild_self] at hx
                  injection hx with hx
                  subst hx
                  rcases p3 ks id hlx with hold | ⟨e1, e2⟩
                  · rcases hchild with hc | ⟨_, hc⟩
                    · exact Or.inl ((listed_cons _ _ _ _).mpr ⟨child, hc, hold⟩)
                    · rw [hc] at hold
                      exact absurd hold (not_listed_NewNode _ _)
                  · exact Or.inr ⟨e1, by rw [e2]⟩
                · rw [lookup_assignChild_ne _ _ _ _ hk] at hx
                  exact Or.inl ((listed_cons _ _ _ _).mpr ⟨x, hx, hlx⟩)
            · intro ks id hl hlive
              cases ks with
              | nil =>
                rw [listed_mk_nil]
                exact (listed_nil _ _).mp hl
              | cons k ks =>
                rw [listed_mk_cons]
                obtain ⟨x, hx, hlx⟩ := (listed_cons _ _ _ _).mp hl
                by_cases hk : k = key
                · subst hk
                  rcases hchild with hc | ⟨hc, _⟩
                  · rw [hc] at hx
                    injection hx with hx
                    subst hx
                    exact ⟨child', lookup_assignChild_self _ _ _, p4 ks id hlx hlive⟩
                  · rw [hc] at hx
                    cases hx
                · exact ⟨x, by rw [lookup_assignChild_ne _ _ _ _ hk]; exact hx, hlx⟩

theorem addSeqToPrefixTree_path (d : Drain) (root : Node) (cluster : LogCluster) (d' : Drain)
    (hn : cluster.LogTemplateTokens ≠ [])
    (h : d.addSeqToPrefixTree root cluster = some d') :
    ∃ cache' newBucket path,
      d' = { d with
        IdToCluster := cache'
        RootNode := Node.mk (assignChild root.KeyToChildNode
          (toString cluster.LogTemplateTokens.length) newBucket) root.ClusterIds } ∧
      d.IdToCluster.SameRecords cache' ∧
      (∀ (i : Nat) (t : String), path[i]? = some t →
        t = d.ParamStr ∨ cluster.LogTemplateTokens[i]? = some t) ∧
      Listed newBucket path cluster.ClusterId ∧
      (path.length : Int) =
        max 0 (min d.MaxNodeDepth (cluster.LogTemplateTokens.length : Int) - 1) ∧
      (∀ ks id, Listed newBucket ks id → (id = cluster.ClusterId ∧ ks = path) ∨
        ∃ old, root.KeyToChildNode.lookup (toString cluster.LogTemplateTokens.length) = some old ∧
          Listed old ks id) ∧
      (∀ old, root.KeyToChildNode.lookup (toString cluster.LogTemplateTokens.length) = some old →
        ∀ ks id, Listed old ks id → d.IdToCluster.Peek id ≠ none → Listed newBucket ks id) := by
  unfold Drain.addSeqToPrefixTree at h
  simp only at h
  have h0 : cluster.LogTemplateTokens.length ≠ 0 := fun e => hn (List.length_eq_zero.mp e)
  rw [if_neg h0] at h
  have main : ∀ first : Node,
      (root.KeyToChildNode.lookup (toString cluster.LogTemplateTokens.length) = some first ∨
        (root.KeyToChildNode.lookup (toString cluster.LogTemplateTokens.length) = none ∧
          first = NewNode)) →
      ∀ r, addSeqLoop d cluster cluster.LogTemplateTokens.length cluster.LogTemplateTokens 1
        d.IdToCluster (some first) = some r →
      ∃ newBucket path, r.2 = some newBucket ∧ d.IdToCluster.SameRecords r.1 ∧
      (∀ (i : Nat) (t : String), path[i]? = some t →
        t = d.ParamStr ∨ cluster.LogTemplateTokens[i]? = some t) ∧
      Listed newBucket path cluster.ClusterId ∧
      (path.length : Int) =
        max 0 (min d.MaxNodeDepth (cluster.LogTemplateTokens.length : Int) - 1) ∧
      (∀ ks id, Listed newBucket ks id → (id = cluster.ClusterId ∧ ks = path) ∨
        ∃ old, root.KeyToChildNode.lookup (toString cluster.LogTemplateTokens.length) = some old ∧
          Listed old ks id) ∧
      (∀ old, root.KeyToChildNode.lookup (toString cluster.LogTemplateTokens.length) = some old →
        ∀ ks id, Listed old ks id → d.IdToCluster.Peek id ≠ none → Listed newBucket ks id) := by
    intro first hfirst r hloop
    obtain ⟨cache', res⟩ := r
    obtain ⟨hs, newBucket, hres, _⟩ := addSeqLoop_some _ _ _ _ _ _ _ _ _ hloop
    subst hres
    obtain ⟨path, p1, p2, p3, p4⟩ := addSeqLoop_path _ _ _ _ _ _ _ _ _ hloop
    obtain ⟨q1, q2⟩ := p2 hn (by omega)
    refine ⟨newBucket, path, rfl, hs, p1, q1, q2, ?_, ?_⟩
    · intro ks id hl
      rcases p3 ks id hl with hold | hnew
      · rcases hfirst with hf | ⟨_, hf⟩
        · exact Or.inr ⟨_, hf, hold⟩
        · subst hf
          exact absurd hold (not_listed_NewNode _ _)
      · exact Or.inl hnew
    · intro old hold ks id hl hlive
      rcases hfirst with hf | ⟨hf, _⟩
      · rw [hf] at hold
        injection hold with hold
        subst hold
        exact p4 ks id hl hlive
      · rw [hf] at hold
        cases hold
  cases hl : root.KeyToChildNode.lookup (toString cluster.LogTemplateTokens.length) with
  | none =>
    rw [hl] at h main
    simp only at h
    cases hloop : addSeqLoop d cluster cluster.LogTemplateTokens.length cluster.LogTemplateTokens 1
        d.IdToCluster (some NewNode) with
    | none => rw [hloop] at h; cases h
    | some r =>
      obtain ⟨newBucket, path, hres, hrest⟩ := main NewNode (Or.inr ⟨rfl, rfl⟩) r hloop
      obtain ⟨cache', res⟩ := r
      simp only at hres
      subst hres
      rw [hloop] at h
      simp only [Option.some.injEq] at h
      exact ⟨cache', newBucket, path, h.symm, hrest⟩
  | some old =>
    rw [hl] at h main
    simp only at h
    cases hloop : addSeqLoop d cluster cluster.LogTemplateTokens.length cluster.LogTemplateTokens 1
        d.IdToCluster (some old) with
    | none => rw [hloop] at h; cases h
    | some r =>
      obtain ⟨newBucket, path, hres, hrest⟩ := main old (Or.inl rfl) r hloop
      obtain ⟨cache', res⟩ := r
      simp only at hres
      subst hres
      rw [hloop] at h
      simp only [Option.some.injEq] at h
      exact ⟨cache', newBucket, path, h.symm, hrest⟩

/-- The node `treeSearch` ends in is reached from the bucket along a prefix of the message
tokens. -/
theorem treeSearchLoop_follow (d : Drain) (tokenCount : Nat) (tokens : List String) (depth : Int)
    (node leaf : Node) (h : treeSearchLoop d tokenCount tokens depth node = some leaf) :
    ∃ ks, node.follow ks = some leaf ∧
      ∀ (i : Nat) (t : String), ks[i]? = some t → tokens[i]? = some t := by
  induction tokens generalizing depth node with
  | nil =>
    simp only [treeSearchLoop, Option.some.injEq] at h
    subst h
    exact ⟨[], rfl, fun i t hi => by simp at hi⟩
  | cons token tokens ih =>
    unfold treeSearchLoop at h
    split_ifs at h with h1 h2
    · cases h
      exact ⟨[], rfl, fun i t hi => by simp at hi⟩
    · cases h
      exact ⟨[], rfl, fun i t hi => by simp at hi⟩
    · split at h
      · rename_i child hchild
        obtain ⟨ks, hf, hk⟩ := ih _ _ h
        refine ⟨token :: ks, ?_, ?_⟩
        · rw [Node.follow, hchild]
          exact hf
        · intro i t hi
          cases i with
          | zero => simpa using hi
          | succ i =>
            simp only [List.getElem?_cons_succ] at hi ⊢
            exact hk i t hi
      · cases h

theorem treeSearch_listed (d : Drain) (root : Node) (tokens : List String) (simTh : ℚ) (ip : Bool)
    (d' : Drain) (c : LogCluster) (hne : tokens ≠ [])
    (h : d.treeSearch root tokens simTh ip = .ok d' (some c)) :
    ∃ bucket ks, root.KeyToChildNode.lookup (toString tokens.length) = some bucket ∧
      Listed bucket ks c.ClusterId ∧
      ∀ (i : Nat) (t : String), ks[i]? = some t → tokens[i]? = some t := by
  unfold Drain.treeSearch at h
  simp only at h
  split at h
  · cases h
  · rename_i bucket hb
    have h0 : tokens.length ≠ 0 := fun h0 => hne (List.length_eq_zero.mp h0)
    rw [if_neg h0] at h
    split at h
    · cases h
    · rename_i leaf hleaf
      obtain ⟨ks, hf, hk⟩ := treeSearchLoop_follow _ _ _ _ _ _ hleaf
      refine ⟨bucket, ks, hb, ?_, hk⟩
      rw [listed_iff]
      exact ⟨leaf, hf, (fastMatch_some _ _ _ _ _ _ _ h).1⟩

theorem mergeTemplate_getElem?_eq (p : String) (t s : List String) (i : Nat) (x : String)
    (ht : t[i]? = some x) (hs : s[i]? = some x) : (mergeTemplate p t s)[i]? = some x := by
  induction t generalizing s i with
  | nil => simp at ht
  | cons a t ih =>
    cases s with
    | nil => simp at hs
    | cons b s =>
      cases i with
      | zero =>
        simp only [List.getElem?_cons_zero, Option.some.injEq] at ht hs
        subst ht hs
        simp [mergeTemplate]
      | succ i =>
        simp only [List.getElem?_cons_succ] at ht hs
        simp only [mergeTemplate, List.zipWith_cons_cons, List.getElem?_cons_succ]
        exact ih s i ht hs

theorem indexed_fresh (options : List optionFn) (d : Drain) (h : NewDrain options = .ok d) :
    Indexed d := by
  obtain ⟨h3, _, e⟩ := NewDrain_ok options d h
  have hfix := foldl_apply_fixed options defaultDrain
  simp only at hfix
  have hroot : (configured options).RootNode = NewNode := hfix.2.2.1
  subst e
  refine ⟨?_, ?_, ?_, ?_⟩
  · show 1 ≤ (configured options).LogClusterDepth - 2
    omega
  · intro key c hc
    cases hc
  · intro key bucket hb
    have : (configured options).RootNode.KeyToChildNode.lookup key = some bucket := hb
    rw [hroot] at this
    cases this
  · intro key c hc
    cases hc

theorem indexed_touched (d d' : Drain) (ht : d.Touched d') (h : Indexed d) : Indexed d' := by
  obtain ⟨f1, _, f3, f4, _, _, _, _, _, _, hs⟩ := ht.fields
  refine ⟨by rw [f4]; exact h.depth_pos, ?_, ?_, ?_⟩
  · intro key c hc
    rw [hs.2.2] at hc
    exact h.nonempty key c hc
  · intro key bucket hb
    rw [f1] at hb
    exact h.unique key bucket hb
  · intro key c hc
    rw [hs.2.2] at hc
    rw [f1, f3, f4]
    exact h.path key c hc

theorem indexed_hit (d1 : Drain) (c r : LogCluster) (tokens : List String) (h : Indexed d1)
    (hpeek : d1.IdToCluster.Peek c.ClusterId = some c) (hid : r.ClusterId = c.ClusterId)
    (hlen : c.LogTemplateTokens.length = tokens.length)
    (hr : r.LogTemplateTokens = mergeTemplate d1.ParamStr c.LogTemplateTokens tokens)
    (hlisted : ∃ bucket ks,
      d1.RootNode.KeyToChildNode.lookup (toString tokens.length) = some bucket ∧
      Listed bucket ks c.ClusterId ∧
      ∀ (i : Nat) (t : String), ks[i]? = some t → tokens[i]? = some t) :
    Indexed { d1 with IdToCluster := ((d1.IdToCluster.store r).Get c.ClusterId).1 } := by
  have hs := Cache.Get_sameRecords (d1.IdToCluster.store r) c.ClusterId
  have hrlen : r.LogTemplateTokens.length = c.LogTemplateTokens.length := by
    rw [hr]
    exact mergeTemplate_length _ _ _ hlen
  have hpk : ∀ key c', ((d1.IdToCluster.store r).Get c.ClusterId).1.Peek key = some c' →
      (key = c.ClusterId ∧ c' = r) ∨ (key ≠ c.ClusterId ∧ d1.IdToCluster.Peek key = some c') := by
    intro key c' hc'
    rw [hs.2.2, Cache.Peek_store] at hc'
    by_cases hk : key = r.ClusterId
    · rw [if_pos hk] at hc'
      rw [hk, hid, hpeek] at hc'
      simp only [Option.map_some', Option.some.injEq] at hc'
      exact Or.inl ⟨by rw [hk, hid], hc'.symm⟩
    · rw [if_neg hk] at hc'
      exact Or.inr ⟨by rw [← hid]; exact hk, hc'⟩
  refine ⟨h.depth_pos, ?_, h.unique, ?_⟩
  · intro key c' hc'
    rcases hpk key c' hc' with ⟨_, e⟩ | ⟨_, hc1⟩
    · subst e
      intro hnil
      have h0 := h.nonempty _ _ hpeek
      rw [hnil] at hrlen
      exact h0 (List.length_eq_zero.mp hrlen.symm)
    · exact h.nonempty key c' hc1
  · intro key c' hc'
    show ∃ bucket ks,
      d1.RootNode.KeyToChildNode.lookup (toString c'.LogTemplateTokens.length) = some bucket ∧
      Listed bucket ks key ∧
      (ks.length : Int) =
        max 0 (min d1.MaxNodeDepth (c'.LogTemplateTokens.length : Int) - 1) ∧
      ∀ (i : Nat) (t : String), ks[i]? = some t →
        t = d1.ParamStr ∨ c'.LogTemplateTokens[i]? = some t
    rcases hpk key c' hc' with ⟨hk, e⟩ | ⟨_, hc1⟩
    · subst e hk
      obtain ⟨bucket0, ks0, hb0, hl0, hn0, hk0⟩ := h.path _ _ hpeek
      obtain ⟨bucket, ks, hb, hl, hks⟩ := hlisted
      rw [hlen, hb] at hb0
      injection hb0 with hb0
      subst hb0
      have hsame : ks0 = ks := h.unique _ _ hb _ _ _ hl0 hl
      subst hsame
      refine ⟨bucket, ks0, by rw [hrlen, hlen]; exact hb, hl0, by rw [hrlen]; exact hn0, ?_⟩
      intro i t hi
      rcases hk0 i t hi with e | e
      · exact Or.inl e
      · rw [hr]
        exact Or.inr (mergeTemplate_getElem?_eq _ _ _ _ _ e (hks i t hi))
    · exact h.path key c' hc1

theorem indexed_miss (d1 : Drain) (r : LogCluster) (d' : Drain) (h : Indexed d1)
    (hc : Consistent d1)
    (hid : r.ClusterId = d1.ClustersCounter + 1) (hne : r.LogTemplateTokens ≠ [])
    (hadd : ({ d1 with
        ClustersCounter := d1.ClustersCounter + 1
        IdToCluster := d1.IdToCluster.Add r } : Drain).addSeqToPrefixTree d1.RootNode r =
      some d') :
    Indexed d' := by
  obtain ⟨cache', nb, path, hd', hs, hkeys, hlisted, hplen, hsub, hkeep⟩ :=
    addSeqToPrefixTree_path _ _ _ _ hne hadd
  simp only at hs hkeep hkeys hplen
  subst hd'
  have hpk : ∀ key c, cache'.Peek key = some c →
      (key = r.ClusterId ∧ c = r) ∨ (key ≠ r.ClusterId ∧ d1.IdToCluster.Peek key = some c) := by
    intro key c hc'
    rw [hs.2.2] at hc'
    by_cases hk : key = r.ClusterId
    · rw [hk, Cache.Peek_Add_self _ _ hc.size_pos] at hc'
      injection hc' with hc'
      exact Or.inl ⟨hk, hc'.symm⟩
    · exact Or.inr ⟨hk, Cache.Peek_Add_of_ne _ _ _ _ hk hc'⟩
  have hfresh : ∀ old, d1.RootNode.KeyToChildNode.lookup
      (toString r.LogTemplateTokens.length) = some old → ∀ ks, ¬ Listed old ks r.ClusterId := by
    intro old hold ks hl
    have := hc.tree_le _ (mem_of_lookup _ _ _ hold) _ (listed_mem _ _ _ hl)
    omega
  refine ⟨h.depth_pos, ?_, ?_, ?_⟩
  · intro key c hc'
    rcases hpk key c hc' with ⟨_, e⟩ | ⟨_, hc1⟩
    · subst e
      exact hne
    · exact h.nonempty key c hc1
  · intro key bucket hb id ks1 ks2 h1 h2
    have hb' : (assignChild d1.RootNode.KeyToChildNode
        (toString r.LogTemplateTokens.length) nb).lookup key = some bucket := hb
    by_cases hkey : key = toString r.LogTemplateTokens.length
    · subst hkey
      rw [lookup_assignChild_self] at hb'
      injection hb' with hb'
      subst hb'
      rcases hsub ks1 id h1 with ⟨e1, e1'⟩ | ⟨old1, ho1, hl1⟩
      · rcases hsub ks2 id h2 with ⟨_, e2'⟩ | ⟨old2, ho2, hl2⟩
        · rw [e1', e2']
        · subst e1
          exact absurd hl2 (hfresh old2 ho2 ks2)
      · rcases hsub ks2 id h2 with ⟨e2, _⟩ | ⟨old2, ho2, hl2⟩
        · subst e2
          exact absurd hl1 (hfresh old1 ho1 ks1)
        · rw [ho1] at ho2
          injection ho2 with ho2
          subst ho2
          exact h.unique _ _ ho1 id ks1 ks2 hl1 hl2
    · rw [lookup_assignChild_ne _ _ _ _ hkey] at hb'
      exact h.unique key bucket hb' id ks1 ks2 h1 h2
  · intro key c hc'
    show ∃ bucket ks,
      (assignChild d1.RootNode.KeyToChildNode (toString r.LogTemplateTokens.length) nb).lookup
        (toString c.LogTemplateTokens.length) = some bucket ∧
      Listed bucket ks key ∧
      (ks.length : Int) =
        max 0 (min d1.MaxNodeDepth (c.LogTemplateTokens.length : Int) - 1) ∧
      ∀ (i : Nat) (t : String), ks[i]? = some t →
        t = d1.ParamStr ∨ c.LogTemplateTokens[i]? = some t
    rcases hpk key c hc' with ⟨hk, e⟩ | ⟨hk, hc1⟩
    · subst e hk
      exact ⟨nb, path, lookup_assignChild_self _ _ _, hlisted, hplen, hkeys⟩
    · obtain ⟨b, ks, hb, hl, hn, hk'⟩ := h.path key c hc1
      by_cases hkey : toString c.LogTemplateTokens.length = toString r.LogTemplateTokens.length
      · rw [hkey] at hb ⊢
        refine ⟨nb, ks, lookup_assignChild_self _ _ _, hkeep b hb ks key hl ?_, hn, hk'⟩
        rw [← hs.2.2, hc']
        simp
      · rw [lookup_assignChild_ne _ _ _ _ hkey]
        exact ⟨b, ks, hb, hl, hn, hk'⟩

theorem indexed_add (d : Drain) (m : String) (d' : Drain) (r : LogCluster × ClusterUpdateType)
    (h : Indexed d) (hc : Consistent d) (hadd : d.AddLogMessage m = .ok d' r) : Indexed d' := by
  obtain ⟨r, u⟩ := r
  rcases AddLogMessage_ok_cases d m d' r u hadd with
    ⟨d1, c0, hts, ht, hpeek, hlen, hr, _, hd'⟩ | ⟨d1, _, ht, _, hr, hgraft⟩
  · have h1 := indexed_touched d d1 ht h
    obtain ⟨f1, _, f3, _, _, _, _, _, _, _, hs⟩ := ht.fields
    rw [hd']
    refine indexed_hit d1 c0 r (d.getContentAsTokens m) h1 (by rw [hs.2.2]; exact hpeek)
      (by rw [hr]) hlen (by rw [hr, f3]) ?_
    rw [f1]
    exact treeSearch_listed d d.RootNode _ _ _ d1 c0 (getContentAsTokens_ne_nil d m) hts
  · have h1 := indexed_touched d d1 ht h
    have hc1 := consistent_touched d d1 ht hc
    have hcc : d1.ClustersCounter = d.ClustersCounter := ht.fields.2.1
    rw [← hcc] at hgraft
    refine indexed_miss d1 r d' h1 hc1 (by rw [hr, hcc]; rfl) ?_ hgraft
    rw [hr]
    exact getContentAsTokens_ne_nil d m

theorem indexed_of_reachable (d : Drain) (h : Reachable d) : Indexed d := by
  induction h with
  | fresh options d h0 => exact indexed_fresh options d h0
  | add d m d' r hd hadd ih => exact indexed_add d m d' r ih (consistent_of_reachable d hd) hadd
  | addError d m d' e _ herr ih =>
    exact indexed_touched d d' (AddLogMessage_error_touched d m d' e herr) ih

/-- C17 as stated fails, twice. After "hello world 1" on the default engine (`MaxNodeDepth`
2) the live cluster `hello world 1` is listed in the node below the edges "3" and "hello";
that node has no child, so the path along the first `min(2, 3) = 2` template tokens leaves
the tree: the code follows `min(MaxNodeDepth, len) - 1` token edges. And after "100 req ok"
the live cluster `100 req ok` is listed below the edges "3" and `<*>`; the bucket has no child
keyed by the template token "100", so even the path of `min(MaxNodeDepth, len) - 1` edges
keyed by template tokens leaves the tree. -/
theorem live_cluster_path_by_template_fails :
    (¬ ∀ d : Drain, Reachable d → ∀ key c, d.IdToCluster.Peek key = some c →
      ∃ bucket leaf,
        d.RootNode.KeyToChildNode.lookup (toString c.LogTemplateTokens.length) = some bucket ∧
        bucket.follow (c.LogTemplateTokens.take
          (min d.MaxNodeDepth (c.LogTemplateTokens.length : Int)).toNat) = some leaf ∧
        c.ClusterId ∈ leaf.ClusterIds) ∧
    (¬ ∀ d : Drain, Reachable d → ∀ key c, d.IdToCluster.Peek key = some c →
      ∃ bucket leaf,
        d.RootNode.KeyToChildNode.lookup (toString c.LogTemplateTokens.length) = some bucket ∧
        bucket.follow (c.LogTemplateTokens.take
          (min d.MaxNodeDepth (c.LogTemplateTokens.length : Int) - 1).toNat) = some leaf ∧
        c.ClusterId ∈ leaf.ClusterIds) := by
  constructor
  · intro h
    obtain ⟨bucket, leaf, hb, hf, _⟩ := h helloDrain1 reachable_helloDrain1 1
      ⟨1, ["hello", "world", "1"], 1⟩ (by decide!)
    have hb' : helloDrain1.RootNode.KeyToChildNode.lookup (toString 3) =
        some (Node.mk [("hello", Node.mk [] [1])] []) := by decide!
    have hb2 : helloDrain1.RootNode.KeyToChildNode.lookup (toString 3) = some bucket := hb
    rw [hb'] at hb2
    injection hb2 with hb2
    subst hb2
    have hm : (min helloDrain1.MaxNodeDepth ((3 : Nat) : Int)).toNat = 2 := by decide!
    have hf2 : (Node.mk [("hello", Node.mk [] [1])] []).follow
        (["hello", "world", "1"].take
          (min helloDrain1.MaxNodeDepth ((3 : Nat) : Int)).toNat) = some leaf := hf
    rw [hm] at hf2
    have hnone : (Node.mk [("hello", Node.mk [] [1])] []).follow
        (["hello", "world", "1"].take 2) = none := by decide!
    rw [hnone] at hf2
    cases hf2
  · intro h
    have hreach : Reachable reqDrain :=
      Reachable.add freshDrain "100 req ok" reqDrain
        (⟨1, ["100", "req", "ok"], 1⟩, ClusterUpdateType.Created)
        (Reachable.fresh [] freshDrain rfl) (by decide!)
    obtain ⟨bucket, leaf, hb, hf, _⟩ := h reqDrain hreach 1
      ⟨1, ["100", "req", "ok"], 1⟩ (by decide!)
    have hb' : reqDrain.RootNode.KeyToChildNode.lookup (toString 3) =
        some (Node.mk [("<*>", Node.mk [] [1])] []) := by decide!
    have hb2 : reqDrain.RootNode.KeyToChildNode.lookup (toString 3) = some bucket := hb
    rw [hb'] at hb2
    injection hb2 with hb2
    subst hb2
    have hm : (min reqDrain.MaxNodeDepth ((3 : Nat) : Int) - 1).toNat = 1 := by decide!
    have hf2 : (Node.mk [("<*>", Node.mk [] [1])] []).follow
        (["100", "req", "ok"].take
          (min reqDrain.MaxNodeDepth ((3 : Nat) : Int) - 1).toNat) = some leaf := hf
    rw [hm] at hf2
    have hnone : (Node.mk [("<*>", Node.mk [] [1])] []).follow
        (["100", "req", "ok"].take 1) = none := by decide!
    rw [hnone] at hf2
    cases hf2

/-- C17 (amended). For every state reachable from a fresh engine by `AddLogMessage` calls and
every live cluster `c`: the root has the edge keyed `str(len(c.template))`, and from the node
below it there is a path of `min(MaxNodeDepth, len(c.template)) - 1` edges, the edge at
position `i` keyed by the template token at position `i` or by the wildcard marker, that
reaches a node whose `ClusterIds` contains `c.ClusterId`. -/
theorem live_cluster_path (d : Drain) (h : Reachable d) (key : Int) (c : LogCluster)
    (hc : d.IdToCluster.Peek key = some c) :
    ∃ bucket ks leaf,
      d.RootNode.KeyToChildNode.lookup (toString c.LogTemplateTokens.length) = some bucket ∧
      bucket.follow ks = some leaf ∧ c.ClusterId ∈ leaf.ClusterIds ∧
      (ks.length : Int) = min d.MaxNodeDepth (c.LogTemplateTokens.length : Int) - 1 ∧
      ∀ (i : Nat) (t : String), ks[i]? = some t →
        c.LogTemplateTokens[i]? = some t ∨ t = d.ParamStr := by
  have hi := indexed_of_reachable d h
  obtain ⟨bucket, ks, hb, hl, hn, hk⟩ := hi.path key c hc
  obtain ⟨leaf, hf, hmem⟩ := (listed_iff _ _ _).mp hl
  refine ⟨bucket, ks, leaf, hb, hf, ?_, ?_, fun i t hit => (hk i t hit).symm⟩
  · rw [Cache.Peek_id _ _ _ hc]
    exact hmem
  · rw [hn]
    have h1 := hi.depth_pos
    have h2 : 1 ≤ (c.LogTemplateTokens.length : Int) := by
      have := List.length_pos.mpr (hi.nonempty key c hc)
      omega
    have : 1 ≤ min d.MaxNodeDepth (c.LogTemplateTokens.length : Int) := le_min h1 h2
    exact max_eq_right (by omega)

/-- Witness for C17 (amended): after "100 req ok" the cluster 1 is listed below the edges "3"
and `<*>`. -/
theorem live_cluster_path_witness :
    (reqDrain.RootNode.KeyToChildNode.lookup (toString 3)).bind (fun b => b.follow ["<*>"]) =
      some (Node.mk [] [1]) ∧
    ∃ bucket ks leaf,
      reqDrain.RootNode.KeyToChildNode.lookup
        (toString (⟨1, ["100", "req", "ok"], 1⟩ : LogCluster).LogTemplateTokens.length) =
          some bucket ∧
      bucket.follow ks = some leaf ∧
      (⟨1, ["100", "req", "ok"], 1⟩ : LogCluster).ClusterId ∈ leaf.ClusterIds ∧
      (ks.length : Int) = min reqDrain.MaxNodeDepth
        ((⟨1, ["100", "req", "ok"], 1⟩ : LogCluster).LogTemplateTokens.length : Int) - 1 ∧
      ∀ (i : Nat) (t : String), ks[i]? = some t →
        (⟨1, ["100", "req", "ok"], 1⟩ : LogCluster).LogTemplateTokens[i]? = some t ∨
          t = reqDrain.ParamStr :=
  ⟨by decide!,
    live_cluster_path reqDrain
      (Reachable.add freshDrain "100 req ok" reqDrain
        (⟨1, ["100", "req", "ok"], 1⟩, ClusterUpdateType.Created)
        (Reachable.fresh [] freshDrain rfl) (by decide!))
      1 ⟨1, ["100", "req", "ok"], 1⟩ (by decide!)⟩

/-- With strategy `Fallback`, a call of `Match` that does not panic in the tree search finds
a cluster whenever a live cluster matches the message perfectly: in reachable states the tree
search returns no error, and on a miss the full scan is complete. -/
theorem Match_fallback_complete_of_no_panic (d : Drain) (hr : Reachable d) (m : String)
    (key : Int) (c : LogCluster) (hlive : d.IdToCluster.Peek key = some c)
    (hperf : PerfectMatch d.ParamStr c.LogTemplateTokens (d.getContentAsTokens m))
    (hnp : d.Match m SearchStrategy.Fallback ≠ .panic) :
    ∃ d' c', d.Match m SearchStrategy.Fallback = .ok d' (some c') := by
  have hc := consistent_of_reachable d hr
  unfold Drain.Match at hnp ⊢
  simp only at hnp ⊢
  rw [if_neg (by decide)] at hnp ⊢
  cases hts : d.treeSearch d.RootNode (d.getContentAsTokens m) 1 true with
  | panic =>
    rw [hts] at hnp
    exact absurd rfl hnp
  | error d1 e =>
    obtain ⟨c0, bucket, hb, hmem, hpeek, _, hne⟩ := treeSearch_error _ _ _ _ _ _ _ hts
    have := hc.bucket_length _ (mem_of_lookup _ _ _ hb) _ hmem c0 hpeek
    exact absurd (toString_nat_injective _ _ this) hne
  | ok d1 o =>
    cases o with
    | some c' => exact ⟨d1, c', rfl⟩
    | none =>
      simp only
      rw [if_neg (by decide)]
      have ht : d.Touched d1 := treeSearch_state _ _ _ _ _ _ (by rw [hts]; rfl)
      have hc1 := consistent_touched d d1 ht hc
      obtain ⟨_, _, f3, _, _, _, _, _, _, _, hs⟩ := ht.fields
      exact (fullSearch_complete d1 hc1 _ key c (by rw [hs.2.2]; exact hlive)
        (by rw [f3]; exact hperf)).2

theorem intercalate_cons_cons (sep a b : List Char) (rest : List (List Char)) :
    sep.intercalate (a :: b :: rest) = a ++ sep ++ sep.intercalate (b :: rest) := by
  simp [List.intercalate, List.intersperse]

theorem intercalate_singleton (sep a : List Char) : sep.intercalate [a] = a := by
  simp [List.intercalate, List.intersperse]

theorem Split_cons_space (cs : List Char) : Split (' ' :: cs) = [] :: Split cs := by
  rw [Split, if_pos rfl]

theorem Split_cons_ne (c : Char) (cs : List Char) (hc : c ≠ ' ') :
    ∃ piece pieces, Split cs = piece :: pieces ∧ Split (c :: cs) = (c :: piece) :: pieces := by
  cases h : Split cs with
  | nil => exact absurd h (Split_ne_nil cs)
  | cons piece pieces =>
    refine ⟨piece, pieces, rfl, ?_⟩
    rw [Split, if_neg hc, h]

theorem Split_no_space (s : List Char) : ∀ piece, piece ∈ Split s → ' ' ∉ piece := by
  induction s with
  | nil =>
    intro piece hp
    simp only [Split, List.mem_singleton] at hp
    subst hp
    exact List.not_mem_nil _
  | cons c cs ih =>
    intro piece hp
    by_cases hc : c = ' '
    · subst hc
      rw [Split_cons_space] at hp
      rcases List.mem_cons.mp hp with e | hp
      · subst e
        exact List.not_mem_nil _
      · exact ih piece hp
    · obtain ⟨p, ps, h1, h2⟩ := Split_cons_ne c cs hc
      rw [h2] at hp
      rw [h1] at ih
      rcases List.mem_cons.mp hp with e | hp
      · subst e
        intro hmem
        rcases List.mem_cons.mp hmem with e | hmem
        · exact hc e.symm
        · exact ih p (List.mem_cons_self _ _) hmem
      · exact ih piece (List.mem_cons_of_mem _ hp)

theorem intercalate_Split (s : List Char) : [' '].intercalate (Split s) = s := by
  induction s with
  | nil => simp [Split, List.intercalate, List.intersperse]
  | cons c cs ih =>
    by_cases hc : c = ' '
    · subst hc
      rw [Split_cons_space]
      cases h : Split cs with
      | nil => exact absurd h (Split_ne_nil cs)
      | cons p ps =>
        rw [intercalate_cons_cons, ← h, ih]
        rfl
    · obtain ⟨p, ps, h1, h2⟩ := Split_cons_ne c cs hc
      rw [h2]
      rw [h1] at ih
      cases ps with
      | nil =>
        rw [intercalate_singleton] at ih ⊢
        rw [ih]
      | cons q qs =>
        rw [intercalate_cons_cons] at ih ⊢
        rw [← ih]
        simp

theorem Split_length (s : List Char) : (Split s).length = s.count ' ' + 1 := by
  induction s with
  | nil => rfl
  | cons c cs ih =>
    by_cases hc : c = ' '
    · subst hc
      rw [Split_cons_space, List.length_cons, ih, List.count_cons_self]
    · obtain ⟨p, ps, h1, h2⟩ := Split_cons_ne c cs hc
      rw [h2, List.count_cons_of_ne (fun e => hc e.symm), ← ih, h1]
      rfl

theorem Split_of_no_space (l : List Char) (h : ' ' ∉ l) : Split l = [l] := by
  induction l with
  | nil => rfl
  | cons c cs ih =>
    have hc : c ≠ ' ' := fun e => h (e ▸ List.mem_cons_self _ _)
    have hcs : ' ' ∉ cs := fun e => h (List.mem_cons_of_mem _ e)
    rw [Split, if_neg hc, ih hcs]

theorem Split_append_space (l rest : List Char) (h : ' ' ∉ l) :
    Split (l ++ ' ' :: rest) = l :: Split rest := by
  induction l with
  | nil => exact Split_cons_space rest
  | cons c cs ih =>
    have hc : c ≠ ' ' := fun e => h (e ▸ List.mem_cons_self _ _)
    have hcs : ' ' ∉ cs := fun e => h (List.mem_cons_of_mem _ e)
    rw [List.cons_append, Split, if_neg hc, ih hcs]

theorem Split_intercalate (ls : List (List Char)) (hne : ls ≠ [])
    (h : ∀ l, l ∈ ls → ' ' ∉ l) : Split ([' '].intercalate ls) = ls := by
  induction ls with
  | nil => exact absurd rfl hne
  | cons a rest ih =>
    cases rest with
    | nil =>
      rw [intercalate_singleton]
      exact Split_of_no_space a (h a (List.mem_cons_self _ _))
    | cons b rest =>
      rw [intercalate_cons_cons, List.append_assoc, List.singleton_append,
        Split_append_space _ _ (h a (List.mem_cons_self _ _)),
        ih (by simp) (fun l hl => h l (List.mem_cons_of_mem _ hl))]

theorem intercalate_go_data (acc s : String) (l : List String) :
    (String.intercalate.go acc s l).data =
      acc.data ++ l.flatMap (fun a => s.data ++ a.data) := by
  induction l generalizing acc with
  | nil => simp [String.intercalate.go]
  | cons a rest ih =>
    rw [String.intercalate.go, ih]
    simp [String.data_append, List.append_assoc]

theorem String_intercalate_data (s : String) (l : List String) :
    (String.intercalate s l).data = s.data.intercalate (l.map String.data) := by
  cases l with
  | nil => rfl
  | cons a rest =>
    rw [String.intercalate, intercalate_go_data]
    induction rest generalizing a with
    | nil => simp [List.intercalate, List.intersperse]
    | cons b rest ih =>
      simp only [List.map_cons, List.flatMap_cons] at ih ⊢
      rw [intercalate_cons_cons, ← ih b]
      simp [List.append_assoc]

/-- `TrimSpace` removes a run of white space at each end and nothing else, and what is left
neither starts nor ends with white space. -/
theorem TrimSpace_spec (s : List Char) :
    (∃ pre post, s = pre ++ TrimSpace s ++ post ∧
      (∀ c, c ∈ pre → isSpace c = true) ∧ (∀ c, c ∈ post → isSpace c = true)) ∧
    (∀ c, (TrimSpace s).head? = some c → isSpace c = false) ∧
    (∀ c, (TrimSpace s).getLast? = some c → isSpace c = false) := by
  have h1 := List.takeWhile_append_dropWhile isSpace s
  have h2 := List.takeWhile_append_dropWhile isSpace (s.dropWhile isSpace).reverse
  have h3 : s.dropWhile isSpace =
      TrimSpace s ++ ((s.dropWhile isSpace).reverse.takeWhile isSpace).reverse := by
    have := congrArg List.reverse h2
    rw [List.reverse_append, List.reverse_reverse] at this
    exact this.symm
  have hlast : ∀ c, (TrimSpace s).getLast? = some c → isSpace c = false := by
    intro c hc
    unfold TrimSpace at hc
    rw [List.getLast?_reverse] at hc
    have := List.head?_dropWhile_not isSpace (s.dropWhile isSpace).reverse
    rw [hc] at this
    simpa using this
  refine ⟨⟨s.takeWhile isSpace, ((s.dropWhile isSpace).reverse.takeWhile isSpace).reverse,
    ?_, ?_, ?_⟩, ?_, hlast⟩
  · rw [List.append_assoc, ← h3, h1]
  · intro c hc
    exact List.mem_takeWhile_imp hc
  · intro c hc
    exact List.mem_takeWhile_imp (List.mem_reverse.mp hc)
  · intro c hc
    cases ht : TrimSpace s with
    | nil => rw [ht] at hc; cases hc
    | cons a rest =>
      rw [ht] at hc h3
      simp only [List.head?_cons, Option.some.injEq] at hc
      subst hc
      have := List.head?_dropWhile_not isSpace s
      rw [h3] at this
      simpa using this

theorem ReplaceAll_nil (old new : List Char) (h : old ≠ []) : ReplaceAll [] old new = [] := by
  cases old with
  | nil => exact absurd rfl h
  | cons a rest => rfl

theorem foldl_ReplaceAll_nil (delimiters : List String) (h : "" ∉ delimiters) :
    delimiters.foldl (fun content delimiter => ReplaceAll content delimiter.data [' ']) [] =
      [] := by
  induction delimiters with
  | nil => rfl
  | cons a rest ih =>
    have ha : a.data ≠ [] := by
      intro e
      apply h
      have : a = "" := String.ext e
      rw [this]
      exact List.mem_cons_self _ _
    rw [List.foldl_cons, ReplaceAll_nil _ _ ha]
    exact ih (fun e => h (List.mem_cons_of_mem _ e))

/-- C21 as stated fails in its last clause. With the empty string configured as an extra
delimiter, `strings.ReplaceAll` turns the empty line into one space, and the empty line yields
two empty tokens. -/
theorem getContentAsTokens_empty_line_two_tokens :
    NewDrain [optionFn.WithExtraDelimiter [""]] = .ok emptyDelimiterDrain ∧
    TrimSpace "".data = [] ∧
    emptyDelimiterDrain.getContentAsTokens "" = ["", ""] ∧
    ¬ ∀ (d : Drain) (content : String), TrimSpace content.data = [] →
      d.getContentAsTokens content = [""] := by
  refine ⟨rfl, by decide, by decide, ?_⟩
  intro h
  have h1 := h emptyDelimiterDrain "" (by decide)
  have h2 : emptyDelimiterDrain.getContentAsTokens "" = ["", ""] := by decide
  rw [h2] at h1
  cases h1

/-- C21 (amended). For every raw line and every configured list of extra delimiters,
`getContentAsTokens` returns a non-empty token list; no token contains a space; the join of
the tokens with single spaces is the trimmed line after the replacements (the raw line without
the white space at its two ends, then, delimiter by delimiter in configuration order,
`strings.ReplaceAll` of the delimiter by one space); there is one token more than the replaced
line has spaces, so consecutive spaces give empty tokens; the token list is the only non-empty
list of space-free tokens with that join; and if no configured delimiter is the empty string,
a line that is empty after trimming yields exactly one token, the empty string. -/
theorem getContentAsTokens_spec (d : Drain) (content : String) :
    d.getContentAsTokens content ≠ [] ∧
    (∀ t, t ∈ d.getContentAsTokens content → ' ' ∉ t.data) ∧
    String.intercalate " " (d.getContentAsTokens content) =
      String.mk (d.ExtraDelimiters.foldl
        (fun content delimiter => ReplaceAll content delimiter.data [' '])
        (TrimSpace content.data)) ∧
    (d.getContentAsTokens content).length =
      (d.ExtraDelimiters.foldl
        (fun content delimiter => ReplaceAll content delimiter.data [' '])
        (TrimSpace content.data)).count ' ' + 1 ∧
    (∀ ts : List String, ts ≠ [] → (∀ t, t ∈ ts → ' ' ∉ t.data) →
      String.intercalate " " ts =
        String.mk (d.ExtraDelimiters.foldl
          (fun content delimiter => ReplaceAll content delimiter.data [' '])
          (TrimSpace content.data)) →
      ts = d.getContentAsTokens content) ∧
    ((∃ pre post, content.data = pre ++ TrimSpace content.data ++ post ∧
        (∀ c, c ∈ pre → isSpace c = true) ∧ (∀ c, c ∈ post → isSpace c = true)) ∧
      (∀ c, (TrimSpace content.data).head? = some c → isSpace c = false) ∧
      (∀ c, (TrimSpace content.data).getLast? = some c → isSpace c = false)) ∧
    (TrimSpace content.data = [] → "" ∉ d.ExtraDelimiters →
      d.getContentAsTokens content = [""]) := by
  have hmap : ∀ l : List (List Char), (l.map String.mk).map String.data = l := by
    intro l
    rw [List.map_map]
    exact List.map_id _
  refine ⟨getContentAsTokens_ne_nil d content, ?_, ?_, ?_, ?_, TrimSpace_spec _, ?_⟩
  · intro t ht
    unfold Drain.getContentAsTokens at ht
    obtain ⟨piece, hp, e⟩ := List.mem_map.mp ht
    subst e
    exact Split_no_space _ piece hp
  · apply String.ext
    rw [String_intercalate_data]
    unfold Drain.getContentAsTokens
    simp only
    rw [hmap]
    exact intercalate_Split _
  · unfold Drain.getContentAsTokens
    simp only
    rw [List.length_map, Split_length]
  · intro ts hne hts hjoin
    have hdata := congrArg String.data hjoin
    rw [String_intercalate_data] at hdata
    have hs := Split_intercalate (ts.map String.data) (by simpa using hne) (by
      intro l hl
      obtain ⟨t, ht, e⟩ := List.mem_map.mp hl
      subst e
      exact hts t ht)
    have hd : (" " : String).data = [' '] := rfl
    rw [hd] at hdata
    rw [hdata] at hs
    unfold Drain.getContentAsTokens
    simp only
    rw [hs, List.map_map]
    exact (List.map_id _).symm
  · intro hempty hdel
    unfold Drain.getContentAsTokens
    simp only
    rw [hempty, foldl_ReplaceAll_nil _ hdel]
    rfl

/-- Witness for C21: the line "  user=bob, id=7  " with the delimiters "=" and ", ", and the
empty line. -/
theorem getContentAsTokens_spec_witness :
    delimiterDrain.getContentAsTokens "  user=bob, id=7  " = ["user", "bob", "id", "7"] ∧
    delimiterDrain.getContentAsTokens "a  b" = ["a", "", "b"] ∧
    (TrimSpace "   ".data = [] ∧ "" ∉ delimiterDrain.ExtraDelimiters) ∧
    delimiterDrain.getContentAsTokens "   " = [""] :=
  ⟨by decide, by decide, ⟨by decide, by decide⟩,
    (getContentAsTokens_spec delimiterDrain "   ").2.2.2.2.2.2 (by decide) (by decide)⟩

/-- C22 (the code at the failing input). On the fresh default engine, `AddLogMessage
"100 req ok"` returns the new cluster 1 with the template `100 req ok`, grafted below the
wildcard edge because its first token has a digit; `Match "100 req ok" Never` on the resulting
state then does not return: the tree search looks up "100", misses, and dereferences the nil
node (the defect of C3). Strategy `Always` finds the cluster. -/
theorem learn_then_match_panics :
    NewDrain [] = .ok freshDrain ∧
    freshDrain.AddLogMessage "100 req ok" =
      .ok reqDrain (⟨1, ["100", "req", "ok"], 1⟩, ClusterUpdateType.Created) ∧
    reqDrain.RootNode = Node.mk [("3", Node.mk [("<*>", Node.mk [] [1])] [])] [] ∧
    reqDrain.Match "100 req ok" SearchStrategy.Never = .panic ∧
    reqDrain.Match "100 req ok" SearchStrategy.Always =
      .ok reqDrain (some ⟨1, ["100", "req", "ok"], 1⟩) :=
  ⟨rfl, by decide!, by decide!, by decide!, by decide!⟩

theorem nextEdge_key_ne (d : Drain) (node : Node) (token key : String) (child : Option Node)
    (h : nextEdge d node token = (key, child)) (hne : key ≠ token) :
    node.KeyToChildNode.lookup token = none := by
  cases hc : node.KeyToChildNode.lookup token with
  | none => rfl
  | some c =>
    unfold nextEdge at h
    rw [hc] at h
    simp only [Prod.mk.injEq] at h
    exact absurd h.1.symm hne

theorem treeSearchLoop_congr (d d' : Drain) (h : d'.MaxNodeDepth = d.MaxNodeDepth) (n : Nat)
    (tokens : List String) (depth : Int) (node : Node) :
    treeSearchLoop d' n tokens depth node = treeSearchLoop d n tokens depth node := by
  induction tokens generalizing depth node with
  | nil => rfl
  | cons token rest ih =>
    unfold treeSearchLoop
    rw [h]
    cases node.KeyToChildNode.lookup token with
    | none => rfl
    | some child => simp only [ih]

/-- After a graft, a tree search along the tokens of the grafted template that does not run
into a missing child ends in the node that lists the grafted cluster. -/
theorem treeSearchLoop_after_addSeqLoop (d : Drain) (cluster : LogCluster) (n : Nat)
    (tokens : List String) (depth : Int) (cache : Cache) (node : Node) (cache' : Cache)
    (node' leaf : Node)
    (h : addSeqLoop d cluster n tokens depth cache (some node) = some (cache', some node'))
    (hne : tokens ≠ []) (hd : depth + (tokens.length : Int) = (n : Int) + 1)
    (hs : treeSearchLoop d n tokens depth node' = some leaf) :
    cluster.ClusterId ∈ leaf.ClusterIds := by
  induction tokens generalizing depth cache node cache' node' with
  | nil => exact absurd rfl hne
  | cons token rest ih =>
    simp only [List.length_cons] at hd
    push_cast at hd
    unfold addSeqLoop at h
    unfold treeSearchLoop at hs
    by_cases hleaf : depth ≥ d.MaxNodeDepth ∨ depth ≥ (n : Int)
    · rw [if_pos hleaf] at h
      cases hcs : cleanStale node.ClusterIds cache with
      | mk c1 newIds =>
        rw [hcs] at h
        simp only [Option.some.injEq, Prod.mk.injEq] at h
        obtain ⟨_, h2⟩ := h
        subst h2
        have hleaf' : leaf = Node.mk node.KeyToChildNode (newIds ++ [cluster.ClusterId]) := by
          by_cases h1 : depth ≥ d.MaxNodeDepth
          · rw [if_pos h1] at hs
            injection hs with hs
            exact hs.symm
          · rw [if_neg h1] at hs
            have h2 : depth = (n : Int) := by
              rcases hleaf with hl | hl
              · exact absurd hl h1
              · omega
            rw [if_pos h2] at hs
            injection hs with hs
            exact hs.symm
        rw [hleaf']
        show cluster.ClusterId ∈ newIds ++ [cluster.ClusterId]
        simp
    · rw [if_neg hleaf] at h
      have h1 : ¬ depth ≥ d.MaxNodeDepth := fun e => hleaf (Or.inl e)
      have h2 : ¬ depth = (n : Int) := fun e => hleaf (Or.inr (by omega))
      rw [if_neg h1, if_neg h2] at hs
      have hrest : rest ≠ [] := by
        intro e
        subst e
        simp only [List.length_nil, Nat.cast_zero] at hd
        exact hleaf (Or.inr (by omega))
      cases hedge : nextEdge d node token with
      | mk key c =>
        rw [hedge] at h
        simp only at h
        cases c with
        | none =>
          rw [addSeqLoop_none, if_neg hrest] at h
          cases h
        | some child =>
          cases hrec : addSeqLoop d cluster n rest (depth + 1) cache (some child) with
          | none =>
            rw [hrec] at h
            cases h
          | some res =>
            obtain ⟨c2, r⟩ := res
            obtain ⟨_, child', hr, _⟩ := addSeqLoop_some d cluster n rest (depth + 1) cache child
              c2 r hrec
            subst hr
            rw [hrec] at h
            simp only [Option.some.injEq, Prod.mk.injEq] at h
            obtain ⟨_, h3⟩ := h
            subst h3
            by_cases hk : key = token
            · subst hk
              have hl : (Node.mk (assignChild node.KeyToChildNode key child')
                  node.ClusterIds).KeyToChildNode.lookup key = some child' :=
                lookup_assignChild_self _ _ _
              rw [hl] at hs
              exact ih (depth + 1) cache child c2 child' hrec hrest (by omega) hs
            · have hl : (Node.mk (assignChild node.KeyToChildNode key child')
                  node.ClusterIds).KeyToChildNode.lookup token = none := by
                show (assignChild node.KeyToChildNode key child').lookup token = none
                rw [lookup_assignChild_ne _ _ _ _ (fun e => hk e.symm)]
                exact nextEdge_key_ne d node token key _ hedge hk
              rw [hl] at hs
              cases hs

theorem addSeqToPrefixTree_loop (d : Drain) (root : Node) (cluster : LogCluster) (d' : Drain)
    (hn : cluster.LogTemplateTokens ≠ [])
    (h : d.addSeqToPrefixTree root cluster = some d') :
    ∃ first cache' newBucket,
      addSeqLoop d cluster cluster.LogTemplateTokens.length cluster.LogTemplateTokens 1
        d.IdToCluster (some first) = some (cache', some newBucket) ∧
      d' = { d with
        IdToCluster := cache'
        RootNode := Node.mk (assignChild root.KeyToChildNode
          (toString cluster.LogTemplateTokens.length) newBucket) root.ClusterIds } := by
  unfold Drain.addSeqToPrefixTree at h
  simp only at h
  have h0 : cluster.LogTemplateTokens.length ≠ 0 := fun e => hn (List.length_eq_zero.mp e)
  rw [if_neg h0] at h
  have main : ∀ first : Node,
      (match addSeqLoop d cluster cluster.LogTemplateTokens.length cluster.LogTemplateTokens 1
          d.IdToCluster (some first) with
        | none => none
        | some (cache, none) =>
          some { d with
            IdToCluster := cache
            RootNode := Node.mk (assignChild root.KeyToChildNode
              (toString cluster.LogTemplateTokens.length) first) root.ClusterIds }
        | some (cache, some firstLayerNode) =>
          some { d with
            IdToCluster := cache
            RootNode := Node.mk (assignChild root.KeyToChildNode
              (toString cluster.LogTemplateTokens.length) firstLayerNode)
              root.ClusterIds }) = some d' →
      ∃ cache' newBucket,
        addSeqLoop d cluster cluster.LogTemplateTokens.length cluster.LogTemplateTokens 1
          d.IdToCluster (some first) = some (cache', some newBucket) ∧
        d' = { d with
          IdToCluster := cache'
          RootNode := Node.mk (assignChild root.KeyToChildNode
            (toString cluster.LogTemplateTokens.length) newBucket) root.ClusterIds } := by
    intro first hm
    cases hloop : addSeqLoop d cluster cluster.LogTemplateTokens.length
        cluster.LogTemplateTokens 1 d.IdToCluster (some first) with
    | none => rw [hloop] at hm; cases hm
    | some r =>
      obtain ⟨cache', res⟩ := r
      obtain ⟨_, newBucket, hres, _⟩ := addSeqLoop_some _ _ _ _ _ _ _ _ _ hloop
      subst hres
      rw [hloop] at hm
      simp only [Option.some.injEq] at hm
      exact ⟨cache', newBucket, rfl, hm.symm⟩
  cases hl : root.KeyToChildNode.lookup (toString cluster.LogTemplateTokens.length) with
  | none =>
    rw [hl] at h
    obtain ⟨cache', nb, h1, h2⟩ := main NewNode h
    exact ⟨NewNode, cache', nb, h1, h2⟩
  | some old =>
    rw [hl] at h
    obtain ⟨cache', nb, h1, h2⟩ := main old h
    exact ⟨old, cache', nb, h1, h2⟩

theorem treeSearch_leaf (d : Drain) (root : Node) (tokens : List String) (simTh : ℚ) (ip : Bool)
    (d' : Drain) (c : LogCluster) (hne : tokens ≠ [])
    (h : d.treeSearch root tokens simTh ip = .ok d' (some c)) :
    ∃ bucket leaf, root.KeyToChildNode.lookup (toString tokens.length) = some bucket ∧
      treeSearchLoop d tokens.length tokens 1 bucket = some leaf ∧
      c.ClusterId ∈ leaf.ClusterIds := by
  unfold Drain.treeSearch at h
  simp only at h
  split at h
  · cases h
  · rename_i bucket hb
    have h0 : tokens.length ≠ 0 := fun h0 => hne (List.length_eq_zero.mp h0)
    rw [if_neg h0] at h
    split at h
    · cases h
    · rename_i leaf hleaf
      exact ⟨bucket, leaf, hb, hleaf, (fastMatch_some _ _ _ _ _ _ _ h).1⟩

theorem perfectMatch_self (p : String) (tokens : List String) : PerfectMatch p tokens tokens := by
  induction tokens with
  | nil => exact List.Forall₂.nil
  | cons a rest ih => exact List.Forall₂.cons (Or.inr rfl) ih

theorem perfectMatch_mergeTemplate (p : String) (t s : List String)
    (hlen : t.length = s.length) : PerfectMatch p (mergeTemplate p t s) s := by
  induction t generalizing s with
  | nil =>
    cases s with
    | nil => exact List.Forall₂.nil
    | cons b s => simp at hlen
  | cons a t ih =>
    cases s with
    | nil => simp at hlen
    | cons b s =>
      simp only [List.length_cons, add_left_inj] at hlen
      simp only [mergeTemplate, List.zipWith_cons_cons]
      refine List.Forall₂.cons ?_ (ih s hlen)
      split_ifs with hab
      · exact Or.inr hab
      · exact Or.inl rfl

/-- Candidate scoring with threshold 1 returns a cluster when a listed live candidate matches
the tokens perfectly and the resolving candidates have the tokens' length. -/
theorem fastMatch_complete (d : Drain) (ids : List Int) (tokens : List String)
    (hlen : ∀ id, id ∈ ids → ∀ c, d.IdToCluster.Peek id = some c →
      c.LogTemplateTokens.length = tokens.length)
    (key : Int) (c : LogCluster) (hkey : key ∈ ids) (hlive : d.IdToCluster.Peek key = some c)
    (hperf : PerfectMatch d.ParamStr c.LogTemplateTokens tokens) :
    ∃ d' c', d.fastMatch ids tokens 1 true = .ok d' (some c') := by
  unfold Drain.fastMatch
  obtain ⟨cache', s, r, heq, _, _, h3⟩ := fastMatchLoop_complete d tokens true ids d.IdToCluster
    (-1) (-1) none hlen
  obtain ⟨pc, hd⟩ := getSeqDistance_perfect_one d _ _ hperf
  obtain ⟨h4, h5⟩ := h3 key hkey c hlive 1 pc hd
  have hr : r ≠ none := h5 (Or.inr (by norm_num))
  rw [heq]
  simp only [ge_iff_le, h4, if_true]
  cases r with
  | none => exact absurd rfl hr
  | some c' => exact ⟨_, c', rfl⟩

theorem Match_never_of_leaf (d : Drain) (m : String) (bucket : Node)
    (hb : d.RootNode.KeyToChildNode.lookup (toString (d.getContentAsTokens m).length) =
      some bucket) :
    (treeSearchLoop d (d.getContentAsTokens m).length (d.getContentAsTokens m) 1 bucket = none →
      d.Match m SearchStrategy.Never = .panic) ∧
    (∀ leaf d' c,
      treeSearchLoop d (d.getContentAsTokens m).length (d.getContentAsTokens m) 1 bucket =
        some leaf →
      d.fastMatch leaf.ClusterIds (d.getContentAsTokens m) 1 true = .ok d' (some c) →
      d.Match m SearchStrategy.Never = .ok d' (some c)) := by
  have h0 : (d.getContentAsTokens m).length ≠ 0 :=
    fun e => getContentAsTokens_ne_nil d m (List.length_eq_zero.mp e)
  constructor
  · intro hl
    unfold Drain.Match Drain.treeSearch
    simp only
    rw [if_neg (by decide), hb]
    simp only
    rw [if_neg h0, hl]
  · intro leaf d' c hl hf
    unfold Drain.Match Drain.treeSearch
    simp only
    rw [if_neg (by decide), hb]
    simp only
    rw [if_neg h0, hl]
    simp only
    rw [hf]

/-- Where the learned cluster sits after `AddLogMessage m` has returned it: it is live, it
matches `m` perfectly, and a tree search along the tokens of `m` that reaches a node reaches
one that lists it. -/
theorem AddLogMessage_learned (d : Drain) (hc : Consistent d) (m : String) (d' : Drain)
    (r : LogCluster) (u : ClusterUpdateType) (hadd : d.AddLogMessage m = .ok d' (r, u)) :
    d'.getContentAsTokens m = d.getContentAsTokens m ∧
    d'.IdToCluster.Peek r.ClusterId = some r ∧
    PerfectMatch d'.ParamStr r.LogTemplateTokens (d.getContentAsTokens m) ∧
    ∃ bucket,
      d'.RootNode.KeyToChildNode.lookup (toString (d.getContentAsTokens m).length) =
        some bucket ∧
      ∀ leaf, treeSearchLoop d' (d.getContentAsTokens m).length (d.getContentAsTokens m) 1
          bucket = some leaf → r.ClusterId ∈ leaf.ClusterIds := by
  have hne := getContentAsTokens_ne_nil d m
  rcases AddLogMessage_ok_cases d m d' r u hadd with
    ⟨d1, c0, hts, ht, hpeek, hlen, hr, _, hd'⟩ | ⟨d1, hts, ht, _, hr, hgraft⟩
  · obtain ⟨f1, _, f3, f4, _, _, _, f8, _, _, hs⟩ := ht.fields
    obtain ⟨bucket, leaf0, hb, hloop, hmem⟩ := treeSearch_leaf _ _ _ _ _ _ _ hne hts
    have hrid : r.ClusterId = c0.ClusterId := by rw [hr]
    have e1 : d'.ExtraDelimiters = d.ExtraDelimiters := by rw [hd']; exact f8
    have e2 : d'.RootNode = d.RootNode := by rw [hd']; exact f1
    have e3 : d'.MaxNodeDepth = d.MaxNodeDepth := by rw [hd']; exact f4
    have e4 : d'.ParamStr = d.ParamStr := by rw [hd']; exact f3
    have e5 : d'.IdToCluster = ((d1.IdToCluster.store r).Get c0.ClusterId).1 := by rw [hd']
    refine ⟨getContentAsTokens_congr d d' e1 m, ?_, ?_, bucket, by rw [e2]; exact hb, ?_⟩
    · rw [e5, (Cache.Get_sameRecords _ _).2.2, Cache.Peek_store, if_pos rfl, hrid, hs.2.2, hpeek]
      rfl
    · rw [e4]
      have : r.LogTemplateTokens =
          mergeTemplate d.ParamStr c0.LogTemplateTokens (d.getContentAsTokens m) := by rw [hr]
      rw [this]
      exact perfectMatch_mergeTemplate _ _ _ hlen
    · intro leaf hl
      rw [treeSearchLoop_congr d d' e3, hloop] at hl
      injection hl with hl
      rw [← hl, hrid]
      exact hmem
  · obtain ⟨f1, _, f3, f4, _, _, _, f8, _, _, hs⟩ := ht.fields
    have hc1 := consistent_touched d d1 ht hc
    have hrT : r.LogTemplateTokens = d.getContentAsTokens m := by rw [hr]; rfl
    have hrne : r.LogTemplateTokens ≠ [] := by rw [hrT]; exact hne
    obtain ⟨first, cache', nb, hloop, hd'⟩ := addSeqToPrefixTree_loop _ _ _ _ hrne hgraft
    obtain ⟨hs', _⟩ := addSeqLoop_some _ _ _ _ _ _ _ _ _ hloop
    simp only at hs'
    have e1 : d'.ExtraDelimiters = d.ExtraDelimiters := by rw [hd']; exact f8
    have e3 : d'.MaxNodeDepth = d1.MaxNodeDepth := by rw [hd']
    have e4 : d'.ParamStr = d.ParamStr := by rw [hd']; exact f3
    have e5 : d'.IdToCluster = cache' := by rw [hd']
    have e6 : d'.RootNode = Node.mk (assignChild d1.RootNode.KeyToChildNode
        (toString r.LogTemplateTokens.length) nb) d1.RootNode.ClusterIds := by rw [hd']
    refine ⟨getContentAsTokens_congr d d' e1 m, ?_, ?_, nb, ?_, ?_⟩
    · rw [e5, hs'.2.2, Cache.Peek_Add_self _ _ hc1.size_pos]
    · rw [hrT]
      exact perfectMatch_self _ _
    · rw [e6, ← hrT]
      exact lookup_assignChild_self _ _ _
    · intro leaf hl
      rw [← hrT] at hl
      refine treeSearchLoop_after_addSeqLoop _ r _ _ 1 _ first cache' nb leaf hloop hrne
        (by omega) ?_
      rw [← hl]
      exact (treeSearchLoop_congr ({ d1 with
        ClustersCounter := d.ClustersCounter + 1
        IdToCluster := d1.IdToCluster.Add r } : Drain) d' e3 _ _ _ _).symm

/-- Learn-then-match up to the panic of the tree search: in every reachable state, after
`AddLogMessage m` has returned a cluster, a call `Match m Never` that does not panic returns a
cluster whose template has the token count of `m` and agrees with the tokens of `m` at every
position that is not the wildcard marker. -/
theorem learn_then_match_of_no_panic (d : Drain) (hr : Reachable d) (m : String) (d' : Drain)
    (r : LogCluster) (u : ClusterUpdateType) (hadd : d.AddLogMessage m = .ok d' (r, u))
    (hnp : d'.Match m SearchStrategy.Never ≠ .panic) :
    ∃ d'' c, d'.Match m SearchStrategy.Never = .ok d'' (some c) ∧
      c.LogTemplateTokens.length = (d'.getContentAsTokens m).length ∧
      ∀ (i : Nat) (t tok : String), c.LogTemplateTokens[i]? = some t →
        (d'.getContentAsTokens m)[i]? = some tok → t = d'.ParamStr ∨ t = tok := by
  have hc := consistent_of_reachable d hr
  have hc' := consistent_of_reachable d' (Reachable.add d m d' (r, u) hr hadd)
  obtain ⟨htok, hlive, hperf, bucket, hb, hleaf⟩ := AddLogMessage_learned d hc m d' r u hadd
  rw [← htok] at hb hleaf hperf
  obtain ⟨hpanic, hfound⟩ := Match_never_of_leaf d' m bucket hb
  cases hl : treeSearchLoop d' (d'.getContentAsTokens m).length (d'.getContentAsTokens m) 1
      bucket with
  | none => exact absurd (hpanic hl) hnp
  | some leaf =>
    obtain ⟨d'', c, hf⟩ := fastMatch_complete d' leaf.ClusterIds (d'.getContentAsTokens m)
      (by
        intro id hid c hc0
        exact toString_nat_injective _ _
          (hc'.bucket_length _ (mem_of_lookup _ _ _ hb) id
            (treeSearchLoop_ids _ _ _ _ _ _ hl id hid) c hc0))
      r.ClusterId r (hleaf leaf hl) hlive hperf
    have hm := hfound leaf d'' c hl hf
    refine ⟨d'', c, hm, ?_⟩
    exact (perfectMatch_iff _ _ _).mp (Match_some d' m _ d'' c hm).2

theorem treeSearch_none_cases (d : Drain) (root : Node) (tokens : List String) (simTh : ℚ)
    (ip : Bool) (d1 : Drain) (hne : tokens ≠ [])
    (h : d.treeSearch root tokens simTh ip = .ok d1 none) :
    root.KeyToChildNode.lookup (toString tokens.length) = none ∨
      ∃ bucket leaf, root.KeyToChildNode.lookup (toString tokens.length) = some bucket ∧
        treeSearchLoop d tokens.length tokens 1 bucket = some leaf := by
  unfold Drain.treeSearch at h
  simp only at h
  split at h
  · rename_i hb
    exact Or.inl hb
  · rename_i bucket hb
    have h0 : tokens.length ≠ 0 := fun h0 => hne (List.length_eq_zero.mp h0)
    rw [if_neg h0] at h
    split at h
    · cases h
    · rename_i leaf hleaf
      exact Or.inr ⟨bucket, leaf, hb, hleaf⟩

/-- Where the tree search has followed the tokens to a node, the graft follows the same edges
and returns. -/
theorem addSeqLoop_of_treeSearchLoop (d d2 : Drain) (hM : d2.MaxNodeDepth = d.MaxNodeDepth)
    (cluster : LogCluster) (n : Nat) (tokens : List String) (depth : Int) (cache : Cache)
    (node leaf : Node) (hs : treeSearchLoop d n tokens depth node = some leaf)
    (hd : depth + (tokens.length : Int) = (n : Int) + 1) :
    ∃ cache' node', addSeqLoop d2 cluster n tokens depth cache (some node) =
      some (cache', some node') := by
  induction tokens generalizing depth node with
  | nil => exact ⟨cache, node, rfl⟩
  | cons token rest ih =>
    simp only [List.length_cons] at hd
    push_cast at hd
    unfold addSeqLoop
    unfold treeSearchLoop at hs
    rw [hM]
    by_cases hleaf : depth ≥ d.MaxNodeDepth ∨ depth ≥ (n : Int)
    · rw [if_pos hleaf]
      exact ⟨_, _, rfl⟩
    · rw [if_neg hleaf]
      have h1 : ¬ depth ≥ d.MaxNodeDepth := fun e => hleaf (Or.inl e)
      have h2 : ¬ depth = (n : Int) := fun e => hleaf (Or.inr (by omega))
      rw [if_neg h1, if_neg h2] at hs
      cases hc : node.KeyToChildNode.lookup token with
      | none =>
        rw [hc] at hs
        cases hs
      | some child =>
        rw [hc] at hs
        have hedge : nextEdge d2 node token = (token, some child) := by
          unfold nextEdge
          rw [hc]
        obtain ⟨cache', child', hrec⟩ := ih (depth + 1) child hs (by omega)
        rw [hedge]
        simp only [hrec]
        exact ⟨_, _, rfl⟩

theorem addSeqToPrefixTree_of_loop (d : Drain) (root : Node) (cluster : LogCluster)
    (hn : cluster.LogTemplateTokens ≠ []) (first : Node)
    (hfirst : root.KeyToChildNode.lookup (toString cluster.LogTemplateTokens.length) =
        some first ∨
      (root.KeyToChildNode.lookup (toString cluster.LogTemplateTokens.length) = none ∧
        first = NewNode))
    (cache' : Cache) (nb : Node)
    (hloop : addSeqLoop d cluster cluster.LogTemplateTokens.length cluster.LogTemplateTokens 1
      d.IdToCluster (some first) = some (cache', some nb)) :
    d.addSeqToPrefixTree root cluster = some { d with
      IdToCluster := cache'
      RootNode := Node.mk (assignChild root.KeyToChildNode
        (toString cluster.LogTemplateTokens.length) nb) root.ClusterIds } := by
  have h0 : cluster.LogTemplateTokens.length ≠ 0 := fun e => hn (List.length_eq_zero.mp e)
  unfold Drain.addSeqToPrefixTree
  simp only
  rw [if_neg h0]
  rcases hfirst with hf | ⟨hf, e⟩
  · rw [hf]
    simp only
    rw [hloop]
  · subst e
    rw [hf]
    simp only
    rw [hloop]

/-- A miss creates a cluster in every state with `MaxChildren ≥ 1`: the tree search either
found no bucket, and the graft builds a new chain of nodes, or it followed existing edges to a
node, and the graft follows them again. -/
theorem AddLogMessage_miss_any (d : Drain) (hmax : 1 ≤ d.MaxChildren) (m : String) (d1 : Drain)
    (hmiss : d.treeSearch d.RootNode (d.getContentAsTokens m) d.SimTh false = .ok d1 none) :
    ∃ d', d.AddLogMessage m =
        .ok d' (NewLogCluster (d.ClustersCounter + 1) (d.getContentAsTokens m),
          ClusterUpdateType.Created) ∧
      d'.ClustersCounter = d.ClustersCounter + 1 := by
  have hne := getContentAsTokens_ne_nil d m
  have ht : d.Touched d1 := treeSearch_state _ _ _ _ _ _ (by rw [hmiss]; rfl)
  obtain ⟨f1, f2, f3, f4, _, f6, _⟩ := ht.fields
  have hmax1 : 1 ≤ d1.MaxChildren := by rw [f6]; exact hmax
  have hloop : ∃ first cache' nb,
      (d1.RootNode.KeyToChildNode.lookup (toString (d.getContentAsTokens m).length) =
          some first ∨
        (d1.RootNode.KeyToChildNode.lookup (toString (d.getContentAsTokens m).length) = none ∧
          first = NewNode)) ∧
      addSeqLoop ({ d1 with
          ClustersCounter := d1.ClustersCounter + 1
          IdToCluster := d1.IdToCluster.Add
            (NewLogCluster (d1.ClustersCounter + 1) (d.getContentAsTokens m)) } : Drain)
        (NewLogCluster (d1.ClustersCounter + 1) (d.getContentAsTokens m))
        (d.getContentAsTokens m).length (d.getContentAsTokens m) 1
        (d1.IdToCluster.Add (NewLogCluster (d1.ClustersCounter + 1) (d.getContentAsTokens m)))
        (some first) = some (cache', some nb) := by
    rcases treeSearch_none_cases _ _ _ _ _ _ hne hmiss with hnone | ⟨bucket, leaf, hb, hl⟩
    · obtain ⟨cache', nb, h, _⟩ := addSeqLoop_ready ({ d1 with
          ClustersCounter := d1.ClustersCounter + 1
          IdToCluster := d1.IdToCluster.Add
            (NewLogCluster (d1.ClustersCounter + 1) (d.getContentAsTokens m)) } : Drain)
        hmax1 (NewLogCluster (d1.ClustersCounter + 1) (d.getContentAsTokens m))
        (d.getContentAsTokens m).length (d.getContentAsTokens m) 1
        (d1.IdToCluster.Add (NewLogCluster (d1.ClustersCounter + 1) (d.getContentAsTokens m)))
        NewNode (wildcardReady_NewNode _ _ hmax1)
      exact ⟨NewNode, cache', nb, Or.inr ⟨by rw [f1]; exact hnone, rfl⟩, h⟩
    · obtain ⟨cache', nb, h⟩ := addSeqLoop_of_treeSearchLoop d ({ d1 with
          ClustersCounter := d1.ClustersCounter + 1
          IdToCluster := d1.IdToCluster.Add
            (NewLogCluster (d1.ClustersCounter + 1) (d.getContentAsTokens m)) } : Drain) f4
        (NewLogCluster (d1.ClustersCounter + 1) (d.getContentAsTokens m))
        (d.getContentAsTokens m).length (d.getContentAsTokens m) 1
        (d1.IdToCluster.Add (NewLogCluster (d1.ClustersCounter + 1) (d.getContentAsTokens m)))
        bucket leaf hl (by omega)
      exact ⟨bucket, cache', nb, Or.inl (by rw [f1]; exact hb), h⟩
  obtain ⟨first, cache', nb, hfirst, hl⟩ := hloop
  have h1 := addSeqToPrefixTree_of_loop ({ d1 with
      ClustersCounter := d1.ClustersCounter + 1
      IdToCluster := d1.IdToCluster.Add
        (NewLogCluster (d1.ClustersCounter + 1) (d.getContentAsTokens m)) } : Drain)
    d1.RootNode (NewLogCluster (d1.ClustersCounter + 1) (d.getContentAsTokens m)) hne first
    hfirst cache' nb hl
  refine ⟨{ ({ d1 with
      ClustersCounter := d1.ClustersCounter + 1
      IdToCluster := d1.IdToCluster.Add
        (NewLogCluster (d1.ClustersCounter + 1) (d.getContentAsTokens m)) } : Drain) with
      IdToCluster := cache'
      RootNode := Node.mk (assignChild d1.RootNode.KeyToChildNode
        (toString (d.getContentAsTokens m).length) nb) d1.RootNode.ClusterIds }, ?_, ?_⟩
  · unfold Drain.AddLogMessage
    simp only [hmiss]
    rw [← f2, h1]
    rfl
  · show d1.ClustersCounter + 1 = d.ClustersCounter + 1
    rw [f2]

theorem roundHalfEven_le (q : ℚ) (k : Int) (h : q ≤ k) : roundHalfEven q ≤ k := by
  have hf : ⌊q⌋ ≤ k := by
    have := Int.floor_le q
    exact_mod_cast le_trans this h
  unfold roundHalfEven
  dsimp only
  by_cases hk : ⌊q⌋ = k
  · have hlt : q - (⌊q⌋ : ℚ) < 1 / 2 := by
      rw [hk]
      linarith
    rw [if_pos hlt]
    omega
  · have : ⌊q⌋ + 1 ≤ k := by omega
    split_ifs <;> omega

theorem le_roundHalfEven (q : ℚ) (k : Int) (h : (k : ℚ) ≤ q) : k ≤ roundHalfEven q := by
  have hf : k ≤ ⌊q⌋ := Int.le_floor.mpr h
  unfold roundHalfEven
  dsimp only
  split_ifs <;> omega

theorem roundHalfEven_intCast (k : Int) : roundHalfEven (k : ℚ) = k :=
  le_antisymm (roundHalfEven_le _ _ le_rfl) (le_roundHalfEven _ _ le_rfl)

theorem roundHalfEven_abs_sub (q : ℚ) : |(roundHalfEven q : ℚ) - q| ≤ 1 / 2 := by
  have h1 := Int.floor_le q
  have h2 := Int.lt_floor_add_one q
  unfold roundHalfEven
  dsimp only
  rw [abs_le]
  split_ifs with a b c <;> push_cast <;> constructor <;> linarith

theorem roundHalfEven_mono (p q : ℚ) (h : p ≤ q) : roundHalfEven p ≤ roundHalfEven q := by
  have hfl : ⌊p⌋ ≤ ⌊q⌋ := Int.floor_mono h
  have p1 := Int.floor_le p
  have p2 := Int.lt_floor_add_one p
  have q1 := Int.floor_le q
  have q2 := Int.lt_floor_add_one q
  by_cases hlt : ⌊p⌋ < ⌊q⌋
  · have hp : roundHalfEven p ≤ ⌊p⌋ + 1 := by
      apply roundHalfEven_le
      push_cast
      linarith
    have hq : ⌊q⌋ ≤ roundHalfEven q := le_roundHalfEven _ _ q1
    omega
  · have he : ⌊p⌋ = ⌊q⌋ := by omega
    unfold roundHalfEven
    dsimp only
    rw [he]
    have hpq : p - (⌊q⌋ : ℚ) ≤ q - (⌊q⌋ : ℚ) := by linarith
    split_ifs <;> first | omega | (exfalso; linarith)

theorem binaryExponent_spec (q : ℚ) (hq : 0 < q) :
    (2 : ℚ) ^ binaryExponent q ≤ q ∧ q < (2 : ℚ) ^ (binaryExponent q + 1) := by
  have hnum : 0 < q.num := Rat.num_pos.mpr hq
  have hden : 0 < q.den := q.den_pos
  have ha0 : q.num.natAbs ≠ 0 := by omega
  have hb0 : q.den ≠ 0 := by omega
  have h1 : 2 ^ q.num.natAbs.log2 ≤ q.num.natAbs := Nat.log2_self_le ha0
  have h2 : q.num.natAbs < 2 ^ (q.num.natAbs.log2 + 1) := Nat.lt_log2_self
  have h3 : 2 ^ q.den.log2 ≤ q.den := Nat.log2_self_le hb0
  have h4 : q.den < 2 ^ (q.den.log2 + 1) := Nat.lt_log2_self
  have hqa : q = (q.num.natAbs : ℚ) / (q.den : ℚ) := by
    have : (q.num.natAbs : ℚ) = (q.num : ℚ) := by
      rw [Nat.cast_natAbs, abs_of_pos hnum]
    rw [this]
    exact (Rat.num_div_den q).symm
  have g1 : ((2 : ℚ) ^ q.num.natAbs.log2) ≤ (q.num.natAbs : ℚ) := by exact_mod_cast h1
  have g2 : (q.num.natAbs : ℚ) < 2 * (2 : ℚ) ^ q.num.natAbs.log2 := by
    have : (q.num.natAbs : ℚ) < (2 : ℚ) ^ (q.num.natAbs.log2 + 1) := by exact_mod_cast h2
    rw [pow_succ] at this
    linarith
  have g3 : ((2 : ℚ) ^ q.den.log2) ≤ (q.den : ℚ) := by exact_mod_cast h3
  have g4 : (q.den : ℚ) < 2 * (2 : ℚ) ^ q.den.log2 := by
    have : (q.den : ℚ) < (2 : ℚ) ^ (q.den.log2 + 1) := by exact_mod_cast h4
    rw [pow_succ] at this
    linarith
  have hA : (0 : ℚ) < (2 : ℚ) ^ q.num.natAbs.log2 := by positivity
  have hB : (0 : ℚ) < (2 : ℚ) ^ q.den.log2 := by positivity
  have hb : (0 : ℚ) < (q.den : ℚ) := by exact_mod_cast hden
  have he0 : (2 : ℚ) ^ ((q.num.natAbs.log2 : Int) - (q.den.log2 : Int)) =
      (2 : ℚ) ^ q.num.natAbs.log2 / (2 : ℚ) ^ q.den.log2 := by
    rw [zpow_sub₀ (by norm_num : (2 : ℚ) ≠ 0), zpow_natCast, zpow_natCast]
  have habs : |q| = q := abs_of_pos hq
  unfold binaryExponent
  dsimp only
  rw [habs]
  generalize hAe : (2 : ℚ) ^ q.num.natAbs.log2 = A at *
  generalize hBe : (2 : ℚ) ^ q.den.log2 = B at *
  generalize hae : (q.num.natAbs : ℚ) = a at *
  generalize hbe : (q.den : ℚ) = b at *
  split_ifs with hc
  · refine ⟨hc, ?_⟩
    rw [zpow_add_one₀ (by norm_num : (2 : ℚ) ≠ 0), he0, hqa, div_mul_eq_mul_div,
      div_lt_div_iff₀ hb hB]
    nlinarith
  · constructor
    · rw [zpow_sub_one₀ (by norm_num : (2 : ℚ) ≠ 0), he0, hqa, ← div_eq_mul_inv, div_div,
        div_le_div_iff₀ (by positivity) hb]
      nlinarith
    · rw [sub_add_cancel]
      exact not_le.mp hc

theorem roundFloat64_of_pos (q : ℚ) (hq : 0 < q) :
    roundFloat64 q = (roundHalfEven (q * (2 : ℚ) ^ (52 - binaryExponent q)) : ℚ) *
      (2 : ℚ) ^ (binaryExponent q - 52) := by
  unfold roundFloat64
  dsimp only
  rw [if_neg (ne_of_gt hq), if_neg (not_lt.mpr (le_of_lt hq)), abs_of_pos hq, one_mul]

theorem roundFloat64_zero : roundFloat64 0 = 0 := by
  unfold roundFloat64
  rw [if_pos rfl]

theorem binaryExponent_unique (q : ℚ) (hq : 0 < q) (k : Int) (h1 : (2 : ℚ) ^ k ≤ q)
    (h2 : q < (2 : ℚ) ^ (k + 1)) : binaryExponent q = k := by
  obtain ⟨g1, g2⟩ := binaryExponent_spec q hq
  have a : (2 : ℚ) ^ k < (2 : ℚ) ^ (binaryExponent q + 1) := lt_of_le_of_lt h1 g2
  have b : (2 : ℚ) ^ binaryExponent q < (2 : ℚ) ^ (k + 1) := lt_of_le_of_lt g1 h2
  have a' := (zpow_lt_zpow_iff_right₀ (by norm_num : (1 : ℚ) < 2)).mp a
  have b' := (zpow_lt_zpow_iff_right₀ (by norm_num : (1 : ℚ) < 2)).mp b
  omega

theorem two_zpow_mul (a b : Int) : (2 : ℚ) ^ a * (2 : ℚ) ^ b = (2 : ℚ) ^ (a + b) :=
  (zpow_add₀ (by norm_num : (2 : ℚ) ≠ 0) a b).symm

theorem roundFloat64_bounds (q : ℚ) (hq : 0 < q) :
    (2 : ℚ) ^ binaryExponent q ≤ roundFloat64 q ∧
      roundFloat64 q ≤ (2 : ℚ) ^ (binaryExponent q + 1) := by
  obtain ⟨g1, g2⟩ := binaryExponent_spec q hq
  rw [roundFloat64_of_pos q hq]
  generalize binaryExponent q = e at *
  have hs : (0 : ℚ) < (2 : ℚ) ^ (52 - e) := by positivity
  have ht : (0 : ℚ) < (2 : ℚ) ^ (e - 52) := by positivity
  have e52 : (2 : ℚ) ^ (52 : Int) = ((4503599627370496 : Int) : ℚ) := by norm_num
  have e53 : (2 : ℚ) ^ (53 : Int) = ((9007199254740992 : Int) : ℚ) := by norm_num
  have c1 : ((4503599627370496 : Int) : ℚ) ≤ q * (2 : ℚ) ^ (52 - e) := by
    have : (2 : ℚ) ^ e * (2 : ℚ) ^ (52 - e) = (2 : ℚ) ^ (52 : Int) := by
      rw [two_zpow_mul]
      congr 1
      ring
    rw [← e52, ← this]
    exact mul_le_mul_of_nonneg_right g1 (le_of_lt hs)
  have c2 : q * (2 : ℚ) ^ (52 - e) ≤ ((9007199254740992 : Int) : ℚ) := by
    have : (2 : ℚ) ^ (e + 1) * (2 : ℚ) ^ (52 - e) = (2 : ℚ) ^ (53 : Int) := by
      rw [two_zpow_mul]
      congr 1
      ring
    rw [← e53, ← this]
    exact mul_le_mul_of_nonneg_right (le_of_lt g2) (le_of_lt hs)
  have m1 := le_roundHalfEven _ _ c1
  have m2 := roundHalfEven_le _ _ c2
  constructor
  · have : (2 : ℚ) ^ e = ((4503599627370496 : Int) : ℚ) * (2 : ℚ) ^ (e - 52) := by
      rw [← e52, two_zpow_mul]
      congr 1
      ring
    rw [this]
    exact mul_le_mul_of_nonneg_right (by exact_mod_cast m1) (le_of_lt ht)
  · have : (2 : ℚ) ^ (e + 1) = ((9007199254740992 : Int) : ℚ) * (2 : ℚ) ^ (e - 52) := by
      rw [← e53, two_zpow_mul]
      congr 1
      ring
    rw [this]
    exact mul_le_mul_of_nonneg_right (by exact_mod_cast m2) (le_of_lt ht)

theorem roundFloat64_nonneg (q : ℚ) (hq : 0 ≤ q) : 0 ≤ roundFloat64 q := by
  rcases eq_or_lt_of_le hq with h | h
  · rw [← h, roundFloat64_zero]
  · exact le_trans (le_of_lt (by positivity)) (roundFloat64_bounds q h).1

theorem roundFloat64_mono (p q : ℚ) (hp : 0 ≤ p) (h : p ≤ q) :
    roundFloat64 p ≤ roundFloat64 q := by
  rcases eq_or_lt_of_le hp with h0 | h0
  · rw [← h0, roundFloat64_zero]
    exact roundFloat64_nonneg q (le_trans hp h)
  · have hq : 0 < q := lt_of_lt_of_le h0 h
    obtain ⟨p1, p2⟩ := binaryExponent_spec p h0
    obtain ⟨q1, q2⟩ := binaryExponent_spec q hq
    have hlt : (2 : ℚ) ^ binaryExponent p < (2 : ℚ) ^ (binaryExponent q + 1) :=
      lt_of_le_of_lt p1 (lt_of_le_of_lt h q2)
    have hle := (zpow_lt_zpow_iff_right₀ (by norm_num : (1 : ℚ) < 2)).mp hlt
    by_cases he : binaryExponent p = binaryExponent q
    · rw [roundFloat64_of_pos p h0, roundFloat64_of_pos q hq, he]
      have hs : (0 : ℚ) < (2 : ℚ) ^ (52 - binaryExponent q) := by positivity
      have ht : (0 : ℚ) < (2 : ℚ) ^ (binaryExponent q - 52) := by positivity
      have := roundHalfEven_mono _ _ (mul_le_mul_of_nonneg_right h (le_of_lt hs))
      exact mul_le_mul_of_nonneg_right (by exact_mod_cast this) (le_of_lt ht)
    · have hstep : binaryExponent p + 1 ≤ binaryExponent q := by omega
      calc roundFloat64 p ≤ (2 : ℚ) ^ (binaryExponent p + 1) := (roundFloat64_bounds p h0).2
        _ ≤ (2 : ℚ) ^ binaryExponent q :=
          zpow_le_zpow_right₀ (by norm_num : (1 : ℚ) ≤ 2) hstep
        _ ≤ roundFloat64 q := (roundFloat64_bounds q hq).1

theorem roundFloat64_of_exponent (q : ℚ) (hq : 0 < q) (k : Int) (h1 : (2 : ℚ) ^ k ≤ q)
    (h2 : q < (2 : ℚ) ^ (k + 1)) :
    roundFloat64 q = (roundHalfEven (q * (2 : ℚ) ^ (52 - k)) : ℚ) * (2 : ℚ) ^ (k - 52) := by
  rw [roundFloat64_of_pos q hq, binaryExponent_unique q hq k h1 h2]

theorem roundFloat64_two_pow_53 :
    roundFloat64 (9007199254740992 : ℚ) = 9007199254740992 := by
  rw [roundFloat64_of_exponent _ (by norm_num) 53 (by norm_num) (by norm_num)]
  have : (9007199254740992 : ℚ) * (2 : ℚ) ^ ((52 : Int) - 53) =
      ((4503599627370496 : Int) : ℚ) := by norm_num
  rw [this, roundHalfEven_intCast]
  norm_num

theorem roundFloat64_natCast (k : Nat) (hk : k ≤ 2 ^ 53) : roundFloat64 (k : ℚ) = k := by
  rcases Nat.eq_zero_or_pos k with h0 | h0
  · subst h0
    simpa using roundFloat64_zero
  by_cases htop : k = 2 ^ 53
  · subst htop
    have := roundFloat64_two_pow_53
    norm_num
    exact this
  have hlt : k < 2 ^ 53 := lt_of_le_of_ne hk htop
  have hq : (0 : ℚ) < (k : ℚ) := by exact_mod_cast h0
  obtain ⟨g1, g2⟩ := binaryExponent_spec (k : ℚ) hq
  rw [roundFloat64_of_pos _ hq]
  generalize binaryExponent (k : ℚ) = e at *
  have hk53 : (k : ℚ) < (2 : ℚ) ^ (53 : Int) := by
    have : (k : ℚ) < ((2 ^ 53 : Nat) : ℚ) := by exact_mod_cast hlt
    norm_num at this ⊢
    exact this
  have he := (zpow_lt_zpow_iff_right₀ (by norm_num : (1 : ℚ) < 2)).mp (lt_of_le_of_lt g1 hk53)
  have hn : (52 - e) = (((52 - e).toNat : Nat) : Int) := by
    rw [Int.toNat_of_nonneg (by omega)]
  have hcast : (k : ℚ) * (2 : ℚ) ^ (52 - e) =
      (((k : Int) * 2 ^ (52 - e).toNat : Int) : ℚ) := by
    rw [hn, zpow_natCast]
    push_cast
    rw [← hn]
  rw [hcast, roundHalfEven_intCast]
  push_cast
  rw [mul_assoc, ← zpow_natCast, ← hn, two_zpow_mul]
  have : (52 - e + (e - 52)) = 0 := by ring
  rw [this, zpow_zero, mul_one]

theorem roundFloat64_one : roundFloat64 1 = 1 := by
  have := roundFloat64_natCast 1 (by norm_num)
  simpa using this

theorem roundFloat64_below_one :
    roundFloat64 (9007199254740991 / 9007199254740992) =
      9007199254740991 / 9007199254740992 := by
  rw [roundFloat64_of_exponent _ (by norm_num) (-1) (by norm_num) (by norm_num)]
  have : (9007199254740991 / 9007199254740992 : ℚ) * (2 : ℚ) ^ ((52 : Int) - (-1)) =
      ((9007199254740991 : Int) : ℚ) := by norm_num
  rw [this, roundHalfEven_intCast]
  norm_num

theorem roundFloat64_le_one (q : ℚ) (h0 : 0 ≤ q) (h1 : q ≤ 1) : roundFloat64 q ≤ 1 := by
  have := roundFloat64_mono q 1 h0 h1
  rwa [roundFloat64_one] at this

theorem roundFloat64_lt_one (q : ℚ) (h0 : 0 ≤ q)
    (h1 : q ≤ 9007199254740991 / 9007199254740992) : roundFloat64 q < 1 := by
  have := roundFloat64_mono q _ h0 h1
  rw [roundFloat64_below_one] at this
  exact lt_of_le_of_lt this (by norm_num)

theorem roundFloat64_abs_sub (q : ℚ) (h0 : 0 ≤ q) (h1 : q ≤ 1) :
    |roundFloat64 q - q| ≤ 1 / 9007199254740992 := by
  rcases eq_or_lt_of_le h0 with h | h
  · rw [← h, roundFloat64_zero]
    norm_num
  obtain ⟨g1, g2⟩ := binaryExponent_spec q h
  rw [roundFloat64_of_pos q h]
  generalize binaryExponent q = e at *
  have he : e ≤ 0 := by
    have : (2 : ℚ) ^ e ≤ (2 : ℚ) ^ (0 : Int) := by
      rw [zpow_zero]
      exact le_trans g1 h1
    exact (zpow_le_zpow_iff_right₀ (by norm_num : (1 : ℚ) < 2)).mp this
  have ht : (0 : ℚ) < (2 : ℚ) ^ (e - 52) := by positivity
  have hq : q = q * (2 : ℚ) ^ (52 - e) * (2 : ℚ) ^ (e - 52) := by
    rw [mul_assoc, two_zpow_mul]
    have : (52 - e + (e - 52)) = 0 := by ring
    rw [this, zpow_zero, mul_one]
  have hr := roundHalfEven_abs_sub (q * (2 : ℚ) ^ (52 - e))
  have hsmall : (2 : ℚ) ^ (e - 52) ≤ 1 / 4503599627370496 := by
    have : (2 : ℚ) ^ (e - 52) ≤ (2 : ℚ) ^ (-52 : Int) :=
      zpow_le_zpow_right₀ (by norm_num : (1 : ℚ) ≤ 2) (by omega)
    refine le_trans this ?_
    norm_num
  generalize q * (2 : ℚ) ^ (52 - e) = x at *
  rw [hq, ← sub_mul, abs_mul, abs_of_pos ht]
  calc |(roundHalfEven x : ℚ) - x| * (2 : ℚ) ^ (e - 52)
      ≤ 1 / 2 * (1 / 4503599627370496) :=
        mul_le_mul hr hsmall (le_of_lt ht) (by norm_num)
    _ = 1 / 9007199254740992 := by norm_num

theorem getSeqDistanceFloat64_eq (d : Drain) (t s : List String) (ip : Bool)
    (hlen : t.length = s.length) (hpos : t.length ≠ 0) :
    d.getSeqDistanceFloat64 t s ip =
      .ok (roundFloat64 (roundFloat64
          ((hitCount d.ParamStr t s + (if ip then wildcardCount d.ParamStr t s else 0) : Nat) : ℚ)
        / roundFloat64 (t.length : ℚ)), (wildcardCount d.ParamStr t s : Int)) := by
  unfold Drain.getSeqDistanceFloat64
  rw [if_neg (not_not.mpr hlen), if_neg hpos]
  simp only [seqDistanceLoop_eq]
  cases ip <;> simp

/-- For sequences of at most `2^53` tokens the `float64` result is the rounding of the exact
result of `Drain.getSeqDistance`. -/
theorem getSeqDistanceFloat64_eq_round (d : Drain) (t s : List String) (ip : Bool)
    (hL : t.length ≤ 2 ^ 53) :
    d.getSeqDistanceFloat64 t s ip =
      (d.getSeqDistance t s ip).map (fun r => (roundFloat64 r.1, r.2)) := by
  by_cases hlen : t.length = s.length
  · by_cases hpos : t.length = 0
    · unfold Drain.getSeqDistanceFloat64 Drain.getSeqDistance
      rw [if_neg (not_not.mpr hlen), if_pos hpos, if_neg (not_not.mpr hlen), if_pos hpos]
      simp [Except.map, roundFloat64_one]
    · have hle := hit_add_wildcard_le d.ParamStr t s
      have hN : hitCount d.ParamStr t s + (if ip then wildcardCount d.ParamStr t s else 0) ≤
          2 ^ 53 := by
        split_ifs <;> omega
      rw [getSeqDistanceFloat64_eq d t s ip hlen hpos, getSeqDistance_eq d t s ip hlen hpos,
        roundFloat64_natCast _ hN, roundFloat64_natCast _ hL]
      rfl
  · unfold Drain.getSeqDistanceFloat64 Drain.getSeqDistance
    rw [if_pos hlen, if_pos hlen]
    rfl

/-- Rounding to `float64` keeps the order of two similarities of sequences of the same length
`L < 2^52` apart: the comparisons of `fastMatch` come out the same on the exact quotients. -/
theorem roundFloat64_div_lt (a b L : Nat) (hab : a < b) (hb : b ≤ L) (hL : L < 2 ^ 52) :
    roundFloat64 ((a : ℚ) / (L : ℚ)) < roundFloat64 ((b : ℚ) / (L : ℚ)) := by
  have hLpos : (0 : ℚ) < (L : ℚ) := by
    have : 0 < L := by omega
    exact_mod_cast this
  have ha0 : (0 : ℚ) ≤ (a : ℚ) / (L : ℚ) := div_nonneg (Nat.cast_nonneg _) (le_of_lt hLpos)
  have hb0 : (0 : ℚ) ≤ (b : ℚ) / (L : ℚ) := div_nonneg (Nat.cast_nonneg _) (le_of_lt hLpos)
  have ha1 : (a : ℚ) / (L : ℚ) ≤ 1 := by
    rw [div_le_one hLpos]
    have : a ≤ L := by omega
    exact_mod_cast this
  have hb1 : (b : ℚ) / (L : ℚ) ≤ 1 := by
    rw [div_le_one hLpos]
    exact_mod_cast hb
  have ea := abs_le.mp (roundFloat64_abs_sub _ ha0 ha1)
  have eb := abs_le.mp (roundFloat64_abs_sub _ hb0 hb1)
  have hgap : (1 : ℚ) / 4503599627370496 < (b : ℚ) / (L : ℚ) - (a : ℚ) / (L : ℚ) := by
    rw [← sub_div, div_lt_div_iff₀ (by norm_num) hLpos]
    have h1 : (L : ℚ) < 4503599627370496 := by
      have : L < 4503599627370496 := by
        norm_num at hL
        exact hL
      exact_mod_cast this
    have h2 : (a : ℚ) + 1 ≤ (b : ℚ) := by exact_mod_cast hab
    nlinarith
  linarith [ea.1, ea.2, eb.1, eb.2]

/-- C20 as stated fails. The quotient `float64(2) / float64(3)` is not the fraction 2/3: one hit
and one wildcard on three tokens give the similarity 6004799503160661 / 2^53 (printed
0.6666666666666666). -/
theorem getSeqDistance_not_exact_fraction :
    freshDrain.getSeqDistanceFloat64 ["hello", "<*>", "there"] ["hello", "world", "here"]
        true = .ok (6004799503160661 / 9007199254740992, 1) ∧
    (6004799503160661 / 9007199254740992 : ℚ) ≠ (1 + 1) / 3 := by
  constructor
  · decide!
  · norm_num

theorem hitCount_replicate_append (p x : String) (n : Nat) (t s : List String) :
    hitCount p (List.replicate n p ++ t) (List.replicate n x ++ s) = hitCount p t s := by
  induction n with
  | zero => simp
  | succ n ih => simp [List.replicate_succ, hitCount, ih]

theorem wildcardCount_replicate_append (p x : String) (n : Nat) (t s : List String) :
    wildcardCount p (List.replicate n p ++ t) (List.replicate n x ++ s) =
      n + wildcardCount p t s := by
  induction n with
  | zero => simp
  | succ n ih =>
    simp [List.replicate_succ, wildcardCount, ih]
    omega

theorem roundFloat64_two_pow_53_add_one :
    roundFloat64 (9007199254740993 : ℚ) = 9007199254740992 := by
  rw [roundFloat64_of_exponent _ (by norm_num) 53 (by norm_num) (by norm_num)]
  have h1 : (9007199254740993 : ℚ) * (2 : ℚ) ^ ((52 : Int) - 53) = 9007199254740993 / 2 := by
    norm_num
  have h2 : roundHalfEven (9007199254740993 / 2) = 4503599627370496 := by decide!
  rw [h1, h2]
  norm_num

/-- The bound `2^53` on the length is needed for the equivalence of C20: `float64` holds no
odd integer above `2^53`, so `2^53` wildcards followed by one differing token, a sequence of
`2^53 + 1` tokens, have the similarity `float64(2^53) / float64(2^53 + 1) = 1`. -/
theorem getSeqDistanceFloat64_long_sequence :
    freshDrain.getSeqDistanceFloat64 (List.replicate 9007199254740992 "<*>" ++ ["a"])
        (List.replicate 9007199254740992 "x" ++ ["b"]) true = .ok (1, 9007199254740992) ∧
    (List.replicate 9007199254740992 "<*>" ++ ["a"])[9007199254740992]? = some "a" ∧
    (List.replicate 9007199254740992 "x" ++ ["b"])[9007199254740992]? = some "b" := by
  have hp : freshDrain.ParamStr = "<*>" := by decide
  have key : ∀ n : Nat,
      freshDrain.getSeqDistanceFloat64 (List.replicate n "<*>" ++ ["a"])
        (List.replicate n "x" ++ ["b"]) true =
      .ok (roundFloat64 (roundFloat64 (n : ℚ) / roundFloat64 ((n : ℚ) + 1)), (n : Int)) := by
    intro n
    rw [getSeqDistanceFloat64_eq _ _ _ _ (by simp) (by simp), hp,
      hitCount_replicate_append, wildcardCount_replicate_append]
    have h1 : hitCount "<*>" ["a"] ["b"] = 0 := by decide
    have h2 : wildcardCount "<*>" ["a"] ["b"] = 0 := by decide
    rw [h1, h2]
    simp
  have hidx : ∀ (n : Nat) (p a : String), (List.replicate n p ++ [a])[n]? = some a := by
    intro n p a
    rw [List.getElem?_append_right (by simp)]
    simp
  refine ⟨?_, hidx _ _ _, hidx _ _ _⟩
  rw [key]
  have e1 : ((9007199254740992 : Nat) : ℚ) = 9007199254740992 := by norm_num
  have e2 : ((9007199254740992 : Nat) : ℚ) + 1 = 9007199254740993 := by norm_num
  rw [e2, e1, roundFloat64_two_pow_53, roundFloat64_two_pow_53_add_one,
    div_self (by norm_num), roundFloat64_one]
  rfl

/-- C20 (amended). `getSeqDistance t s includeParams` for a template `t` and a message `s`, with
the `float64` division of the code: for unequal lengths it returns an error; for two empty
sequences it returns `(1, 0)`; for equal length `L > 0` it returns the parameter count `p`, the
number of positions of `t` that hold the wildcard marker, and the similarity `float64(h + p') /
float64(L)`, where `h` is the number of positions where `t` holds a token other than the wildcard
marker that equals the token of `s`, and `p' = p` with `includeParams` and `0` without. For `L ≤
2^53` the similarity is the `float64` nearest to `(h + p') / L`, within `2^-53` of it. The
similarity lies between 0 and 1; with `includeParams` it is 1 if every position of `t` is the
wildcard marker or equals `s` at that position, and for `L ≤ 2^53` only then. -/
theorem getSeqDistanceFloat64_spec (d : Drain) (t s : List String) (ip : Bool) :
    (t.length ≠ s.length →
      d.getSeqDistanceFloat64 t s ip = .error (Error.seqDistanceLength t.length s.length)) ∧
    (t = [] → s = [] → d.getSeqDistanceFloat64 t s ip = .ok (1, 0)) ∧
    (t.length = s.length → 0 < t.length →
      ∃ sim, d.getSeqDistanceFloat64 t s ip = .ok (sim, (t.count d.ParamStr : Int)) ∧
        sim = roundFloat64 (roundFloat64
            (((t.zip s).countP (fun x => decide (x.1 ≠ d.ParamStr ∧ x.1 = x.2)) +
              (if ip then t.count d.ParamStr else 0) : Nat) : ℚ) /
          roundFloat64 (t.length : ℚ)) ∧
        (t.length ≤ 2 ^ 53 →
          sim = roundFloat64
            ((((t.zip s).countP (fun x => decide (x.1 ≠ d.ParamStr ∧ x.1 = x.2)) +
              (if ip then t.count d.ParamStr else 0) : Nat) : ℚ) / (t.length : ℚ)) ∧
          |sim - (((t.zip s).countP (fun x => decide (x.1 ≠ d.ParamStr ∧ x.1 = x.2)) +
              (if ip then t.count d.ParamStr else 0) : Nat) : ℚ) / (t.length : ℚ)| ≤
            1 / 2 ^ 53) ∧
        0 ≤ sim ∧ sim ≤ 1 ∧
        (ip = true →
          ((∀ (i : Nat) (x y : String), t[i]? = some x → s[i]? = some y →
              x = d.ParamStr ∨ x = y) → sim = 1) ∧
          (t.length ≤ 2 ^ 53 → sim = 1 →
            ∀ (i : Nat) (x y : String), t[i]? = some x → s[i]? = some y →
              x = d.ParamStr ∨ x = y))) := by
  refine ⟨?_, ?_, ?_⟩
  · intro hne
    unfold Drain.getSeqDistanceFloat64
    rw [if_pos hne]
  · intro ht hs
    subst ht hs
    rfl
  · intro hlen hpos
    have h0 : t.length ≠ 0 := Nat.pos_iff_ne_zero.mp hpos
    have hL : (0 : ℚ) < (t.length : ℚ) := by exact_mod_cast hpos
    have hle := hit_add_wildcard_le d.ParamStr t s
    have hw := wildcardCount_eq_count d.ParamStr t s hlen
    have hh := hitCount_eq_countP d.ParamStr t s
    have hN : hitCount d.ParamStr t s + (if ip then wildcardCount d.ParamStr t s else 0) ≤
        t.length := by
      split_ifs <;> omega
    rw [← hh, ← hw]
    generalize hNe :
      hitCount d.ParamStr t s + (if ip then wildcardCount d.ParamStr t s else 0) = N at *
    have hNq : (N : ℚ) ≤ (t.length : ℚ) := by exact_mod_cast hN
    have hq0 : (0 : ℚ) ≤ (N : ℚ) / (t.length : ℚ) := div_nonneg (Nat.cast_nonneg _) (le_of_lt hL)
    have hq1 : (N : ℚ) / (t.length : ℚ) ≤ 1 := by
      rw [div_le_one hL]
      exact hNq
    have hRL : (1 : ℚ) ≤ roundFloat64 (t.length : ℚ) := by
      have h1 : (1 : ℚ) ≤ (t.length : ℚ) := by exact_mod_cast hpos
      have := roundFloat64_mono 1 _ (by norm_num) h1
      rwa [roundFloat64_one] at this
    have hRLpos : (0 : ℚ) < roundFloat64 (t.length : ℚ) := lt_of_lt_of_le (by norm_num) hRL
    have hRN0 : (0 : ℚ) ≤ roundFloat64 (N : ℚ) := roundFloat64_nonneg _ (Nat.cast_nonneg _)
    have hRNL : roundFloat64 (N : ℚ) ≤ roundFloat64 (t.length : ℚ) :=
      roundFloat64_mono _ _ (Nat.cast_nonneg _) hNq
    have hr0 : (0 : ℚ) ≤ roundFloat64 (N : ℚ) / roundFloat64 (t.length : ℚ) :=
      div_nonneg hRN0 (le_of_lt hRLpos)
    have hr1 : roundFloat64 (N : ℚ) / roundFloat64 (t.length : ℚ) ≤ 1 := by
      rw [div_le_one hRLpos]
      exact hRNL
    have hexact : t.length ≤ 2 ^ 53 →
        roundFloat64 (N : ℚ) / roundFloat64 (t.length : ℚ) = (N : ℚ) / (t.length : ℚ) := by
      intro hb
      rw [roundFloat64_natCast _ (le_trans hN hb), roundFloat64_natCast _ hb]
    refine ⟨roundFloat64 (roundFloat64 (N : ℚ) / roundFloat64 (t.length : ℚ)), ?_, rfl, ?_,
      roundFloat64_nonneg _ hr0, roundFloat64_le_one _ hr0 hr1, ?_⟩
    · rw [getSeqDistanceFloat64_eq d t s ip hlen h0, hNe]
    · intro hb
      rw [hexact hb]
      refine ⟨rfl, ?_⟩
      have := roundFloat64_abs_sub _ hq0 hq1
      norm_num at this ⊢
      exact this
    · intro hip
      subst hip
      simp only [if_true] at hNe
      constructor
      · intro hall
        have hc := count_of_perfectMatch _ _ _
          ((perfectMatch_iff d.ParamStr t s).mpr ⟨hlen, hall⟩)
        have hNL : N = t.length := by omega
        rw [hNL, div_self (ne_of_gt hRLpos), roundFloat64_one]
      · intro hb hone
        by_cases hNL : t.length ≤ N
        · exact ((perfectMatch_iff _ _ _).mp
            (perfectMatch_of_count _ _ _ hlen (by omega))).2
        · exfalso
          rw [hexact hb] at hone
          have hlt : N + 1 ≤ t.length := by omega
          have hlt' : (N : ℚ) + 1 ≤ (t.length : ℚ) := by exact_mod_cast hlt
          have hb' : (t.length : ℚ) ≤ 9007199254740992 := by
            have : t.length ≤ 9007199254740992 := by
              norm_num at hb
              exact hb
            exact_mod_cast this
          have hfrac : (N : ℚ) / (t.length : ℚ) ≤ 9007199254740991 / 9007199254740992 := by
            rw [div_le_div_iff₀ hL (by norm_num)]
            nlinarith
          have := roundFloat64_lt_one _ hq0 hfrac
          rw [hone] at this
          exact lt_irrefl _ this

/-- Witness for C20 (amended): the template `hello <*> there` against "hello world here": one hit
and one wildcard on three tokens, the similarity with parameters is the `float64` nearest to 2/3;
a length mismatch is an error. -/
theorem getSeqDistanceFloat64_spec_witness :
    freshDrain.getSeqDistanceFloat64 ["hello", "<*>"] ["hello"] true =
        .error (Error.seqDistanceLength 2 1) ∧
    freshDrain.getSeqDistanceFloat64 [] [] true = .ok (1, 0) ∧
    freshDrain.getSeqDistanceFloat64 ["hello", "<*>", "there"] ["hello", "world", "here"]
        true = .ok (6004799503160661 / 9007199254740992, 1) ∧
    freshDrain.getSeqDistanceFloat64 ["hello", "<*>", "there"] ["hello", "world", "here"]
        false = .ok (6004799503160661 / 18014398509481984, 1) ∧
    ∃ sim, freshDrain.getSeqDistanceFloat64 ["hello", "<*>", "there"]
          ["hello", "world", "here"] true =
            .ok (sim, (["hello", "<*>", "there"].count freshDrain.ParamStr : Int)) ∧
        sim = roundFloat64
          ((((["hello", "<*>", "there"].zip ["hello", "world", "here"]).countP
              (fun x => decide (x.1 ≠ freshDrain.ParamStr ∧ x.1 = x.2)) +
            (if true then ["hello", "<*>", "there"].count freshDrain.ParamStr else 0) : Nat)
              : ℚ) / ((["hello", "<*>", "there"].length : Nat) : ℚ)) ∧
        0 ≤ sim ∧ sim ≤ 1 ∧
        (sim = 1 →
          ∀ (i : Nat) (x y : String), ["hello", "<*>", "there"][i]? = some x →
            ["hello", "world", "here"][i]? = some y → x = freshDrain.ParamStr ∨ x = y) := by
  refine ⟨(getSeqDistanceFloat64_spec freshDrain ["hello", "<*>"] ["hello"] true).1
    (by decide), (getSeqDistanceFloat64_spec freshDrain [] [] true).2.1 rfl rfl,
    by decide!, by decide!, ?_⟩
  obtain ⟨sim, h1, _, h3, h4, h5, h6⟩ :=
    (getSeqDistanceFloat64_spec freshDrain ["hello", "<*>", "there"]
      ["hello", "world", "here"] true).2.2 rfl (by decide)
  exact ⟨sim, h1, (h3 (by decide)).1, h4, h5, (h6 rfl).2 (by decide)⟩

theorem decodeInt_encodeInt (cur i : Int) : decodeInt cur (encodeInt i) = some i := by
  simp [decodeInt, encodeInt]

theorem decodeInts_encode (l : List Int) : decodeInts (l.map encodeInt) = some l := by
  induction l with
  | nil => rfl
  | cons i rest ih =>
    rw [List.map_cons, decodeInts, decodeInt_encodeInt, ih]

theorem decodeIntSlice_encode (l : List Int) : decodeIntSlice (encodeIntSlice l) = some l := by
  unfold encodeIntSlice decodeIntSlice
  exact decodeInts_encode l

theorem decodeStrings_encode (l : List String) :
    decodeStrings (l.map Json.string) = some l := by
  induction l with
  | nil => rfl
  | cons s rest ih =>
    rw [List.map_cons, decodeStrings, ih]
    rfl

theorem decodeStringSlice_encode (l : List String) :
    decodeStringSlice (encodeStringSlice l) = some l := by
  unfold encodeStringSlice decodeStringSlice
  exact decodeStrings_encode l

theorem decodeLogCluster_encode (c : LogCluster) :
    decodeLogCluster (encodeLogCluster c) = .ok c := by
  unfold encodeLogCluster decodeLogCluster
  simp [decodeLogClusterFields, decodeInt_encodeInt, decodeStringSlice_encode]

theorem decodeClusters_encode (l : List LogCluster) :
    decodeClusters (l.map encodeLogCluster) = .ok l := by
  induction l with
  | nil => rfl
  | cons c rest ih =>
    rw [List.map_cons, decodeClusters, decodeLogCluster_encode, ih]

theorem assignChild_append (children : List (String × Node)) (key : String) (child : Node)
    (h : children.lookup key = none) :
    assignChild children key child = children ++ [(key, child)] := by
  induction children with
  | nil => rfl
  | cons a rest ih =>
    obtain ⟨k, n⟩ := a
    rw [List.lookup_cons] at h
    by_cases hk : key = k
    · subst hk
      simp at h
    · have hb : (key == k) = false := by simpa using hk
      rw [hb] at h
      unfold assignChild
      rw [if_neg (fun e => hk e.symm), ih h]
      rfl

theorem lookup_append_none (l : List (String × Node)) (k key : String) (n : Node)
    (h1 : l.lookup key = none) (h2 : key ≠ k) : (l ++ [(k, n)]).lookup key = none := by
  induction l with
  | nil =>
    have hb : (key == k) = false := by simpa using h2
    simp [List.lookup, hb]
  | cons a rest ih =>
    obtain ⟨k', n'⟩ := a
    rw [List.lookup_cons] at h1
    rw [List.cons_append, List.lookup_cons]
    cases hb : (key == k') with
    | true =>
      rw [hb] at h1
      cases h1
    | false =>
      rw [hb] at h1
      exact ih h1

theorem lookup_ne_of_mem (rest : List (String × Node)) (k : String)
    (h : rest.lookup k = none) (kn : String × Node) (hkn : kn ∈ rest) : kn.1 ≠ k := by
  induction rest with
  | nil => cases hkn
  | cons a rest ih =>
    obtain ⟨k', n'⟩ := a
    rw [List.lookup_cons] at h
    cases hb : (k == k') with
    | true =>
      rw [hb] at h
      cases h
    | false =>
      rw [hb] at h
      rcases List.mem_cons.mp hkn with e | e
      · subst e
        intro e'
        simp only at e'
        subst e'
        simp at hb
      · exact ih h e

mutual
/-- Reading what the encoder wrote for a node gives the node back. -/
theorem decodeNode_encodeNode : (n : Node) → n.keysDistinct = true →
    decodeNode (encodeNode n) = .ok n
  | Node.mk children ids, h => by
    unfold Node.keysDistinct at h
    rw [Bool.and_eq_true] at h
    have hc := decodeChildren_encodeChildren children [] (fun _ _ => rfl) h.1 h.2
    unfold encodeNode decodeNode decodeNodeFields
    rw [if_pos rfl]
    simp only [Node.KeyToChildNode, Node.ClusterIds, hc, List.nil_append]
    unfold decodeNodeFields
    rw [if_neg (by decide), if_pos rfl, decodeIntSlice_encode]
    simp only [Node.KeyToChildNode]
    unfold decodeNodeFields
    rfl
/-- Reading what the encoder wrote for a map into a map without these keys adds the
entries. -/
theorem decodeChildren_encodeChildren : (cs : List (String × Node)) →
    (acc : List (String × Node)) → (∀ kn, kn ∈ cs → acc.lookup kn.1 = none) →
    distinctKeys cs = true → childrenKeysDistinct cs = true →
    decodeChildren (encodeChildren cs) acc = .ok (acc ++ cs)
  | [], acc, _, _, _ => by
    unfold encodeChildren decodeChildren
    rw [List.append_nil]
  | (k, n) :: rest, acc, hacc, hd, hc => by
    unfold distinctKeys at hd
    unfold childrenKeysDistinct at hc
    rw [Bool.and_eq_true] at hd hc
    have hk : rest.lookup k = none := by
      have := hd.1
      rwa [Option.isNone_iff_eq_none] at this
    unfold encodeChildren decodeChildren
    rw [decodeNode_encodeNode n hc.1]
    simp only
    rw [assignChild_append _ _ _ (hacc (k, n) (List.mem_cons_self _ _)),
      decodeChildren_encodeChildren rest (acc ++ [(k, n)]) ?_ hd.2 hc.2]
    · rw [List.append_assoc]
      rfl
    · intro kn hkn
      exact lookup_append_none _ _ _ _ (hacc kn (List.mem_cons_of_mem _ hkn))
        (lookup_ne_of_mem rest k hk kn hkn)
end

theorem jsonUnmarshal_jsonMarshal (x : SerializableDrain) (root : Node)
    (hroot : x.RootNode = some root) (hkeys : root.keysDistinct = true) :
    jsonUnmarshal (jsonMarshal x) = .ok x := by
  have hn := decodeNode_encodeNode root hkeys
  cases root with
  | mk children ids =>
    unfold encodeNode decodeNode at hn
    cases x with
    | mk f1 f2 f3 f4 f5 f6 f7 f8 f9 f10 f11 =>
      simp only at hroot
      subst hroot
      unfold jsonMarshal jsonUnmarshal
      simp [decodeDrainFields, decodeInt_encodeInt, decodeStringSlice_encode, decodeFloat64,
        decodeString, decodeBool, decodeClusterSlice, decodeClusters_encode,
        SerializableDrain.zero, encodeNode, hn]

/-- C13 as stated fails. A state whose `MaxClusters` is not the capacity of its registry does not
survive the round trip: `tieRun.1` holds clusters 1 and 2 in a registry of capacity 1000; after
the assignment `MaxClusters = 1` its snapshot restores into a registry of capacity 1, which holds
cluster 2 alone, and after `MaxClusters = 0` the restore panics on the nil registry. -/
theorem snapshot_round_trip_loses_clusters :
    shrunkDrain.GetClusters.map (fun c => c.ClusterId) = [1, 2] ∧
    freshDrain.UnmarshalJSON shrunkDrain.MarshalJSON =
      .ok { shrunkDrain with
        IdToCluster := { size := 1, items := shrunkDrain.IdToCluster.items.take 1 } } ∧
    ({ shrunkDrain with
        IdToCluster := { size := 1, items := shrunkDrain.IdToCluster.items.take 1 } }
      : Drain).GetClusters.map (fun c => c.ClusterId) = [2] ∧
    freshDrain.UnmarshalJSON zeroClustersDrain.MarshalJSON = .panic := by
  refine ⟨by decide!, by decide!, by decide!, by decide!⟩

/-- C13 (amended). Snapshot round trip. For every engine state `E` whose registry has the capacity
`MaxClusters ≥ 1` and is one the cache library can hold (at most that many records, no two under
the same id), and whose child maps hold each key once, as every Go map does: `UnmarshalJSON` of
the snapshot `MarshalJSON E`, on any receiver, returns normally and leaves the receiver equal to
`E` in every field: configuration, `MaxNodeDepth`, `ClustersCounter`, prefix tree, and a registry
with the same capacity that holds the same records in the same recency order. Every operation on
the restored engine therefore returns what it returns on `E`. -/
theorem snapshot_round_trip (E : Drain) (hE : RegistryValid E)
    (hkeys : E.RootNode.keysDistinct = true) (receiver : Drain) :
    ∃ d', receiver.UnmarshalJSON E.MarshalJSON = .ok d' ∧ d' = E ∧
      d'.GetClusters = E.GetClusters ∧
      (∀ m s, d'.Match m s = E.Match m s) ∧
      (∀ m, d'.AddLogMessage m = E.AddLogMessage m) := by
  refine ⟨E, ?_, rfl, rfl, fun _ _ => rfl, fun _ => rfl⟩
  unfold Drain.UnmarshalJSON Drain.MarshalJSON
  simp only
  rw [jsonUnmarshal_jsonMarshal _ E.RootNode rfl hkeys]
  simp only
  have hnew : Cache.New E.MaxClusters = some { size := E.MaxClusters, items := [] } := by
    unfold Cache.New
    rw [if_neg (by have := hE.size_pos; omega)]
  rw [hnew]
  simp only [List.nil_append, Cache.Values]
  rw [Cache.foldl_Add_reverse _ _ hE.nodup (by rw [← hE.size_eq]; exact hE.length_le)]
  have hs := hE.size_eq
  cases E with
  | mk f1 f2 f3 f4 f5 f6 f7 f8 f9 cache f11 =>
    cases cache
    simp only at hs
    subst hs
    rfl

/-- Witness for C13 (amended): the snapshot of the engine after four messages (two clusters),
restored into a fresh engine. -/
theorem snapshot_round_trip_witness :
    RegistryValid tieRun.1 ∧ tieRun.1.RootNode.keysDistinct = true ∧
    ∃ d', freshDrain.UnmarshalJSON tieRun.1.MarshalJSON = .ok d' ∧ d' = tieRun.1 ∧
      d'.GetClusters = tieRun.1.GetClusters ∧
      (∀ m s, d'.Match m s = tieRun.1.Match m s) ∧
      (∀ m, d'.AddLogMessage m = tieRun.1.AddLogMessage m) :=
  ⟨⟨by decide!, by decide!, by decide!, by decide!⟩, by decide!,
    snapshot_round_trip tieRun.1 ⟨by decide!, by decide!, by decide!, by decide!⟩
      (by decide!) freshDrain⟩

theorem keysDistinct_mk (children : List (String × Node)) (ids : List Int) :
    (Node.mk children ids).keysDistinct =
      (distinctKeys children && childrenKeysDistinct children) := by
  unfold Node.keysDistinct
  rfl

theorem childrenKeysDistinct_iff (cs : List (String × Node)) :
    childrenKeysDistinct cs = true ↔ ∀ kn, kn ∈ cs → kn.2.keysDistinct = true := by
  induction cs with
  | nil =>
    unfold childrenKeysDistinct
    simp
  | cons a rest ih =>
    obtain ⟨k, n⟩ := a
    unfold childrenKeysDistinct
    rw [Bool.and_eq_true, ih]
    constructor
    · rintro ⟨h1, h2⟩ kn hkn
      rcases List.mem_cons.mp hkn with e | e
      · subst e
        exact h1
      · exact h2 kn e
    · intro h
      exact ⟨h (k, n) (List.mem_cons_self _ _), fun kn hkn => h kn (List.mem_cons_of_mem _ hkn)⟩

theorem distinctKeys_assignChild (children : List (String × Node)) (key : String)
    (child : Node) (h : distinctKeys children = true) :
    distinctKeys (assignChild children key child) = true := by
  induction children with
  | nil => rfl
  | cons a rest ih =>
    obtain ⟨k, n⟩ := a
    unfold distinctKeys at h
    rw [Bool.and_eq_true] at h
    unfold assignChild
    by_cases hk : k = key
    · rw [if_pos hk]
      unfold distinctKeys
      rw [Bool.and_eq_true]
      exact ⟨hk ▸ h.1, h.2⟩
    · rw [if_neg hk]
      unfold distinctKeys
      rw [Bool.and_eq_true, lookup_assignChild_ne _ _ _ _ hk]
      exact ⟨h.1, ih h.2⟩

theorem keysDistinct_assignChild (children : List (String × Node)) (ids : List Int)
    (key : String) (child : Node) (h : (Node.mk children ids).keysDistinct = true)
    (hc : child.keysDistinct = true) (ids' : List Int) :
    (Node.mk (assignChild children key child) ids').keysDistinct = true := by
  rw [keysDistinct_mk, Bool.and_eq_true] at h ⊢
  refine ⟨distinctKeys_assignChild _ _ _ h.1, ?_⟩
  rw [childrenKeysDistinct_iff] at h ⊢
  intro kn hkn
  rcases mem_assignChild _ _ _ _ hkn with e | e
  · exact h.2 kn e
  · rw [e]
    exact hc

theorem keysDistinct_lookup (node : Node) (key : String) (child : Node)
    (h : node.keysDistinct = true) (hl : node.KeyToChildNode.lookup key = some child) :
    child.keysDistinct = true := by
  cases node with
  | mk children ids =>
    rw [keysDistinct_mk, Bool.and_eq_true, childrenKeysDistinct_iff] at h
    exact h.2 (key, child) (mem_of_lookup _ _ _ hl)

theorem keysDistinct_NewNode : NewNode.keysDistinct = true := by decide

theorem keysDistinct_ids (node : Node) (ids : List Int) (h : node.keysDistinct = true) :
    (Node.mk node.KeyToChildNode ids).keysDistinct = true := by
  cases node with
  | mk children ids0 =>
    rw [keysDistinct_mk] at h ⊢
    exact h

theorem addSeqLoop_keysDistinct (d : Drain) (cluster : LogCluster) (n : Nat)
    (tokens : List String) (depth : Int) (cache : Cache) (node : Node)
    (h : node.keysDistinct = true) (cache' : Cache) (node' : Node)
    (hloop : addSeqLoop d cluster n tokens depth cache (some node) = some (cache', some node')) :
    node'.keysDistinct = true := by
  induction tokens generalizing depth cache node cache' node' with
  | nil =>
    unfold addSeqLoop at hloop
    injection hloop with hloop
    injection hloop with _ hloop
    injection hloop with hloop
    rw [← hloop]
    exact h
  | cons token rest ih =>
    unfold addSeqLoop at hloop
    by_cases hleaf : depth ≥ d.MaxNodeDepth ∨ depth ≥ (n : Int)
    · rw [if_pos hleaf] at hloop
      simp only at hloop
      injection hloop with hloop
      injection hloop with _ hloop
      injection hloop with hloop
      rw [← hloop]
      exact keysDistinct_ids _ _ h
    · rw [if_neg hleaf] at hloop
      cases hedge : nextEdge d node token with
      | mk key c =>
        rw [hedge] at hloop
        simp only at hloop
        cases c with
        | none =>
          cases rest with
          | nil =>
            unfold addSeqLoop at hloop
            simp only at hloop
            injection hloop with hloop
            injection hloop with _ hloop
            injection hloop with hloop
            rw [← hloop]
            exact h
          | cons t ts =>
            unfold addSeqLoop at hloop
            simp only at hloop
            cases hloop
        | some child =>
          have hcd : child.keysDistinct = true := by
            rcases nextEdge_some d node token key child hedge with hc | ⟨_, hc⟩
            · exact keysDistinct_lookup node key child h hc
            · rw [hc]
              exact keysDistinct_NewNode
          cases hrec : addSeqLoop d cluster n rest (depth + 1) cache (some child) with
          | none =>
            rw [hrec] at hloop
            cases hloop
          | some res =>
            obtain ⟨cache1, r⟩ := res
            rw [hrec] at hloop
            cases r with
            | none =>
              simp only at hloop
              injection hloop with hloop
              injection hloop with _ hloop
              injection hloop with hloop
              rw [← hloop]
              exact h
            | some child' =>
              simp only at hloop
              injection hloop with hloop
              injection hloop with _ hloop
              injection hloop with hloop
              rw [← hloop]
              have := ih (depth + 1) cache child hcd cache1 child' hrec
              cases node with
              | mk children ids => exact keysDistinct_assignChild _ _ _ _ h this _

theorem addSeqToPrefixTree_keysDistinct (d : Drain) (root : Node) (cluster : LogCluster)
    (h : root.keysDistinct = true) (d' : Drain)
    (hgraft : d.addSeqToPrefixTree root cluster = some d') : d'.RootNode.keysDistinct = true := by
  cases root with
  | mk children ids =>
    unfold Drain.addSeqToPrefixTree at hgraft
    simp only [Node.KeyToChildNode, Node.ClusterIds] at hgraft
    cases hl : List.lookup (toString cluster.LogTemplateTokens.length) children with
    | none =>
      rw [hl] at hgraft
      simp only at hgraft
      have hf : NewNode.keysDistinct = true := keysDistinct_NewNode
      by_cases h0 : cluster.LogTemplateTokens.length = 0
      · rw [if_pos h0] at hgraft
        injection hgraft with hgraft
        rw [← hgraft]
        exact keysDistinct_assignChild _ _ _ _ h (keysDistinct_ids _ _ hf) _
      · rw [if_neg h0] at hgraft
        cases hloop : addSeqLoop d cluster cluster.LogTemplateTokens.length
            cluster.LogTemplateTokens 1 d.IdToCluster (some NewNode) with
        | none =>
          rw [hloop] at hgraft
          cases hgraft
        | some res =>
          obtain ⟨cache1, r⟩ := res
          rw [hloop] at hgraft
          cases r with
          | none =>
            simp only at hgraft
            injection hgraft with hgraft
            rw [← hgraft]
            exact keysDistinct_assignChild _ _ _ _ h hf _
          | some first' =>
            simp only at hgraft
            injection hgraft with hgraft
            rw [← hgraft]
            exact keysDistinct_assignChild _ _ _ _ h
              (addSeqLoop_keysDistinct _ _ _ _ _ _ _ hf _ _ hloop) _
    | some node =>
      rw [hl] at hgraft
      simp only at hgraft
      have hf : node.keysDistinct = true :=
        keysDistinct_lookup (Node.mk children ids) _ node h hl
      by_cases h0 : cluster.LogTemplateTokens.length = 0
      · rw [if_pos h0] at hgraft
        injection hgraft with hgraft
        rw [← hgraft]
        exact keysDistinct_assignChild _ _ _ _ h (keysDistinct_ids _ _ hf) _
      · rw [if_neg h0] at hgraft
        cases hloop : addSeqLoop d cluster cluster.LogTemplateTokens.length
            cluster.LogTemplateTokens 1 d.IdToCluster (some node) with
        | none =>
          rw [hloop] at hgraft
          cases hgraft
        | some res =>
          obtain ⟨cache1, r⟩ := res
          rw [hloop] at hgraft
          cases r with
          | none =>
            simp only at hgraft
            injection hgraft with hgraft
            rw [← hgraft]
            exact keysDistinct_assignChild _ _ _ _ h hf _
          | some first' =>
            simp only at hgraft
            injection hgraft with hgraft
            rw [← hgraft]
            exact keysDistinct_assignChild _ _ _ _ h
              (addSeqLoop_keysDistinct _ _ _ _ _ _ _ hf _ _ hloop) _

theorem keysDistinct_add (d : Drain) (m : String) (d' : Drain)
    (r : LogCluster × ClusterUpdateType) (h : d.RootNode.keysDistinct = true)
    (hadd : d.AddLogMessage m = .ok d' r) : d'.RootNode.keysDistinct = true := by
  obtain ⟨r, u⟩ := r
  rcases AddLogMessage_ok_cases d m d' r u hadd with
    ⟨d1, c0, _, ht, _, _, _, _, hd'⟩ | ⟨d1, _, ht, _, hr, hgraft⟩
  · subst hd'
    show d1.RootNode.keysDistinct = true
    rw [ht.fields.1]
    exact h
  · exact addSeqToPrefixTree_keysDistinct _ _ _ (by rw [ht.fields.1]; exact h) _ hgraft

/-- In every state the engine reaches, each child map of the tree holds each key once. -/
theorem keysDistinct_of_reachable (d : Drain) (h : Reachable d) :
    d.RootNode.keysDistinct = true := by
  induction h with
  | fresh options d h0 =>
    obtain ⟨_, _, e⟩ := NewDrain_ok options d h0
    have hfix := foldl_apply_fixed options defaultDrain
    simp only at hfix
    have hroot : (configured options).RootNode = NewNode := hfix.2.2.1
    subst e
    show (configured options).RootNode.keysDistinct = true
    rw [hroot]
    exact keysDistinct_NewNode
  | add d m d' r _ hadd ih => exact keysDistinct_add d m d' r ih hadd
  | addError d m d' e _ herr ih =>
    have ht := AddLogMessage_error_touched d m d' e herr
    rw [ht.fields.1]
    exact ih

/-- The round trip of C13 applies to every state the engine reaches from `NewDrain` through
`AddLogMessage`: the snapshot of such a state restores to the state. -/
theorem snapshot_round_trip_of_reachable (E : Drain) (h : Reachable E) (receiver : Drain) :
    receiver.UnmarshalJSON E.MarshalJSON = .ok E := by
  have hE := registryValid_of_reachable E h
  have hkeys := keysDistinct_of_reachable E h
  unfold Drain.UnmarshalJSON Drain.MarshalJSON
  simp only
  rw [jsonUnmarshal_jsonMarshal _ E.RootNode rfl hkeys]
  simp only
  have hnew : Cache.New E.MaxClusters = some { size := E.MaxClusters, items := [] } := by
    unfold Cache.New
    rw [if_neg (by have := hE.size_pos; omega)]
  rw [hnew]
  simp only [List.nil_append, Cache.Values]
  rw [Cache.foldl_Add_reverse _ _ hE.nodup (by rw [← hE.size_eq]; exact hE.length_le)]
  have hs := hE.size_eq
  cases E with
  | mk f1 f2 f3 f4 f5 f6 f7 f8 f9 cache f11 =>
    cases cache
    simp only at hs
    subst hs
    rfl

/-- C2 (as stated, refuted). On the engine `NewDrain(WithMaxChildren(0))` the tree search of
"a b" misses, and `AddLogMessage "a b"` does not report `Created`: grafting looks up a
wildcard child that does not exist (line 343) and the call panics. -/
theorem AddLogMessage_miss_without_created :
    NewDrain [optionFn.WithMaxChildren 0] = .ok zeroChildrenDrain ∧
    zeroChildrenDrain.treeSearch zeroChildrenDrain.RootNode
      (zeroChildrenDrain.getContentAsTokens "a b") zeroChildrenDrain.SimTh false =
        .ok zeroChildrenDrain none ∧
    zeroChildrenDrain.AddLogMessage "a b" = .panic ∧
    ¬ ∃ d' r, zeroChildrenDrain.AddLogMessage "a b" = .ok d' (r, ClusterUpdateType.Created) := by
  refine ⟨rfl, by decide!, by decide!, ?_⟩
  rintro ⟨d', r, h⟩
  have hp : zeroChildrenDrain.AddLogMessage "a b" = .panic := by decide!
  rw [hp] at h
  cases h

/-- C2 (amended). In every engine state with `max_children ≥ 1`, for every message `m` whose
tree search misses, `AddLogMessage m` reports `Created` and returns a new cluster with
`ClusterId = ClustersCounter + 1` (the counter before the call, which the call increments),
template exactly the tokens of `m` and `Size` 1. Over any sequence of `AddLogMessage` calls
that return, on a fresh engine of any configuration, the ids of the clusters reported as
`Created` are strictly increasing (so none is issued twice, whatever was evicted), positive
and at most the final counter, which counts them. -/
theorem AddLogMessage_created_fresh_id :
    (∀ (d : Drain), 1 ≤ d.MaxChildren → ∀ (m : String) (d1 : Drain),
      d.treeSearch d.RootNode (d.getContentAsTokens m) d.SimTh false = .ok d1 none →
      ∃ d', d.AddLogMessage m =
          .ok d' (⟨d.ClustersCounter + 1, d.getContentAsTokens m, 1⟩,
            ClusterUpdateType.Created) ∧
        d'.ClustersCounter = d.ClustersCounter + 1) ∧
    (∀ (options : List optionFn) (d0 : Drain) (msgs : List String) (final : Drain)
      (out : List (LogCluster × ClusterUpdateType)),
      NewDrain options = .ok d0 → runAdd d0 msgs = some (final, out) →
      (createdIds out).Pairwise (fun a b => a < b) ∧ (createdIds out).Nodup ∧
        (∀ id, id ∈ createdIds out → 0 < id ∧ id ≤ final.ClustersCounter) ∧
        final.ClustersCounter = (createdIds out).length) := by
  constructor
  · intro d hmax m d1 hmiss
    exact AddLogMessage_miss_any d hmax m d1 hmiss
  · intro options d0 msgs final out h0 hrun
    obtain ⟨_, h2, h3, h4⟩ := runAdd_created msgs d0 final out hrun
    have hz : d0.ClustersCounter = 0 := by
      obtain ⟨_, _, e⟩ := NewDrain_ok options d0 h0
      have hfix := foldl_apply_fixed options defaultDrain
      simp only at hfix
      rw [e]
      exact hfix.2.2.2.1
    rw [hz] at h2 h4
    refine ⟨h3, ?_, h2, by simpa using h4⟩
    exact h3.imp (fun h => ne_of_lt h)

/-- Witness for C2: a miss on the engine that holds "hello world 1", and the ids issued by
three creations on an engine with room for two clusters. -/
theorem AddLogMessage_created_fresh_id_witness :
    (1 ≤ helloDrain1.MaxChildren ∧
      helloDrain1.treeSearch helloDrain1.RootNode (helloDrain1.getContentAsTokens "x y")
        helloDrain1.SimTh false = .ok helloDrain1 none ∧
      helloDrain1.AddLogMessage "x y" =
        .ok twoDrain (⟨2, ["x", "y"], 1⟩, ClusterUpdateType.Created)) ∧
    (∃ d', helloDrain1.AddLogMessage "x y" =
        .ok d' (⟨helloDrain1.ClustersCounter + 1, helloDrain1.getContentAsTokens "x y", 1⟩,
          ClusterUpdateType.Created) ∧
      d'.ClustersCounter = helloDrain1.ClustersCounter + 1) ∧
    (NewDrain [optionFn.WithMaxCluster 2] = .ok smallDrain ∧
      runAdd smallDrain ["a", "b b", "c c c"] = some smallRun ∧
      createdIds smallRun.2 = [1, 2, 3] ∧
      smallRun.1.GetClusters = [⟨2, ["b", "b"], 1⟩, ⟨3, ["c", "c", "c"], 1⟩]) ∧
    ((createdIds smallRun.2).Pairwise (fun a b => a < b) ∧ (createdIds smallRun.2).Nodup ∧
      (∀ id, id ∈ createdIds smallRun.2 → 0 < id ∧ id ≤ smallRun.1.ClustersCounter) ∧
      smallRun.1.ClustersCounter = (createdIds smallRun.2).length) :=
  ⟨⟨by decide!, by decide!, by decide!⟩,
    AddLogMessage_created_fresh_id.1 helloDrain1 (by decide!) "x y" helloDrain1 (by decide!),
    ⟨rfl, by decide!, by decide!, by decide!⟩,
    AddLogMessage_created_fresh_id.2 [optionFn.WithMaxCluster 2] smallDrain
      ["a", "b b", "c c c"] smallRun.1 smallRun.2 rfl (by decide!)⟩

/-- A registry whose capacity is not `MaxClusters` restores with the other capacity, and the
engines part ways when the smaller one is full: `widenedDrain` holds two clusters at capacity
2 with `MaxClusters = 3`; its snapshot restores with capacity 3 and the same clusters; after
one more message the original has evicted cluster 1, the restored engine still matches it. -/
theorem snapshot_round_trip_capacity :
    freshDrain.UnmarshalJSON widenedDrain.MarshalJSON = .ok widenedRestored ∧
    widenedRestored.GetClusters = widenedDrain.GetClusters ∧
    (((widenedDrain.AddLogMessage "p q r s").stateD freshDrain).Match "a b c"
      SearchStrategy.Never).value? = some none ∧
    (((widenedRestored.AddLogMessage "p q r s").stateD freshDrain).Match "a b c"
      SearchStrategy.Never).value? = some (some ⟨1, ["a", "b", "c"], 1⟩) := by
  refine ⟨by decide!, by decide!, by decide!, by decide!⟩

end Drain3
